import Mathlib

/-!
# AVI demuxer of ffsrc: `libavformat/avidec.c`

A shallow embedding of the demuxer.  C `int` values are `Int`s that are wrapped to
32 bits (two's complement) wherever the C code can leave the 32-bit range; 64-bit
quantities (`offset_t`, `int64_t`) are plain `Int`s.  Loops that C writes with
`for (;;)`, `while` or `goto` take a fuel argument and report `Err.fuel` when it runs
out.  A null or out-of-range dereference and a failed `assert` are reported as faults.
-/

namespace AviDec

/-! ## Faults and machine integers -/

/-- Ways in which a run of the embedded code can stop without returning. -/
inductive Err where
  | fuel
  | nullPtr
  | outOfBounds
  | divZero
  | assertion
deriving DecidableEq, Repr

deriving instance DecidableEq for Except

/-- Conversion to C `int` (32-bit two's complement). -/
def wrap32 (x : Int) : Int := (x + 2147483648) % 4294967296 - 2147483648

/-- Conversion to C `unsigned int`. -/
def uwrap32 (x : Int) : Int := x % 4294967296

/-- Conversion to the signed 30-bit field `int size : 30` of `AVIndexEntry`. -/
def wrap30 (x : Int) : Int := (x + 536870912) % 1073741824 - 536870912

/-- Conversion to the signed 2-bit field `int flags : 2` of `AVIndexEntry`. -/
def wrap2 (x : Int) : Int := (x + 2) % 4 - 2

def INT_MAX : Int := 2147483647
def INT64_MAX : Int := 9223372036854775807
def AVIIF_INDEX : Int := 16
def AVIF_MUSTUSEINDEX : Int := 32
def AVERROR_NOMEM : Int := -5
def AVSEEK_FLAG_BACKWARD : Int := 1
def AVSEEK_FLAG_ANY : Int := 4
def PKT_FLAG_KEY : Int := 1
def AVINDEX_KEYFRAME : Int := 1
def AVPROBE_SCORE_MAX : Int := 100
def MAX_STREAMS : Int := 20

/-- Modelled from the spec: `avcodec.h` is not under src/; the codec classes are
{video, audio, data, unknown}, numbered as the C enum numbers them. -/
def CODEC_TYPE_UNKNOWN : Int := -1
def CODEC_TYPE_VIDEO : Int := 0
def CODEC_TYPE_AUDIO : Int := 1
def CODEC_TYPE_DATA : Int := 2
def CODEC_ID_NONE : Int := 0
def CODEC_ID_MSRLE : Int := 1
def CODEC_ID_TRUESPEECH : Int := 2
def FF_INPUT_BUFFER_PADDING_SIZE : Int := 8
def AVPALETTE_SIZE : Int := 1024
def AVPALETTE_COUNT : Int := 256
def AV_TIME_BASE : Int := 1000000
def AV_NOPTS_VALUE : Int := -9223372036854775808

/-- Source macro `MKTAG(a, b, c, d)`. -/
def MKTAG (a b c d : Int) : Int := a + b * 256 + c * 65536 + d * 16777216

def FFMIN (a b : Int) : Int := if a > b then b else a
def FFMAX (a b : Int) : Int := if a > b then a else b

/-! ## Byte reader -/

/-- Modelled from the spec: the buffered byte reader (declared in `avio.h`, its body
is not under src/).  It offers sequential read, seek, tell, size and end-of-stream
over the input bytes `buf`.  A read past the end yields 0 and raises `eof_reached`;
a seek that moves clears it. -/
structure ByteIOContext where
  buf : List Nat
  pos : Int
  eof_reached : Bool
deriving DecidableEq

def url_ftell (pb : ByteIOContext) : Int := pb.pos

def url_fsize (pb : ByteIOContext) : Int := pb.buf.length

def url_feof (pb : ByteIOContext) : Bool := pb.eof_reached

def url_fseek (pb : ByteIOContext) (offset : Int) : ByteIOContext :=
  { pb with pos := offset, eof_reached := false }

/-- Relative seek; a skip of zero bytes leaves the reader as it is. -/
def url_fskip (pb : ByteIOContext) (offset : Int) : ByteIOContext :=
  if offset = 0 then pb else url_fseek pb (pb.pos + offset)

def get_byte (pb : ByteIOContext) : Int × ByteIOContext :=
  if 0 ≤ pb.pos ∧ pb.pos < pb.buf.length then
    (((pb.buf.getD pb.pos.toNat 0 % 256 : Nat) : Int), { pb with pos := pb.pos + 1 })
  else
    (0, { pb with eof_reached := true })

def get_le16 (pb : ByteIOContext) : Int × ByteIOContext :=
  let r0 := get_byte pb
  let r1 := get_byte r0.2
  (r0.1 + r1.1 * 256, r1.2)

def get_le32 (pb : ByteIOContext) : Int × ByteIOContext :=
  let r0 := get_le16 pb
  let r1 := get_le16 r0.2
  (r0.1 + r1.1 * 65536, r1.2)

/-- Number of bytes `url_fread` can still supply from the current position. -/
def avail (pb : ByteIOContext) : Int :=
  if 0 ≤ pb.pos ∧ pb.pos < pb.buf.length then pb.buf.length - pb.pos else 0

/-- Block read of up to `size` bytes: returns the count read, the bytes, the reader. -/
def url_fread (pb : ByteIOContext) (size : Int) : Int × List Nat × ByteIOContext :=
  if size ≤ 0 then (0, [], pb)
  else
    let n := FFMIN size (avail pb)
    (n, (pb.buf.drop pb.pos.toNat).take n.toNat,
      { pb with pos := pb.pos + n, eof_reached := pb.eof_reached || decide (n < size) })

/-! ## Data model (`avformat.h`, `avidec.c`) -/

structure AVPacket where
  pts : Int
  dts : Int
  pos : Int
  data : Option (List Nat)
  size : Int
  stream_index : Int
  flags : Int
deriving DecidableEq

structure AVIndexEntry where
  pos : Int
  timestamp : Int
  flags : Int
  size : Int
deriving DecidableEq

/-- Private per-stream state.  The C field `prefix` is named `prefix_code` here. -/
structure AVIStream where
  frame_offset : Int
  remaining : Int
  packet_size : Int
  scale : Int
  rate : Int
  sample_size : Int
  cum_len : Int
  prefix_code : Int
  prefix_count : Int
deriving DecidableEq

structure AVPaletteControl where
  palette_changed : Int
  palette : List Int
deriving DecidableEq

/-- Modelled from the spec: the fields of `AVCodecContext` (`avcodec.h`, not under
src/) that the demuxer reads or writes. -/
structure AVCodecContext where
  bit_rate : Int
  width : Int
  height : Int
  bits_per_sample : Int
  codec_type : Int
  codec_id : Int
  channels : Int
  sample_rate : Int
  block_align : Int
  extradata : Option (List Nat)
  extradata_size : Int
  palctrl : Option AVPaletteControl
deriving DecidableEq

structure AVRational where
  num : Int
  den : Int
deriving DecidableEq

structure AVStream where
  actx : AVCodecContext
  priv_data : Option AVIStream
  time_base : AVRational
  index_entries : List AVIndexEntry
deriving DecidableEq

structure AVIContext where
  riff_end : Int
  movi_list : Int
  movi_end : Int
  non_interleaved : Int
  stream_index_2 : Int
deriving DecidableEq

/-- Format context.  `streams` holds the slots `streams[0 .. nb_streams-1]`; a slot is
`none` when the C pointer is null. -/
structure AVFormatContext where
  avi : AVIContext
  pb : ByteIOContext
  streams : List (Option AVStream)
deriving DecidableEq

def AVFormatContext.nb_streams (s : AVFormatContext) : Int := s.streams.length

def AVStream.nb_index_entries (st : AVStream) : Int := st.index_entries.length

/-- Read of `s->streams[n]` followed by a dereference. -/
def stream_at (s : AVFormatContext) (n : Int) : Except Err AVStream :=
  if n < 0 ∨ s.nb_streams ≤ n then .error .outOfBounds
  else
    match s.streams.getD n.toNat none with
    | none => .error .nullPtr
    | some st => .ok st

/-- Dereference of `st->priv_data`. -/
def priv_of (st : AVStream) : Except Err AVIStream :=
  match st.priv_data with
  | none => .error .nullPtr
  | some ast => .ok ast

def set_stream (s : AVFormatContext) (n : Int) (st : AVStream) : AVFormatContext :=
  { s with streams := s.streams.set n.toNat (some st) }

def set_priv (s : AVFormatContext) (n : Int) (st : AVStream) (ast : AVIStream) :
    AVFormatContext :=
  set_stream s n { st with priv_data := some ast }

/-- Read of `st->index_entries[i]`. -/
def entry_at (st : AVStream) (i : Int) : Except Err AVIndexEntry :=
  if i < 0 ∨ st.nb_index_entries ≤ i then .error .outOfBounds
  else
    match st.index_entries.get? i.toNat with
    | none => .error .outOfBounds
    | some e => .ok e

/-! ## Index table (`av_index_search_timestamp`, `av_add_index_entry`) -/

def is_key (e : AVIndexEntry) : Bool := decide (Int.land e.flags AVINDEX_KEYFRAME ≠ 0)

/-- Index of the first entry whose timestamp is at or after `t` (the entry count when
there is none). -/
def search_ge (es : List AVIndexEntry) (t : Int) : Int :=
  (es.findIdx (fun e => decide (t ≤ e.timestamp)) : Nat)

/-- Index of the last entry satisfying `p`, scanning from index `k` with `best` the
answer so far. -/
def last_idx (p : AVIndexEntry → Bool) : List AVIndexEntry → Int → Int → Int
  | [], _, best => best
  | e :: es, k, best => last_idx p es (k + 1) (if p e then k else best)

/-- Index of the last entry whose timestamp is at or before `t` (-1 when none). -/
def search_le (es : List AVIndexEntry) (t : Int) : Int :=
  last_idx (fun e => decide (e.timestamp ≤ t)) es 0 (-1)

/-- First keyframe entry at index `m` or later (the entry count when there is none). -/
def key_fwd (es : List AVIndexEntry) (m : Int) : Int :=
  m + ((es.drop m.toNat).findIdx is_key : Nat)

/-- Last keyframe entry at index `m` or earlier (-1 when there is none). -/
def key_bwd (es : List AVIndexEntry) (m : Int) : Int :=
  if m < 0 then m else last_idx is_key (es.take (m.toNat + 1)) 0 (-1)

/-- Modelled from the spec: timestamp search (declared in `avformat.h`, body not under
src/).  Given a target timestamp and a mode, it returns the entry at or immediately
before the target (backward-biased) or the closest exact/forward entry (default);
without the any-match mode it moves on to a keyframe entry; -1 when nothing is found. -/
def av_index_search_timestamp (st : AVStream) (wanted : Int) (flags : Int) : Int :=
  let es := st.index_entries
  let back := decide (Int.land flags AVSEEK_FLAG_BACKWARD ≠ 0)
  let m := if back then search_le es wanted else search_ge es wanted
  let m := if Int.land flags AVSEEK_FLAG_ANY = 0 then
      (if back then key_bwd es m else key_fwd es m) else m
  if m = es.length then -1 else m

/-- Modelled from the spec: insertion into the per-stream index (declared in
`avformat.h`, body not under src/).  Entries are kept ordered by timestamp: a record
whose timestamp is later than all present is appended, one whose timestamp is already
present overwrites that entry (this is how the split pass replaces the single entry),
one that falls between two entries is inserted.  The stored size and flags are cut to
the bit-fields `int size : 30` and `int flags : 2` of `AVIndexEntry`. -/
def av_add_index_entry (st : AVStream) (pos timestamp size _distance flags : Int) :
    AVStream :=
  let e : AVIndexEntry :=
    { pos := pos, timestamp := timestamp, flags := wrap2 flags, size := wrap30 size }
  let index := av_index_search_timestamp st timestamp AVSEEK_FLAG_ANY
  if index < 0 then { st with index_entries := st.index_entries ++ [e] }
  else
    match st.index_entries.get? index.toNat with
    | none => st
    | some ie =>
      if ie.timestamp ≠ timestamp then
        if ie.timestamp ≤ timestamp then st
        else { st with index_entries :=
                 st.index_entries.take index.toNat ++ e :: st.index_entries.drop index.toNat }
      else { st with index_entries := st.index_entries.set index.toNat e }

/-- Modelled from the spec: `av_rescale(a, b, c)` (not under src/) rescales `a` by the
ratio `b / c`; a zero divisor is a fault. -/
def av_rescale (a b c : Int) : Except Err Int :=
  if c = 0 then .error .divZero else .ok (Int.tdiv (a * b) c)

/-! ## Packet allocation (`av_get_packet`, `avformat.h`) -/

/-- Source function `av_get_packet`.  `mallocOk` tells whether `av_malloc` returns a
buffer.  Returns the C return value, the reader and the packet. -/
def av_get_packet (pb : ByteIOContext) (pkt : AVPacket) (size : Int) (mallocOk : Bool) :
    Int × ByteIOContext × AVPacket :=
  if uwrap32 size > uwrap32 (uwrap32 size + FF_INPUT_BUFFER_PADDING_SIZE) then
    (AVERROR_NOMEM, pb, pkt)
  else if !mallocOk then (AVERROR_NOMEM, pb, pkt)
  else
    let r := url_fread pb size
    if r.1 ≤ 0 then
      (r.1, r.2.2, { pts := AV_NOPTS_VALUE, dts := AV_NOPTS_VALUE, pos := url_ftell pb,
                     data := none, size := 0, stream_index := 0, flags := 0 })
    else
      (r.1, r.2.2, { pts := AV_NOPTS_VALUE, dts := AV_NOPTS_VALUE, pos := url_ftell pb,
                     data := some r.2.1, size := r.1, stream_index := 0, flags := 0 })

/-! ## `avi_read_packet` -/

/-- Lines 488-497: the number of bytes asked of `av_get_packet`. -/
def request_size (ast : AVIStream) : Int :=
  let size :=
    if ast.sample_size ≤ 1 then INT_MAX
    else if ast.sample_size < 32 then 64 * ast.sample_size
    else ast.sample_size
  if size > ast.remaining then ast.remaining else size

/-- Lines 501-504: the decoding timestamp of the packet. -/
def packet_dts (ast : AVIStream) : Int :=
  if ast.sample_size ≠ 0 then Int.tdiv ast.frame_offset ast.sample_size
  else ast.frame_offset

/-- Lines 508-526: the packet flags after the keyframe decision. -/
def key_flags (st : AVStream) (ast : AVIStream) (dts : Int) (flags : Int) :
    Except Err Int :=
  if st.actx.codec_type = CODEC_TYPE_VIDEO then
    if st.index_entries ≠ [] then
      let index := av_index_search_timestamp st dts 0
      if index ≥ 0 then
        match entry_at st index with
        | .error e => .error e
        | .ok e =>
          if e.timestamp = ast.frame_offset then
            if Int.land e.flags AVINDEX_KEYFRAME ≠ 0 then .ok (Int.lor flags PKT_FLAG_KEY)
            else .ok flags
          else .ok flags
      else .ok flags
    else .ok (Int.lor flags PKT_FLAG_KEY)
  else .ok (Int.lor flags PKT_FLAG_KEY)

/-- Lines 483-544: delivery from the active cursor `avi->stream_index_2`. -/
def deliver (s : AVFormatContext) (pkt : AVPacket) (mallocOk : Bool) :
    Except Err (Int × AVFormatContext × AVPacket) :=
  match stream_at s s.avi.stream_index_2 with
  | .error e => .error e
  | .ok st =>
  match priv_of st with
  | .error e => .error e
  | .ok ast =>
    let size := request_size ast
    let g := av_get_packet s.pb pkt size mallocOk
    let pkt1 := { g.2.2 with dts := packet_dts ast, stream_index := s.avi.stream_index_2 }
    match key_flags st ast pkt1.dts pkt1.flags with
    | .error e => .error e
    | .ok fl =>
      let pkt2 := { pkt1 with flags := fl }
      let fo := if ast.sample_size ≠ 0 then ast.frame_offset + pkt2.size
                else ast.frame_offset + 1
      let rem := wrap32 (ast.remaining - size)
      if rem = 0 then
        let ast1 := { ast with frame_offset := fo, remaining := rem, packet_size := 0 }
        let s1 := set_priv s s.avi.stream_index_2 st ast1
        if size % 2 ≠ 0 then
          .ok (wrap32 (size + 1),
               { s1 with avi := { s.avi with stream_index_2 := -1 }, pb := (get_byte g.2.1).2 },
               pkt2)
        else
          .ok (size, { s1 with avi := { s.avi with stream_index_2 := -1 }, pb := g.2.1 }, pkt2)
      else
        let ast1 := { ast with frame_offset := fo, remaining := rem }
        .ok (size, { set_priv s s.avi.stream_index_2 st ast1 with pb := g.2.1 }, pkt2)

/-- The 8-entry sliding window `d[0..7]` of the scanner. -/
structure Win where
  d0 : Int
  d1 : Int
  d2 : Int
  d3 : Int
  d4 : Int
  d5 : Int
  d6 : Int
  d7 : Int
deriving DecidableEq

/-- Effect of `memset(d, -1, sizeof(int) * 8)`. -/
def Win.init : Win := ⟨-1, -1, -1, -1, -1, -1, -1, -1⟩

/-- Lines 553-556: shift the window left and store the new byte in `d[7]`. -/
def Win.shift (d : Win) (b : Int) : Win := ⟨d.d1, d.d2, d.d3, d.d4, d.d5, d.d6, d.d7, b⟩

/-- Line 558: the little-endian chunk size read from the window, as a C `int`. -/
def chunk_size (d : Win) : Int :=
  wrap32 (d.d4 + d.d5 * 256 + d.d6 * 65536 + d.d7 * 16777216)

def is_digit (x : Int) : Bool := decide (48 ≤ x ∧ x ≤ 57)

/-- Lines 560-564 and 575-579: stream ordinal from two digit characters, else 100. -/
def stream_no (a b : Int) : Int :=
  if is_digit a ∧ is_digit b then (a - 48) * 10 + (b - 48) else 100

/-- Lines 594-596: the acceptance test of a data chunk for a stream. -/
def accepts (ast : AVIStream) (d : Win) (i sync : Int) : Bool :=
  decide (((ast.prefix_count < 5 ∨ sync + 9 > i) ∧ d.d2 < 128 ∧ d.d3 < 128) ∨
    d.d2 * 256 + d.d3 = ast.prefix_code)

/-- Lines 597-606: the private state after a data chunk is accepted. -/
def accept_chunk (ast : AVIStream) (d : Win) (size : Int) : AVIStream :=
  if d.d2 * 256 + d.d3 = ast.prefix_code then
    { ast with prefix_count := wrap32 (ast.prefix_count + 1),
               packet_size := wrap32 (size + 8), remaining := size }
  else
    { ast with prefix_code := d.d2 * 256 + d.d3, prefix_count := 0,
               packet_size := wrap32 (size + 8), remaining := size }

/-- Lines 625-632: read `cnt` palette entries into slots `k, k+1, ...`. -/
def read_palette : Nat → Int → List Int → ByteIOContext →
    Except Err (List Int × ByteIOContext)
  | 0, _, pal, pb => .ok (pal, pb)
  | cnt + 1, k, pal, pb =>
    let r := get_byte pb
    let g := get_byte r.2
    let b := get_byte g.2
    let x := get_byte b.2
    if k < 0 ∨ (pal.length : Int) ≤ k then .error .outOfBounds
    else read_palette cnt (k + 1) (pal.set k.toNat (b.1 + g.1 * 256 + r.1 * 65536)) x.2

/-- Lines 611-635: a palette-change chunk is consumed in place. -/
def palette_chunk (s : AVFormatContext) (n : Int) (pb : ByteIOContext) :
    Except Err AVFormatContext :=
  match stream_at s n with
  | .error e => .error e
  | .ok st =>
    let first := get_byte pb
    let clr := get_byte first.2
    let cnt := if clr.1 = 0 then 256 else clr.1
    let fl := get_le16 clr.2
    match st.actx.palctrl with
    | none => .error .nullPtr
    | some pc =>
      match read_palette cnt.toNat first.1 pc.palette fl.2 with
      | .error e => .error e
      | .ok r =>
        .ok { set_stream s n { st with actx := { st.actx with
                palctrl := some { palette_changed := 1, palette := r.1 } } } with pb := r.2 }

/-- Lines 546-636: the scanner loop.  The result `true` stands for `goto resync`,
`false` for leaving the loop (the function then returns -1). -/
def scan : Nat → AVFormatContext → Win → Int → Int → Except Err (Bool × AVFormatContext)
  | 0, _, _, _, _ => .error .fuel
  | fuel + 1, s, d, i, sync =>
    if url_feof s.pb then .ok (false, s)
    else if i ≥ s.avi.movi_end then .ok (false, s)
    else
      let b := get_byte s.pb
      let d := d.shift b.1
      let s1 := { s with pb := b.2 }
      let size := chunk_size d
      let n := stream_no d.d2 d.d3
      if i + size > s.avi.movi_end ∨ d.d0 < 0 then scan fuel s1 d (i + 1) sync
      else if (d.d0 = 105 ∧ d.d1 = 120 ∧ n < s.nb_streams) ∨
          (d.d0 = 74 ∧ d.d1 = 85 ∧ d.d2 = 78 ∧ d.d3 = 75) then
        .ok (true, { s with pb := url_fskip b.2 size })
      else
        let n := stream_no d.d0 d.d1
        if n < s.nb_streams then
          match stream_at s n with
          | .error e => .error e
          | .ok st =>
          match priv_of st with
          | .error e => .error e
          | .ok ast =>
            if accepts ast d i sync then
              .ok (true, { set_priv s1 n st (accept_chunk ast d size) with
                             avi := { s.avi with stream_index_2 := n } })
            else if is_digit d.d0 ∧ is_digit d.d1 ∧ d.d2 = 112 ∧ d.d3 = 99 ∧
                i + size ≤ s.avi.movi_end then
              match palette_chunk s1 n b.2 with
              | .error e => .error e
              | .ok s2 => .ok (true, s2)
            else scan fuel s1 d (i + 1) sync
        else scan fuel s1 d (i + 1) sync

/-- Label `resync` of `avi_read_packet`: deliver from the active cursor, or scan. -/
def resync : Nat → AVFormatContext → AVPacket → Bool →
    Except Err (Int × AVFormatContext × AVPacket)
  | 0, _, _, _ => .error .fuel
  | fuel + 1, s, pkt, mallocOk =>
    if s.avi.stream_index_2 ≥ 0 then deliver s pkt mallocOk
    else
      match scan fuel s Win.init (url_ftell s.pb) (url_ftell s.pb) with
      | .error e => .error e
      | .ok (false, s1) => .ok (-1, s1, pkt)
      | .ok (true, s1) => resync fuel s1 pkt mallocOk

/-- Lines 435-454: the loop that picks the stream with the smallest normalized time.
The accumulator is `best_ts` with `best_stream_index` and `best_st` (none = NULL). -/
def select_best : List (Option AVStream) → Int → Int × Option (Int × AVStream) →
    Except Err (Int × Option (Int × AVStream))
  | [], _, acc => .ok acc
  | slot :: rest, i, acc =>
    match slot with
    | none => .error .nullPtr
    | some st =>
      match priv_of st with
      | .error e => .error e
      | .ok ast =>
        match av_rescale (packet_dts ast) (AV_TIME_BASE * st.time_base.num)
            st.time_base.den with
        | .error e => .error e
        | .ok ts =>
          if ts < acc.1 then select_best rest (i + 1) (ts, some (i, st))
          else select_best rest (i + 1) acc

/-- Lines 427-479: the non-interleaved selection pass. -/
def selection_pass (s : AVFormatContext) : Except Err AVFormatContext :=
  match select_best s.streams 0 (INT64_MAX, none) with
  | .error e => .error e
  | .ok (_, none) => .error .nullPtr
  | .ok (best_ts, some (best_stream_index, best_st)) =>
    match priv_of best_st with
    | .error e => .error e
    | .ok best_ast =>
      match av_rescale best_ts best_st.time_base.den
          (AV_TIME_BASE * best_st.time_base.num) with
      | .error e => .error e
      | .ok best_ts =>
        let i :=
          if best_ast.remaining ≠ 0 then
            av_index_search_timestamp best_st best_ts
              (Int.lor AVSEEK_FLAG_ANY AVSEEK_FLAG_BACKWARD)
          else av_index_search_timestamp best_st best_ts AVSEEK_FLAG_ANY
        if i ≥ 0 then
          match entry_at best_st i with
          | .error e => .error e
          | .ok e =>
            let pos := e.pos + best_ast.packet_size - best_ast.remaining
            if ¬ (best_ast.remaining ≤ best_ast.packet_size) then .error .assertion
            else
              let ast1 :=
                if best_ast.remaining = 0 then
                  { best_ast with packet_size := e.size, remaining := e.size }
                else best_ast
              .ok { set_priv s best_stream_index best_st ast1 with
                      avi := { s.avi with stream_index_2 := best_stream_index },
                      pb := url_fseek s.pb (pos + 8) }
        else .ok s

/-- Source function `avi_read_packet`: C return value, context and packet. -/
def avi_read_packet (fuel : Nat) (s : AVFormatContext) (pkt : AVPacket) (mallocOk : Bool) :
    Except Err (Int × AVFormatContext × AVPacket) :=
  if s.avi.non_interleaved ≠ 0 then
    match selection_pass s with
    | .error e => .error e
    | .ok s1 => resync fuel s1 pkt mallocOk
  else resync fuel s pkt mallocOk

/-! ## Codec tag table -/

structure CodecTag where
  id : Int
  tag : Int
deriving DecidableEq

def codec_bmp_tags : List CodecTag :=
  [⟨CODEC_ID_MSRLE, MKTAG 109 114 108 101⟩, ⟨CODEC_ID_MSRLE, MKTAG 1 0 0 0⟩,
   ⟨CODEC_ID_NONE, 0⟩]

def codec_wav_tags : List CodecTag := [⟨CODEC_ID_TRUESPEECH, 34⟩, ⟨0, 0⟩]

/-- C library `toupper` on a byte, in the C locale. -/
def toupper (c : Int) : Int := if 97 ≤ c ∧ c ≤ 122 then c - 32 else c

/-- Byte `k` of a 32-bit tag: `(tag >> (8 * k)) & 0xFF`. -/
def tag_byte (tag : Int) (k : Nat) : Int := (tag / 256 ^ k) % 256

/-- Source function `codec_get_id`; the end of the list stands for running past a
table that has no `CODEC_ID_NONE` terminator. -/
def codec_get_id : List CodecTag → Int → Int
  | [], _ => CODEC_ID_NONE
  | t :: tags, tag =>
    if t.id = CODEC_ID_NONE then CODEC_ID_NONE
    else if toupper (tag_byte tag 0) = toupper (tag_byte t.tag 0) ∧
        toupper (tag_byte tag 1) = toupper (tag_byte t.tag 1) ∧
        toupper (tag_byte tag 2) = toupper (tag_byte t.tag 2) ∧
        toupper (tag_byte tag 3) = toupper (tag_byte t.tag 3) then t.id
    else codec_get_id tags tag

/-! ## `get_riff`, `clean_index`, `guess_ni_flag`, index loading -/

/-- Source function `get_riff`: C return value, context, reader. -/
def get_riff (avi : AVIContext) (pb : ByteIOContext) : Int × AVIContext × ByteIOContext :=
  let tag := get_le32 pb
  if tag.1 ≠ MKTAG 82 73 70 70 then (-1, avi, tag.2)
  else
    let sz := get_le32 tag.2
    let avi1 := { avi with riff_end := sz.1 + url_ftell sz.2 }
    let tag2 := get_le32 sz.2
    if tag2.1 ≠ MKTAG 65 86 73 32 ∧ tag2.1 ≠ MKTAG 65 86 73 88 then (-1, avi1, tag2.2)
    else (0, avi1, tag2.2)

/-- Lines 126-127: `while (max < 1024) max += max;` on a C `int`. -/
def double_max : Nat → Int → Except Err Int
  | 0, _ => .error .fuel
  | fuel + 1, max => if max < 1024 then double_max fuel (wrap32 (max + max)) else .ok max

/-- Lines 134-138: the loop that adds one index entry per block of `max` bytes. -/
def split_loop : Nat → AVStream → Int → Int → Int → Int → Int → Int → Except Err AVStream
  | 0, _, _, _, _, _, _, _ => .error .fuel
  | fuel + 1, st, sample_size, max, pos, size, ts, j =>
    if j < size then
      split_loop fuel
        (av_add_index_entry st (pos + j) (ts + Int.tdiv j sample_size)
          (wrap32 (FFMIN max (size - j))) 0 AVINDEX_KEYFRAME)
        sample_size max pos size ts (wrap32 (j + max))
    else .ok st

/-- Lines 112-138: the body of the loop of `clean_index` for one stream. -/
def clean_index_stream (fuel : Nat) (st : AVStream) : Except Err AVStream :=
  match priv_of st with
  | .error e => .error e
  | .ok ast =>
    if st.nb_index_entries ≠ 1 ∨ ast.sample_size = 0 then .ok st
    else
      match double_max fuel ast.sample_size with
      | .error e => .error e
      | .ok max =>
        match entry_at st 0 with
        | .error e => .error e
        | .ok e0 => split_loop fuel st ast.sample_size max e0.pos e0.size e0.timestamp 0

/-- Loop of `clean_index` over the stream slots. -/
def clean_index_slots (fuel : Nat) : List (Option AVStream) → Except Err (List (Option AVStream))
  | [] => .ok []
  | none :: _ => .error .nullPtr
  | some st :: rest =>
    match clean_index_stream fuel st with
    | .error e => .error e
    | .ok st1 =>
      match clean_index_slots fuel rest with
      | .error e => .error e
      | .ok rest1 => .ok (some st1 :: rest1)

/-- Source function `clean_index`. -/
def clean_index (fuel : Nat) (s : AVFormatContext) : Except Err AVFormatContext :=
  match clean_index_slots fuel s.streams with
  | .error e => .error e
  | .ok l => .ok { s with streams := l }

/-- Loop of `guess_ni_flag`; the accumulator is (`last_start`, `first_end`). -/
def guess_ni_loop : List (Option AVStream) → Int × Int → Except Err (Int × Int)
  | [], acc => .ok acc
  | none :: _, _ => .error .nullPtr
  | some st :: rest, acc =>
    match st.index_entries.head?, st.index_entries.getLast? with
    | some e0, some en =>
      guess_ni_loop rest
        (if e0.pos > acc.1 then e0.pos else acc.1, if en.pos < acc.2 then en.pos else acc.2)
    | _, _ => guess_ni_loop rest acc

/-- Source function `guess_ni_flag`. -/
def guess_ni_flag (s : AVFormatContext) : Except Err Int :=
  match guess_ni_loop s.streams (0, INT64_MAX) with
  | .error e => .error e
  | .ok (last_start, first_end) => .ok (if last_start > first_end then 1 else 0)

/-- Locals of `avi_read_idx1` that live across records. -/
structure Idx1State where
  s : AVFormatContext
  last_pos : Int

/-- Lines 657-685: one record of the `idx1` chunk; `i` is the record number. -/
def idx1_record (h : Idx1State) (i : Int) : Except Err Idx1State :=
  let tag := get_le32 h.s.pb
  let flags := get_le32 tag.2
  let pos := get_le32 flags.2
  let len := get_le32 pos.2
  let movi_list := if i = 0 ∧ pos.1 > h.s.avi.movi_list then 0 else h.s.avi.movi_list
  let s1 := { h.s with avi := { h.s.avi with movi_list := movi_list }, pb := len.2 }
  let pos := uwrap32 (pos.1 + movi_list)
  let index := uwrap32 (uwrap32 ((tag.1 % 256 - 48) * 10) + (tag.1 / 256 % 256 - 48))
  if index ≥ uwrap32 s1.nb_streams then .ok { h with s := s1 }
  else
    match stream_at s1 index with
    | .error e => .error e
    | .ok st =>
    match priv_of st with
    | .error e => .error e
    | .ok ast =>
      let ni := if h.last_pos = pos then 1 else s1.avi.non_interleaved
      let st1 := if h.last_pos = pos then st
        else av_add_index_entry st pos ast.cum_len (wrap32 len.1) 0
               (if Int.land flags.1 AVIIF_INDEX ≠ 0 then AVINDEX_KEYFRAME else 0)
      let cum := if ast.sample_size ≠ 0 then ast.cum_len + len.1 / uwrap32 ast.sample_size
                 else ast.cum_len + 1
      .ok { s := { set_priv s1 index st1 { ast with cum_len := cum } with
                     avi := { s1.avi with non_interleaved := ni } },
            last_pos := pos }

/-- Lines 654-686: the record loop, `cnt` records left, `i` the next record number. -/
def idx1_loop : Nat → Int → Idx1State → Except Err Idx1State
  | 0, _, h => .ok h
  | cnt + 1, i, h =>
    match idx1_record h i with
    | .error e => .error e
    | .ok h1 => idx1_loop cnt (i + 1) h1

/-- Source function `avi_read_idx1`; `size` is the C `int` parameter. -/
def avi_read_idx1 (s : AVFormatContext) (size : Int) : Except Err (Int × AVFormatContext) :=
  let nb_index_entries := Int.tdiv size 16
  if nb_index_entries ≤ 0 then .ok (-1, s)
  else
    match idx1_loop nb_index_entries.toNat 0 { s := s, last_pos := 4294967295 } with
    | .error e => .error e
    | .ok h => .ok (0, h.s)

/-- Lines 719-738: the chunk loop of `avi_load_index`. -/
def load_index_loop : Nat → AVFormatContext → Except Err AVFormatContext
  | 0, _ => .error .fuel
  | fuel + 1, s =>
    if url_feof s.pb then .ok s
    else
      let tag := get_le32 s.pb
      let size := get_le32 tag.2
      let s1 := { s with pb := size.2 }
      if tag.1 = MKTAG 105 100 120 49 then
        match avi_read_idx1 s1 (wrap32 size.1) with
        | .error e => .error e
        | .ok (r, s2) =>
          if r < 0 then
            load_index_loop fuel
              { s2 with pb := url_fskip s2.pb (uwrap32 (size.1 + size.1 % 2)) }
          else .ok s2
      else
        load_index_loop fuel { s1 with pb := url_fskip s1.pb (uwrap32 (size.1 + size.1 % 2)) }

/-- Source function `avi_load_index`. -/
def avi_load_index (fuel : Nat) (s : AVFormatContext) : Except Err AVFormatContext :=
  let pos := url_ftell s.pb
  match load_index_loop fuel { s with pb := url_fseek s.pb s.avi.movi_end } with
  | .error e => .error e
  | .ok s1 => .ok { s1 with pb := url_fseek s1.pb pos }

/-! ## `avi_read_header` -/

/-- Allocation outcomes: whether `av_new_stream` for slot `i` and `av_mallocz` of the
`AVIStream` for slot `i` return memory. -/
structure Mem where
  stream_ok : Int → Bool
  priv_ok : Int → Bool

/-- Record of the header chunks met during the walk.  It is written by the embedding
for use in statements only; the code never reads it. -/
inductive HdrEvent where
  | avih (n : Int)
  | strh_skipped (tag1 : Int)
  | strh (tag1 : Int)
  | strf
  | list
  | movi
  | other
deriving DecidableEq

/-- Locals of `avi_read_header` that live across loop iterations. -/
structure HdrState where
  s : AVFormatContext
  stream_index : Int
  codec_type : Int
  frame_period : Int
  trace : List HdrEvent
deriving DecidableEq

/-- How one iteration of the chunk loop ends. -/
inductive HdrStep where
  | next (h : HdrState)
  | fail (h : HdrState)
  | end_of_header (h : HdrState)

def zero_actx : AVCodecContext :=
  { bit_rate := 0, width := 0, height := 0, bits_per_sample := 0, codec_type := 0,
    codec_id := 0, channels := 0, sample_rate := 0, block_align := 0, extradata := none,
    extradata_size := 0, palctrl := none }

def zero_ast : AVIStream :=
  { frame_offset := 0, remaining := 0, packet_size := 0, scale := 0, rate := 0,
    sample_size := 0, cum_len := 0, prefix_code := 0, prefix_count := 0 }

/-- Modelled from the spec: `av_new_stream` (declared in `avformat.h`, body not under
src/) allocates one zero-filled stream descriptor and stores it in the next slot of
`streams[MAX_STREAMS]`; it returns null when the array is full or memory is short. -/
def av_new_stream (s : AVFormatContext) (ok : Bool) : Option AVFormatContext :=
  if s.nb_streams ≥ MAX_STREAMS then none
  else if !ok then none
  else some { s with streams := s.streams ++
    [some { actx := zero_actx, priv_data := none, time_base := ⟨0, 0⟩, index_entries := [] }] }

/-- Lines 195-209: the allocation loop of the `avih` chunk, `cnt` streams left.
The flag of the result is `false` for `goto fail`. -/
def alloc_streams (mem : Mem) (bit_rate : Int) : Nat → AVFormatContext →
    AVFormatContext × Bool
  | 0, s => (s, true)
  | cnt + 1, s =>
    match av_new_stream s (mem.stream_ok s.nb_streams) with
    | none => (s, false)
    | some s1 =>
      if !mem.priv_ok s.nb_streams then (s1, false)
      else
        let st : AVStream :=
          { actx := { zero_actx with bit_rate := bit_rate }, priv_data := some zero_ast,
            time_base := ⟨0, 0⟩, index_entries := [] }
        alloc_streams mem bit_rate cnt (set_stream s1 s.nb_streams st)

/-- The fields of the `avih` chunk that the parser keeps, as C values. -/
structure AvihFields where
  frame_period : Int
  bit_rate : Int
  flags : Int
  n : Int

/-- Lines 187-194: the reads of the `avih` chunk. -/
def read_avih (pb : ByteIOContext) : AvihFields × ByteIOContext :=
  let fp := get_le32 pb
  let br := get_le32 fp.2
  let x := get_le32 br.2
  let fl := get_le32 x.2
  let n := get_le32 (url_fskip fl.2 8)
  ({ frame_period := wrap32 fp.1, bit_rate := wrap32 (br.1 * 8), flags := fl.1,
     n := wrap32 n.1 }, n.2)

/-- Lines 185-211: the `avih` chunk. -/
def chunk_avih (mem : Mem) (h : HdrState) (size : Int) (pb : ByteIOContext) : HdrStep :=
  let f := read_avih pb
  let ni := Int.lor h.s.avi.non_interleaved (Int.land f.1.flags AVIF_MUSTUSEINDEX)
  let s1 := { h.s with avi := { h.s.avi with non_interleaved := ni }, pb := f.2 }
  let r := alloc_streams mem f.1.bit_rate f.1.n.toNat s1
  let h1 := { h with s := r.1, frame_period := f.1.frame_period,
                     trace := h.trace ++ [.avih f.1.n] }
  if r.2 then
    .next { h1 with s := { r.1 with pb := url_fskip r.1.pb (uwrap32 (size - 28)) } }
  else .fail h1

/-- The fields of the `strh` chunk that the parser keeps, as C values. -/
structure StrhFields where
  scale : Int
  rate : Int
  start : Int
  sample_size : Int

/-- Lines 229-251: the reads of the `strh` chunk after the type and the handler. -/
def read_strh (pb : ByteIOContext) : StrhFields × ByteIOContext :=
  let fl := get_le32 pb
  let pr := get_le16 fl.2
  let la := get_le16 pr.2
  let ini := get_le32 la.2
  let sc := get_le32 ini.2
  let ra := get_le32 sc.2
  let start := get_le32 ra.2
  let nbf := get_le32 start.2
  let bs := get_le32 nbf.2
  let qu := get_le32 bs.2
  let ss := get_le32 qu.2
  ({ scale := wrap32 sc.1, rate := wrap32 ra.1, start := start.1,
     sample_size := wrap32 ss.1 }, ss.2)

/-- Lines 235-242: the (scale, rate) pair kept for the stream. -/
def scale_rate (scale rate frame_period : Int) : Int × Int :=
  if scale ≠ 0 ∧ rate ≠ 0 then (scale, rate)
  else if frame_period ≠ 0 then (frame_period, 1000000)
  else (1, 25)

/-- Lines 226-275 for a stream type that is known: the stream slot after the chunk.
`av_set_pts_info` (not under src/) is taken to store the time base `scale / rate`. -/
def strh_stream (st : AVStream) (ast : AVIStream) (f : StrhFields) (frame_period : Int)
    (sample_size : Int) : AVStream :=
  let sr := scale_rate f.scale f.rate frame_period
  { st with
    time_base := ⟨sr.1, sr.2⟩,
    priv_data := some { ast with scale := sr.1, rate := sr.2, cum_len := f.start,
                                 sample_size := sample_size,
                                 frame_offset := f.start * FFMAX sample_size 1 } }

/-- Lines 212-275: the `strh` chunk. -/
def chunk_strh (h : HdrState) (size : Int) (pb : ByteIOContext) : Except Err HdrStep :=
  let stream_index := wrap32 (h.stream_index + 1)
  let tag1 := get_le32 pb
  let handler := get_le32 tag1.2
  if stream_index ≥ h.s.nb_streams then
    .ok (.next { h with s := { h.s with pb := url_fskip handler.2 (uwrap32 (size - 8)) },
                        stream_index := stream_index,
                        trace := h.trace ++ [.strh_skipped tag1.1] })
  else
    match stream_at h.s stream_index with
    | .error e => .error e
    | .ok st =>
    match priv_of st with
    | .error e => .error e
    | .ok ast =>
      let f := read_strh handler.2
      let fin (sample_size : Int) (codec_type : Int) (next_index : Int) : HdrStep :=
        .next { h with
          s := { set_stream h.s stream_index
                   (strh_stream st ast f.1 h.frame_period sample_size)
                 with pb := url_fskip f.2 (uwrap32 (size - 48)) },
          stream_index := next_index, codec_type := codec_type,
          trace := h.trace ++ [.strh tag1.1] }
      if tag1.1 = MKTAG 118 105 100 115 then
        .ok (fin 0 CODEC_TYPE_VIDEO stream_index)
      else if tag1.1 = MKTAG 97 117 100 115 then
        .ok (fin f.1.sample_size CODEC_TYPE_AUDIO stream_index)
      else if tag1.1 = MKTAG 116 120 116 115 then
        .ok (fin f.1.sample_size CODEC_TYPE_DATA stream_index)
      else if tag1.1 = MKTAG 112 97 100 115 then
        .ok (fin f.1.sample_size CODEC_TYPE_UNKNOWN (wrap32 (stream_index - 1)))
      else
        .ok (.fail { h with
          s := { set_stream h.s stream_index
                   { strh_stream st ast f.1 h.frame_period f.1.sample_size with
                     priv_data := some { ast with
                       scale := (scale_rate f.1.scale f.1.rate h.frame_period).1,
                       rate := (scale_rate f.1.scale f.1.rate h.frame_period).2,
                       cum_len := f.1.start, sample_size := f.1.sample_size } }
                 with pb := f.2 },
          stream_index := stream_index, trace := h.trace ++ [.strh tag1.1] })

/-- Palette word `k` of a byte block copied by `memcpy` into the palette table
(little-endian words; bytes at or beyond `min` stay zero). -/
def palette_word (bytes : List Nat) (min : Int) (k : Nat) : Int :=
  let byte (j : Nat) : Int := if (j : Int) < min then (bytes.getD j 0 % 256 : Nat) else 0
  byte (4 * k) + byte (4 * k + 1) * 256 + byte (4 * k + 2) * 65536 +
    byte (4 * k + 3) * 16777216

/-- Lines 285-332: the `strf` chunk of a video stream. -/
def strf_video (st : AVStream) (size : Int) (pb : ByteIOContext) : AVStream × ByteIOContext :=
  let sz := get_le32 pb
  let w := get_le32 sz.2
  let ht := get_le32 w.2
  let pl := get_le16 ht.2
  let dp := get_le16 pl.2
  let tag1 := get_le32 dp.2
  let a := get_le32 tag1.2
  let b := get_le32 a.2
  let c := get_le32 b.2
  let d := get_le32 c.2
  let e := get_le32 d.2
  let ex : Option (List Nat) × Int × ByteIOContext :=
    if size > 40 ∧ size < 1073741824 then
      let r := url_fread e.2 (size - 40)
      (some r.2.1, size - 40, r.2.2)
    else (st.actx.extradata, st.actx.extradata_size, e.2)
  let pb1 := if ex.2.1 % 2 ≠ 0 then (get_byte ex.2.2).2 else ex.2.2
  let pal : Option AVPaletteControl :=
    if ex.2.1 ≠ 0 ∧ dp.1 ≤ 8 then
      some { palette_changed := 1,
             palette := (List.range 256).map
               (palette_word (ex.1.getD []) (FFMIN ex.2.1 AVPALETTE_SIZE)) }
    else st.actx.palctrl
  ({ st with actx := { st.actx with
      width := wrap32 w.1, height := wrap32 ht.1, bits_per_sample := dp.1,
      extradata := ex.1, extradata_size := ex.2.1, palctrl := pal,
      codec_type := CODEC_TYPE_VIDEO, codec_id := codec_get_id codec_bmp_tags tag1.1 } },
   pb1)

/-- Lines 333-378: the `strf` chunk of an audio stream. -/
def strf_audio (st : AVStream) (size : Int) (pb : ByteIOContext) : AVStream × ByteIOContext :=
  let id := get_le16 pb
  let ch := get_le16 id.2
  let sr := get_le32 ch.2
  let br := get_le32 sr.2
  let ba := get_le16 br.2
  let bp : Int × ByteIOContext := if size = 14 then (8, ba.2) else get_le16 ba.2
  let actx := { st.actx with
      codec_type := CODEC_TYPE_AUDIO, channels := ch.1, sample_rate := wrap32 sr.1,
      bit_rate := wrap32 (br.1 * 8), block_align := ba.1, bits_per_sample := bp.1,
      codec_id := codec_get_id codec_wav_tags id.1 }
  let r : AVCodecContext × ByteIOContext :=
    if size > 16 then
      let es := get_le16 bp.2
      let ex : Option (List Nat) × Int × ByteIOContext :=
        if es.1 > 0 then
          let n := if es.1 > uwrap32 (size - 18) then wrap32 (uwrap32 (size - 18)) else es.1
          let rd := url_fread es.2 n
          (some rd.2.1, n, rd.2.2)
        else (actx.extradata, 0, es.2)
      let rest := uwrap32 (size - uwrap32 ex.2.1 - 18)
      ({ actx with extradata := ex.1, extradata_size := ex.2.1 },
       if rest > 0 then url_fskip ex.2.2 rest else ex.2.2)
    else (actx, bp.2)
  ({ st with actx := r.1 }, if size % 2 ≠ 0 then url_fskip r.2 1 else r.2)

/-- Lines 276-387: the `strf` chunk. -/
def chunk_strf (h : HdrState) (size : Int) (pb : ByteIOContext) : Except Err HdrStep :=
  if h.stream_index ≥ h.s.nb_streams then
    .ok (.next { h with s := { h.s with pb := url_fskip pb size },
                        trace := h.trace ++ [.strf] })
  else
    match stream_at h.s h.stream_index with
    | .error e => .error e
    | .ok st =>
      let r : AVStream × ByteIOContext :=
        if h.codec_type = CODEC_TYPE_VIDEO then strf_video st size pb
        else if h.codec_type = CODEC_TYPE_AUDIO then strf_audio st size pb
        else
          ({ st with actx := { st.actx with codec_type := CODEC_TYPE_DATA
                                            codec_id := CODEC_ID_NONE } },
           url_fskip pb size)
      .ok (.next { h with s := { set_stream h.s h.stream_index r.1 with pb := r.2 },
                          trace := h.trace ++ [.strf] })

/-- Lines 167-393: one chunk of the header, `tag` and `size` already read. -/
def header_chunk (mem : Mem) (h : HdrState) (tag size : Int) (pb : ByteIOContext) :
    Except Err HdrStep :=
  if tag = MKTAG 76 73 83 84 then
    let tag1 := get_le32 pb
    if tag1.1 = MKTAG 109 111 118 105 then
      let movi_list := url_ftell tag1.2 - 4
      let movi_end := if size ≠ 0 then movi_list + size else url_fsize tag1.2
      .ok (.end_of_header { h with
        s := { h.s with avi := { h.s.avi with movi_list := movi_list, movi_end := movi_end },
                        pb := tag1.2 },
        trace := h.trace ++ [.movi] })
    else .ok (.next { h with s := { h.s with pb := tag1.2 }, trace := h.trace ++ [.list] })
  else if tag = MKTAG 97 118 105 104 then .ok (chunk_avih mem h size pb)
  else if tag = MKTAG 115 116 114 104 then chunk_strh h size pb
  else if tag = MKTAG 115 116 114 102 then chunk_strf h size pb
  else
    .ok (.next { h with s := { h.s with pb := url_fskip pb (uwrap32 (size + size % 2)) },
                        trace := h.trace ++ [.other] })

/-- Lines 162-394: the chunk loop.  The result `true` stands for reaching
`end_of_header`, `false` for `goto fail`. -/
def header_loop (mem : Mem) : Nat → HdrState → Except Err (Bool × HdrState)
  | 0, _ => .error .fuel
  | fuel + 1, h =>
    if url_feof h.s.pb then .ok (false, h)
    else
      let tag := get_le32 h.s.pb
      let size := get_le32 tag.2
      match header_chunk mem h tag.1 size.1 size.2 with
      | .error e => .error e
      | .ok (.next h1) => header_loop mem fuel h1
      | .ok (.fail h1) => .ok (false, h1)
      | .ok (.end_of_header h1) => .ok (true, h1)

/-- Lines 399-405: label `fail`, every stream slot is released and nulled. -/
def free_streams (s : AVFormatContext) : AVFormatContext :=
  { s with streams := s.streams.map (fun _ => none) }

/-- Lines 153-161: the state in which the chunk loop starts. -/
def header_start (s : AVFormatContext) : HdrState :=
  let r := get_riff { s.avi with stream_index_2 := -1 } s.pb
  { s := { s with avi := r.2.1, pb := r.2.2 }, stream_index := -1, codec_type := -1,
    frame_period := 0, trace := [] }

/-- Lines 407-416: the part of `avi_read_header` after the stream-count check. -/
def header_finish (fuel : Nat) (s : AVFormatContext) : Except Err (Int × AVFormatContext) :=
  match avi_load_index fuel s with
  | .error e => .error e
  | .ok s1 =>
    match guess_ni_flag s1 with
    | .error e => .error e
    | .ok g =>
      let s2 := { s1 with avi := { s1.avi with
                    non_interleaved := Int.lor s1.avi.non_interleaved g } }
      if s2.avi.non_interleaved ≠ 0 then
        match clean_index fuel s2 with
        | .error e => .error e
        | .ok s3 => .ok (0, s3)
      else .ok (0, s2)

/-- Source function `avi_read_header`: C return value and context. -/
def avi_read_header (mem : Mem) (fuel : Nat) (s : AVFormatContext) :
    Except Err (Int × AVFormatContext) :=
  if (get_riff { s.avi with stream_index_2 := -1 } s.pb).1 < 0 then
    .ok (-1, (header_start s).s)
  else
    match header_loop mem fuel (header_start s) with
    | .error e => .error e
    | .ok (false, h) => .ok (-1, free_streams h.s)
    | .ok (true, h) =>
      if h.stream_index ≠ h.s.nb_streams - 1 then .ok (-1, free_streams h.s)
      else header_finish fuel h.s

/-! ## Words of the specification, and sample inputs -/

/-- Delivery bound in the words of the specification: unbounded (`INT_MAX`) if the
sample size is at most 1, else 64 times the sample size if it is below 32, else the
sample size. -/
def delivery_bound (sample_size : Int) : Int :=
  if sample_size ≤ 1 then INT_MAX
  else if sample_size < 32 then 64 * sample_size
  else sample_size

/-- Running offset and sample size of every stream slot. -/
def clocks (s : AVFormatContext) : List (Option (Option (Int × Int))) :=
  s.streams.map (fun o => o.map (fun st =>
    st.priv_data.map (fun a => (a.frame_offset, a.sample_size))))

/-- Decoding timestamp in the words of the specification: the running offset, divided
by the sample size if it is nonzero. -/
def dts_of (c : Int × Int) : Int := if c.2 ≠ 0 then Int.tdiv c.1 c.2 else c.1

/-- One slot's running offset did not decrease, its sample size is unchanged, and the
timestamp of its next packet did not decrease. -/
def clock_le : Option (Option (Int × Int)) → Option (Option (Int × Int)) → Prop
  | some (some a), some (some b) => a.2 = b.2 ∧ a.1 ≤ b.1 ∧ dts_of a ≤ dts_of b
  | x, y => x = y

/-- The sample size recorded in a slot is not negative (empty slots pass). -/
def size_ok : Option (Option (Int × Int)) → Bool
  | some (some c) => decide (0 ≤ c.2)
  | _ => true

/-- A sequence of `avi_read_packet` calls, each with its own fuel and allocation
outcome, every call receiving the packet structure the previous one left. -/
def run_reads : List (Nat × Bool) → AVFormatContext → AVPacket →
    Except Err (AVFormatContext × AVPacket)
  | [], s, pkt => .ok (s, pkt)
  | c :: cs, s, pkt =>
    match avi_read_packet c.1 s pkt c.2 with
    | .error e => .error e
    | .ok r => run_reads cs r.2.1 r.2.2

/-- The block size in the words of the specification: the sample size doubled
repeatedly (at most `k` times) until it is at least 1024. -/
def doubled : Int → Nat → Int
  | x, 0 => x
  | x, k + 1 => if x < 1024 then doubled (x + x) k else x

/-- Ten doublings bring any positive sample size to 1024 or more. -/
def doubled_threshold (sample_size : Int) : Int := doubled sample_size 10

/-- Scenario D: one index entry at position 1000 of size 5000, sample size 2. -/
def stream_d : AVStream :=
  { actx := { zero_actx with codec_type := CODEC_TYPE_AUDIO },
    priv_data := some { zero_ast with sample_size := 2, scale := 1, rate := 44100 },
    time_base := ⟨1, 44100⟩,
    index_entries := [⟨1000, 0, 1, 5000⟩] }

/-- Tag of a padding stream. -/
def tag_pads : Int := MKTAG 112 97 100 115

/-- Weight 1 for a `strh` chunk seen (parsed or skipped) that is not a `pads` stream. -/
def strh_weight : HdrEvent → Int
  | .strh t => if t = tag_pads then 0 else 1
  | .strh_skipped t => if t = tag_pads then 0 else 1
  | _ => 0

/-- Weight 1 for a `strh` chunk that was parsed into a stream slot (accepted) and is
not a `pads` stream. -/
def accepted_weight : HdrEvent → Int
  | .strh t => if t = tag_pads then 0 else 1
  | _ => 0

/-- Weight 1 for a `pads` header met while the cursor was beyond the stream slots. -/
def skipped_pads_weight : HdrEvent → Int
  | .strh_skipped t => if t = tag_pads then 1 else 0
  | _ => 0

/-- Streams declared by an `avih` chunk (a negative count allocates none). -/
def declared_weight : HdrEvent → Int
  | .avih n => max n 0
  | _ => 0

/-- Number of `strh` chunks seen, not counting `pads` streams. -/
def strh_count (tr : List HdrEvent) : Int := (tr.map strh_weight).sum

/-- Number of accepted (parsed) `strh` chunks, not counting `pads` streams. -/
def accepted_count (tr : List HdrEvent) : Int := (tr.map accepted_weight).sum

def skipped_pads (tr : List HdrEvent) : Int := (tr.map skipped_pads_weight).sum

/-- Stream count declared by the `avih` chunks met. -/
def declared_count (tr : List HdrEvent) : Int := (tr.map declared_weight).sum

/-- What the header walk maintains: the cursor counts the `strh` chunks seen (a `pads`
header is discounted only when it was met in range), and the slots are those declared. -/
def hdr_inv (h : HdrState) : Prop :=
  h.stream_index + 1 = strh_count h.trace + skipped_pads h.trace ∧
  h.s.nb_streams = declared_count h.trace ∧
  -1 ≤ h.stream_index ∧ h.stream_index + 1 ≤ h.trace.length

/-- Keyframe bit of a packet. -/
def keyframe (pkt : AVPacket) : Prop := Int.land pkt.flags PKT_FLAG_KEY ≠ 0

/-- Little-endian encodings used to write sample files. -/
def le16 (n : Nat) : List Nat := [n % 256, n / 256 % 256]

def le32 (n : Nat) : List Nat :=
  [n % 256, n / 256 % 256, n / 65536 % 256, n / 16777216 % 256]

/-- A 56-byte `strh` chunk with stream type `t`, scale, rate and sample size. -/
def strh_bytes (t : List Nat) (scale rate ss : Nat) : List Nat :=
  [115, 116, 114, 104] ++ le32 56 ++ t ++ le32 0 ++ le32 0 ++ le16 0 ++ le16 0 ++ le32 0 ++
    le32 scale ++ le32 rate ++ le32 0 ++ le32 0 ++ le32 0 ++ le32 0 ++ le32 ss ++
    List.replicate 8 0

/-- A 40-byte video `strf` chunk (320x240, 24 bits). -/
def strf_video_bytes : List Nat :=
  [115, 116, 114, 102] ++ le32 40 ++ le32 40 ++ le32 320 ++ le32 240 ++ le16 1 ++ le16 24 ++
    le32 0 ++ List.replicate 20 0

/-- A 16-byte audio `strf` chunk. -/
def strf_audio_bytes : List Nat :=
  [115, 116, 114, 102] ++ le32 16 ++ le16 1 ++ le16 1 ++ le32 22050 ++ le32 44100 ++
    le16 2 ++ le16 16

/-- The magic `RIFF <size> AVI ` followed by an `avih` chunk declaring `n` streams with
the given header flags. -/
def riff_avih (n flags : Nat) : List Nat :=
  [82, 73, 70, 70] ++ le32 20000 ++ [65, 86, 73, 32] ++
    [97, 118, 105, 104] ++ le32 56 ++ le32 40000 ++ le32 0 ++ le32 0 ++ le32 flags ++
    le32 0 ++ le32 0 ++ le32 n ++ List.replicate 28 0

def vids : List Nat := [118, 105, 100, 115]
def auds : List Nat := [97, 117, 100, 115]
def pads : List Nat := [112, 97, 100, 115]

/-- Header of Scenario A: two streams, video with scale 1 and rate 25, audio with
sample size 2. -/
def header_a : List Nat :=
  riff_avih 2 0 ++ strh_bytes vids 1 25 0 ++ strf_video_bytes ++
    strh_bytes auds 1 44100 2 ++ strf_audio_bytes

/-- A `LIST ... movi` wrapper of declared size `size` around `body`. -/
def movi (size : Nat) (body : List Nat) : List Nat :=
  [76, 73, 83, 84] ++ le32 size ++ [109, 111, 118, 105] ++ body

/-- A data chunk `##cc` for stream `n` with class bytes `c2 c3` and a payload of `size`
bytes, padded to even length. -/
def data_chunk (n c2 c3 size : Nat) : List Nat :=
  [48 + n / 10, 48 + n % 10, c2, c3] ++ le32 size ++ List.replicate (size + size % 2) 7

def chunk_00dc (size : Nat) : List Nat := data_chunk 0 100 99 size
def chunk_01wb (size : Nat) : List Nat := data_chunk 1 119 98 size

/-- Scenario A: chunks `00dc` of 4096 bytes and `01wb` of 2048 bytes, repeating. -/
def file_a : List Nat :=
  header_a ++ movi 12324 (chunk_00dc 4096 ++ chunk_01wb 2048 ++ chunk_00dc 4096 ++
    chunk_01wb 2048)

/-- A zero-filled context over an input, as the open path creates it. -/
def fresh (bytes : List Nat) : AVFormatContext :=
  { avi := ⟨0, 0, 0, 0, 0⟩, pb := ⟨bytes, 0, false⟩, streams := [] }

/-- Every allocation succeeds. -/
def mem_ok : Mem := ⟨fun _ => true, fun _ => true⟩

/-- The context after `avi_read_header` on an input (the input context when it does not
return). -/
def opened (bytes : List Nat) : AVFormatContext :=
  match avi_read_header mem_ok 64 (fresh bytes) with
  | .ok r => r.2
  | .error _ => fresh bytes

/-- Return value of `avi_read_header` on an input. -/
def open_result (bytes : List Nat) : Except Err Int :=
  (avi_read_header mem_ok 64 (fresh bytes)).map (fun r => r.1)

/-- The return values and packets of `n` successive `avi_read_packet` calls. -/
def read_packets (mallocOk : Bool) : Nat → AVFormatContext → AVPacket →
    List (Except Err (Int × AVPacket))
  | 0, _, _ => []
  | n + 1, s, pkt =>
    match avi_read_packet 64 s pkt mallocOk with
    | .error e => [.error e]
    | .ok r => .ok (r.1, r.2.2) :: read_packets mallocOk n r.2.1 r.2.2

/-- The context after `n` successive `avi_read_packet` calls. -/
def after_reads (mallocOk : Bool) : Nat → AVFormatContext → AVPacket → AVFormatContext
  | 0, s, _ => s
  | n + 1, s, pkt =>
    match avi_read_packet 64 s pkt mallocOk with
    | .error _ => s
    | .ok r => after_reads mallocOk n r.2.1 r.2.2

/-- The packet structure after `n` successive `avi_read_packet` calls. -/
def packet_after (mallocOk : Bool) : Nat → AVFormatContext → AVPacket → AVPacket
  | 0, _, pkt => pkt
  | n + 1, s, pkt =>
    match avi_read_packet 64 s pkt mallocOk with
    | .error _ => pkt
    | .ok r => packet_after mallocOk n r.2.1 r.2.2

/-- Stream ordinal of each returned packet. -/
def ordinals (l : List (Except Err (Int × AVPacket))) : List (Except Err Int) :=
  l.map (fun x => x.map (fun r => r.2.stream_index))

/-- Decoding timestamp of each returned packet. -/
def dts_list (l : List (Except Err (Int × AVPacket))) : List (Except Err Int) :=
  l.map (fun x => x.map (fun r => r.2.dts))

/-- Return value of each call. -/
def returns (l : List (Except Err (Int × AVPacket))) : List (Except Err Int) :=
  l.map (fun x => x.map (fun r => r.1))

/-- Scenario A header, then an audio chunk of 129 bytes and one of 2 bytes. -/
def file_odd : List Nat :=
  header_a ++ movi 160 (chunk_01wb 129 ++ chunk_01wb 2)

/-- Scenario A with a first chunk whose size field is `FF FF FF FF`. -/
def file_neg : List Nat :=
  header_a ++ movi 12324 ([48, 48, 100, 99, 255, 255, 255, 255] ++ chunk_01wb 2048)

/-- Scenario D with the sample size `0x80000200` read as a C `int`. -/
def stream_neg : AVStream :=
  { actx := { zero_actx with codec_type := CODEC_TYPE_AUDIO },
    priv_data := some { zero_ast with sample_size := -2147483136, scale := 1, rate := 44100 },
    time_base := ⟨1, 44100⟩,
    index_entries := [⟨1000, 0, 1, 5000⟩] }

/-- Scenario A header, then a media list of declared size `0xFFFFFFFF` whose first
chunk `01wb` declares the size `0x7FFFFFFF`. -/
def file_big : List Nat :=
  header_a ++ movi 4294967295 ([48, 49, 119, 98] ++ le32 2147483647 ++ List.replicate 300 7)

/-- Remaining bytes and packet size of stream `n`. -/
def remaining_and_packet_size (s : AVFormatContext) (n : Nat) : Option (Int × Int) :=
  match s.streams.get? n with
  | some (some st) => st.priv_data.map (fun a => (a.remaining, a.packet_size))
  | _ => none

/-- Scenario B: the header declares 3 streams, only 2 `strh` chunks come before the
media list. -/
def file_b : List Nat :=
  riff_avih 3 0 ++ strh_bytes vids 1 25 0 ++ strf_video_bytes ++
    strh_bytes auds 1 44100 2 ++ strf_audio_bytes ++ movi 20 (chunk_00dc 8)

/-- One declared stream, one `strh` chunk, and the input ends before any media list. -/
def file_no_movi : List Nat :=
  riff_avih 1 0 ++ strh_bytes vids 1 25 0 ++ strf_video_bytes

/-- Two declared streams and three `strh` chunks before the media list. -/
def file_extra : List Nat :=
  header_a ++ strh_bytes vids 1 25 0 ++ movi 20 (chunk_00dc 8)

/-- Result of `avi_read_header` on an input with every allocation succeeding. -/
def header_result (bytes : List Nat) : Int × AVFormatContext :=
  match avi_read_header mem_ok 64 (fresh bytes) with
  | .ok r => r
  | .error _ => (-99, fresh bytes)

/-- Result of the header chunk loop on an input with every allocation succeeding. -/
def loop_result (bytes : List Nat) : Bool × HdrState :=
  match header_loop mem_ok 64 (header_start (fresh bytes)) with
  | .ok r => r
  | .error _ => (false, header_start (fresh bytes))

/-- The chunks met by the header walk on an input. -/
def header_trace (bytes : List Nat) : List HdrEvent := (loop_result bytes).2.trace

/-- The reader has not met the end of input and the bytes `bs` come next. -/
def at_bytes (pb : ByteIOContext) (bs : List Nat) : Prop :=
  pb.eof_reached = false ∧ 0 ≤ pb.pos ∧ ∃ rest, pb.buf.drop pb.pos.toNat = bs ++ rest

/-- A well-formed data chunk as it lies in the file: stream ordinal, the two class
bytes, and the payload. -/
structure Chunk where
  n : Nat
  c2 : Nat
  c3 : Nat
  payload : List Nat

/-- Wire layout of a chunk: tag, little-endian size, payload padded to even length. -/
def Chunk.encode (c : Chunk) : List Nat :=
  [48 + c.n / 10, 48 + c.n % 10, c.c2, c.c3] ++ (le32 c.payload.length ++
    (c.payload ++ if c.payload.length % 2 = 1 then [0] else []))

/-- Layout of back-to-back chunks. -/
def encode_all : List Chunk → List Nat
  | [] => []
  | c :: cs => c.encode ++ encode_all cs

/-- Sample size of every stream slot. -/
def sample_sizes (s : AVFormatContext) : List (Option (Option Int)) :=
  s.streams.map (fun o => o.map (fun st => st.priv_data.map (fun a => a.sample_size)))

/-- The chunk names a stream slot that is present, its class bytes are plain ASCII, its
size fits a C `int`, and its payload is no larger than the delivery bound of the sample
size of that stream. -/
def chunk_ok (sz : List (Option (Option Int))) (c : Chunk) : Prop :=
  c.n < 100 ∧ c.c2 < 128 ∧ c.c3 < 128 ∧
  (c.payload.length : Int) ≤ INT_MAX ∧
  ∃ ss : Int, sz.get? c.n = some (some (some ss)) ∧
    (c.payload.length : Int) ≤ delivery_bound ss

/-- Interleaved mode, no active cursor, and the reader stands at the first byte of the
back-to-back chunks `cs`, all inside the media-data region. -/
def ready (s : AVFormatContext) (cs : List Chunk) (tail : List Nat) : Prop :=
  s.avi.non_interleaved = 0 ∧ s.avi.stream_index_2 < 0 ∧
  at_bytes s.pb (encode_all cs ++ tail) ∧
  s.pb.pos + (encode_all cs).length ≤ s.avi.movi_end ∧
  ∀ c ∈ cs, chunk_ok (sample_sizes s) c

/-- Two video chunks of 32 bytes alternating with two audio chunks of 128 bytes. -/
def chunks_w : List Chunk :=
  [⟨0, 100, 99, List.replicate 32 7⟩, ⟨1, 119, 98, List.replicate 128 7⟩,
   ⟨0, 100, 99, List.replicate 32 7⟩, ⟨1, 119, 98, List.replicate 128 7⟩]

/-- Scenario A header followed by the chunks of `chunks_w`. -/
def file_w : List Nat := header_a ++ movi 356 (encode_all chunks_w)

/-- Private state of a video stream that is about to deliver its second frame. -/
def sample_ast : AVIStream :=
  { zero_ast with frame_offset := 1, remaining := 300, packet_size := 308, scale := 1,
                  rate := 25 }

/-- A video stream with a two-entry index. -/
def sample_video : AVStream :=
  { actx := { zero_actx with codec_type := CODEC_TYPE_VIDEO },
    priv_data := some sample_ast,
    time_base := ⟨1, 25⟩,
    index_entries := [⟨1000, 0, 1, 300⟩, ⟨1308, 1, 1, 300⟩] }

/-- A context whose active cursor is `sample_video`, with 400 bytes of input left. -/
def sample_ctx : AVFormatContext :=
  { avi := { riff_end := 2000, movi_list := 992, movi_end := 1616, non_interleaved := 0,
             stream_index_2 := 0 },
    pb := ⟨List.replicate 1700 5, 1316, false⟩,
    streams := [some sample_video] }

/-- A context with no active cursor whose reader stands at the end of the media data. -/
def sample_end_ctx : AVFormatContext :=
  { sample_ctx with avi := { sample_ctx.avi with stream_index_2 := -1 },
                    pb := ⟨List.replicate 1700 5, 1616, false⟩ }

/-- A packet structure as a caller hands it in before the first read. -/
def blank_packet : AVPacket :=
  { pts := 0, dts := 0, pos := 0, data := none, size := 0, stream_index := 0, flags := 0 }

/-! ## Probe (`avi_probe`) -/

/-- Probe data `AVProbeData` (`avformat.h`): the probe buffer and its declared size. -/
structure AVProbeData where
  buf : List Nat
  buf_size : Int

/-- Read of `p->buf[k]`, an `unsigned char`. -/
def probe_byte (p : AVProbeData) (k : Nat) : Except Err Int :=
  match p.buf.get? k with
  | none => .error .outOfBounds
  | some b => .ok ((b % 256 : Nat) : Int)

/-- The chain of `&&` comparisons of line 762-764: each `(k, c)` stands for
`p->buf[k] == c`, evaluated left to right until one fails. -/
def probe_match (p : AVProbeData) : List (Nat × Int) → Except Err Bool
  | [] => .ok true
  | kc :: rest =>
    match probe_byte p kc.1 with
    | .error e => .error e
    | .ok b => if b = kc.2 then probe_match p rest else .ok false

/-- Source function `avi_probe`. -/
def avi_probe (p : AVProbeData) : Except Err Int :=
  if p.buf_size ≤ 32 then .ok 0
  else
    match probe_match p [(0, 82), (1, 73), (2, 70), (3, 70), (8, 65), (9, 86), (10, 73),
        (11, 32)] with
    | .error e => .error e
    | .ok true => .ok AVPROBE_SCORE_MAX
    | .ok false => .ok 0

/-- The 12-byte magic layout in the words of the specification: bytes 0..3 are `RIFF`
and bytes 8..11 are `AVI `. -/
def magic_ok (buf : List Nat) : Prop :=
  (buf.map (· % 256)).take 4 = [82, 73, 70, 70] ∧
  ((buf.map (· % 256)).drop 8).take 4 = [65, 86, 73, 32]

instance (buf : List Nat) : Decidable (magic_ok buf) := by
  unfold magic_ok; infer_instance

/-- A 12-byte probe buffer that holds exactly the magic. -/
def probe_12 : AVProbeData :=
  { buf := [82, 73, 70, 70, 0, 0, 0, 0, 65, 86, 73, 32], buf_size := 12 }

/-- A 40-byte probe buffer that starts with the magic. -/
def probe_40 : AVProbeData :=
  { buf := [82, 73, 70, 70, 0, 0, 0, 0, 65, 86, 73, 32] ++ List.replicate 28 0,
    buf_size := 40 }

/-! ## Words of the specification for `guess_ni_flag` -/

/-- Position of the first index entry of every stream that has an index. -/
def first_positions (l : List (Option AVStream)) : List Int :=
  l.filterMap (fun o => o.bind (fun st => st.index_entries.head?.map (·.pos)))

/-- Position of the last index entry of every stream that has an index. -/
def last_positions (l : List (Option AVStream)) : List Int :=
  l.filterMap (fun o => o.bind (fun st => st.index_entries.getLast?.map (·.pos)))

/-- Every slot holds a stream and every index position is a file offset: not negative
and within `int64_t`. -/
def positions_ok (l : List (Option AVStream)) : Prop :=
  ∀ slot ∈ l, ∃ st, slot = some st ∧ ∀ e ∈ st.index_entries, 0 ≤ e.pos ∧ e.pos ≤ INT64_MAX

/-- A stream with the given index positions. -/
def stream_with (ps : List Int) : AVStream :=
  { actx := zero_actx, priv_data := some zero_ast, time_base := ⟨1, 25⟩,
    index_entries := ps.map (fun p => ⟨p, 0, 1, 100⟩) }

/-- Scenario C: every index entry of stream 0 lies before every index entry of
stream 1; a third stream has no index. -/
def ctx_c : AVFormatContext :=
  { avi := ⟨0, 0, 0, 0, -1⟩, pb := ⟨[], 0, false⟩,
    streams := [some (stream_with [1000, 2000, 3000]), some (stream_with [4000, 5000]),
      some (stream_with [])] }

/-! ## Words of the specification for the selection pass -/

/-- Normalized time of a stream: the running offset, divided by the sample size when it
is nonzero, rescaled by `1000000 * time_base.num / time_base.den`. -/
def normalized_time (st : AVStream) : Int :=
  match st.priv_data with
  | none => 0
  | some ast =>
    Int.tdiv (dts_of (ast.frame_offset, ast.sample_size) * (1000000 * st.time_base.num))
      st.time_base.den

/-- Every slot holds a stream with private data and a nonzero time-base denominator,
and its normalized time is below `INT64_MAX`. -/
def streams_timed (l : List (Option AVStream)) : Prop :=
  ∀ slot ∈ l, ∃ st ast, slot = some st ∧ st.priv_data = some ast ∧ st.time_base.den ≠ 0 ∧
    normalized_time st < INT64_MAX

/-- A stream with the given running offset, sample size, time base and index. -/
def timed_stream (fo ss num den : Int) (es : List AVIndexEntry) : AVStream :=
  { actx := zero_actx,
    priv_data := some { zero_ast with frame_offset := fo, sample_size := ss },
    time_base := ⟨num, den⟩, index_entries := es }

/-- A non-interleaved context of three streams; the second and third share the
smallest normalized time (40000). -/
def ctx_ni : AVFormatContext :=
  { avi := ⟨0, 0, 5000, 1, -1⟩, pb := ⟨List.replicate 64 0, 0, false⟩,
    streams := [some (timed_stream 2 0 1 25 []),
      some (timed_stream 3528 2 1 44100 [⟨1000, 1764, 1, 100⟩]),
      some (timed_stream 1 0 1 25 [])] }

/-! ## Sample inputs for the scanner -/

/-- A 48-byte video `strf` chunk (320x240, 8 bits) whose extradata is a palette of two
entries. -/
def strf_palette_bytes : List Nat :=
  [115, 116, 114, 102] ++ le32 48 ++ le32 40 ++ le32 320 ++ le32 240 ++ le16 1 ++ le16 8 ++
    le32 0 ++ List.replicate 20 0 ++ [1, 2, 3, 0, 4, 5, 6, 0]

/-- Header of a file with a paletted video stream and an audio stream of sample size
`ss`. -/
def header_p (ss : Nat) : List Nat :=
  riff_avih 2 0 ++ strh_bytes vids 1 25 0 ++ strf_palette_bytes ++
    strh_bytes auds 1 44100 ss ++ strf_audio_bytes

/-- A palette-change chunk `00pc` (first entry 0, one entry, RGB 10 20 30) followed by a
video chunk of 8 bytes. -/
def file_pc : List Nat :=
  header_p 2 ++ movi 36 ([48, 48, 112, 99] ++ le32 8 ++ [0, 1, 0, 0, 10, 20, 30, 0] ++
    chunk_00dc 8)

/-- The palette control block of every stream slot. -/
def palettes (s : AVFormatContext) : List (Option (Option AVPaletteControl)) :=
  s.streams.map (fun o => o.map (fun st => st.actx.palctrl))

/-- Return value, stream ordinal and payload of each returned packet. -/
def payloads (l : List (Except Err (Int × AVPacket))) :
    List (Except Err (Int × Int × Option (List Nat))) :=
  l.map (fun x => x.map (fun r => (r.1, r.2.stream_index, r.2.data)))

/-- Scenario A header and a media list of 12 bytes that holds only the header of a chunk
`01wb` declaring one byte of payload; the bytes `idx1` follow the list. -/
def file_over : List Nat :=
  header_a ++ movi 12 ([48, 49, 119, 98] ++ le32 1) ++ [105, 100, 120, 49]

/-- Audio with the odd sample size 33: a chunk `01wb` of 34 bytes, then one of 2
bytes. -/
def file_pad : List Nat :=
  header_p 33 ++ movi 56 (chunk_01wb 34 ++ chunk_01wb 2)

/-- A `JUNK` chunk of 3 bytes with its pad byte, then a video chunk of 4 bytes. -/
def file_junk : List Nat :=
  header_a ++ movi 28 ([74, 85, 78, 75] ++ le32 3 ++ [9, 9, 9, 0] ++ chunk_00dc 4)

/-- Outcome of one scanner run from the current position: the `goto resync` flag, the
active cursor, the reader position and end-of-input flag. -/
def scan_from (s : AVFormatContext) : Except Err (Bool × Int × Int × Bool) :=
  (scan 64 s Win.init (url_ftell s.pb) (url_ftell s.pb)).map
    (fun r => (r.1, r.2.avi.stream_index_2, r.2.pb.pos, r.2.pb.eof_reached))

/-- Position and size of each returned packet. -/
def extents (l : List (Except Err (Int × AVPacket))) : List (Except Err (Int × Int)) :=
  l.map (fun x => x.map (fun r => (r.2.pos, r.2.size)))

/-- Six video chunks `00dc` of 2 bytes, then a chunk `00db` of 2 bytes. -/
def file_db : List Nat :=
  header_a ++ movi 74 (chunk_00dc 2 ++ chunk_00dc 2 ++ chunk_00dc 2 ++ chunk_00dc 2 ++
    chunk_00dc 2 ++ chunk_00dc 2 ++ data_chunk 0 100 98 2)

/-- Remembered class code and match counter of stream `n`. -/
def prefix_state (s : AVFormatContext) (n : Nat) : Option (Int × Int) :=
  match s.streams.get? n with
  | some (some st) => st.priv_data.map (fun a => (a.prefix_code, a.prefix_count))
  | _ => none

/-- The window names an index-reference chunk `ix##` of an in-range stream or a `JUNK`
chunk (lines 568-569). -/
def skip_tag (s : AVFormatContext) (w : Win) : Prop :=
  (w.d0 = 105 ∧ w.d1 = 120 ∧ stream_no w.d2 w.d3 < s.nb_streams) ∨
  (w.d0 = 74 ∧ w.d1 = 85 ∧ w.d2 = 78 ∧ w.d3 = 75)

instance (s : AVFormatContext) (w : Win) : Decidable (skip_tag s w) := by
  unfold skip_tag; infer_instance

/-- The acceptance rule in the words of the corrected specification: the match counter
is below 5 or the window ends fewer than 9 bytes after the start of the scan, and both
class bytes are plain ASCII; or the class code is the remembered one. -/
def accept_rule (ast : AVIStream) (w : Win) (i sync : Int) : Prop :=
  ((ast.prefix_count < 5 ∨ i < sync + 9) ∧ w.d2 < 128 ∧ w.d3 < 128) ∨
  w.d2 * 256 + w.d3 = ast.prefix_code

instance (ast : AVIStream) (w : Win) (i sync : Int) : Decidable (accept_rule ast w i sync) := by
  unfold accept_rule; infer_instance

/-- A context whose reader stands at the last header byte of a `JUNK` chunk of 3
bytes. -/
def junk_ctx : AVFormatContext :=
  { avi := { riff_end := 2000, movi_list := 0, movi_end := 64, non_interleaved := 0,
             stream_index_2 := -1 },
    pb := ⟨[74, 85, 78, 75, 3, 0, 0, 0, 9, 9, 9, 0, 48, 48, 100, 99], 7, false⟩,
    streams := [some sample_video] }

/-- The scanner window before the last header byte of the `JUNK` chunk is read. -/
def junk_win : Win := ⟨-1, 74, 85, 78, 75, 3, 0, 0⟩

/-- Private state of a stream that has seen the class `dc` six times. -/
def db_ast : AVIStream := { sample_ast with prefix_code := 25699, prefix_count := 5 }

def db_video : AVStream := { sample_video with priv_data := some db_ast }

/-- A context whose reader stands at the last header byte of a chunk `00db` of 4
bytes. -/
def db_ctx : AVFormatContext :=
  { avi := { riff_end := 2000, movi_list := 0, movi_end := 64, non_interleaved := 0,
             stream_index_2 := -1 },
    pb := ⟨[48, 48, 100, 98, 4, 0, 0, 0, 9, 9, 9, 9, 48, 48, 100, 99], 7, false⟩,
    streams := [some db_video] }

/-- The reader of `db_ctx` after one more byte. -/
def db_pb : ByteIOContext := { db_ctx.pb with pos := 8 }

/-- The scanner window before the last header byte of the chunk `00db` is read. -/
def db_win : Win := ⟨-1, 48, 48, 100, 98, 4, 0, 0⟩

/-! ## Records of an `idx1` chunk -/

/-- One 16-byte record of an `idx1` chunk as it lies in the file: chunk tag, flags, raw
position and length, each an unsigned 32-bit field. -/
structure Idx1Rec where
  tag : Nat
  flags : Nat
  pos : Nat
  len : Nat
deriving DecidableEq

/-- Wire layout of a record. -/
def Idx1Rec.encode (r : Idx1Rec) : List Nat :=
  le32 r.tag ++ (le32 r.flags ++ (le32 r.pos ++ le32 r.len))

/-- Layout of back-to-back records. -/
def encode_recs : List Idx1Rec → List Nat
  | [] => []
  | r :: rs => r.encode ++ encode_recs rs

/-- Every field of the record fits 32 bits. -/
def Idx1Rec.fits (r : Idx1Rec) : Prop :=
  r.tag < 4294967296 ∧ r.flags < 4294967296 ∧ r.pos < 4294967296 ∧ r.len < 4294967296

instance (r : Idx1Rec) : Decidable r.fits := by
  unfold Idx1Rec.fits; infer_instance

/-- The offset that the load adds to every raw position: 0 when the raw position of the
first record exceeds the media-data start offset, that offset otherwise. -/
def idx1_base (movi_list : Int) (recs : List Idx1Rec) : Int :=
  match recs with
  | [] => movi_list
  | r0 :: _ => if (r0.pos : Int) > movi_list then 0 else movi_list

/-- Resolved position of a record: raw position plus the base, in 32-bit unsigned
arithmetic. -/
def resolved (base : Int) (r : Idx1Rec) : Int := uwrap32 (r.pos + base)

/-- Stream ordinal named by the tag of a record (lines 667-668, unsigned). -/
def rec_stream (r : Idx1Rec) : Int :=
  uwrap32 (uwrap32 (((r.tag : Int) % 256 - 48) * 10) + ((r.tag : Int) / 256 % 256 - 48))

/-- Every slot holds a stream with private data. -/
def streams_ok (l : List (Option AVStream)) : Prop :=
  ∀ slot ∈ l, ∃ st ast, slot = some st ∧ st.priv_data = some ast

/-- Every index entry of `l1` is an entry of the same stream in `l0` or carries the
resolved position of a record of `recs` that names the stream. -/
def entries_from (base : Int) (recs : List Idx1Rec) (l0 l1 : List (Option AVStream)) :
    Prop :=
  l1.length = l0.length ∧
  ∀ k st1, l1.get? k = some (some st1) →
    ∃ st, l0.get? k = some (some st) ∧ ∀ e ∈ st1.index_entries,
      e ∈ st.index_entries ∨ ∃ r ∈ recs, rec_stream r = k ∧ e.pos = resolved base r

/-- The tag `##cc` of stream `n` with class bytes `c2 c3`, as a 32-bit number. -/
def tag_of (n c2 c3 : Nat) : Nat :=
  (48 + n / 10) + (48 + n % 10) * 256 + c2 * 65536 + c3 * 16777216

/-- A context of two streams without index whose reader stands at the records `recs`
of an `idx1` chunk; `movi_list` is the media-data start offset. -/
def idx_ctx (movi_list : Int) (recs : List Idx1Rec) : AVFormatContext :=
  { avi := ⟨0, movi_list, 0, 0, -1⟩, pb := ⟨encode_recs recs, 0, false⟩,
    streams := [some (stream_with []), some (stream_with [])] }

/-- Index positions of every stream. -/
def positions (s : AVFormatContext) : List (List Int) :=
  s.streams.map (fun o => (o.map (fun st => st.index_entries.map (·.pos))).getD [])

/-- Two records of stream 0 with raw positions 4 and 5000. -/
def recs_rel : List Idx1Rec := [⟨tag_of 0 100 99, 16, 4, 100⟩, ⟨tag_of 0 100 99, 16, 5000, 100⟩]

/-- Two records of stream 0 with raw positions 4 and `0xFFFFFFFF`. -/
def recs_wrap : List Idx1Rec :=
  [⟨tag_of 0 100 99, 16, 4, 100⟩, ⟨tag_of 0 100 99, 16, 4294967295, 100⟩]

/-! ## Words of the specification for the index order -/

/-- The entries are in non-decreasing byte-position order. -/
def pos_sorted (es : List AVIndexEntry) : Prop := es.Pairwise (fun a b => a.pos ≤ b.pos)

instance (es : List AVIndexEntry) : Decidable (pos_sorted es) := by
  unfold pos_sorted; infer_instance

/-- The entries are in strictly increasing timestamp order. -/
def ts_sorted (es : List AVIndexEntry) : Prop :=
  es.Pairwise (fun a b => a.timestamp < b.timestamp)

/-- State of the streams while an `idx1` chunk is loaded: every slot holds a stream with
private data and a sample size that is not negative; its index is ordered by timestamp
and by position, no timestamp exceeds the running `cum_len`, no position exceeds `L`,
and every size fits the 30-bit field. -/
def idx_inv (L : Int) (l : List (Option AVStream)) : Prop :=
  ∀ slot ∈ l, ∃ st ast, slot = some st ∧ st.priv_data = some ast ∧
    0 ≤ ast.sample_size ∧ ast.sample_size ≤ INT_MAX ∧
    ts_sorted st.index_entries ∧ pos_sorted st.index_entries ∧
    ∀ e ∈ st.index_entries, e.timestamp ≤ ast.cum_len ∧ e.pos ≤ L ∧ e.size < 536870912

/-- Streams as the header leaves them: private data present, sample size not negative,
no index yet. -/
def unindexed (l : List (Option AVStream)) : Prop :=
  ∀ slot ∈ l, ∃ st ast, slot = some st ∧ st.priv_data = some ast ∧
    0 ≤ ast.sample_size ∧ ast.sample_size ≤ INT_MAX ∧ st.index_entries = []

/-- The index of every stream is in non-decreasing byte-position order. -/
def all_pos_sorted (l : List (Option AVStream)) : Prop :=
  ∀ slot ∈ l, ∀ st, slot = some st → pos_sorted st.index_entries

/-- Two records of stream 0 with raw positions 3000 and 2500. -/
def recs_down : List Idx1Rec :=
  [⟨tag_of 0 100 99, 16, 3000, 100⟩, ⟨tag_of 0 100 99, 16, 2500, 100⟩]

/-- A stream of sample size 2 and one of sample size 0, neither with an index. -/
def idx_ctx2 (movi_list : Int) (recs : List Idx1Rec) : AVFormatContext :=
  { avi := ⟨0, movi_list, 0, 0, -1⟩, pb := ⟨encode_recs recs, 0, false⟩,
    streams := [some { stream_with [] with priv_data := some { zero_ast with sample_size := 2 } },
      some (stream_with [])] }

/-- One record of 5000 bytes for stream 0, then two records for stream 1. -/
def recs_up : List Idx1Rec :=
  [⟨tag_of 0 119 98, 16, 4, 5000⟩, ⟨tag_of 1 100 99, 16, 5012, 100⟩,
   ⟨tag_of 1 100 99, 16, 5120, 100⟩]

/-- A stream whose sample size `0xFFC00040` is negative as a C `int`, with one index
entry of 4259776 bytes at position 1000. -/
def stream_m : AVStream :=
  { stream_with [] with priv_data := some { zero_ast with sample_size := -4194240 },
                        index_entries := [⟨1000, 0, 1, 4259776⟩] }

/-! ## Sample inputs for the header walk and the scanner, continued -/

/-- An audio `strf` chunk of declared size 17: the 16 fixed bytes, then the bytes that
follow the chunk: an extra-data length of 4 and the bytes 1 2 3 4. -/
def strf_17_body : List Nat :=
  le16 1 ++ le16 1 ++ le32 22050 ++ le32 44100 ++ le16 2 ++ le16 16 ++ le16 4 ++
    [1, 2, 3, 4] ++ List.replicate 8 9

/-- A zero-filled stream descriptor with private data. -/
def plain_stream : AVStream :=
  { actx := zero_actx, priv_data := some zero_ast, time_base := ⟨0, 0⟩, index_entries := [] }

/-- Extra data and its length as `strf_audio` leaves them, with the reader position. -/
def audio_extra (size : Int) (body : List Nat) : Option (List Nat) × Int × Int :=
  let r := strf_audio plain_stream size ⟨body, 0, false⟩
  (r.1.actx.extradata, r.1.actx.extradata_size, r.2.pos)

/-- An `avih` chunk declaring one stream, then a `strf` chunk before any `strh`. -/
def file_strf_first : List Nat :=
  riff_avih 1 0 ++ strf_video_bytes ++ strh_bytes vids 1 25 0 ++ movi 20 (chunk_00dc 8)

/-- An `avih` chunk declaring one stream, a `pads` stream header, then a `strf`
chunk. -/
def file_pads_strf : List Nat :=
  riff_avih 1 0 ++ strh_bytes pads 1 25 0 ++ strf_video_bytes ++ strh_bytes vids 1 25 0 ++
    movi 20 (chunk_00dc 8)

/-- An `avih` chunk declaring no stream, with the flag `AVIF_MUSTUSEINDEX`, then the
media list. -/
def file_zero : List Nat := riff_avih 0 32 ++ movi 20 (chunk_00dc 8)

/-- Six video chunks, two stray bytes, a palette-change chunk `00pc` with first entry
`first` and `clr` entries of which two are given, and a last video chunk. -/
def file_pal (first clr : Nat) : List Nat :=
  header_p 2 ++ movi 98 (chunk_00dc 2 ++ chunk_00dc 2 ++ chunk_00dc 2 ++ chunk_00dc 2 ++
    chunk_00dc 2 ++ chunk_00dc 2 ++ [0, 0] ++
    ([48, 48, 112, 99] ++ le32 12 ++ [first, clr, 0, 0, 10, 20, 30, 0, 40, 50, 60, 0]) ++
    chunk_00dc 2)

/-- Palette words `k` and `k + 1` of stream 0 with its change flag. -/
def palette_at (s : AVFormatContext) (k : Nat) : Option (Int × List Int) :=
  match s.streams.get? 0 with
  | some (some st) => st.actx.palctrl.map (fun p => (p.palette_changed, (p.palette.drop k).take 2))
  | _ => none

/-- A stream whose sample size `0xFFFFFFFF` is -1 as a C `int`, with one index entry. -/
def stream_minus_one : AVStream :=
  { actx := { zero_actx with codec_type := CODEC_TYPE_AUDIO },
    priv_data := some { zero_ast with sample_size := -1, scale := 1, rate := 44100 },
    time_base := ⟨1, 44100⟩,
    index_entries := [⟨1000, 0, 1, 5000⟩] }

/-- Header with the flag `AVIF_MUSTUSEINDEX` and an audio stream whose `strh` chunk
declares the sample size `0xFFFFFFFF`. -/
def header_m : List Nat :=
  riff_avih 2 32 ++ strh_bytes vids 1 25 0 ++ strf_video_bytes ++
    strh_bytes auds 1 44100 4294967295 ++ strf_audio_bytes

/-- The header `header_m`, a media list with one audio chunk, and an `idx1` chunk with
one record for stream 1. -/
def file_m : List Nat :=
  header_m ++ movi 20 (chunk_01wb 8) ++
    ([105, 100, 120, 49] ++ le32 16 ++ (⟨tag_of 1 119 98, 16, 4, 8⟩ : Idx1Rec).encode)

/-- The context on which `avi_read_header` calls `clean_index`: after the chunk walk,
`avi_load_index` and `guess_ni_flag`. -/
def before_clean (bytes : List Nat) : Except Err AVFormatContext :=
  match header_loop mem_ok 64 (header_start (fresh bytes)) with
  | .error e => .error e
  | .ok r =>
    match avi_load_index 64 r.2.s with
    | .error e => .error e
    | .ok s1 =>
      match guess_ni_flag s1 with
      | .error e => .error e
      | .ok g => .ok { s1 with avi := { s1.avi with
                         non_interleaved := Int.lor s1.avi.non_interleaved g } }

/-- Sample size and index sizes of every stream. -/
def index_summary (s : AVFormatContext) : List (Option (Int × List Int)) :=
  s.streams.map (fun o => o.bind (fun st =>
    st.priv_data.map (fun a => (a.sample_size, st.index_entries.map (·.size)))))

/-! ## Words of the specification for the stream header -/

/-- The state in which an iteration of the header loop ends. -/
def HdrStep.state : HdrStep → HdrState
  | .next h => h
  | .fail h => h
  | .end_of_header h => h

/-- The (scale, rate) pair declared by a `strh` chunk whose body starts at the reader:
the two 32-bit fields that follow the type, the handler and 12 more bytes. -/
def declared_scale_rate (pb : ByteIOContext) : Int × Int :=
  let f := read_strh (get_le32 (get_le32 pb).2).2
  (f.1.scale, f.1.rate)

/-- A header state after an `avih` chunk that declared one stream and the frame period
40000; the reader stands at the body of a video `strh` chunk that declares scale 0 and
rate 0. -/
def strh_state : HdrState :=
  { s := { avi := ⟨0, 0, 0, 0, -1⟩, pb := ⟨(strh_bytes vids 0 0 0).drop 8, 0, false⟩,
           streams := [some plain_stream] },
    stream_index := -1, codec_type := -1, frame_period := 40000, trace := [] }

/-! ## Words of the specification for the split pass -/

/-- The run of entries of the specification: entry `k` has position `P + k * B`,
timestamp `T + k * (B / s)`, the keyframe flag, and size `min B (S - k * B)`. -/
def run_entries (P T S B s : Int) (n : Nat) : List AVIndexEntry :=
  (List.range n).map (fun (k : Nat) =>
    { pos := P + (k : Int) * B, timestamp := T + (k : Int) * (B / s),
      flags := AVINDEX_KEYFRAME, size := min B (S - (k : Int) * B) })

/-- The number of blocks of `B` bytes that cover `S` bytes: `S / B` rounded up. -/
def block_count (S B : Int) : Nat := ((S + B - 1) / B).toNat

/-- A stream of sample size 2 whose one index entry has size 0 and no keyframe flag. -/
def stream_empty_entry : AVStream :=
  { stream_d with index_entries := [⟨1000, 0, 0, 0⟩] }

/-! ## Words of the specification for duplicate positions -/

/-- Index entries of stream `n` (none for a missing stream). -/
def index_at (s : AVFormatContext) (n : Int) : List AVIndexEntry :=
  match stream_at s n with
  | .ok st => st.index_entries
  | .error _ => []

/-- Keyframe flag of the entry made from the flags of a record (line 679). -/
def rec_flags (r : Idx1Rec) : Int :=
  if Int.land r.flags AVIIF_INDEX ≠ 0 then AVINDEX_KEYFRAME else 0

/-- The non-interleaved flag and the index positions of every stream. -/
def flag_and_positions (s : AVFormatContext) : Int × List (List Int) :=
  (s.avi.non_interleaved, positions s)

/-- A record of stream 0 at 5000, a record naming the absent stream 7 at 6000, and a
record of stream 1 at 5000. -/
def recs_gap : List Idx1Rec :=
  [⟨tag_of 0 100 99, 16, 5000, 100⟩, ⟨tag_of 7 100 99, 16, 6000, 100⟩,
   ⟨tag_of 1 119 98, 16, 5000, 100⟩]

/-- A record naming the absent stream 7 at 5000, then a record of stream 0 at 5000. -/
def recs_absent_first : List Idx1Rec :=
  [⟨tag_of 7 100 99, 16, 5000, 100⟩, ⟨tag_of 0 100 99, 16, 5000, 100⟩]

/-- A record of stream 0 at 5000, then a record of stream 1 at 5000. -/
def recs_same : List Idx1Rec :=
  [⟨tag_of 0 100 99, 16, 5000, 100⟩, ⟨tag_of 1 119 98, 16, 5000, 100⟩]

/-- The loop state of `avi_read_idx1` after the first record of `recs_same`. -/
def same_state : Idx1State :=
  match idx1_record { s := idx_ctx 8 recs_same, last_pos := 4294967295 } 0 with
  | .ok h => h
  | .error _ => { s := idx_ctx 8 recs_same, last_pos := 4294967295 }

/-! ## Words of the specification for the codec tag lookup -/

/-- Tag `t` with each of its four bytes upper-cased. -/
def upper_tag (t : Int) : Int :=
  toupper (tag_byte t 0) + toupper (tag_byte t 1) * 256 + toupper (tag_byte t 2) * 65536 +
    toupper (tag_byte t 3) * 16777216

/-- Two bytes are the same up to the case of an ASCII letter: they are equal, or one is
a lower-case letter and the other is its upper-case form. -/
def same_letter (a b : Int) : Prop :=
  a = b ∨ (97 ≤ a ∧ a ≤ 122 ∧ b = a - 32) ∨ (97 ≤ b ∧ b ≤ 122 ∧ a = b - 32)

instance (a b : Int) : Decidable (same_letter a b) := by
  unfold same_letter; infer_instance

/-- Tags `t` and `u` agree byte by byte up to the case of letters. -/
def tag_matches (t u : Int) : Prop :=
  same_letter (tag_byte t 0) (tag_byte u 0) ∧ same_letter (tag_byte t 1) (tag_byte u 1) ∧
    same_letter (tag_byte t 2) (tag_byte u 2) ∧ same_letter (tag_byte t 3) (tag_byte u 3)

instance (t u : Int) : Decidable (tag_matches t u) := by
  unfold tag_matches; infer_instance

/-- The id of the first entry of `table` whose tag matches `t` up to case, and
`CODEC_ID_NONE` when no entry matches. -/
def first_match_id (table : List CodecTag) (t : Int) : Int :=
  match table.find? (fun e => decide (tag_matches t e.tag)) with
  | some e => e.id
  | none => CODEC_ID_NONE

/-! ## Preconditions under which `avi_read_header` returns -/

/-- Every slot holds a stream with private data, an empty index, and a sample size that
fits a C `int`: the state of the slots during the header walk. -/
def slots_fresh (l : List (Option AVStream)) : Prop :=
  ∀ slot ∈ l, ∃ st ast, slot = some st ∧ st.priv_data = some ast ∧
    st.index_entries = [] ∧ ast.sample_size ≤ INT_MAX

/-- Every slot holds a stream with private data, a sample size between 0 and `INT_MAX`,
and index entries whose sizes fit the 30-bit field. -/
def slots_ready (l : List (Option AVStream)) : Prop :=
  ∀ slot ∈ l, ∃ st ast, slot = some st ∧ st.priv_data = some ast ∧
    0 ≤ ast.sample_size ∧ ast.sample_size ≤ INT_MAX ∧
    ∀ e ∈ st.index_entries, e.size < 536870912

/-- Bound on the iterations the chunk loop of `avi_load_index` can still make: none once
the end of input was met, else the bytes left to read plus one. -/
def reader_measure (pb : ByteIOContext) : Nat :=
  if pb.eof_reached then 0 else (avail pb).toNat + 1

/-- The sample size kept for the stream of a slot is not negative as a C `int`. -/
def sample_nonneg : Option AVStream → Prop
  | some st =>
    match st.priv_data with
    | some ast => 0 ≤ ast.sample_size
    | none => True
  | none => True

instance (slot : Option AVStream) : Decidable (sample_nonneg slot) := by
  unfold sample_nonneg
  split
  · split <;> infer_instance
  · infer_instance

/-- A header with the flag `AVIF_MUSTUSEINDEX`, a video stream and an audio stream of
sample size 2, a media list with one audio chunk, and an `idx1` chunk with one record of
5000 bytes for stream 1. -/
def file_idx : List Nat :=
  riff_avih 2 32 ++ strh_bytes vids 1 25 0 ++ strf_video_bytes ++
    strh_bytes auds 1 44100 2 ++ strf_audio_bytes ++ movi 20 (chunk_01wb 8) ++
    ([105, 100, 120, 49] ++ le32 16 ++ (⟨tag_of 1 119 98, 16, 4, 5000⟩ : Idx1Rec).encode)

/-! # Properties -/

/-! ## Timestamp search stays inside the index -/

theorem last_idx_bounds (p : AVIndexEntry → Bool) (es : List AVIndexEntry) :
    ∀ k best : Int, last_idx p es k best = best ∨
      (k ≤ last_idx p es k best ∧ last_idx p es k best < k + es.length) := by
  induction es with
  | nil => intro k best; left; rfl
  | cons e es ih =>
    intro k best
    simp only [last_idx, List.length_cons]
    rcases ih (k + 1) (if p e = true then k else best) with h | h
    · rw [h]
      by_cases hp : p e = true
      · right; simp only [hp, if_true]; push_cast; omega
      · left; simp [hp]
    · right; push_cast; omega

theorem search_ge_bounds (es : List AVIndexEntry) (t : Int) :
    0 ≤ search_ge es t ∧ search_ge es t ≤ es.length := by
  unfold search_ge
  have := @List.findIdx_le_length _ (fun e : AVIndexEntry => decide (t ≤ e.timestamp)) es
  omega

theorem key_fwd_bounds (es : List AVIndexEntry) (m : Int) (h0 : 0 ≤ m)
    (h1 : m ≤ es.length) : 0 ≤ key_fwd es m ∧ key_fwd es m ≤ es.length := by
  unfold key_fwd
  have h := @List.findIdx_le_length _ is_key (es.drop m.toNat)
  rw [List.length_drop] at h
  omega

theorem key_bwd_bounds (es : List AVIndexEntry) (m : Int) (h0 : -1 ≤ m)
    (h1 : m < es.length) : -1 ≤ key_bwd es m ∧ key_bwd es m < es.length := by
  unfold key_bwd
  split
  · omega
  · rcases last_idx_bounds is_key (es.take (m.toNat + 1)) 0 (-1) with h | h
    · rw [h]; omega
    · rw [List.length_take] at h
      omega

/-- The search returns -1 or the index of an entry. -/
theorem search_bounds (st : AVStream) (wanted flags : Int) :
    -1 ≤ av_index_search_timestamp st wanted flags ∧
      av_index_search_timestamp st wanted flags < st.index_entries.length := by
  have hle : -1 ≤ search_le st.index_entries wanted ∧
      search_le st.index_entries wanted < st.index_entries.length := by
    unfold search_le
    rcases last_idx_bounds (fun e => decide (e.timestamp ≤ wanted)) st.index_entries 0 (-1)
      with h | h
    · rw [h]; omega
    · omega
  have hge := search_ge_bounds st.index_entries wanted
  have hkb := key_bwd_bounds st.index_entries _ hle.1 hle.2
  have hkf := key_fwd_bounds st.index_entries _ hge.1 hge.2
  unfold av_index_search_timestamp
  simp only
  split_ifs <;> omega

theorem entry_at_ok (st : AVStream) (i : Int) (h0 : 0 ≤ i)
    (h1 : i < st.index_entries.length) : ∃ e, entry_at st i = .ok e := by
  unfold entry_at AVStream.nb_index_entries
  have hlt : i.toNat < st.index_entries.length := by omega
  rw [if_neg (by omega)]
  rw [List.get?_eq_get hlt]
  exact ⟨_, rfl⟩

theorem key_flags_ok (st : AVStream) (ast : AVIStream) (dts flags : Int) :
    ∃ fl, key_flags st ast dts flags = .ok fl := by
  have hb := search_bounds st dts 0
  simp only [key_flags]
  split_ifs with h1 h2 h3
  · obtain ⟨e, he⟩ := entry_at_ok st _ h3 hb.2
    rw [he]
    simp only
    split_ifs <;> exact ⟨_, rfl⟩
  · exact ⟨_, rfl⟩
  · exact ⟨_, rfl⟩
  · exact ⟨_, rfl⟩

/-- A buffer that `av_get_packet` does allocate starts with cleared flags. -/
theorem av_get_packet_flags (pb : ByteIOContext) (pkt : AVPacket) (size : Int)
    (mallocOk : Bool) (h : (av_get_packet pb pkt size mallocOk).1 ≠ AVERROR_NOMEM) :
    (av_get_packet pb pkt size mallocOk).2.2.flags = 0 := by
  simp only [av_get_packet] at h ⊢
  split_ifs at h ⊢ <;> first | rfl | exact absurd rfl h

/-! ## Delivery from the active cursor -/

/-- The delivery step always returns, and its packet is the one `av_get_packet` produced
for `request_size` bytes, stamped with the timestamp, the ordinal and the flags. -/
theorem deliver_spec (s : AVFormatContext) (pkt : AVPacket) (mallocOk : Bool)
    (st : AVStream) (ast : AVIStream)
    (hst : stream_at s s.avi.stream_index_2 = .ok st) (hast : priv_of st = .ok ast) :
    ∃ r fl, deliver s pkt mallocOk = .ok r ∧
      key_flags st ast (packet_dts ast)
        (av_get_packet s.pb pkt (request_size ast) mallocOk).2.2.flags = .ok fl ∧
      r.2.2 = { (av_get_packet s.pb pkt (request_size ast) mallocOk).2.2 with
                dts := packet_dts ast, stream_index := s.avi.stream_index_2, flags := fl } := by
  obtain ⟨fl, hfl⟩ := key_flags_ok st ast (packet_dts ast)
    (av_get_packet s.pb pkt (request_size ast) mallocOk).2.2.flags
  simp only [deliver, hst, hast, hfl]
  split_ifs <;> exact ⟨_, fl, rfl, rfl, rfl⟩

theorem request_size_eq (ast : AVIStream) :
    request_size ast = min ast.remaining (delivery_bound ast.sample_size) := by
  simp only [request_size, delivery_bound]
  split_ifs <;> omega

/-- C7: every delivery from the active cursor returns, and the bytes it requests for the
packet are min(remaining, bound), where bound is `INT_MAX` for a sample size of at most
1, 64 times the sample size below 32, and the sample size otherwise; the request never
exceeds the bytes remaining in the chunk. -/
theorem request_is_min_remaining_bound (s : AVFormatContext) (pkt : AVPacket)
    (mallocOk : Bool) (st : AVStream) (ast : AVIStream)
    (hst : stream_at s s.avi.stream_index_2 = .ok st) (hast : priv_of st = .ok ast) :
    ∃ r, deliver s pkt mallocOk = .ok r ∧
      r.2.2.data = (av_get_packet s.pb pkt
        (min ast.remaining (delivery_bound ast.sample_size)) mallocOk).2.2.data ∧
      r.2.2.size = (av_get_packet s.pb pkt
        (min ast.remaining (delivery_bound ast.sample_size)) mallocOk).2.2.size ∧
      request_size ast = min ast.remaining (delivery_bound ast.sample_size) ∧
      min ast.remaining (delivery_bound ast.sample_size) ≤ ast.remaining := by
  obtain ⟨r, fl, hr, -, hp⟩ := deliver_spec s pkt mallocOk st ast hst hast
  rw [request_size_eq] at hp
  refine ⟨r, hr, ?_, ?_, request_size_eq ast, min_le_left _ _⟩
  · rw [hp]
  · rw [hp]

theorem request_is_min_remaining_bound_witness :
    stream_at sample_ctx sample_ctx.avi.stream_index_2 = .ok sample_video ∧
    ∃ r, deliver sample_ctx blank_packet true = .ok r ∧
      r.2.2.data = (av_get_packet sample_ctx.pb blank_packet
        (min sample_ast.remaining (delivery_bound sample_ast.sample_size)) true).2.2.data ∧
      r.2.2.size = (av_get_packet sample_ctx.pb blank_packet
        (min sample_ast.remaining (delivery_bound sample_ast.sample_size)) true).2.2.size ∧
      request_size sample_ast =
        min sample_ast.remaining (delivery_bound sample_ast.sample_size) ∧
      min sample_ast.remaining (delivery_bound sample_ast.sample_size) ≤
        sample_ast.remaining :=
  ⟨by decide!, request_is_min_remaining_bound sample_ctx blank_packet true sample_video
    sample_ast rfl rfl⟩

/-- C8: for every packet delivered (its buffer was allocated), the keyframe flag is set
if the stream is not video; it is set if the stream is video and has no index entries;
and if the stream is video with an index, it is set iff the timestamp search at the
packet's dts finds an entry whose timestamp equals the stream's running offset and that
entry carries the keyframe bit. -/
theorem keyframe_flag_rule (s : AVFormatContext) (pkt : AVPacket) (mallocOk : Bool)
    (st : AVStream) (ast : AVIStream)
    (hst : stream_at s s.avi.stream_index_2 = .ok st) (hast : priv_of st = .ok ast)
    (halloc : (av_get_packet s.pb pkt (request_size ast) mallocOk).1 ≠ AVERROR_NOMEM) :
    ∃ r, deliver s pkt mallocOk = .ok r ∧
      (st.actx.codec_type ≠ CODEC_TYPE_VIDEO → keyframe r.2.2) ∧
      (st.actx.codec_type = CODEC_TYPE_VIDEO → st.index_entries = [] → keyframe r.2.2) ∧
      (st.actx.codec_type = CODEC_TYPE_VIDEO → st.index_entries ≠ [] →
        (keyframe r.2.2 ↔
          ∃ e, 0 ≤ av_index_search_timestamp st r.2.2.dts 0 ∧
            entry_at st (av_index_search_timestamp st r.2.2.dts 0) = .ok e ∧
            e.timestamp = ast.frame_offset ∧ Int.land e.flags AVINDEX_KEYFRAME ≠ 0)) := by
  obtain ⟨r, fl, hr, hfl, hp⟩ := deliver_spec s pkt mallocOk st ast hst hast
  rw [av_get_packet_flags _ _ _ _ halloc] at hfl
  have hflags : r.2.2.flags = fl := by rw [hp]
  have hdts : r.2.2.dts = packet_dts ast := by rw [hp]
  have hone : Int.land (Int.lor 0 PKT_FLAG_KEY) PKT_FLAG_KEY ≠ 0 := by decide
  have hzero : ¬ Int.land 0 PKT_FLAG_KEY ≠ 0 := by decide
  refine ⟨r, hr, ?_, ?_, ?_⟩
  · intro hv
    simp only [key_flags, if_neg hv, Except.ok.injEq] at hfl
    simp only [keyframe, hflags, ← hfl]
    exact hone
  · intro hv he
    simp only [key_flags, if_pos hv, he, ne_eq, not_true_eq_false, if_false,
      Except.ok.injEq] at hfl
    simp only [keyframe, hflags, ← hfl]
    exact hone
  · intro hv he
    simp only [key_flags, if_pos hv, if_pos he] at hfl
    rw [hdts]
    simp only [keyframe, hflags]
    by_cases hi : av_index_search_timestamp st (packet_dts ast) 0 ≥ 0
    · rw [if_pos hi] at hfl
      obtain ⟨e, hee⟩ := entry_at_ok st _ hi (search_bounds st _ 0).2
      rw [hee] at hfl
      simp only at hfl
      constructor
      · intro hk
        refine ⟨e, hi, hee, ?_⟩
        by_cases ht : e.timestamp = ast.frame_offset
        · rw [if_pos ht] at hfl
          by_cases hb : Int.land e.flags AVINDEX_KEYFRAME ≠ 0
          · exact ⟨ht, hb⟩
          · rw [if_neg hb, Except.ok.injEq] at hfl
            rw [← hfl] at hk
            exact absurd hk hzero
        · rw [if_neg ht, Except.ok.injEq] at hfl
          rw [← hfl] at hk
          exact absurd hk hzero
      · rintro ⟨e2, -, he2, ht, hb⟩
        rw [hee, Except.ok.injEq] at he2
        subst he2
        rw [if_pos ht, if_pos hb, Except.ok.injEq] at hfl
        rw [← hfl]
        exact hone
    · rw [if_neg hi, Except.ok.injEq] at hfl
      constructor
      · intro hk
        rw [← hfl] at hk
        exact absurd hk hzero
      · rintro ⟨e2, h0, -⟩
        exact absurd h0 hi

theorem keyframe_flag_rule_witness :
    (av_get_packet sample_ctx.pb blank_packet (request_size sample_ast) true).1 ≠
      AVERROR_NOMEM ∧
    ∃ r, deliver sample_ctx blank_packet true = .ok r ∧
      (sample_video.actx.codec_type ≠ CODEC_TYPE_VIDEO → keyframe r.2.2) ∧
      (sample_video.actx.codec_type = CODEC_TYPE_VIDEO → sample_video.index_entries = [] →
        keyframe r.2.2) ∧
      (sample_video.actx.codec_type = CODEC_TYPE_VIDEO → sample_video.index_entries ≠ [] →
        (keyframe r.2.2 ↔
          ∃ e, 0 ≤ av_index_search_timestamp sample_video r.2.2.dts 0 ∧
            entry_at sample_video (av_index_search_timestamp sample_video r.2.2.dts 0) = .ok e ∧
            e.timestamp = sample_ast.frame_offset ∧
            Int.land e.flags AVINDEX_KEYFRAME ≠ 0)) :=
  ⟨by decide!, keyframe_flag_rule sample_ctx blank_packet true sample_video
    sample_ast rfl rfl (by decide!)⟩

/-! ## End of stream -/

/-- C5: in interleaved mode, with no active cursor and the reader at or beyond the end
of the media-data region, or at end of input, `avi_read_packet` returns -1, hands back
the caller's packet untouched, and leaves the cursor and every stream (so every
remaining, packet_size and running offset) unchanged. -/
theorem read_at_boundary_is_end_of_stream (fuel : Nat) (s : AVFormatContext)
    (pkt : AVPacket) (mallocOk : Bool)
    (hni : s.avi.non_interleaved = 0) (hc : s.avi.stream_index_2 < 0)
    (hb : s.avi.movi_end ≤ s.pb.pos ∨ s.pb.eof_reached = true ∨
      (s.pb.buf.length : Int) ≤ s.pb.pos) :
    ∃ s1, avi_read_packet (fuel + 3) s pkt mallocOk = .ok (-1, s1, pkt) ∧
      s1.avi = s.avi ∧ s1.streams = s.streams := by
  have hc2 : ¬ s.avi.stream_index_2 ≥ 0 := by omega
  simp only [avi_read_packet, hni, ne_eq, not_true_eq_false, if_false, resync, hc2]
  by_cases he : s.pb.eof_reached = true
  · simp only [scan, url_feof, he, if_true]
    exact ⟨s, rfl, rfl, rfl⟩
  · by_cases hm : s.avi.movi_end ≤ s.pb.pos
    · simp only [scan, url_feof, he, url_ftell, ge_iff_le, hm, if_true, if_false]
      exact ⟨s, rfl, rfl, rfl⟩
    · have hl : (s.pb.buf.length : Int) ≤ s.pb.pos := by
        rcases hb with h | h | h
        · exact absurd h hm
        · exact absurd h he
        · exact h
      have hg : get_byte s.pb = (0, { s.pb with eof_reached := true }) := by
        unfold get_byte
        rw [if_neg (by omega)]
      simp only [scan, url_feof, he, url_ftell, ge_iff_le, hm, if_false, hg, Win.shift,
        Win.init, if_true, Bool.false_eq_true]
      have hd : ((-1 : Int) < 0) := by decide
      simp only [hd, or_true, if_true]
      exact ⟨_, rfl, rfl, rfl⟩

theorem read_at_boundary_is_end_of_stream_witness :
    (sample_end_ctx.avi.non_interleaved = 0 ∧ sample_end_ctx.avi.stream_index_2 < 0 ∧
      sample_end_ctx.avi.movi_end ≤ sample_end_ctx.pb.pos) ∧
    ∃ s1, avi_read_packet (0 + 3) sample_end_ctx blank_packet true =
        .ok (-1, s1, blank_packet) ∧
      s1.avi = sample_end_ctx.avi ∧ s1.streams = sample_end_ctx.streams :=
  ⟨by decide!, read_at_boundary_is_end_of_stream 0 sample_end_ctx blank_packet true
    (by decide!) (by decide!) (Or.inl (by decide!))⟩

/-! ## Allocation failure during delivery -/

/-- C6 (defect): when `av_get_packet` reports `AVERROR_NOMEM` the return value is
dropped.  On Scenario A with a failing `av_malloc` the first call returns 4096 and the
caller's packet has no buffer; on a chunk whose size field is `FF FF FF FF` the request
is -1 bytes, `av_get_packet` refuses it with `AVERROR_NOMEM`, and the call returns 0. -/
theorem alloc_failure_is_not_reported :
    open_result file_a = .ok 0 ∧
    (av_get_packet (opened file_a).pb blank_packet 4096 false).1 = AVERROR_NOMEM ∧
    returns (read_packets false 1 (opened file_a) blank_packet) = [.ok 4096] ∧
    (read_packets false 1 (opened file_a) blank_packet).map
      (fun x => x.map (fun r => r.2.data)) = [.ok none] ∧
    open_result file_neg = .ok 0 ∧
    (av_get_packet (opened file_neg).pb blank_packet (-1) true).1 = AVERROR_NOMEM ∧
    returns (read_packets true 1 (opened file_neg) blank_packet) = [.ok 0] := by
  decide!

/-! ## Scanning and selection leave the running offsets alone -/

theorem stream_at_ok (s : AVFormatContext) (n : Int) (st : AVStream)
    (h : stream_at s n = .ok st) :
    0 ≤ n ∧ n.toNat < s.streams.length ∧ s.streams.getD n.toNat none = some st := by
  unfold stream_at AVFormatContext.nb_streams at h
  split_ifs at h with hn
  split at h
  · cases h
  · rename_i st1 heq
    cases h
    refine ⟨by omega, by omega, heq⟩

theorem map_set_of_getD {α β : Type} (f : Option α → β) (l : List (Option α)) :
    ∀ (n : Nat) (a b : α), l.getD n none = some a → f (some b) = f (some a) →
      (l.set n (some b)).map f = l.map f := by
  induction l with
  | nil => intro n a b _ _; rfl
  | cons x xs ih =>
    intro n a b h hf
    cases n with
    | zero =>
      simp only [List.getD_cons_zero] at h
      subst h
      simp [hf]
    | succ k =>
      simp only [List.getD_cons_succ] at h
      simp only [List.set_cons_succ, List.map_cons, ih k a b h hf]

theorem clocks_set_stream (s : AVFormatContext) (n : Int) (st st1 : AVStream)
    (h : stream_at s n = .ok st)
    (hp : st1.priv_data.map (fun a => (a.frame_offset, a.sample_size)) =
      st.priv_data.map (fun a => (a.frame_offset, a.sample_size))) :
    clocks (set_stream s n st1) = clocks s := by
  obtain ⟨-, -, hg⟩ := stream_at_ok s n st h
  unfold clocks set_stream
  exact map_set_of_getD _ s.streams n.toNat st st1 hg (by simp only [Option.map_some', hp])

theorem clocks_set_priv (s : AVFormatContext) (n : Int) (st : AVStream)
    (ast ast1 : AVIStream) (h : stream_at s n = .ok st) (hp : priv_of st = .ok ast)
    (h1 : ast1.frame_offset = ast.frame_offset) (h2 : ast1.sample_size = ast.sample_size) :
    clocks (set_priv s n st ast1) = clocks s := by
  unfold set_priv
  apply clocks_set_stream s n st _ h
  unfold priv_of at hp
  split at hp
  · cases hp
  · rename_i a heq
    cases hp
    simp [heq, h1, h2]

theorem palette_chunk_clocks (s : AVFormatContext) (n : Int) (pb : ByteIOContext)
    (s2 : AVFormatContext) (h : palette_chunk s n pb = .ok s2) : clocks s2 = clocks s := by
  unfold palette_chunk at h
  split at h
  · cases h
  · rename_i st hst
    simp only at h
    split at h
    · cases h
    · split at h
      · cases h
      · cases h
        exact clocks_set_stream _ _ st _ hst rfl

theorem clocks_set_priv_of (s s0 : AVFormatContext) (n : Int) (st : AVStream)
    (ast ast1 : AVIStream) (hs : s0.streams = s.streams) (h : stream_at s n = .ok st)
    (hp : priv_of st = .ok ast)
    (h1 : ast1.frame_offset = ast.frame_offset) (h2 : ast1.sample_size = ast.sample_size) :
    clocks (set_priv s0 n st ast1) = clocks s := by
  have h0 : stream_at s0 n = .ok st := by
    unfold stream_at AVFormatContext.nb_streams at h ⊢
    rw [hs]; exact h
  rw [clocks_set_priv s0 n st ast ast1 h0 hp h1 h2]
  unfold clocks; rw [hs]

theorem accept_chunk_clock (ast : AVIStream) (d : Win) (size : Int) :
    (accept_chunk ast d size).frame_offset = ast.frame_offset ∧
      (accept_chunk ast d size).sample_size = ast.sample_size := by
  unfold accept_chunk; split_ifs <;> exact ⟨rfl, rfl⟩

theorem scan_clocks : ∀ (fuel : Nat) (s : AVFormatContext) (d : Win) (i sync : Int)
    (b : Bool) (s1 : AVFormatContext),
    scan fuel s d i sync = .ok (b, s1) → clocks s1 = clocks s := by
  intro fuel
  induction fuel with
  | zero => intro s d i sync b s1 h; simp [scan] at h
  | succ fuel ih =>
    intro s d i sync b s1 h
    simp only [scan] at h
    repeat' split at h
    all_goals first
      | cases h; rfl
      | (have hk := ih _ _ _ _ _ _ h; exact hk)
      | (cases h; exact clocks_set_priv_of s _ _ _ _ _ rfl (by assumption) (by assumption)
          (accept_chunk_clock _ _ _).1 (accept_chunk_clock _ _ _).2)
      | (cases h; exact palette_chunk_clocks _ _ _ _ (by assumption))
      | cases h

theorem select_best_spec (l : List (Option AVStream)) :
    ∀ (i : Int) (acc r : Int × Option (Int × AVStream)), select_best l i acc = .ok r →
      r.2 = acc.2 ∨ ∃ bi st, r.2 = some (bi, st) ∧ i ≤ bi ∧ (bi - i).toNat < l.length ∧
        l.getD (bi - i).toNat none = some st := by
  induction l with
  | nil => intro i acc r h; simp only [select_best, Except.ok.injEq] at h; left; rw [h]
  | cons x xs ih =>
    intro i acc r h
    simp only [select_best] at h
    repeat' split at h
    all_goals first
      | cases h
      | skip
    · rcases ih _ _ _ h with h1 | ⟨bi, st, h1, h2, h3, h4⟩
      · right
        refine ⟨i, _, h1, le_refl _, ?_, ?_⟩
        · simp
        · simp
      · right
        refine ⟨bi, st, h1, by omega, ?_, ?_⟩
        · simp only [List.length_cons]; omega
        · have : (bi - i).toNat = (bi - (i + 1)).toNat + 1 := by omega
          rw [this, List.getD_cons_succ]; exact h4
    · rcases ih _ _ _ h with h1 | ⟨bi, st, h1, h2, h3, h4⟩
      · left; exact h1
      · right
        refine ⟨bi, st, h1, by omega, ?_, ?_⟩
        · simp only [List.length_cons]; omega
        · have : (bi - i).toNat = (bi - (i + 1)).toNat + 1 := by omega
          rw [this, List.getD_cons_succ]; exact h4

theorem stream_at_of_getD (s : AVFormatContext) (n : Int) (st : AVStream) (h0 : 0 ≤ n)
    (h1 : n.toNat < s.streams.length) (h2 : s.streams.getD n.toNat none = some st) :
    stream_at s n = .ok st := by
  unfold stream_at AVFormatContext.nb_streams
  rw [if_neg (by omega), h2]

theorem selection_pass_clocks (s s1 : AVFormatContext) (h : selection_pass s = .ok s1) :
    clocks s1 = clocks s := by
  rcases hsel : select_best s.streams 0 (INT64_MAX, none) with e | ⟨ts, _ | ⟨bi, best_st⟩⟩
  · simp only [selection_pass, hsel] at h
    cases h
  · simp only [selection_pass, hsel] at h
    cases h
  · simp only [selection_pass, hsel] at h
    rcases select_best_spec _ _ _ _ hsel with h1 | ⟨bi2, st2, h1, h2, h3, h4⟩
    · cases h1
    · simp only [Option.some.injEq, Prod.mk.injEq] at h1
      obtain ⟨rfl, rfl⟩ := h1
      simp only [sub_zero] at h3 h4
      have hst := stream_at_of_getD s bi best_st h2 h3 h4
      repeat' split at h
      all_goals first
        | cases h; rfl
        | (cases h
           exact clocks_set_priv_of s _ _ _ _ _ rfl hst (by assumption) (by rfl) (by rfl))
        | cases h

/-- Every result of `resync` is either "no packet" or the result of a delivery from a
state that scanning reached without touching the running offsets. -/
theorem resync_cases : ∀ (fuel : Nat) (s : AVFormatContext) (pkt : AVPacket) (m : Bool)
    (r : Int × AVFormatContext × AVPacket), resync fuel s pkt m = .ok r →
    (r.1 = -1 ∧ r.2.2 = pkt ∧ clocks r.2.1 = clocks s) ∨
      ∃ s1, clocks s1 = clocks s ∧ deliver s1 pkt m = .ok r := by
  intro fuel
  induction fuel with
  | zero => intro s pkt m r h; simp [resync] at h
  | succ fuel ih =>
    intro s pkt m r h
    simp only [resync] at h
    split at h
    · right; exact ⟨s, rfl, h⟩
    · split at h
      · cases h
      · rename_i s1 hs
        cases h
        left; exact ⟨rfl, rfl, scan_clocks _ _ _ _ _ _ _ hs⟩
      · rename_i s1 hs
        have hc := scan_clocks _ _ _ _ _ _ _ hs
        rcases ih _ _ _ _ h with h1 | ⟨s2, h2, h3⟩
        · left; exact ⟨h1.1, h1.2.1, h1.2.2.trans hc⟩
        · right; exact ⟨s2, h2.trans hc, h3⟩

theorem read_packet_cases (fuel : Nat) (s : AVFormatContext) (pkt : AVPacket) (m : Bool)
    (r : Int × AVFormatContext × AVPacket) (h : avi_read_packet fuel s pkt m = .ok r) :
    (r.1 = -1 ∧ r.2.2 = pkt ∧ clocks r.2.1 = clocks s) ∨
      ∃ s1, clocks s1 = clocks s ∧ deliver s1 pkt m = .ok r := by
  unfold avi_read_packet at h
  split at h
  · split at h
    · cases h
    · rename_i s1 hs
      have hc := selection_pass_clocks _ _ hs
      rcases resync_cases _ _ _ _ _ h with h1 | ⟨s2, h2, h3⟩
      · left; exact ⟨h1.1, h1.2.1, h1.2.2.trans hc⟩
      · right; exact ⟨s2, h2.trans hc, h3⟩
  · exact resync_cases _ _ _ _ _ h

/-! ## Running offsets and timestamps across calls -/

theorem deliver_effect (s : AVFormatContext) (pkt : AVPacket) (m : Bool)
    (r : Int × AVFormatContext × AVPacket) (h : deliver s pkt m = .ok r) :
    ∃ st ast, stream_at s s.avi.stream_index_2 = .ok st ∧ priv_of st = .ok ast ∧
      r.2.2.dts = packet_dts ast ∧ r.2.2.stream_index = s.avi.stream_index_2 ∧
      r.2.2.size = (av_get_packet s.pb pkt (request_size ast) m).2.2.size ∧
      clocks r.2.1 = (clocks s).set s.avi.stream_index_2.toNat
        (some (some (if ast.sample_size ≠ 0 then ast.frame_offset + r.2.2.size
                     else ast.frame_offset + 1, ast.sample_size))) := by
  rcases hst : stream_at s s.avi.stream_index_2 with e | st
  · simp only [deliver, hst] at h; cases h
  rcases hast : priv_of st with e | ast
  · simp only [deliver, hst, hast] at h; cases h
  obtain ⟨fl, hfl⟩ := key_flags_ok st ast (packet_dts ast)
    (av_get_packet s.pb pkt (request_size ast) m).2.2.flags
  simp only [deliver, hst, hast, hfl] at h
  refine ⟨st, ast, rfl, hast, ?_⟩
  split_ifs at h <;> cases h <;>
    exact ⟨rfl, rfl, rfl, by simp [clocks, set_priv, set_stream, List.map_set, *]⟩

theorem clock_le_refl (a : Option (Option (Int × Int))) : clock_le a a := by
  rcases a with _ | _ | a
  · rfl
  · rfl
  · exact ⟨rfl, le_refl _, le_refl _⟩

theorem clock_le_trans (a b c : Option (Option (Int × Int))) (h1 : clock_le a b)
    (h2 : clock_le b c) : clock_le a c := by
  rcases a with _ | _ | a <;> rcases b with _ | _ | b <;> rcases c with _ | _ | c <;>
    simp only [clock_le] at h1 h2 ⊢ <;>
    first
      | exact ⟨h1.1.trans h2.1, h1.2.1.trans h2.2.1, h1.2.2.trans h2.2.2⟩
      | (cases h1; done)
      | cases h2

theorem forall₂_clock_le_refl (l : List (Option (Option (Int × Int)))) :
    List.Forall₂ clock_le l l :=
  List.forall₂_same.mpr (fun x _ => clock_le_refl x)

theorem forall₂_clock_le_trans :
    ∀ (l1 l2 l3 : List (Option (Option (Int × Int)))),
      List.Forall₂ clock_le l1 l2 → List.Forall₂ clock_le l2 l3 →
      List.Forall₂ clock_le l1 l3 := by
  intro l1 l2 l3 h1
  induction h1 generalizing l3 with
  | nil => intro h2; cases h2; exact List.Forall₂.nil
  | cons hab _ ih =>
    intro h2
    cases h2 with
    | cons hbc htl => exact List.Forall₂.cons (clock_le_trans _ _ _ hab hbc) (ih _ htl)

theorem forall₂_clock_le_set (l : List (Option (Option (Int × Int)))) :
    ∀ (n : Nat) (x : Option (Option (Int × Int))),
      (∀ a, l.get? n = some a → clock_le a x) → List.Forall₂ clock_le l (l.set n x) := by
  induction l with
  | nil => intro n x _; exact List.Forall₂.nil
  | cons y ys ih =>
    intro n x h
    cases n with
    | zero => exact List.Forall₂.cons (h y rfl) (forall₂_clock_le_refl ys)
    | succ k => exact List.Forall₂.cons (clock_le_refl y) (ih k x (fun a ha => h a ha))

theorem tdiv_of_neg (x c : Int) (hx : x < 0) (hc : 0 < c) :
    Int.tdiv x c = -((-x) / c) := by
  have h := Int.neg_tdiv x c
  rw [Int.tdiv_eq_ediv (a := -x) (by omega) hc.le] at h
  omega

theorem tdiv_mono (a b c : Int) (hc : 0 < c) (hab : a ≤ b) : Int.tdiv a c ≤ Int.tdiv b c := by
  by_cases ha : 0 ≤ a
  · rw [Int.tdiv_eq_ediv ha hc.le, Int.tdiv_eq_ediv (ha.trans hab) hc.le]
    exact Int.ediv_le_ediv hc hab
  · have h0 : 0 ≤ (-a) / c := Int.ediv_nonneg (by omega) hc.le
    rw [tdiv_of_neg a c (by omega) hc]
    by_cases hb : 0 ≤ b
    · have := Int.tdiv_nonneg hb hc.le
      omega
    · rw [tdiv_of_neg b c (by omega) hc]
      have := Int.ediv_le_ediv hc (show -b ≤ -a by omega)
      omega

theorem dts_of_mono (fo k ss : Int) (hss : 0 ≤ ss) (hk : 0 ≤ k) :
    dts_of (fo, ss) ≤ dts_of (if ss ≠ 0 then fo + k else fo + 1, ss) ∧
      (ss = 0 → dts_of (fo, ss) < dts_of (if ss ≠ 0 then fo + k else fo + 1, ss)) := by
  by_cases h : ss = 0
  · subst h
    simp only [dts_of, ne_eq, not_true_eq_false, if_false]
    omega
  · simp only [dts_of, ne_eq, h, not_false_eq_true, if_true]
    exact ⟨tdiv_mono _ _ _ (by omega) (by omega), fun h0 => (h0.elim)⟩

theorem av_get_packet_size_nonneg (pb : ByteIOContext) (pkt : AVPacket) (size : Int)
    (m : Bool) (h : 0 ≤ pkt.size) : 0 ≤ (av_get_packet pb pkt size m).2.2.size := by
  simp only [av_get_packet]
  split_ifs <;> first | exact h | exact le_refl _ | (simp only; omega)

theorem clocks_get_of_stream (s : AVFormatContext) (n : Int) (st : AVStream)
    (ast : AVIStream) (hst : stream_at s n = .ok st) (hast : priv_of st = .ok ast) :
    (clocks s).get? n.toNat = some (some (some (ast.frame_offset, ast.sample_size))) := by
  obtain ⟨-, h1, h2⟩ := stream_at_ok s n st hst
  have hp : st.priv_data = some ast := by
    unfold priv_of at hast
    split at hast
    · cases hast
    · rename_i a heq; cases hast; exact heq
  rw [List.getD_eq_getElem _ _ h1] at h2
  simp only [clocks, List.get?_eq_getElem?, List.getElem?_map, List.getElem?_eq_getElem h1,
    h2, Option.map_some', hp]

theorem size_ok_of_clock_le :
    ∀ (l1 l2 : List (Option (Option (Int × Int)))), List.Forall₂ clock_le l1 l2 →
      (∀ x ∈ l1, size_ok x = true) → ∀ x ∈ l2, size_ok x = true := by
  intro l1 l2 h
  induction h with
  | nil => intro _ c hc; cases hc
  | @cons a b l1 l2 hab _ ih =>
    intro h1 c hc
    rcases List.mem_cons.mp hc with hc | hc
    · subst hc
      have ha := h1 a (List.mem_cons_self _ _)
      rcases a with _ | _ | a <;> rcases c with _ | _ | c <;>
        simp only [clock_le] at hab <;>
        first
          | rfl
          | (cases hab; done)
          | (simp only [size_ok, decide_eq_true_eq] at ha ⊢
             omega)
    · exact ih (fun c hc => h1 c (List.mem_cons_of_mem _ hc)) c hc

theorem run_reads_one (s : AVFormatContext) (pkt : AVPacket)
    (hok : (avi_read_packet 64 s pkt true).toBool = true) :
    run_reads [(64, true)] s pkt =
      .ok (after_reads true 1 s pkt, packet_after true 1 s pkt) := by
  rcases h : avi_read_packet 64 s pkt true with e | r
  · rw [h] at hok; cases hok
  · simp only [run_reads, after_reads, packet_after, h]

/-- One call: no running offset decreases, and a delivered packet carries the timestamp
its stream had pending, which the delivery does not lower. -/
theorem read_packet_step (fuel : Nat) (s : AVFormatContext) (pkt : AVPacket) (m : Bool)
    (r : Int × AVFormatContext × AVPacket) (hsz : 0 ≤ pkt.size)
    (hss : ∀ x ∈ clocks s, size_ok x = true)
    (h : avi_read_packet fuel s pkt m = .ok r) :
    List.Forall₂ clock_le (clocks s) (clocks r.2.1) ∧ 0 ≤ r.2.2.size ∧
      ((r.1 = -1 ∧ r.2.2 = pkt) ∨
        ∃ c c1, (clocks s).get? r.2.2.stream_index.toNat = some (some (some c)) ∧
          (clocks r.2.1).get? r.2.2.stream_index.toNat = some (some (some c1)) ∧
          r.2.2.dts = dts_of c ∧ dts_of c ≤ dts_of c1 ∧ (c.2 = 0 → dts_of c < dts_of c1)) := by
  rcases read_packet_cases fuel s pkt m r h with ⟨h1, h2, h3⟩ | ⟨s1, hc, hd⟩
  · rw [h3, h2]
    exact ⟨forall₂_clock_le_refl _, hsz, Or.inl ⟨h1, rfl⟩⟩
  · obtain ⟨st, ast, hst, hast, hdts, hidx, hsize, hcl⟩ := deliver_effect s1 pkt m r hd
    have hget := clocks_get_of_stream s1 _ st ast hst hast
    rw [hc] at hget hcl
    have hk : 0 ≤ r.2.2.size := by
      rw [hsize]; exact av_get_packet_size_nonneg _ _ _ _ hsz
    have hs0 : 0 ≤ ast.sample_size := by
      have := hss _ (List.get?_mem hget)
      simpa only [size_ok, decide_eq_true_eq] using this
    have hm := dts_of_mono ast.frame_offset r.2.2.size ast.sample_size hs0 hk
    have hlt : s1.avi.stream_index_2.toNat < (clocks s).length := by
      rcases Nat.lt_or_ge s1.avi.stream_index_2.toNat (clocks s).length with h | h
      · exact h
      · rw [List.get?_eq_none.mpr h] at hget; cases hget
    refine ⟨?_, hk, Or.inr ⟨(ast.frame_offset, ast.sample_size), _, ?_, ?_, ?_, hm.1, hm.2⟩⟩
    · rw [hcl]
      apply forall₂_clock_le_set
      intro a ha
      rw [hget] at ha
      cases ha
      refine ⟨rfl, ?_, hm.1⟩
      show ast.frame_offset ≤ _
      split_ifs <;> omega
    · rw [hidx]; exact hget
    · rw [hidx, hcl, List.get?_eq_getElem?, List.getElem?_set_self hlt]
    · rw [hdts]; rfl

/-- C4 (amended): when the sample sizes are non-negative and the caller's packet
structure holds a non-negative size, then over every sequence of `avi_read_packet`
calls no stream's running offset decreases and the timestamp pending for its next
packet (running offset, divided by the sample size when nonzero) does not decrease;
every delivered packet carries that pending timestamp, the delivery does not lower it,
and it raises it strictly when the stream's sample size is 0. -/
theorem offsets_and_timestamps_monotone (cs : List (Nat × Bool)) :
    ∀ (s : AVFormatContext) (pkt : AVPacket) (s1 : AVFormatContext) (pkt1 : AVPacket),
      0 ≤ pkt.size → (∀ x ∈ clocks s, size_ok x = true) →
      run_reads cs s pkt = .ok (s1, pkt1) →
      List.Forall₂ clock_le (clocks s) (clocks s1) ∧
      ∀ (fuel : Nat) (m : Bool) (r : Int × AVFormatContext × AVPacket),
        avi_read_packet fuel s1 pkt1 m = .ok r →
        List.Forall₂ clock_le (clocks s1) (clocks r.2.1) ∧
        ((r.1 = -1 ∧ r.2.2 = pkt1) ∨
          ∃ c c1, (clocks s1).get? r.2.2.stream_index.toNat = some (some (some c)) ∧
            (clocks r.2.1).get? r.2.2.stream_index.toNat = some (some (some c1)) ∧
            r.2.2.dts = dts_of c ∧ dts_of c ≤ dts_of c1 ∧
            (c.2 = 0 → dts_of c < dts_of c1)) := by
  induction cs with
  | nil =>
    intro s pkt s1 pkt1 hsz hss hrun
    simp only [run_reads, Except.ok.injEq, Prod.mk.injEq] at hrun
    obtain ⟨rfl, rfl⟩ := hrun
    refine ⟨forall₂_clock_le_refl _, fun fuel m r h => ?_⟩
    have := read_packet_step fuel s pkt m r hsz hss h
    exact ⟨this.1, this.2.2⟩
  | cons c cs ih =>
    intro s pkt s1 pkt1 hsz hss hrun
    simp only [run_reads] at hrun
    split at hrun
    · cases hrun
    · rename_i r hr
      have hstep := read_packet_step c.1 s pkt c.2 r hsz hss hr
      have hss1 := size_ok_of_clock_le _ _ hstep.1 hss
      have := ih r.2.1 r.2.2 s1 pkt1 hstep.2.1 hss1 hrun
      exact ⟨forall₂_clock_le_trans _ _ _ hstep.1 this.1, this.2⟩

theorem offsets_and_timestamps_monotone_witness :
    (0 ≤ blank_packet.size ∧ (∀ x ∈ clocks (opened file_a), size_ok x = true) ∧
      run_reads [(64, true)] (opened file_a) blank_packet =
        .ok (after_reads true 1 (opened file_a) blank_packet,
             packet_after true 1 (opened file_a) blank_packet)) ∧
    (List.Forall₂ clock_le (clocks (opened file_a))
        (clocks (after_reads true 1 (opened file_a) blank_packet)) ∧
      ∀ (fuel : Nat) (m : Bool) (r : Int × AVFormatContext × AVPacket),
        avi_read_packet fuel (after_reads true 1 (opened file_a) blank_packet)
          (packet_after true 1 (opened file_a) blank_packet) m = .ok r →
        List.Forall₂ clock_le (clocks (after_reads true 1 (opened file_a) blank_packet))
          (clocks r.2.1) ∧
        ((r.1 = -1 ∧ r.2.2 = packet_after true 1 (opened file_a) blank_packet) ∨
          ∃ c c1, (clocks (after_reads true 1 (opened file_a) blank_packet)).get?
              r.2.2.stream_index.toNat = some (some (some c)) ∧
            (clocks r.2.1).get? r.2.2.stream_index.toNat = some (some (some c1)) ∧
            r.2.2.dts = dts_of c ∧ dts_of c ≤ dts_of c1 ∧
            (c.2 = 0 → dts_of c < dts_of c1))) :=
  ⟨⟨by decide!, by decide!, run_reads_one _ _ (by decide!)⟩,
    offsets_and_timestamps_monotone [(64, true)] (opened file_a) blank_packet _ _
      (by decide!) (by decide!) (run_reads_one _ _ (by decide!))⟩

/-- C4 as stated fails: with the sample size 2 of Scenario A, an audio chunk of 129
bytes is delivered as 128 bytes and 1 byte, and the packet of the following chunk has
the same decoding timestamp 64 as the 1-byte packet before it. -/
theorem dts_not_strictly_increasing :
    open_result file_odd = .ok 0 ∧
    ordinals (read_packets true 3 (opened file_odd) blank_packet) = [.ok 1, .ok 1, .ok 1] ∧
    dts_list (read_packets true 3 (opened file_odd) blank_packet) = [.ok 0, .ok 64, .ok 64] ∧
    returns (read_packets true 3 (opened file_odd) blank_packet) = [.ok 128, .ok 2, .ok 2] := by
  decide!

/-! ## The split pass of `clean_index` -/

theorem wrap32_of_range (x : Int) (h0 : -2147483648 ≤ x) (h1 : x < 2147483648) :
    wrap32 x = x := by
  unfold wrap32; omega

theorem wrap30_of_range (x : Int) (h0 : -536870912 ≤ x) (h1 : x < 536870912) :
    wrap30 x = x := by
  unfold wrap30; omega

theorem double_max_spec : ∀ (k fuel : Nat) (x : Int), 0 < x → x ≤ INT_MAX →
    1024 ≤ x * 2 ^ k → k < fuel →
    double_max fuel x = .ok (doubled x k) ∧ 1024 ≤ doubled x k ∧ x ≤ doubled x k ∧
      doubled x k ≤ INT_MAX := by
  intro k
  induction k with
  | zero =>
    intro fuel x h0 h1 h2 hf
    obtain ⟨f, rfl⟩ : ∃ f, fuel = f + 1 := ⟨fuel - 1, by omega⟩
    simp only [pow_zero, mul_one] at h2
    simp only [double_max, doubled, if_neg (show ¬ x < 1024 by omega)]
    exact ⟨trivial, h2, le_refl _, h1⟩
  | succ k ih =>
    intro fuel x h0 h1 h2 hf
    obtain ⟨f, rfl⟩ : ∃ f, fuel = f + 1 := ⟨fuel - 1, by omega⟩
    by_cases hx : x < 1024
    · have hw : wrap32 (x + x) = x + x := wrap32_of_range _ (by omega) (by omega)
      have h3 : 1024 ≤ (x + x) * 2 ^ k := by
        have : x * 2 ^ (k + 1) = (x + x) * 2 ^ k := by ring
        omega
      have := ih f (x + x) (by omega) (by unfold INT_MAX; omega) h3 (by omega)
      simp only [double_max, doubled, if_pos hx, hw]
      exact ⟨this.1, this.2.1, by omega, this.2.2.2⟩
    · simp only [double_max, doubled, if_neg hx]
      exact ⟨trivial, by omega, le_refl _, h1⟩

theorem add_entry_append (st : AVStream) (pos ts size fl : Int)
    (h : ∀ e ∈ st.index_entries, e.timestamp < ts) :
    (av_add_index_entry st pos ts size 0 fl).index_entries =
      st.index_entries ++ [⟨pos, ts, wrap2 fl, wrap30 size⟩] := by
  have hge : search_ge st.index_entries ts = st.index_entries.length := by
    unfold search_ge
    rw [List.findIdx_eq_length_of_false]
    intro e he
    have := h e he
    simp only [decide_eq_false_iff_not]
    omega
  have hidx : av_index_search_timestamp st ts AVSEEK_FLAG_ANY = -1 := by
    simp only [av_index_search_timestamp, hge]
    have h1 : ¬ Int.land AVSEEK_FLAG_ANY AVSEEK_FLAG_BACKWARD ≠ 0 := by decide
    have h2 : ¬ Int.land AVSEEK_FLAG_ANY AVSEEK_FLAG_ANY = 0 := by decide
    simp only [h1, h2, decide_False, if_false, Bool.false_eq_true, if_true]
  simp only [av_add_index_entry, hidx]
  rfl

theorem add_entry_overwrite (st : AVStream) (e0 : AVIndexEntry) (pos size fl : Int)
    (h : st.index_entries = [e0]) :
    (av_add_index_entry st pos e0.timestamp size 0 fl).index_entries =
      [⟨pos, e0.timestamp, wrap2 fl, wrap30 size⟩] := by
  have hge : search_ge st.index_entries e0.timestamp = 0 := by
    unfold search_ge
    rw [h]
    simp [List.findIdx_cons]
  have hidx : av_index_search_timestamp st e0.timestamp AVSEEK_FLAG_ANY = 0 := by
    simp only [av_index_search_timestamp, hge]
    have h1 : ¬ Int.land AVSEEK_FLAG_ANY AVSEEK_FLAG_BACKWARD ≠ 0 := by decide
    have h2 : ¬ Int.land AVSEEK_FLAG_ANY AVSEEK_FLAG_ANY = 0 := by decide
    simp only [h1, h2, decide_False, if_false, Bool.false_eq_true, h]
    simp
  simp only [av_add_index_entry, hidx, h]
  simp

theorem split_loop_spec (ss B P S T : Int) (hss : 0 < ss) (hB : ss ≤ B) (hS : S < 536870912) :
    ∀ (fuel : Nat) (st : AVStream) (j : Int), B ≤ j →
      (st.index_entries.map (·.size)).sum = min j S →
      (∀ e ∈ st.index_entries, e.size ≤ B ∧ e.timestamp < T + Int.tdiv j ss) →
      (S - j).toNat + 1 ≤ fuel →
      ∃ st1, split_loop fuel st ss B P S T j = .ok st1 ∧
        (st1.index_entries.map (·.size)).sum = S ∧ ∀ e ∈ st1.index_entries, e.size ≤ B := by
  intro fuel
  induction fuel with
  | zero => intro st j _ _ _ hf; omega
  | succ fuel ih =>
    intro st j hj hsum hall hf
    by_cases hlt : j < S
    · have hw : wrap32 (j + B) = j + B := wrap32_of_range _ (by omega) (by omega)
      have hmin : wrap32 (FFMIN B (S - j)) = FFMIN B (S - j) := by
        apply wrap32_of_range <;> unfold FFMIN <;> split_ifs <;> omega
      have hmin30 : wrap30 (FFMIN B (S - j)) = FFMIN B (S - j) := by
        apply wrap30_of_range <;> unfold FFMIN <;> split_ifs <;> omega
      have happ := add_entry_append st (P + j) (T + Int.tdiv j ss) (FFMIN B (S - j))
        AVINDEX_KEYFRAME (fun e he => (hall e he).2)
      have hdiv : Int.tdiv j ss + 1 ≤ Int.tdiv (j + B) ss := by
        rw [Int.tdiv_eq_ediv (by omega) hss.le, Int.tdiv_eq_ediv (by omega) hss.le]
        have h1 : (j + ss) / ss = j / ss + 1 := by
          have := Int.add_mul_ediv_right j 1 (show ss ≠ 0 by omega)
          simpa using this
        have h2 := Int.ediv_le_ediv hss (show j + ss ≤ j + B by omega)
        omega
      simp only [split_loop, if_pos hlt, hw, hmin]
      apply ih
      · omega
      · rw [happ, hmin30]
        simp only [List.map_append, List.map_cons, List.map_nil, List.sum_append,
          List.sum_cons, List.sum_nil, hsum]
        unfold FFMIN
        split_ifs <;> omega
      · intro e he
        rw [happ, hmin30] at he
        rcases List.mem_append.mp he with he | he
        · have := hall e he
          exact ⟨this.1, by omega⟩
        · simp only [List.mem_singleton] at he
          subst he
          refine ⟨?_, by simp only; omega⟩
          show FFMIN B (S - j) ≤ B
          unfold FFMIN; split_ifs <;> omega
      · omega
    · refine ⟨st, ?_, ?_, fun e he => (hall e he).1⟩
      · simp only [split_loop, if_neg hlt]
      · rw [hsum]; omega

theorem clean_index_slots_get (fuel : Nat) :
    ∀ (l l1 : List (Option AVStream)) (i : Nat) (st : AVStream),
      clean_index_slots fuel l = .ok l1 → l.get? i = some (some st) →
      ∃ st1, clean_index_stream fuel st = .ok st1 ∧ l1.get? i = some (some st1) := by
  intro l
  induction l with
  | nil => intro l1 i st _ h; cases h
  | cons x xs ih =>
    intro l1 i st h hi
    rcases x with _ | x
    · simp only [clean_index_slots] at h; cases h
    · simp only [clean_index_slots] at h
      rcases hx : clean_index_stream fuel x with e | x1
      · rw [hx] at h; cases h
      · rcases hxs : clean_index_slots fuel xs with e | xs1
        · rw [hx, hxs] at h; cases h
        · rw [hx, hxs] at h
          cases h
          cases i with
          | zero =>
            simp only [List.get?_cons_zero, Option.some.injEq] at hi
            subst hi
            exact ⟨x1, hx, rfl⟩
          | succ k => exact ih xs1 k st hxs hi

/-- C10 (amended to a positive sample size): for a stream with exactly one index entry
(P, T, S) and a positive fixed sample size s, the split pass returns, the sizes of the
resulting entries sum exactly to S, and each is at most B, the value of s doubled
repeatedly until it is at least 1024; the same holds for that stream's slot after
`clean_index` on a whole context. -/
theorem split_pass_sizes (fuel : Nat) (st : AVStream) (ast : AVIStream) (e0 : AVIndexEntry)
    (hp : st.priv_data = some ast) (he : st.index_entries = [e0])
    (hs : 0 < ast.sample_size) (hs2 : ast.sample_size ≤ INT_MAX)
    (hS : e0.size < 536870912) (hf : e0.size.toNat + 12 ≤ fuel) :
    1024 ≤ doubled_threshold ast.sample_size ∧
    (∃ st1, clean_index_stream fuel st = .ok st1 ∧
      (st1.index_entries.map (·.size)).sum = e0.size ∧
      ∀ e ∈ st1.index_entries, e.size ≤ doubled_threshold ast.sample_size) ∧
    (∀ (s s1 : AVFormatContext) (i : Nat), s.streams.get? i = some (some st) →
      clean_index fuel s = .ok s1 →
      ∃ st1, s1.streams.get? i = some (some st1) ∧
        (st1.index_entries.map (·.size)).sum = e0.size ∧
        ∀ e ∈ st1.index_entries, e.size ≤ doubled_threshold ast.sample_size) := by
  have hd := double_max_spec 10 fuel ast.sample_size hs hs2
    (by norm_num; omega) (by omega)
  have hB : doubled ast.sample_size 10 = doubled_threshold ast.sample_size := rfl
  rw [hB] at hd
  obtain ⟨hd1, hd2, hd3, hd4⟩ := hd
  have hmain : ∃ st1, clean_index_stream fuel st = .ok st1 ∧
      (st1.index_entries.map (·.size)).sum = e0.size ∧
      ∀ e ∈ st1.index_entries, e.size ≤ doubled_threshold ast.sample_size := by
    have hpriv : priv_of st = .ok ast := by unfold priv_of; rw [hp]
    have hent : entry_at st 0 = .ok e0 := by
      unfold entry_at AVStream.nb_index_entries; rw [he]; rfl
    have hnb : ¬ (st.nb_index_entries ≠ 1 ∨ ast.sample_size = 0) := by
      unfold AVStream.nb_index_entries; rw [he]
      simp only [List.length_singleton, Nat.cast_one, ne_eq, not_true_eq_false, false_or]
      omega
    obtain ⟨f, rfl⟩ : ∃ f, fuel = f + 1 := ⟨fuel - 1, by omega⟩
    simp only [clean_index_stream, hpriv, if_neg hnb, hd1, hent]
    by_cases hpos : 0 < e0.size
    · have hw : wrap32 (0 + doubled_threshold ast.sample_size) =
          doubled_threshold ast.sample_size := by
        rw [zero_add]
        exact wrap32_of_range _ (by omega) (by unfold INT_MAX at hd4; omega)
      have hmin : wrap32 (FFMIN (doubled_threshold ast.sample_size) (e0.size - 0)) =
          FFMIN (doubled_threshold ast.sample_size) (e0.size - 0) := by
        apply wrap32_of_range <;> unfold FFMIN <;> split_ifs <;> omega
      have hmin30 : wrap30 (FFMIN (doubled_threshold ast.sample_size) (e0.size - 0)) =
          FFMIN (doubled_threshold ast.sample_size) (e0.size - 0) := by
        apply wrap30_of_range <;> unfold FFMIN <;> split_ifs <;> omega
      have hov := add_entry_overwrite st e0 (e0.pos + 0)
        (FFMIN (doubled_threshold ast.sample_size) (e0.size - 0)) AVINDEX_KEYFRAME he
      have ht0 : e0.timestamp + Int.tdiv 0 ast.sample_size = e0.timestamp := by simp
      simp only [split_loop, if_pos hpos, hw, hmin, ht0]
      apply split_loop_spec ast.sample_size _ e0.pos e0.size e0.timestamp hs hd3 hS
      · exact le_refl _
      · rw [hov, hmin30]
        simp only [List.map_cons, List.map_nil, List.sum_cons, List.sum_nil, add_zero]
        unfold FFMIN; split_ifs <;> omega
      · intro e hmem
        rw [hov, hmin30] at hmem
        simp only [List.mem_singleton] at hmem
        subst hmem
        have h1 : 1 ≤ Int.tdiv (doubled_threshold ast.sample_size) ast.sample_size := by
          rw [Int.tdiv_eq_ediv (by omega) hs.le]
          have h2 := Int.ediv_le_ediv hs hd3
          rw [Int.ediv_self (by omega)] at h2
          exact h2
        refine ⟨?_, by simp only; omega⟩
        show FFMIN _ _ ≤ _
        unfold FFMIN; split_ifs <;> omega
      · omega
    · refine ⟨st, ?_, ?_, ?_⟩
      · simp only [split_loop, if_neg hpos]
      · rw [he]; simp
      · intro e hmem
        rw [he] at hmem
        simp only [List.mem_singleton] at hmem
        subst hmem
        omega
  refine ⟨hd2, hmain, ?_⟩
  intro s s1 i hi hc
  unfold clean_index at hc
  split at hc
  · cases hc
  · rename_i l hl
    cases hc
    obtain ⟨st1, h1, h2⟩ := clean_index_slots_get fuel _ _ i st hl hi
    obtain ⟨st2, h3, h4, h5⟩ := hmain
    rw [h1] at h3
    cases h3
    exact ⟨st1, h2, h4, h5⟩

theorem split_pass_sizes_witness :
    doubled_threshold 2 = 1024 ∧
    (1024 ≤ doubled_threshold 2 ∧
    (∃ st1, clean_index_stream 5012 stream_d = .ok st1 ∧
      (st1.index_entries.map (·.size)).sum = 5000 ∧
      ∀ e ∈ st1.index_entries, e.size ≤ doubled_threshold 2) ∧
    (∀ (s s1 : AVFormatContext) (i : Nat), s.streams.get? i = some (some stream_d) →
      clean_index 5012 s = .ok s1 →
      ∃ st1, s1.streams.get? i = some (some st1) ∧
        (st1.index_entries.map (·.size)).sum = 5000 ∧
        ∀ e ∈ st1.index_entries, e.size ≤ doubled_threshold 2)) :=
  ⟨by decide, split_pass_sizes 5012 stream_d
    { zero_ast with sample_size := 2, scale := 1, rate := 44100 } ⟨1000, 0, 1, 5000⟩
    rfl rfl (by decide) (by decide) (by decide) (by decide)⟩

/-- C10 as stated (any nonzero sample size) fails: with the sample size `0x80000200`,
negative as a C `int`, the doubling wraps to 1024, every block gets the timestamp of the
original entry and overwrites it, and the pass leaves one entry of size 904, not 5000. -/
theorem split_pass_negative_sample_size :
    double_max 16 (-2147483136) = .ok 1024 ∧
    (clean_index_stream 16 stream_neg).map (fun st => st.index_entries.map (·.size)) =
      .ok [904] := by
  decide!

/-! ## The invariant `remaining <= packet_size` -/

/-- C9 (defect): a chunk that declares the size `0x7FFFFFFF` is accepted when the media
list declares a large enough size; `packet_size = size + 8` overflows the C `int`, and
after the first delivery of 128 bytes stream 1 is left with
`remaining = 2147483519 > packet_size = -2147483641`. -/
theorem remaining_exceeds_packet_size :
    open_result file_big = .ok 0 ∧
    returns (read_packets true 1 (opened file_big) blank_packet) = [.ok 128] ∧
    ordinals (read_packets true 1 (opened file_big) blank_packet) = [.ok 1] ∧
    remaining_and_packet_size (after_reads true 1 (opened file_big) blank_packet) 1 =
      some (2147483519, -2147483641) ∧
    ¬ ((2147483519 : Int) ≤ -2147483641) := by
  decide!

/-! ## `avi_read_header`: failure releases every stream -/

theorem header_finish_ret (fuel : Nat) (s : AVFormatContext) (r : Int × AVFormatContext)
    (h : header_finish fuel s = .ok r) : r.1 = 0 := by
  simp only [header_finish] at h
  repeat' split at h
  all_goals first
    | (cases h; rfl)
    | cases h

theorem header_result_eq (bytes : List Nat)
    (hok : (avi_read_header mem_ok 64 (fresh bytes)).toBool = true) :
    avi_read_header mem_ok 64 (fresh bytes) = .ok (header_result bytes) := by
  unfold header_result
  rcases h : avi_read_header mem_ok 64 (fresh bytes) with e | r
  · rw [h] at hok; cases hok
  · rfl

/-- C2: whenever `avi_read_header`, started on a fresh context, returns failure, every
stream slot `streams[i]`, `0 <= i < nb_streams`, is null, whatever the failing path
(magic mismatch, end of input, unknown stream type, allocation failure, stream-count
mismatch); the return value is then -1. -/
theorem failed_open_releases_streams (mem : Mem) (fuel : Nat) (s : AVFormatContext)
    (r : Int × AVFormatContext) (h0 : s.streams = [])
    (h : avi_read_header mem fuel s = .ok r) (hr : r.1 ≠ 0) :
    r.1 = -1 ∧ ∀ slot ∈ r.2.streams, slot = none := by
  unfold avi_read_header at h
  have hfree : ∀ (c : AVFormatContext), ∀ slot ∈ (free_streams c).streams, slot = none := by
    intro c slot hs
    simp only [free_streams, List.mem_map] at hs
    obtain ⟨_, _, rfl⟩ := hs
    rfl
  split at h
  · cases h
    refine ⟨rfl, ?_⟩
    intro slot hs
    have : (header_start s).s.streams = s.streams := rfl
    rw [this, h0] at hs
    cases hs
  · split at h
    · cases h
    · cases h; exact ⟨rfl, hfree _⟩
    · split at h
      · cases h; exact ⟨rfl, hfree _⟩
      · exact absurd (header_finish_ret _ _ _ h) hr

theorem failed_open_releases_streams_witness :
    ((fresh file_b).streams = [] ∧ (header_result file_b).1 ≠ 0) ∧
    ((header_result file_b).1 = -1 ∧ ∀ slot ∈ (header_result file_b).2.streams, slot = none) :=
  ⟨⟨rfl, by decide!⟩,
    failed_open_releases_streams mem_ok 64 (fresh file_b) (header_result file_b) rfl
      (header_result_eq file_b (by decide!)) (by decide!)⟩

/-! ## `avi_read_header`: when open succeeds -/

theorem av_new_stream_len (s s1 : AVFormatContext) (ok : Bool)
    (h : av_new_stream s ok = some s1) : s1.streams.length = s.streams.length + 1 := by
  unfold av_new_stream at h
  split_ifs at h
  cases h
  simp

theorem alloc_streams_len (mem : Mem) (br : Int) :
    ∀ (cnt : Nat) (s : AVFormatContext), (alloc_streams mem br cnt s).2 = true →
      (alloc_streams mem br cnt s).1.streams.length = s.streams.length + cnt := by
  intro cnt
  induction cnt with
  | zero => intro s _; rfl
  | succ cnt ih =>
    intro s h
    simp only [alloc_streams] at h ⊢
    rcases hn : av_new_stream s (mem.stream_ok s.nb_streams) with _ | s1
    · rw [hn] at h; cases h
    · rw [hn] at h
      simp only at h ⊢
      by_cases hp : (!mem.priv_ok s.nb_streams) = true
      · rw [if_pos hp] at h; cases h
      · rw [if_neg hp] at h ⊢
        rw [ih _ h]
        have := av_new_stream_len _ _ _ hn
        simp only [set_stream, List.length_set]
        omega

theorem counts_append (tr : List HdrEvent) (e : HdrEvent) :
    strh_count (tr ++ [e]) = strh_count tr + strh_weight e ∧
    skipped_pads (tr ++ [e]) = skipped_pads tr + skipped_pads_weight e ∧
    declared_count (tr ++ [e]) = declared_count tr + declared_weight e := by
  simp [strh_count, skipped_pads, declared_count]

theorem chunk_avih_inv (mem : Mem) (h h1 : HdrState) (size : Int) (pb : ByteIOContext)
    (hc : chunk_avih mem h size pb = .next h1) (hi : hdr_inv h) :
    hdr_inv h1 ∧ h1.trace.length = h.trace.length + 1 := by
  simp only [chunk_avih] at hc
  split_ifs at hc with hok
  cases hc
  have hlen := alloc_streams_len mem _ _ _ hok
  obtain ⟨h1, h2, h3, h4⟩ := hi
  have hc := counts_append h.trace (.avih (read_avih pb).1.n)
  simp only [strh_weight, skipped_pads_weight, declared_weight, add_zero] at hc
  refine ⟨⟨?_, ?_, h3, ?_⟩, by simp⟩
  · simp only [hc.1, hc.2.1]; exact h1
  · simp only [hc.2.2, AVFormatContext.nb_streams, hlen]
    simp only [AVFormatContext.nb_streams] at h2
    push_cast
    rw [h2, Int.toNat_eq_max]
  · simp only [List.length_append, List.length_singleton]; push_cast; omega

theorem tag_ne_pads :
    MKTAG 118 105 100 115 ≠ tag_pads ∧ MKTAG 97 117 100 115 ≠ tag_pads ∧
      MKTAG 116 120 116 115 ≠ tag_pads := by
  decide

theorem chunk_strh_inv (h h1 : HdrState) (size : Int) (pb : ByteIOContext)
    (hc : chunk_strh h size pb = .ok (.next h1)) (hi : hdr_inv h)
    (hb : (h.trace.length : Int) < 2147483647) :
    hdr_inv h1 ∧ h1.trace.length = h.trace.length + 1 := by
  obtain ⟨i1, i2, i3, i4⟩ := hi
  have hw : wrap32 (h.stream_index + 1) = h.stream_index + 1 :=
    wrap32_of_range _ (by omega) (by omega)
  have hw2 : wrap32 (h.stream_index + 1 - 1) = h.stream_index :=
    (wrap32_of_range _ (by omega) (by omega)).trans (by omega)
  simp only [chunk_strh, hw, hw2] at hc
  have hnb : ∀ (n : Int) (st : AVStream), (set_stream h.s n st).nb_streams = h.s.nb_streams := by
    intro n st; simp [set_stream, AVFormatContext.nb_streams]
  have hlen : ∀ e : HdrEvent, ((h.trace ++ [e]).length : Int) = h.trace.length + 1 := by
    intro e; simp
  split at hc
  · cases hc
    have hc := counts_append h.trace (.strh_skipped (get_le32 pb).1)
    simp only [strh_weight, skipped_pads_weight, declared_weight, add_zero] at hc
    refine ⟨⟨?_, ?_, by show -1 ≤ h.stream_index + 1; omega, ?_⟩, by simp⟩
    · show h.stream_index + 1 + 1 = _
      rw [hc.1, hc.2.1]
      split_ifs <;> omega
    · show h.s.nb_streams = _
      rw [hc.2.2]; exact i2
    · show h.stream_index + 1 + 1 ≤ _
      rw [hlen]; omega
  · split at hc
    · cases hc
    · split at hc
      · cases hc
      · have hc2 := counts_append h.trace (.strh (get_le32 pb).1)
        simp only [strh_weight, skipped_pads_weight, declared_weight, add_zero] at hc2
        split_ifs at hc with t1 t2 t3 t4 <;> cases hc
        · refine ⟨⟨?_, ?_, by show -1 ≤ h.stream_index + 1; omega, ?_⟩, by simp⟩
          · show h.stream_index + 1 + 1 = _
            rw [hc2.1, hc2.2.1, t1, if_neg tag_ne_pads.1]; omega
          · show (set_stream h.s _ _).nb_streams = _
            rw [hnb, hc2.2.2]; exact i2
          · show h.stream_index + 1 + 1 ≤ _
            rw [hlen]; omega
        · refine ⟨⟨?_, ?_, by show -1 ≤ h.stream_index + 1; omega, ?_⟩, by simp⟩
          · show h.stream_index + 1 + 1 = _
            rw [hc2.1, hc2.2.1, t2, if_neg tag_ne_pads.2.1]; omega
          · show (set_stream h.s _ _).nb_streams = _
            rw [hnb, hc2.2.2]; exact i2
          · show h.stream_index + 1 + 1 ≤ _
            rw [hlen]; omega
        · refine ⟨⟨?_, ?_, by show -1 ≤ h.stream_index + 1; omega, ?_⟩, by simp⟩
          · show h.stream_index + 1 + 1 = _
            rw [hc2.1, hc2.2.1, t3, if_neg tag_ne_pads.2.2]; omega
          · show (set_stream h.s _ _).nb_streams = _
            rw [hnb, hc2.2.2]; exact i2
          · show h.stream_index + 1 + 1 ≤ _
            rw [hlen]; omega
        · refine ⟨⟨?_, ?_, i3, ?_⟩, by simp⟩
          · show h.stream_index + 1 = _
            rw [hc2.1, hc2.2.1, t4]
            rw [if_pos (show MKTAG 112 97 100 115 = tag_pads from rfl)]; omega
          · show (set_stream h.s _ _).nb_streams = _
            rw [hnb, hc2.2.2]; exact i2
          · show h.stream_index + 1 ≤ _
            rw [hlen]; omega

theorem chunk_strf_inv (h h1 : HdrState) (size : Int) (pb : ByteIOContext)
    (hc : chunk_strf h size pb = .ok (.next h1)) (hi : hdr_inv h) :
    hdr_inv h1 ∧ h1.trace.length = h.trace.length + 1 := by
  obtain ⟨i1, i2, i3, i4⟩ := hi
  have hc2 := counts_append h.trace .strf
  simp only [strh_weight, skipped_pads_weight, declared_weight, add_zero] at hc2
  have hlen : ((h.trace ++ [HdrEvent.strf]).length : Int) = h.trace.length + 1 := by simp
  simp only [chunk_strf] at hc
  split at hc
  · cases hc
    refine ⟨⟨?_, ?_, i3, ?_⟩, by simp⟩
    · show h.stream_index + 1 = _
      rw [hc2.1, hc2.2.1]; exact i1
    · show h.s.nb_streams = _
      rw [hc2.2.2]; exact i2
    · show h.stream_index + 1 ≤ _
      rw [hlen]; omega
  · split at hc
    · cases hc
    · cases hc
      refine ⟨⟨?_, ?_, i3, ?_⟩, by simp⟩
      · show h.stream_index + 1 = _
        rw [hc2.1, hc2.2.1]; exact i1
      · show (set_stream h.s _ _).nb_streams = _
        rw [hc2.2.2, ← i2]
        simp [set_stream, AVFormatContext.nb_streams]
      · show h.stream_index + 1 ≤ _
        rw [hlen]; omega

theorem header_chunk_inv (mem : Mem) (h h1 : HdrState) (tag size : Int) (pb : ByteIOContext)
    (step : HdrStep) (hc : header_chunk mem h tag size pb = .ok step)
    (hs : step = .next h1 ∨ step = .end_of_header h1) (hi : hdr_inv h)
    (hb : (h.trace.length : Int) < 2147483647) :
    hdr_inv h1 ∧ h1.trace.length = h.trace.length + 1 := by
  have plain : ∀ (e : HdrEvent) (s1 : AVFormatContext), s1.streams = h.s.streams →
      strh_weight e = 0 → skipped_pads_weight e = 0 → declared_weight e = 0 →
      hdr_inv { h with s := s1, trace := h.trace ++ [e] } ∧
        (h.trace ++ [e]).length = h.trace.length + 1 := by
    intro e s1 hs1 w1 w2 w3
    obtain ⟨i1, i2, i3, i4⟩ := hi
    have hc2 := counts_append h.trace e
    rw [w1, w2, w3] at hc2
    simp only [add_zero] at hc2
    refine ⟨⟨?_, ?_, i3, ?_⟩, by simp⟩
    · show h.stream_index + 1 = _
      rw [hc2.1, hc2.2.1]; exact i1
    · show s1.nb_streams = _
      rw [hc2.2.2, ← i2]
      simp only [AVFormatContext.nb_streams, hs1]
    · show h.stream_index + 1 ≤ _
      simp only [List.length_append, List.length_singleton]; push_cast; omega
  by_cases t1 : tag = MKTAG 76 73 83 84
  · by_cases t2 : (get_le32 pb).1 = MKTAG 109 111 118 105
    · simp only [header_chunk, if_pos t1, if_pos t2] at hc
      cases hc
      rcases hs with hs | hs
      · cases hs
      · cases hs
        exact plain .movi _ rfl rfl rfl rfl
    · simp only [header_chunk, if_pos t1, if_neg t2] at hc
      cases hc
      rcases hs with hs | hs
      · cases hs
        exact plain .list _ rfl rfl rfl rfl
      · cases hs
  · by_cases t3 : tag = MKTAG 97 118 105 104
    · simp only [header_chunk, if_neg t1, if_pos t3] at hc
      cases hc
      rcases hs with hs | hs
      · exact chunk_avih_inv mem h h1 size pb hs hi
      · simp only [chunk_avih] at hs
        split_ifs at hs
    · by_cases t4 : tag = MKTAG 115 116 114 104
      · simp only [header_chunk, if_neg t1, if_neg t3, if_pos t4] at hc
        rcases hs with hs | hs
        · subst hs
          exact chunk_strh_inv h h1 size pb hc hi hb
        · subst hs
          simp only [chunk_strh] at hc
          repeat' split at hc
          all_goals cases hc
      · by_cases t5 : tag = MKTAG 115 116 114 102
        · simp only [header_chunk, if_neg t1, if_neg t3, if_neg t4, if_pos t5] at hc
          rcases hs with hs | hs
          · subst hs
            exact chunk_strf_inv h h1 size pb hc hi
          · subst hs
            simp only [chunk_strf] at hc
            repeat' split at hc
            all_goals cases hc
        · simp only [header_chunk, if_neg t1, if_neg t3, if_neg t4, if_neg t5] at hc
          cases hc
          rcases hs with hs | hs
          · cases hs
            exact plain .other _ rfl rfl rfl rfl
          · cases hs

theorem header_loop_inv (mem : Mem) : ∀ (fuel : Nat) (h hs : HdrState),
    header_loop mem fuel h = .ok (true, hs) → hdr_inv h →
    (h.trace.length : Int) + fuel ≤ 2147483647 → hdr_inv hs := by
  intro fuel
  induction fuel with
  | zero => intro h hs hl; simp [header_loop] at hl
  | succ fuel ih =>
    intro h hs hl hi hb
    simp only [header_loop] at hl
    split_ifs at hl
    · cases hl
    split at hl
    · cases hl
    · rename_i h1 hc
      have := header_chunk_inv mem h h1 _ _ _ _ hc (Or.inl rfl) hi (by push_cast at hb; omega)
      exact ih h1 hs hl this.1 (by rw [this.2]; push_cast at hb ⊢; omega)
    · cases hl
    · rename_i h1 hc
      cases hl
      exact (header_chunk_inv mem h hs _ _ _ _ hc (Or.inr rfl) hi
        (by push_cast at hb; omega)).1

theorem loop_result_eq (bytes : List Nat)
    (hok : (header_loop mem_ok 64 (header_start (fresh bytes))).toBool = true) :
    header_loop mem_ok 64 (header_start (fresh bytes)) = .ok (loop_result bytes) := by
  unfold loop_result
  rcases h : header_loop mem_ok 64 (header_start (fresh bytes)) with e | r
  · rw [h] at hok; cases hok
  · rfl

/-- C1 as stated fails.  (a) One declared stream and one accepted `strh` chunk, but the
input ends before any `movi` list: the counts are equal and open fails.  (b) Two
declared streams and three `strh` chunks, the third skipped as out of range: two
accepted chunks, two declared streams, and open fails. -/
theorem open_fails_with_equal_counts :
    (open_result file_no_movi = .ok (-1) ∧
      accepted_count (header_trace file_no_movi) = 1 ∧
      strh_count (header_trace file_no_movi) = 1 ∧
      declared_count (header_trace file_no_movi) = 1) ∧
    (open_result file_extra = .ok (-1) ∧
      accepted_count (header_trace file_extra) = 2 ∧
      declared_count (header_trace file_extra) = 2) := by
  decide!

/-! ## Reading back-to-back chunks -/

theorem get_byte_at (pb : ByteIOContext) (b : Nat) (bs : List Nat)
    (h : at_bytes pb (b :: bs)) :
    get_byte pb = (((b % 256 : Nat) : Int), { pb with pos := pb.pos + 1 }) ∧
      at_bytes { pb with pos := pb.pos + 1 } bs := by
  obtain ⟨he, hp, rest, hd⟩ := h
  have hlt : pb.pos.toNat < pb.buf.length := by
    by_contra hc
    rw [List.drop_eq_nil_iff.mpr (by omega)] at hd
    cases hd
  have hget : pb.buf.getD pb.pos.toNat 0 = b := by
    rw [List.getD_eq_getElem _ _ hlt]
    rw [List.drop_eq_getElem_cons hlt] at hd
    simp only [List.cons_append, List.cons.injEq] at hd
    exact hd.1
  have hdrop : pb.buf.drop (pb.pos + 1).toNat = bs ++ rest := by
    have : (pb.pos + 1).toNat = pb.pos.toNat + 1 := by omega
    rw [this, ← List.tail_drop, hd]
    rfl
  constructor
  · unfold get_byte
    rw [if_pos ⟨hp, by omega⟩, hget]
  · exact ⟨he, by show 0 ≤ pb.pos + 1; omega, rest, hdrop⟩

theorem at_bytes_length (pb : ByteIOContext) (bs : List Nat) (h : at_bytes pb bs)
    (hne : bs.length ≠ 0) : pb.pos + bs.length ≤ pb.buf.length := by
  obtain ⟨-, hp, rest, hd⟩ := h
  have := congrArg List.length hd
  simp only [List.length_drop, List.length_append] at this
  omega

theorem url_fread_at (pb : ByteIOContext) (payload more : List Nat)
    (h : at_bytes pb (payload ++ more)) :
    (url_fread pb payload.length).1 = payload.length ∧
      (url_fread pb payload.length).2.2.pos = pb.pos + payload.length ∧
      at_bytes (url_fread pb payload.length).2.2 more := by
  by_cases hz : payload.length = 0
  · obtain ⟨he, hp, rest, hd⟩ := h
    have hnil : payload = [] := List.length_eq_zero.mp hz
    subst hnil
    simp only [url_fread, List.length_nil, Nat.cast_zero, le_refl, if_true, add_zero]
    exact ⟨trivial, trivial, he, hp, rest, hd⟩
  · have hlen := at_bytes_length pb _ h (by simp only [List.length_append]; omega)
    obtain ⟨he, hp, rest, hd⟩ := h
    simp only [List.length_append] at hlen
    have hpos : ¬ ((payload.length : Int) ≤ 0) := by omega
    have hav : avail pb = pb.buf.length - pb.pos := by
      unfold avail; rw [if_pos ⟨hp, by omega⟩]
    have hmin : FFMIN (payload.length : Int) (avail pb) = payload.length := by
      unfold FFMIN; rw [hav]; split_ifs <;> omega
    simp only [url_fread, if_neg hpos, hmin]
    refine ⟨trivial, trivial, ?_, ?_, rest, ?_⟩
    · show (pb.eof_reached || decide ((payload.length : Int) < payload.length)) = false
      simp [he]
    · show 0 ≤ pb.pos + payload.length
      omega
    · have : (pb.pos + payload.length).toNat = pb.pos.toNat + payload.length := by omega
      show pb.buf.drop (pb.pos + payload.length).toNat = more ++ rest
      rw [this, ← List.drop_drop, hd, List.append_assoc, List.drop_left]

theorem scan_skip (fuel : Nat) (s : AVFormatContext) (d : Win) (i sync b : Int)
    (pb1 : ByteIOContext) (he : s.pb.eof_reached = false) (hi : i < s.avi.movi_end)
    (hb : get_byte s.pb = (b, pb1)) (hd : d.d1 < 0) :
    scan (fuel + 1) s d i sync = scan fuel { s with pb := pb1 } (d.shift b) (i + 1) sync := by
  have h0 : (d.shift b).d0 < 0 := hd
  simp only [scan, url_feof, he, Bool.false_eq_true, if_false, ge_iff_le,
    if_neg (show ¬ s.avi.movi_end ≤ i by omega), hb, h0, or_true, if_true]

theorem scan_accept (fuel : Nat) (s : AVFormatContext) (d : Win) (i sync b : Int)
    (pb1 : ByteIOContext) (st : AVStream) (ast : AVIStream)
    (he : s.pb.eof_reached = false) (hi : i < s.avi.movi_end)
    (hb : get_byte s.pb = (b, pb1))
    (hsz : ¬ (i + chunk_size (d.shift b) > s.avi.movi_end))
    (hd0 : is_digit (d.shift b).d0 = true)
    (hst : stream_at s (stream_no (d.shift b).d0 (d.shift b).d1) = .ok st)
    (hast : priv_of st = .ok ast) (hacc : accepts ast (d.shift b) i sync = true) :
    scan (fuel + 1) s d i sync =
      .ok (true, { set_priv { s with pb := pb1 } (stream_no (d.shift b).d0 (d.shift b).d1) st
                     (accept_chunk ast (d.shift b) (chunk_size (d.shift b))) with
                   avi := { s.avi with
                     stream_index_2 := stream_no (d.shift b).d0 (d.shift b).d1 } }) := by
  have hdig : 48 ≤ (d.shift b).d0 ∧ (d.shift b).d0 ≤ 57 := by
    simpa only [is_digit, decide_eq_true_eq] using hd0
  have hn := stream_at_ok s _ st hst
  have hnb : stream_no (d.shift b).d0 (d.shift b).d1 < s.nb_streams := by
    unfold AVFormatContext.nb_streams; omega
  have c1 : ¬ (i + chunk_size (d.shift b) > s.avi.movi_end ∨ (d.shift b).d0 < 0) := by
    intro h; rcases h with h | h
    · exact hsz h
    · omega
  have c2 : ¬ (((d.shift b).d0 = 105 ∧ (d.shift b).d1 = 120 ∧
      stream_no (d.shift b).d2 (d.shift b).d3 < s.nb_streams) ∨
      ((d.shift b).d0 = 74 ∧ (d.shift b).d1 = 85 ∧ (d.shift b).d2 = 78 ∧
        (d.shift b).d3 = 75)) := by
    intro h; rcases h with h | h <;> omega
  simp only [scan, url_feof, he, Bool.false_eq_true, if_false, ge_iff_le,
    if_neg (show ¬ s.avi.movi_end ≤ i by omega), hb, if_neg c1, if_neg c2, if_pos hnb,
    hst, hast, hacc, if_true]

theorem get_byte_next (pb : ByteIOContext) (b : Nat) (bs : List Nat)
    (h : at_bytes pb (b :: bs)) (hb : b < 256) :
    ∃ pb1, get_byte pb = ((b : Int), pb1) ∧ at_bytes pb1 bs ∧ pb1.pos = pb.pos + 1 := by
  obtain ⟨g, a⟩ := get_byte_at pb b bs h
  rw [Nat.mod_eq_of_lt hb] at g
  exact ⟨_, g, a, rfl⟩

/-- Eight successive reads that fill the window with a data-chunk header make the
scanner accept the chunk at the eighth byte. -/
theorem scan_header (fuel : Nat) (s : AVFormatContext) (x0 x1 x2 x3 x4 x5 x6 x7 : Int)
    (pb1 pb2 pb3 pb4 pb5 pb6 pb7 pb8 : ByteIOContext) (st : AVStream) (ast : AVIStream)
    (g0 : get_byte s.pb = (x0, pb1)) (g1 : get_byte pb1 = (x1, pb2))
    (g2 : get_byte pb2 = (x2, pb3)) (g3 : get_byte pb3 = (x3, pb4))
    (g4 : get_byte pb4 = (x4, pb5)) (g5 : get_byte pb5 = (x5, pb6))
    (g6 : get_byte pb6 = (x6, pb7)) (g7 : get_byte pb7 = (x7, pb8))
    (e0 : s.pb.eof_reached = false) (e1 : pb1.eof_reached = false)
    (e2 : pb2.eof_reached = false) (e3 : pb3.eof_reached = false)
    (e4 : pb4.eof_reached = false) (e5 : pb5.eof_reached = false)
    (e6 : pb6.eof_reached = false) (e7 : pb7.eof_reached = false)
    (hd : is_digit x0 = true) (h2 : x2 < 128) (h3 : x3 < 128)
    (hi7 : s.pb.pos + 7 < s.avi.movi_end)
    (hend : s.pb.pos + 7 + chunk_size ⟨x0, x1, x2, x3, x4, x5, x6, x7⟩ ≤ s.avi.movi_end)
    (hst : stream_at s (stream_no x0 x1) = .ok st) (hast : priv_of st = .ok ast) :
    scan (fuel + 8) s Win.init s.pb.pos s.pb.pos =
      .ok (true, { set_priv { s with pb := pb8 } (stream_no x0 x1) st
                     (accept_chunk ast ⟨x0, x1, x2, x3, x4, x5, x6, x7⟩
                       (chunk_size ⟨x0, x1, x2, x3, x4, x5, x6, x7⟩)) with
                   avi := { s.avi with stream_index_2 := stream_no x0 x1 } }) := by
  have neg : (-1 : Int) < 0 := by decide
  have k1 := scan_skip (fuel + 7) s Win.init s.pb.pos s.pb.pos x0 pb1 e0 (by omega) g0 neg
  have k2 := scan_skip (fuel + 6) { s with pb := pb1 } (Win.init.shift x0) (s.pb.pos + 1)
    s.pb.pos x1 pb2 e1 (by show _ < s.avi.movi_end; omega) g1 neg
  have k3 := scan_skip (fuel + 5) { s with pb := pb2 } ((Win.init.shift x0).shift x1)
    (s.pb.pos + 1 + 1) s.pb.pos x2 pb3 e2 (by show _ < s.avi.movi_end; omega) g2 neg
  have k4 := scan_skip (fuel + 4) { s with pb := pb3 }
    (((Win.init.shift x0).shift x1).shift x2)
    (s.pb.pos + 1 + 1 + 1) s.pb.pos x3 pb4 e3 (by show _ < s.avi.movi_end; omega) g3 neg
  have k5 := scan_skip (fuel + 3) { s with pb := pb4 }
    ((((Win.init.shift x0).shift x1).shift x2).shift x3)
    (s.pb.pos + 1 + 1 + 1 + 1) s.pb.pos x4 pb5 e4 (by show _ < s.avi.movi_end; omega) g4 neg
  have k6 := scan_skip (fuel + 2) { s with pb := pb5 }
    (((((Win.init.shift x0).shift x1).shift x2).shift x3).shift x4)
    (s.pb.pos + 1 + 1 + 1 + 1 + 1) s.pb.pos x5 pb6 e5
    (by show _ < s.avi.movi_end; omega) g5 neg
  have k7 := scan_skip (fuel + 1) { s with pb := pb6 }
    ((((((Win.init.shift x0).shift x1).shift x2).shift x3).shift x4).shift x5)
    (s.pb.pos + 1 + 1 + 1 + 1 + 1 + 1) s.pb.pos x6 pb7 e6
    (by show _ < s.avi.movi_end; omega) g6 neg
  have k8 := scan_accept fuel { s with pb := pb7 }
    (((((((Win.init.shift x0).shift x1).shift x2).shift x3).shift x4).shift x5).shift x6)
    (s.pb.pos + 1 + 1 + 1 + 1 + 1 + 1 + 1) s.pb.pos x7 pb8 st ast e7
    (by show _ < s.avi.movi_end; omega) g7
    (by
      show ¬ (_ + chunk_size ⟨x0, x1, x2, x3, x4, x5, x6, x7⟩ > s.avi.movi_end)
      omega)
    hd hst hast
    (by
      show accepts ast ⟨x0, x1, x2, x3, x4, x5, x6, x7⟩ _ _ = true
      simp only [accepts, decide_eq_true_eq]
      left
      exact ⟨Or.inr (by omega), h2, h3⟩)
  exact k1.trans (k2.trans (k3.trans (k4.trans (k5.trans (k6.trans (k7.trans k8))))))

theorem le32_sum (n : Nat) (h : n < 4294967296) :
    n % 256 + (n / 256 % 256) * 256 + (n / 65536 % 256) * 65536 +
      (n / 16777216 % 256) * 16777216 = n := by
  have e1 : n / 65536 = n / 256 / 256 := by rw [Nat.div_div_eq_div_mul]
  have e2 : n / 16777216 = n / 256 / 256 / 256 := by
    rw [Nat.div_div_eq_div_mul, Nat.div_div_eq_div_mul]
  have h4 : n / 16777216 < 256 := Nat.div_lt_of_lt_mul h
  rw [Nat.mod_eq_of_lt h4, e1, e2]
  have h1 := Nat.div_add_mod n 256
  have h2 := Nat.div_add_mod (n / 256) 256
  have h3 := Nat.div_add_mod (n / 256 / 256) 256
  generalize n / 256 / 256 / 256 = q3 at *
  generalize n / 256 / 256 % 256 = r2 at *
  generalize n / 256 / 256 = q2 at *
  generalize n / 256 % 256 = r1 at *
  generalize n / 256 = q1 at *
  generalize n % 256 = r0 at *
  omega

theorem chunk_size_of_le32 (x0 x1 x2 x3 : Int) (n : Nat) (h : (n : Int) ≤ 2147483647) :
    chunk_size ⟨x0, x1, x2, x3, ((n % 256 : Nat) : Int), ((n / 256 % 256 : Nat) : Int),
      ((n / 65536 % 256 : Nat) : Int), ((n / 16777216 % 256 : Nat) : Int)⟩ = n := by
  have hI : ((n % 256 : Nat) : Int) + ((n / 256 % 256 : Nat) : Int) * 256 +
      ((n / 65536 % 256 : Nat) : Int) * 65536 +
      ((n / 16777216 % 256 : Nat) : Int) * 16777216 = (n : Int) := by
    exact_mod_cast le32_sum n (by omega)
  unfold chunk_size
  simp only
  rw [hI]
  clear hI
  exact wrap32_of_range _ (by omega) (by omega)

/-- Scanning from the first byte of a well-formed chunk accepts it at its eighth byte. -/
theorem scan_chunk (fuel : Nat) (s : AVFormatContext) (c : Chunk) (more : List Nat)
    (st : AVStream) (ast : AVIStream)
    (hat : at_bytes s.pb (c.encode ++ more))
    (hn : c.n < 100) (hc2 : c.c2 < 128) (hc3 : c.c3 < 128)
    (hlen : (c.payload.length : Int) ≤ INT_MAX)
    (hend : s.pb.pos + 8 + c.payload.length ≤ s.avi.movi_end)
    (hst : stream_at s c.n = .ok st) (hast : priv_of st = .ok ast) :
    ∃ pb8 ast1,
      scan (fuel + 8) s Win.init s.pb.pos s.pb.pos =
        .ok (true, { set_priv { s with pb := pb8 } c.n st ast1 with
                     avi := { s.avi with stream_index_2 := c.n } }) ∧
      at_bytes pb8 (c.payload ++ ((if c.payload.length % 2 = 1 then [0] else []) ++ more)) ∧
      pb8.pos = s.pb.pos + 8 ∧
      ast1.remaining = c.payload.length ∧ ast1.sample_size = ast.sample_size ∧
      ast1.frame_offset = ast.frame_offset := by
  unfold INT_MAX at hlen
  have hsize := chunk_size_of_le32 ((48 + c.n / 10 : Nat) : Int) ((48 + c.n % 10 : Nat) : Int)
    (c.c2 : Int) (c.c3 : Int) c.payload.length hlen
  have hno : stream_no ((48 + c.n / 10 : Nat) : Int) ((48 + c.n % 10 : Nat) : Int) = c.n := by
    unfold stream_no is_digit
    rw [if_pos (by simp only [decide_eq_true_eq]; omega)]
    omega
  have hdig : is_digit ((48 + c.n / 10 : Nat) : Int) = true := by
    simp only [is_digit, decide_eq_true_eq]; omega
  have b0 : 48 + c.n / 10 < 256 := by omega
  have b1 : 48 + c.n % 10 < 256 := by omega
  have b2 : c.c2 < 256 := by omega
  have b3 : c.c3 < 256 := by omega
  have t2 : (c.c2 : Int) < 128 := by omega
  have t3 : (c.c3 : Int) < 128 := by omega
  have t7 : s.pb.pos + 7 < s.avi.movi_end := by omega
  have tend : s.pb.pos + 7 + (c.payload.length : Int) ≤ s.avi.movi_end := by omega
  have pos8 : ∀ q1 q2 q3 q4 q5 q6 q7 q8 : Int, q1 = s.pb.pos + 1 → q2 = q1 + 1 →
      q3 = q2 + 1 → q4 = q3 + 1 → q5 = q4 + 1 → q6 = q5 + 1 → q7 = q6 + 1 → q8 = q7 + 1 →
      q8 = s.pb.pos + 8 := by
    intro q1 q2 q3 q4 q5 q6 q7 q8 h1 h2 h3 h4 h5 h6 h7 h8
    omega
  simp only [Chunk.encode, le32, List.cons_append, List.nil_append, List.append_assoc] at hat
  obtain ⟨pb1, g0, a1, p1⟩ := get_byte_next _ _ _ hat b0
  obtain ⟨pb2, g1, a2, p2⟩ := get_byte_next _ _ _ a1 b1
  obtain ⟨pb3, g2, a3, p3⟩ := get_byte_next _ _ _ a2 b2
  obtain ⟨pb4, g3, a4, p4⟩ := get_byte_next _ _ _ a3 b3
  obtain ⟨pb5, g4, a5, p5⟩ := get_byte_next _ _ _ a4 (Nat.mod_lt _ (by decide))
  obtain ⟨pb6, g5, a6, p6⟩ := get_byte_next _ _ _ a5 (Nat.mod_lt _ (by decide))
  obtain ⟨pb7, g6, a7, p7⟩ := get_byte_next _ _ _ a6 (Nat.mod_lt _ (by decide))
  obtain ⟨pb8, g7, a8, p8⟩ := get_byte_next _ _ _ a7 (Nat.mod_lt _ (by decide))
  have key := scan_header fuel s _ _ _ _ _ _ _ _ pb1 pb2 pb3 pb4 pb5 pb6 pb7 pb8 st ast
    g0 g1 g2 g3 g4 g5 g6 g7 hat.1 a1.1 a2.1 a3.1 a4.1 a5.1 a6.1 a7.1
    hdig t2 t3 t7 (by rw [hsize]; exact tend) (by rw [hno]; exact hst) hast
  rw [hno, hsize] at key
  refine ⟨pb8, _, key, a8, pos8 _ _ _ _ _ _ _ _ p1 p2 p3 p4 p5 p6 p7 p8, ?_,
    (accept_chunk_clock _ _ _).2, (accept_chunk_clock _ _ _).1⟩
  unfold accept_chunk; split_ifs <;> rfl

theorem delivery_bound_le (ss : Int) (h : ss ≤ INT_MAX) : delivery_bound ss ≤ INT_MAX := by
  unfold delivery_bound INT_MAX at *
  split_ifs <;> omega

theorem av_get_packet_reader (pb : ByteIOContext) (pkt : AVPacket) (size : Int)
    (h0 : 0 ≤ size) (h1 : size ≤ 2147483647) :
    (av_get_packet pb pkt size true).2.1 = (url_fread pb size).2.2 := by
  have hc : ¬ (uwrap32 size > uwrap32 (uwrap32 size + FF_INPUT_BUFFER_PADDING_SIZE)) := by
    unfold uwrap32 FF_INPUT_BUFFER_PADDING_SIZE; omega
  simp only [av_get_packet, if_neg hc, Bool.not_true, Bool.false_eq_true, if_false]
  split_ifs <;> rfl

theorem stream_at_set_stream (s : AVFormatContext) (n : Int) (st st1 : AVStream)
    (h : stream_at s n = .ok st) : stream_at (set_stream s n st1) n = .ok st1 := by
  obtain ⟨h0, h1, -⟩ := stream_at_ok s n st h
  unfold stream_at set_stream AVFormatContext.nb_streams
  simp only [List.length_set]
  rw [if_neg (by omega)]
  simp [List.getD_eq_getElem?_getD, List.getElem?_set_self h1]

theorem sample_sizes_set_priv (s : AVFormatContext) (n : Int) (st : AVStream)
    (ast ast1 : AVIStream) (h : stream_at s n = .ok st) (hp : priv_of st = .ok ast)
    (h2 : ast1.sample_size = ast.sample_size) :
    sample_sizes (set_priv s n st ast1) = sample_sizes s := by
  obtain ⟨-, -, hg⟩ := stream_at_ok s n st h
  have hq : st.priv_data = some ast := by
    unfold priv_of at hp
    split at hp
    · cases hp
    · rename_i a heq; cases hp; exact heq
  unfold sample_sizes set_priv set_stream
  exact map_set_of_getD _ s.streams n.toNat st _ hg
    (by simp only [Option.map_some', hq, h2])

theorem sample_sizes_get (s : AVFormatContext) (n : Nat) (ss : Int)
    (h : (sample_sizes s).get? n = some (some (some ss))) :
    ∃ st ast, stream_at s (n : Int) = .ok st ∧ priv_of st = .ok ast ∧
      ast.sample_size = ss := by
  simp only [sample_sizes, List.get?_eq_getElem?, List.getElem?_map] at h
  rcases hs : s.streams[n]? with _ | o
  · rw [hs] at h; cases h
  · rw [hs] at h
    rcases o with _ | st
    · cases h
    · simp only [Option.map_some', Option.some.injEq] at h
      rcases hp : st.priv_data with _ | ast
      · rw [hp] at h; cases h
      · rw [hp] at h
        simp only [Option.map_some', Option.some.injEq] at h
        obtain ⟨hlt, hget⟩ := List.getElem?_eq_some.mp hs
        refine ⟨st, ast, ?_, ?_, h⟩
        · apply stream_at_of_getD s n st (by omega) (by simpa using hlt)
          simp only [Int.toNat_ofNat, List.getD_eq_getElem?_getD, hs, Option.getD_some]
        · unfold priv_of; rw [hp]

theorem encode_length (c : Chunk) :
    (c.encode.length : Int) =
      8 + c.payload.length + (if c.payload.length % 2 = 1 then 1 else 0) := by
  unfold Chunk.encode le32
  split_ifs <;> simp <;> omega

/-- A delivery whose chunk fits the bound hands out the whole payload, skips the pad
byte of an odd payload, clears the cursor, and leaves every sample size as it was. -/
theorem deliver_whole (s : AVFormatContext) (pkt : AVPacket) (st : AVStream)
    (ast : AVIStream) (payload tail : List Nat)
    (hst : stream_at s s.avi.stream_index_2 = .ok st) (hast : priv_of st = .ok ast)
    (hrem : ast.remaining = payload.length)
    (hfit : (payload.length : Int) ≤ delivery_bound ast.sample_size)
    (hmax : (payload.length : Int) ≤ INT_MAX)
    (hat : at_bytes s.pb (payload ++ ((if payload.length % 2 = 1 then [0] else []) ++ tail))) :
    ∃ r, deliver s pkt true = .ok r ∧ r.2.2.stream_index = s.avi.stream_index_2 ∧
      r.2.1.avi = { s.avi with stream_index_2 := -1 } ∧ at_bytes r.2.1.pb tail ∧
      r.2.1.pb.pos = s.pb.pos + payload.length +
        (if payload.length % 2 = 1 then 1 else 0) ∧
      sample_sizes r.2.1 = sample_sizes s := by
  have hreq : request_size ast = payload.length := by
    rw [request_size_eq, hrem]; omega
  unfold INT_MAX at hmax
  have hrd := av_get_packet_reader s.pb pkt payload.length (by omega) hmax
  have hw : wrap32 (ast.remaining - payload.length) = 0 := by
    rw [hrem]; unfold wrap32; omega
  have hodd : ((payload.length : Int) % 2 ≠ 0) ↔ payload.length % 2 = 1 := by omega
  obtain ⟨fl, hfl⟩ := key_flags_ok st ast (packet_dts ast)
    (av_get_packet s.pb pkt payload.length true).2.2.flags
  obtain ⟨hr1, hr2, hr3⟩ := url_fread_at s.pb payload _ hat
  simp only [deliver, hst, hast, hreq, hfl, hw, if_true, hrd]
  by_cases hp : payload.length % 2 = 1
  · rw [if_pos (hodd.mpr hp)]
    rw [if_pos hp] at hr3
    obtain ⟨pb1, g, a, q⟩ := get_byte_next _ 0 tail hr3 (by decide)
    refine ⟨_, rfl, rfl, rfl, ?_, ?_, ?_⟩
    · show at_bytes (get_byte (url_fread s.pb payload.length).2.2).2 tail
      rw [g]; exact a
    · show (get_byte (url_fread s.pb payload.length).2.2).2.pos = _
      rw [g, if_pos hp]
      show pb1.pos = _
      rw [q, hr2]
    · exact sample_sizes_set_priv s _ st ast _ hst hast rfl
  · rw [if_neg (fun h => hp (hodd.mp h))]
    rw [if_neg hp] at hr3
    refine ⟨_, rfl, rfl, rfl, ?_, ?_, ?_⟩
    · exact hr3
    · show (url_fread s.pb payload.length).2.2.pos = _
      rw [hr2, if_neg hp]; simp
    · exact sample_sizes_set_priv s _ st ast _ hst hast rfl

/-- One call on a context that stands before a fitting chunk returns that chunk as one
packet and stands before the next chunk. -/
theorem read_chunk (s : AVFormatContext) (pkt : AVPacket) (c : Chunk) (cs : List Chunk)
    (tail : List Nat) (h : ready s (c :: cs) tail) :
    ∃ r, avi_read_packet 64 s pkt true = .ok r ∧ r.2.2.stream_index = c.n ∧
      ready r.2.1 cs tail := by
  obtain ⟨hni, hcur, hat, hend, hok⟩ := h
  obtain ⟨hn, hc2, hc3, hmax, ss, hss, hfit⟩ := hok c (List.mem_cons_self _ _)
  obtain ⟨st, ast, hst, hast, hsz⟩ := sample_sizes_get s c.n ss hss
  have hlen := encode_length c
  have hend1 : s.pb.pos + 8 + c.payload.length ≤ s.avi.movi_end := by
    simp only [encode_all, List.length_append, Nat.cast_add] at hend
    have : (0 : Int) ≤ (encode_all cs).length := Int.natCast_nonneg _
    split_ifs at hlen <;> omega
  have hend2 : s.pb.pos + 8 + c.payload.length +
      (if c.payload.length % 2 = 1 then 1 else 0) + (encode_all cs).length ≤
        s.avi.movi_end := by
    simp only [encode_all, List.length_append, Nat.cast_add] at hend
    rw [hlen] at hend
    linarith
  have hcn : ¬ ((c.n : Int) < 0) := by omega
  have hcur2 : ¬ s.avi.stream_index_2 ≥ 0 := by omega
  clear hlen hend
  simp only [encode_all, List.append_assoc] at hat
  obtain ⟨pb8, ast1, hscan, hat8, hpos8, hrem, hss1, -⟩ :=
    scan_chunk 55 s c (encode_all cs ++ tail) st ast hat hn hc2 hc3 hmax hend1 hst hast
  have hst1 : stream_at ({ set_priv { s with pb := pb8 } c.n st ast1 with
      avi := { s.avi with stream_index_2 := c.n } }) (c.n : Int) =
        .ok { st with priv_data := some ast1 } :=
    stream_at_set_stream { s with pb := pb8 } c.n st _ hst
  obtain ⟨r, hr, hidx, havi, hatr, hposr, hszr⟩ :=
    deliver_whole ({ set_priv { s with pb := pb8 } c.n st ast1 with
      avi := { s.avi with stream_index_2 := c.n } }) pkt
      { st with priv_data := some ast1 } ast1 c.payload (encode_all cs ++ tail)
      hst1 rfl hrem (by rw [hss1, hsz]; exact hfit) hmax hat8
  have hsz2 : sample_sizes r.2.1 = sample_sizes s := by
    rw [hszr]
    exact sample_sizes_set_priv { s with pb := pb8 } c.n st ast ast1 hst hast hss1
  refine ⟨r, ?_, hidx, ?_, ?_, hatr, ?_, ?_⟩
  · have hscan1 : scan 63 s Win.init (url_ftell s.pb) (url_ftell s.pb) = _ := hscan
    unfold avi_read_packet
    rw [if_neg (by rw [hni]; exact fun h => h rfl)]
    show resync (63 + 1) s pkt true = _
    rw [resync, if_neg hcur2, hscan1]
    show resync (62 + 1) _ pkt true = _
    rw [resync, if_pos (by show (c.n : Int) ≥ 0; omega)]
    exact hr
  · rw [havi]; exact hni
  · rw [havi]; exact (by decide : (-1 : Int) < 0)
  · rw [havi, hposr]
    show pb8.pos + _ + _ + _ ≤ s.avi.movi_end
    rw [hpos8]; exact hend2
  · intro c1 hc1
    rw [hsz2]
    exact hok c1 (List.mem_cons_of_mem _ hc1)

theorem read_chunks (tail : List Nat) :
    ∀ (cs : List Chunk) (s : AVFormatContext) (pkt : AVPacket), ready s cs tail →
      ordinals (read_packets true cs.length s pkt) = cs.map (fun c => .ok (c.n : Int)) := by
  intro cs
  induction cs with
  | nil => intro s pkt _; rfl
  | cons c cs ih =>
    intro s pkt h
    obtain ⟨r, hr, hidx, hnext⟩ := read_chunk s pkt c cs tail h
    have := ih r.2.1 r.2.2 hnext
    simp only [List.length_cons, read_packets, hr, ordinals, List.map_cons, Except.map,
      hidx] at this ⊢
    rw [this]

theorem ready_file_w : ready (opened file_w) chunks_w [] := by
  refine ⟨by decide!, by decide!, ⟨by decide!, by decide!, [], by decide!⟩, by decide!, ?_⟩
  intro c hc
  simp only [chunks_w, List.mem_cons, List.mem_singleton, List.not_mem_nil, or_false] at hc
  rcases hc with rfl | rfl | rfl | rfl
  · exact ⟨by decide, by decide, by decide, by decide!, 0, by decide!, by decide!⟩
  · exact ⟨by decide, by decide, by decide, by decide!, 2, by decide!, by decide!⟩
  · exact ⟨by decide, by decide, by decide, by decide!, 0, by decide!, by decide!⟩
  · exact ⟨by decide, by decide, by decide, by decide!, 2, by decide!, by decide!⟩

/-- C3 (amended): in interleaved mode with no active cursor, when the reader stands
before back-to-back well-formed chunks inside the media-data region, each naming a
present stream, with plain ASCII class bytes and a payload no larger than the delivery
bound of that stream (unbounded for sample size at most 1, 64 times the sample size below
32, the sample size otherwise), successive `avi_read_packet` calls all return, one packet
per chunk, and the stream ordinals of the packets are those of the chunks in file
order. -/
theorem packets_follow_file_order (cs : List Chunk) (tail : List Nat)
    (s : AVFormatContext) (pkt : AVPacket) (h : ready s cs tail) :
    ordinals (read_packets true cs.length s pkt) = cs.map (fun c => .ok (c.n : Int)) :=
  read_chunks tail cs s pkt h

theorem packets_follow_file_order_witness :
    ready (opened file_w) chunks_w [] ∧
    ordinals (read_packets true chunks_w.length (opened file_w) blank_packet) =
      chunks_w.map (fun c => .ok (c.n : Int)) :=
  ⟨ready_file_w, packets_follow_file_order chunks_w [] (opened file_w) blank_packet
    ready_file_w⟩

/-- C3 (counterexample): on Scenario A (video chunks of 4096 bytes, audio chunks of 2048
bytes with sample size 2) open succeeds and four calls return the stream ordinals
0, 1, 1, 1: the audio chunk is handed out in pieces of 128 bytes, so the second video
chunk is not reached by the third call. -/
theorem scenario_a_ordinals :
    open_result file_a = .ok 0 ∧
    ordinals (read_packets true 4 (opened file_a) blank_packet) =
      [.ok 0, .ok 1, .ok 1, .ok 1] ∧
    ordinals (read_packets true 4 (opened file_a) blank_packet) ≠
      [.ok 0, .ok 1, .ok 0, .ok 1] := by
  decide!

/-! ## `guess_ni_flag` -/

theorem guess_ni_loop_spec (l : List (Option AVStream)) :
    ∀ acc : Int × Int, (∀ slot ∈ l, ∃ st, slot = some st) →
      ∃ r, guess_ni_loop l acc = .ok r ∧
        (r.1 > r.2 ↔ (acc.1 > acc.2 ∨ (∃ a ∈ first_positions l, a > acc.2) ∨
          (∃ b ∈ last_positions l, acc.1 > b) ∨
          ∃ a ∈ first_positions l, ∃ b ∈ last_positions l, a > b)) := by
  induction l with
  | nil =>
    intro acc _
    exact ⟨acc, rfl, by simp [first_positions, last_positions]⟩
  | cons x xs ih =>
    intro acc hall
    obtain ⟨st, rfl⟩ := hall x (List.mem_cons_self _ _)
    have hxs : ∀ slot ∈ xs, ∃ st, slot = some st :=
      fun slot h => hall slot (List.mem_cons_of_mem _ h)
    rcases hes : st.index_entries with _ | ⟨e0, es⟩
    · obtain ⟨r, hr, hiff⟩ := ih acc hxs
      refine ⟨r, ?_, ?_⟩
      · simp only [guess_ni_loop, hes, List.head?_nil, List.getLast?_nil]
        exact hr
      · simpa [first_positions, last_positions, hes] using hiff
    · obtain ⟨en, hen⟩ : ∃ en, (e0 :: es).getLast? = some en :=
        ⟨(e0 :: es).getLast (by simp), List.getLast?_eq_getLast _ _⟩
      obtain ⟨r, hr, hiff⟩ := ih (if e0.pos > acc.1 then e0.pos else acc.1,
        if en.pos < acc.2 then en.pos else acc.2) hxs
      refine ⟨r, ?_, ?_⟩
      · simp only [guess_ni_loop, hes, List.head?_cons, hen]
        exact hr
      · rw [hiff]
        have hf : first_positions (some st :: xs) = e0.pos :: first_positions xs := by
          simp [first_positions, hes]
        have hl : last_positions (some st :: xs) = en.pos :: last_positions xs := by
          simp only [last_positions, List.filterMap_cons, Option.some_bind, hes, hen,
            Option.map_some']
        rw [hf, hl]
        simp only [List.mem_cons, exists_eq_or_imp, gt_iff_lt]
        constructor
        · rintro (h | ⟨a, ha, h⟩ | ⟨b, hb, h⟩ | ⟨a, ha, b, hb, h⟩)
          · split_ifs at h <;> omega
          · split_ifs at h
            · right; right; right; right; exact ⟨a, ha, Or.inl h⟩
            · right; left; right; exact ⟨a, ha, h⟩
          · split_ifs at h
            · right; right; right; left; right; exact ⟨b, hb, h⟩
            · right; right; left; right; exact ⟨b, hb, h⟩
          · right; right; right; right; exact ⟨a, ha, Or.inr ⟨b, hb, h⟩⟩
        · rintro (h | (h | ⟨a, ha, h⟩) | (h | ⟨b, hb, h⟩) | (h | ⟨b, hb, h⟩) |
            ⟨a, ha, h | ⟨b, hb, h⟩⟩)
          · left; split_ifs <;> omega
          · left; split_ifs <;> omega
          · right; left; exact ⟨a, ha, by split_ifs <;> omega⟩
          · left; split_ifs <;> omega
          · right; right; left; exact ⟨b, hb, by split_ifs <;> omega⟩
          · left; split_ifs <;> omega
          · right; right; left; exact ⟨b, hb, by split_ifs <;> omega⟩
          · right; left; exact ⟨a, ha, by split_ifs <;> omega⟩
          · right; right; right; exact ⟨a, ha, b, hb, h⟩

theorem first_positions_mem (l : List (Option AVStream)) (a : Int)
    (h : a ∈ first_positions l) :
    ∃ st, some st ∈ l ∧ ∃ e ∈ st.index_entries, e.pos = a := by
  simp only [first_positions, List.mem_filterMap] at h
  obtain ⟨o, ho, h⟩ := h
  rcases o with _ | st
  · cases h
  · simp only [Option.some_bind, Option.map_eq_some'] at h
    obtain ⟨e, he, hp⟩ := h
    exact ⟨st, ho, e, List.mem_of_mem_head? he, hp⟩

theorem last_positions_mem (l : List (Option AVStream)) (a : Int)
    (h : a ∈ last_positions l) :
    ∃ st, some st ∈ l ∧ ∃ e ∈ st.index_entries, e.pos = a := by
  simp only [last_positions, List.mem_filterMap] at h
  obtain ⟨o, ho, h⟩ := h
  rcases o with _ | st
  · cases h
  · simp only [Option.some_bind, Option.map_eq_some'] at h
    obtain ⟨e, he, hp⟩ := h
    exact ⟨st, ho, e, List.mem_of_getLast?_eq_some he, hp⟩

theorem max_gt_min_iff (F L : List Int) :
    (∃ a ∈ F, ∃ b ∈ L, a > b) ↔
      ∃ a b : Int, F.maximum = (a : WithBot Int) ∧ L.minimum = (b : WithTop Int) ∧ b < a := by
  constructor
  · rintro ⟨a, ha, b, hb, hab⟩
    have hF : F.maximum ≠ ⊥ := by
      rw [Ne, List.maximum_eq_bot]; rintro rfl; cases ha
    have hL : L.minimum ≠ ⊤ := by
      rw [Ne, List.minimum_eq_top]; rintro rfl; cases hb
    obtain ⟨m, hm⟩ := WithBot.ne_bot_iff_exists.mp hF
    obtain ⟨n, hn⟩ := WithTop.ne_top_iff_exists.mp hL
    refine ⟨m, n, hm.symm, hn.symm, ?_⟩
    have h1 : a ≤ m := List.le_maximum_of_mem ha hm.symm
    have h2 : n ≤ b := List.minimum_le_of_mem hb hn.symm
    omega
  · rintro ⟨a, b, ha, hb, hab⟩
    exact ⟨a, List.maximum_mem ha, b, List.minimum_mem hb, hab⟩

theorem guess_ni_flag_iff (l : List (Option AVStream)) (avi : AVIContext)
    (pb : ByteIOContext) (h : positions_ok l) :
    ∃ r, guess_ni_flag { avi := avi, pb := pb, streams := l } = .ok r ∧ (r = 1 ∨ r = 0) ∧
      (r = 1 ↔ ∃ a ∈ first_positions l, ∃ b ∈ last_positions l, a > b) := by
  obtain ⟨r, hr, hiff⟩ := guess_ni_loop_spec l (0, INT64_MAX)
    (fun slot hs => (h slot hs).imp (fun _ hst => hst.1))
  have hrange : ∀ st, some st ∈ l → ∀ e ∈ st.index_entries, 0 ≤ e.pos ∧ e.pos ≤ INT64_MAX := by
    intro st hst
    obtain ⟨st1, h1, h2⟩ := h _ hst
    cases h1
    exact h2
  have hiff2 : r.1 > r.2 ↔ ∃ a ∈ first_positions l, ∃ b ∈ last_positions l, a > b := by
    rw [hiff]
    constructor
    · rintro (h0 | ⟨a, ha, h1⟩ | ⟨b, hb, h1⟩ | h1)
      · exact absurd h0 (by decide)
      · obtain ⟨st, hst, e, he, rfl⟩ := first_positions_mem l a ha
        have := (hrange st hst e he).2
        simp only at h1
        omega
      · obtain ⟨st, hst, e, he, rfl⟩ := last_positions_mem l b hb
        have := (hrange st hst e he).1
        simp only at h1
        omega
      · exact h1
    · intro h1
      right; right; right; exact h1
  refine ⟨if r.1 > r.2 then 1 else 0, ?_, ?_, ?_⟩
  · simp only [guess_ni_flag, hr]
  · split_ifs
    · left; rfl
    · right; rfl
  · rw [← hiff2]
    split_ifs with hc
    · simp [hc]
    · simp [hc]

/-- C12: on a context whose slots all hold streams and whose index positions are file
offsets (not negative, within `int64_t`), `guess_ni_flag` returns 1 or 0, and it returns
1 iff the maximum of the positions of the first index entries is strictly greater than
the minimum of the positions of the last index entries, both taken over the streams
that have at least one index entry; with no indexed stream it returns 0, and taking a
stream without index entries out of the stream list does not change the result. -/
theorem ni_flag_is_max_first_gt_min_last (s : AVFormatContext)
    (h : positions_ok s.streams) :
    ∃ r, guess_ni_flag s = .ok r ∧ (r = 1 ∨ r = 0) ∧
      (r = 1 ↔ ∃ a b : Int, (first_positions s.streams).maximum = (a : WithBot Int) ∧
        (last_positions s.streams).minimum = (b : WithTop Int) ∧ b < a) ∧
      (first_positions s.streams = [] → r = 0) ∧
      ∀ pre post st, s.streams = pre ++ some st :: post → st.index_entries = [] →
        guess_ni_flag { s with streams := pre ++ post } = .ok r := by
  obtain ⟨r, hr, h01, hiff⟩ := guess_ni_flag_iff s.streams s.avi s.pb h
  refine ⟨r, hr, h01, ?_, ?_, ?_⟩
  · rw [hiff, max_gt_min_iff]
  · intro hF
    rcases h01 with h1 | h0
    · obtain ⟨a, ha, -⟩ := hiff.mp h1
      rw [hF] at ha; cases ha
    · exact h0
  · intro pre post st hs hes
    have hok : positions_ok (pre ++ post) := by
      intro slot hslot
      apply h slot
      rw [hs]
      simp only [List.mem_append, List.mem_cons] at hslot ⊢
      tauto
    obtain ⟨r2, hr2, h012, hiff2⟩ := guess_ni_flag_iff (pre ++ post) s.avi s.pb hok
    have hF : first_positions s.streams = first_positions (pre ++ post) := by
      rw [hs]; simp [first_positions, hes]
    have hL : last_positions s.streams = last_positions (pre ++ post) := by
      rw [hs]; simp [last_positions, hes]
    rw [hF, hL, ← hiff2] at hiff
    have : r2 = r := by
      rcases h01 with h | h <;> rcases h012 with h2 | h2
      · rw [h, h2]
      · rw [h] at hiff; rw [h2] at hiff; simp at hiff
      · rw [h] at hiff; rw [h2] at hiff; simp at hiff
      · rw [h, h2]
    rw [← this]
    exact hr2

theorem positions_ok_ctx_c : positions_ok ctx_c.streams := by
  intro slot hs
  simp only [ctx_c, List.mem_cons, List.mem_singleton, List.not_mem_nil, or_false] at hs
  rcases hs with rfl | rfl | rfl
  · exact ⟨_, rfl, by decide⟩
  · exact ⟨_, rfl, by decide⟩
  · exact ⟨_, rfl, by decide⟩

theorem ni_flag_is_max_first_gt_min_last_witness :
    positions_ok ctx_c.streams ∧ guess_ni_flag ctx_c = .ok 1 ∧
    ∃ r, guess_ni_flag ctx_c = .ok r ∧ (r = 1 ∨ r = 0) ∧
      (r = 1 ↔ ∃ a b : Int, (first_positions ctx_c.streams).maximum = (a : WithBot Int) ∧
        (last_positions ctx_c.streams).minimum = (b : WithTop Int) ∧ b < a) ∧
      (first_positions ctx_c.streams = [] → r = 0) ∧
      ∀ pre post st, ctx_c.streams = pre ++ some st :: post → st.index_entries = [] →
        guess_ni_flag { ctx_c with streams := pre ++ post } = .ok r :=
  ⟨positions_ok_ctx_c, by decide, ni_flag_is_max_first_gt_min_last ctx_c positions_ok_ctx_c⟩

/-! ## Selection pass -/

theorem select_best_min (l : List (Option AVStream)) :
    ∀ (i : Int) (acc : Int × Option (Int × AVStream)), streams_timed l →
      ∃ r, select_best l i acc = .ok r ∧
        ((r = acc ∧ ∀ st, some st ∈ l → acc.1 ≤ normalized_time st) ∨
          ∃ k st, l.get? k = some (some st) ∧ r = (normalized_time st, some (i + k, st)) ∧
            normalized_time st < acc.1 ∧
            (∀ st1, some st1 ∈ l → normalized_time st ≤ normalized_time st1) ∧
            ∀ j st1, j < k → l.get? j = some (some st1) →
              normalized_time st < normalized_time st1) := by
  induction l with
  | nil =>
    intro i acc _
    exact ⟨acc, rfl, Or.inl ⟨rfl, fun st h => by cases h⟩⟩
  | cons x xs ih =>
    intro i acc hall
    obtain ⟨st, ast, rfl, hp, hden, -⟩ := hall x (List.mem_cons_self _ _)
    have hxs : streams_timed xs := fun slot h => hall slot (List.mem_cons_of_mem _ h)
    have hts : av_rescale (packet_dts ast) (AV_TIME_BASE * st.time_base.num)
        st.time_base.den = .ok (normalized_time st) := by
      simp only [av_rescale, if_neg hden, normalized_time, hp, packet_dts, dts_of,
        AV_TIME_BASE]
    have hpriv : priv_of st = .ok ast := by unfold priv_of; rw [hp]
    by_cases hlt : normalized_time st < acc.1
    · obtain ⟨r, hr, hcase⟩ := ih (i + 1) (normalized_time st, some (i, st)) hxs
      refine ⟨r, ?_, ?_⟩
      · simp only [select_best, hpriv, hts, if_pos hlt]
        exact hr
      · right
        rcases hcase with ⟨hr1, hmin⟩ | ⟨k, st2, hk, hr2, hlt2, hmin, hfirst⟩
        · refine ⟨0, st, rfl, ?_, hlt, ?_, ?_⟩
          · rw [hr1]; simp
          · intro st1 h1
            simp only [List.mem_cons, Option.some.injEq] at h1
            rcases h1 with rfl | h1
            · exact le_refl _
            · exact hmin st1 h1
          · intro j st1 hj; omega
        · refine ⟨k + 1, st2, hk, ?_, by simp only at hlt2; omega, ?_, ?_⟩
          · rw [hr2]
            simp only [Nat.cast_add, Nat.cast_one, Prod.mk.injEq, Option.some.injEq,
              and_true, true_and]
            omega
          · intro st1 h1
            simp only [List.mem_cons, Option.some.injEq] at h1
            rcases h1 with rfl | h1
            · simp only at hlt2; omega
            · exact hmin st1 h1
          · intro j st1 hj hget
            rcases j with _ | j
            · simp only [List.get?_cons_zero, Option.some.injEq] at hget
              subst hget
              exact hlt2
            · exact hfirst j st1 (by omega) hget
    · obtain ⟨r, hr, hcase⟩ := ih (i + 1) acc hxs
      refine ⟨r, ?_, ?_⟩
      · simp only [select_best, hpriv, hts, if_neg hlt]
        exact hr
      · rcases hcase with ⟨hr1, hmin⟩ | ⟨k, st2, hk, hr2, hlt2, hmin, hfirst⟩
        · left
          refine ⟨hr1, ?_⟩
          intro st1 h1
          simp only [List.mem_cons, Option.some.injEq] at h1
          rcases h1 with rfl | h1
          · omega
          · exact hmin st1 h1
        · right
          refine ⟨k + 1, st2, hk, ?_, hlt2, ?_, ?_⟩
          · rw [hr2]
            simp only [Nat.cast_add, Nat.cast_one, Prod.mk.injEq, Option.some.injEq,
              and_true, true_and]
            omega
          · intro st1 h1
            simp only [List.mem_cons, Option.some.injEq] at h1
            rcases h1 with rfl | h1
            · omega
            · exact hmin st1 h1
          · intro j st1 hj hget
            rcases j with _ | j
            · simp only [List.get?_cons_zero, Option.some.injEq] at hget
              subst hget
              omega
            · exact hfirst j st1 (by omega) hget

theorem stream_at_get (s : AVFormatContext) (j : Int) (st : AVStream)
    (h : stream_at s j = .ok st) :
    0 ≤ j ∧ s.streams.get? j.toNat = some (some st) ∧ some st ∈ s.streams := by
  obtain ⟨h0, h1, h2⟩ := stream_at_ok s j st h
  rw [List.getD_eq_getElem _ _ h1] at h2
  refine ⟨h0, ?_, ?_⟩
  · rw [List.get?_eq_getElem?, List.getElem?_eq_getElem h1, h2]
  · rw [← h2]; exact List.getElem_mem h1

/-- C13: on a context with at least one stream, where every slot holds a stream with
private data and a nonzero time-base denominator and every normalized time is below
`INT64_MAX`, the selection loop of `avi_read_packet` returns a stream; its normalized
time (running offset, divided by the sample size when nonzero, rescaled by
`1000000 * time_base.num / time_base.den`) is minimal among all streams, every stream of
lower ordinal has a strictly larger one, and when the selection pass returns it has
either left the context alone (no index entry found) or made that stream the active
cursor.  In non-interleaved mode `avi_read_packet` is this pass followed by the
delivery. -/
theorem selection_picks_first_minimal (s : AVFormatContext) (hne : s.streams ≠ [])
    (h : streams_timed s.streams) :
    ∃ bi st, select_best s.streams 0 (INT64_MAX, none) =
        .ok (normalized_time st, some (bi, st)) ∧
      stream_at s bi = .ok st ∧
      (∀ j st1, stream_at s j = .ok st1 → normalized_time st ≤ normalized_time st1) ∧
      (∀ j st1, stream_at s j = .ok st1 → j < bi →
        normalized_time st < normalized_time st1) ∧
      (∀ s1, selection_pass s = .ok s1 → s1 = s ∨ s1.avi.stream_index_2 = bi) ∧
      (s.avi.non_interleaved ≠ 0 → ∀ fuel pkt m, avi_read_packet fuel s pkt m =
        (selection_pass s).bind (fun s1 => resync fuel s1 pkt m)) := by
  obtain ⟨r, hr, hcase⟩ := select_best_min s.streams 0 (INT64_MAX, none) h
  rcases hcase with ⟨-, hmin⟩ | ⟨k, st, hk, hr2, hlt, hmin, hfirst⟩
  · exfalso
    rcases hs : s.streams with _ | ⟨x, xs⟩
    · exact hne hs
    · obtain ⟨st, ast, rfl, -, -, hlt⟩ := h x (by rw [hs]; exact List.mem_cons_self _ _)
      have := hmin st (by rw [hs]; exact List.mem_cons_self _ _)
      simp only at this
      omega
  · rw [hr2] at hr
    have hklt : k < s.streams.length := by
      rw [List.get?_eq_getElem?] at hk
      exact (List.getElem?_eq_some.mp hk).1
    have hst : stream_at s ((0 : Int) + k) = .ok st := by
      apply stream_at_of_getD s _ st (by omega) (by simpa using hklt)
      rw [List.get?_eq_getElem?] at hk
      simp [List.getD_eq_getElem?_getD, hk]
    refine ⟨(0 : Int) + k, st, hr, hst, ?_, ?_, ?_, ?_⟩
    · intro j st1 hj
      exact hmin st1 (stream_at_get s j st1 hj).2.2
    · intro j st1 hj hjk
      obtain ⟨h0, hget, -⟩ := stream_at_get s j st1 hj
      exact hfirst j.toNat st1 (by omega) hget
    · intro s1 hs1
      simp only [selection_pass, hr] at hs1
      repeat' split at hs1
      all_goals first
        | (cases hs1; done)
        | (cases hs1; right; rfl)
        | (cases hs1; left; rfl)
    · intro hni fuel pkt m
      unfold avi_read_packet
      rw [if_pos hni]
      cases selection_pass s <;> rfl

theorem streams_timed_ctx_ni : streams_timed ctx_ni.streams := by
  intro slot hs
  simp only [ctx_ni, List.mem_cons, List.mem_singleton, List.not_mem_nil, or_false] at hs
  rcases hs with rfl | rfl | rfl
  · exact ⟨_, _, rfl, rfl, by decide, by decide⟩
  · exact ⟨_, _, rfl, rfl, by decide, by decide⟩
  · exact ⟨_, _, rfl, rfl, by decide, by decide⟩

theorem selection_picks_first_minimal_witness :
    (ctx_ni.streams ≠ [] ∧ streams_timed ctx_ni.streams) ∧
    (ctx_ni.streams.map (fun o => o.map normalized_time) =
      [some 80000, some 40000, some 40000]) ∧
    ((select_best ctx_ni.streams 0 (INT64_MAX, none)).map
      (fun r => (r.1, r.2.map (fun b => b.1))) = .ok (40000, some 1)) ∧
    ((selection_pass ctx_ni).map (fun s1 => s1.avi.stream_index_2) = .ok 1) ∧
    ∃ bi st, select_best ctx_ni.streams 0 (INT64_MAX, none) =
        .ok (normalized_time st, some (bi, st)) ∧
      stream_at ctx_ni bi = .ok st ∧
      (∀ j st1, stream_at ctx_ni j = .ok st1 → normalized_time st ≤ normalized_time st1) ∧
      (∀ j st1, stream_at ctx_ni j = .ok st1 → j < bi →
        normalized_time st < normalized_time st1) ∧
      (∀ s1, selection_pass ctx_ni = .ok s1 → s1 = ctx_ni ∨ s1.avi.stream_index_2 = bi) ∧
      (ctx_ni.avi.non_interleaved ≠ 0 → ∀ fuel pkt m, avi_read_packet fuel ctx_ni pkt m =
        (selection_pass ctx_ni).bind (fun s1 => resync fuel s1 pkt m)) :=
  ⟨⟨by decide, streams_timed_ctx_ni⟩, by decide, by decide, by decide,
    selection_picks_first_minimal ctx_ni (by decide) streams_timed_ctx_ni⟩

/-! ## Probe -/

/-- C14 (amended): for every probe buffer that holds as many bytes as it declares,
`avi_probe` returns, and its result is 100 if the buffer declares more than 32 bytes,
bytes 0..3 are `RIFF` and bytes 8..11 are `AVI `, and 0 otherwise; it is never any other
value. -/
theorem probe_score (p : AVProbeData) (hlen : (p.buf.length : Int) = p.buf_size) :
    avi_probe p = .ok (if 32 < p.buf_size ∧ magic_ok p.buf then 100 else 0) ∧
    (avi_probe p = .ok 100 ∨ avi_probe p = .ok 0) := by
  have key : avi_probe p = .ok (if 32 < p.buf_size ∧ magic_ok p.buf then 100 else 0) := by
    unfold avi_probe
    by_cases hs : p.buf_size ≤ 32
    · rw [if_pos hs, if_neg (fun h => absurd h.1 (by omega))]
    · rw [if_neg hs]
      have h12 : 12 ≤ p.buf.length := by omega
      obtain ⟨b0, b1, b2, b3, b4, b5, b6, b7, b8, b9, b10, b11, rest, hb⟩ :
          ∃ b0 b1 b2 b3 b4 b5 b6 b7 b8 b9 b10 b11 rest,
            p.buf = b0 :: b1 :: b2 :: b3 :: b4 :: b5 :: b6 :: b7 :: b8 :: b9 :: b10 ::
              b11 :: rest := by
        rcases hq : p.buf with _ | ⟨b0, _ | ⟨b1, _ | ⟨b2, _ | ⟨b3, _ | ⟨b4, _ | ⟨b5,
          _ | ⟨b6, _ | ⟨b7, _ | ⟨b8, _ | ⟨b9, _ | ⟨b10, _ | ⟨b11, rest⟩⟩⟩⟩⟩⟩⟩⟩⟩⟩⟩⟩
        all_goals first
          | exact ⟨_, _, _, _, _, _, _, _, _, _, _, _, _, rfl⟩
          | (rw [hq] at h12; simp at h12)
      have hlt : (32 : Int) < p.buf_size := by omega
      simp only [probe_match, probe_byte, hb, List.get?_cons_zero, List.get?_cons_succ,
        magic_ok, List.map_cons, List.take_succ_cons, List.take_zero, List.drop_succ_cons,
        List.drop_zero, hlt, true_and, AVPROBE_SCORE_MAX, Nat.cast_eq_ofNat,
        List.cons.injEq, and_true]
      by_cases h0 : b0 % 256 = 82
      swap
      · have h0i : ¬ ((b0 : Int) % 256 = 82) := by omega
        simp [h0, h0i]
      have h0i : ((b0 : Int) % 256 = 82) := by omega
      by_cases h1 : b1 % 256 = 73
      swap
      · have h1i : ¬ ((b1 : Int) % 256 = 73) := by omega
        simp [h0, h0i, h1, h1i]
      have h1i : ((b1 : Int) % 256 = 73) := by omega
      by_cases h2 : b2 % 256 = 70
      swap
      · have h2i : ¬ ((b2 : Int) % 256 = 70) := by omega
        simp [h0, h0i, h1, h1i, h2, h2i]
      have h2i : ((b2 : Int) % 256 = 70) := by omega
      by_cases h3 : b3 % 256 = 70
      swap
      · have h3i : ¬ ((b3 : Int) % 256 = 70) := by omega
        simp [h0, h0i, h1, h1i, h2, h2i, h3, h3i]
      have h3i : ((b3 : Int) % 256 = 70) := by omega
      by_cases h8 : b8 % 256 = 65
      swap
      · have h8i : ¬ ((b8 : Int) % 256 = 65) := by omega
        simp [h0, h0i, h1, h1i, h2, h2i, h3, h3i, h8, h8i]
      have h8i : ((b8 : Int) % 256 = 65) := by omega
      by_cases h9 : b9 % 256 = 86
      swap
      · have h9i : ¬ ((b9 : Int) % 256 = 86) := by omega
        simp [h0, h0i, h1, h1i, h2, h2i, h3, h3i, h8, h8i, h9, h9i]
      have h9i : ((b9 : Int) % 256 = 86) := by omega
      by_cases h10 : b10 % 256 = 73
      swap
      · have h10i : ¬ ((b10 : Int) % 256 = 73) := by omega
        simp [h0, h0i, h1, h1i, h2, h2i, h3, h3i, h8, h8i, h9, h9i, h10, h10i]
      have h10i : ((b10 : Int) % 256 = 73) := by omega
      by_cases h11 : b11 % 256 = 32
      swap
      · have h11i : ¬ ((b11 : Int) % 256 = 32) := by omega
        simp [h0, h0i, h1, h1i, h2, h2i, h3, h3i, h8, h8i, h9, h9i, h10, h10i, h11, h11i]
      have h11i : ((b11 : Int) % 256 = 32) := by omega
      simp [h0, h0i, h1, h1i, h2, h2i, h3, h3i, h8, h8i, h9, h9i, h10, h10i, h11, h11i]
  refine ⟨key, ?_⟩
  rw [key]
  split_ifs
  · left; rfl
  · right; rfl

theorem probe_score_witness :
    ((probe_40.buf.length : Int) = probe_40.buf_size) ∧
    (avi_probe probe_40 =
        .ok (if 32 < probe_40.buf_size ∧ magic_ok probe_40.buf then 100 else 0) ∧
      (avi_probe probe_40 = .ok 100 ∨ avi_probe probe_40 = .ok 0)) :=
  ⟨by decide, probe_score probe_40 (by decide)⟩

/-- C14 as stated fails: a probe buffer of exactly the 12 magic bytes, `RIFF....AVI `,
has the magic layout and is answered with 0, because every buffer of 32 bytes or fewer
is. -/
theorem probe_short_buffer :
    magic_ok probe_12.buf ∧ avi_probe probe_12 = .ok 0 ∧ avi_probe probe_40 = .ok 100 := by
  refine ⟨by decide, by decide, by decide⟩

/-! ## The scanner -/

/-- C15 (defect): a palette-change chunk `00pc` that the scanner meets first in the
media data of a file with a paletted video stream is accepted by the data-chunk test
(its class bytes `p`, `c` are plain ASCII), so stream 0 becomes the active cursor and
the first call returns the 8 bytes of the palette chunk as a packet of stream 0; the
palette of the stream is left as the header set it. -/
theorem palette_chunk_is_emitted :
    open_result file_pc = .ok 0 ∧
    scan_from (opened file_pc) = .ok (true, 0, 304, false) ∧
    payloads (read_packets true 1 (opened file_pc) blank_packet) =
      [.ok (8, 0, some [0, 1, 0, 0, 10, 20, 30, 0])] ∧
    palettes (after_reads true 1 (opened file_pc) blank_packet) =
      palettes (opened file_pc) := by
  decide!

/-- C16 (defect): the media list of `file_over` ends at offset 296, right after the
header of a chunk `01wb` that declares one byte.  The scanner tests `i + size` with `i`
the offset of the last header byte, 295, so the chunk is accepted; its payload starts at
296 and ends at 297, beyond the region, and the first call returns the byte that follows
the list. -/
theorem accepted_chunk_ends_past_region :
    open_result file_over = .ok 0 ∧
    (opened file_over).avi.movi_end = 296 ∧
    scan_from (opened file_over) = .ok (true, 1, 296, false) ∧
    (scan 64 (opened file_over) Win.init 288 288).map
      (fun r => remaining_and_packet_size r.2 1) = .ok (some (1, 9)) ∧
    extents (read_packets true 1 (opened file_over) blank_packet) = [.ok (296, 1)] ∧
    payloads (read_packets true 1 (opened file_over) blank_packet) =
      [.ok (2, 1, some [105])] ∧
    ¬ ((296 : Int) + 1 ≤ (opened file_over).avi.movi_end) := by
  decide!

/-- C18 (defect): with the odd sample size 33 a chunk of 34 bytes is delivered as 33
bytes and then 1 byte.  The pad test looks at the size of the last delivery, 1, not at
the size of the chunk, 34, so a byte is consumed although the chunk has no pad byte: the
reader stands at 339 instead of 338, the tag of the next chunk is broken and the third
call reports the end of the stream. -/
theorem pad_follows_last_delivery :
    open_result file_pad = .ok 0 ∧
    (opened file_pad).pb.pos = 296 ∧
    returns (read_packets true 3 (opened file_pad) blank_packet) =
      [.ok 33, .ok 2, .ok (-1)] ∧
    extents (read_packets true 2 (opened file_pad) blank_packet) =
      [.ok (304, 33), .ok (337, 1)] ∧
    (after_reads true 2 (opened file_pad) blank_packet).pb.pos = 339 ∧
    (after_reads true 2 (opened file_pad) blank_packet).avi.stream_index_2 = -1 ∧
    (34 : Int) % 2 = 0 := by
  decide!

/-- C17 as stated fails: after six chunks `00dc` the match counter of stream 0 is 5 and
its remembered class is `dc`; the chunk `00db` that follows has another class, and it is
accepted all the same, because its header ends within 9 bytes of the point where the
scan started. -/
theorem accepted_with_full_counter :
    open_result file_db = .ok 0 ∧
    prefix_state (after_reads true 6 (opened file_db) blank_packet) 0 = some (25699, 5) ∧
    scan_from (after_reads true 6 (opened file_db) blank_packet) =
      .ok (true, 0, 356, false) ∧
    prefix_state (after_reads true 7 (opened file_db) blank_packet) 0 = some (25698, 0) ∧
    ordinals (read_packets true 7 (opened file_db) blank_packet) =
      [.ok 0, .ok 0, .ok 0, .ok 0, .ok 0, .ok 0, .ok 0] := by
  decide!

/-- C19 as stated fails: the `JUNK` chunk of `file_junk` starts at offset 288 and
declares 3 bytes; the scanner leaves the reader at 299, 3 bytes after the header, not at
300; the pad byte is passed over by the next scan, which still finds the chunk that
follows. -/
theorem junk_skip_is_not_rounded :
    open_result file_junk = .ok 0 ∧
    (opened file_junk).pb.pos = 288 ∧
    scan_from (opened file_junk) = .ok (true, -1, 299, false) ∧
    payloads (read_packets true 1 (opened file_junk) blank_packet) =
      [.ok (4, 0, some [7, 7, 7, 7])] := by
  decide!

/-- C17 (amended): for a window that reaches the data-chunk test of stream n (the input
is not at its end, the candidate chunk ends inside the region by the test of the code,
the window is full, it is no `ix##` or `JUNK` chunk, and n is an in-range stream), the
window is accepted, making n the active cursor, iff (a) the match counter of the stream
is below 5 or the window ends fewer than 9 bytes after the point where the scan started,
and both class bytes are plain ASCII, or (b) the class code equals the remembered class
of the stream.  In every other case the cursor is not set: a window `##pc` is handed to
the palette reader, and otherwise scanning continues with the next byte. -/
theorem acceptance_rule (fuel : Nat) (s : AVFormatContext) (d w : Win) (i sync b : Int)
    (pb1 : ByteIOContext) (st : AVStream) (ast : AVIStream)
    (he : s.pb.eof_reached = false) (hi : i < s.avi.movi_end)
    (hb : get_byte s.pb = (b, pb1)) (hw : d.shift b = w)
    (hsz : i + chunk_size w ≤ s.avi.movi_end) (hd0 : 0 ≤ w.d0)
    (hskip : ¬ skip_tag s w) (hn : stream_no w.d0 w.d1 < s.nb_streams)
    (hst : stream_at s (stream_no w.d0 w.d1) = .ok st) (hast : priv_of st = .ok ast) :
    (accept_rule ast w i sync →
      scan (fuel + 1) s d i sync =
        .ok (true, { set_priv { s with pb := pb1 } (stream_no w.d0 w.d1) st
                       (accept_chunk ast w (chunk_size w)) with
                     avi := { s.avi with stream_index_2 := stream_no w.d0 w.d1 } })) ∧
    (¬ accept_rule ast w i sync →
      scan (fuel + 1) s d i sync =
        if is_digit w.d0 ∧ is_digit w.d1 ∧ w.d2 = 112 ∧ w.d3 = 99 then
          (palette_chunk { s with pb := pb1 } (stream_no w.d0 w.d1) pb1).map
            (fun s2 => (true, s2))
        else scan fuel { s with pb := pb1 } w (i + 1) sync) := by
  have h1 : ¬ (i + chunk_size w > s.avi.movi_end ∨ w.d0 < 0) := by omega
  have h2 : ¬ ((w.d0 = 105 ∧ w.d1 = 120 ∧ stream_no w.d2 w.d3 < s.nb_streams) ∨
      (w.d0 = 74 ∧ w.d1 = 85 ∧ w.d2 = 78 ∧ w.d3 = 75)) := hskip
  have hacc : accepts ast w i sync = true ↔ accept_rule ast w i sync := by
    unfold accepts accept_rule
    rw [decide_eq_true_eq]
  have hstep : scan (fuel + 1) s d i sync =
      if accepts ast w i sync then
        .ok (true, { set_priv { s with pb := pb1 } (stream_no w.d0 w.d1) st
                       (accept_chunk ast w (chunk_size w)) with
                     avi := { s.avi with stream_index_2 := stream_no w.d0 w.d1 } })
      else if is_digit w.d0 ∧ is_digit w.d1 ∧ w.d2 = 112 ∧ w.d3 = 99 ∧
          i + chunk_size w ≤ s.avi.movi_end then
        match palette_chunk { s with pb := pb1 } (stream_no w.d0 w.d1) pb1 with
        | .error e => .error e
        | .ok s2 => .ok (true, s2)
      else scan fuel { s with pb := pb1 } w (i + 1) sync := by
    simp only [scan, url_feof, he, Bool.false_eq_true, if_false, ge_iff_le,
      if_neg (show ¬ s.avi.movi_end ≤ i by omega), hb, hw, if_neg h1, if_neg h2, if_pos hn,
      hst, hast]
  constructor
  · intro hr
    rw [hstep, if_pos (hacc.mpr hr)]
  · intro hr
    rw [hstep, if_neg (fun h => hr (hacc.mp h))]
    by_cases hp : is_digit w.d0 ∧ is_digit w.d1 ∧ w.d2 = 112 ∧ w.d3 = 99
    · rw [if_pos hp, if_pos ⟨hp.1, hp.2.1, hp.2.2.1, hp.2.2.2, hsz⟩]
      cases palette_chunk { s with pb := pb1 } (stream_no w.d0 w.d1) pb1 <;> rfl
    · rw [if_neg hp, if_neg (fun h => hp ⟨h.1, h.2.1, h.2.2.1, h.2.2.2.1⟩)]

theorem acceptance_rule_witness :
    (db_ctx.pb.eof_reached = false ∧ (7 : Int) < db_ctx.avi.movi_end ∧
      get_byte db_ctx.pb = (0, db_pb) ∧ ¬ skip_tag db_ctx (db_win.shift 0) ∧
      stream_at db_ctx (stream_no (db_win.shift 0).d0 (db_win.shift 0).d1) = .ok db_video ∧
      priv_of db_video = .ok db_ast ∧ ¬ (db_ast.prefix_count < 5) ∧
      accept_rule db_ast (db_win.shift 0) 7 0) ∧
    scan (0 + 1) db_ctx db_win 7 0 =
      .ok (true, { set_priv { db_ctx with pb := db_pb }
                     (stream_no (db_win.shift 0).d0 (db_win.shift 0).d1) db_video
                     (accept_chunk db_ast (db_win.shift 0) (chunk_size (db_win.shift 0))) with
                   avi := { db_ctx.avi with
                     stream_index_2 := stream_no (db_win.shift 0).d0 (db_win.shift 0).d1 } }) :=
  ⟨by decide, (acceptance_rule 0 db_ctx db_win (db_win.shift 0) 7 0 0 db_pb db_video db_ast
    (by decide) (by decide) (by decide) rfl (by decide) (by decide) (by decide) (by decide)
    (by decide) (by decide)).1 (by decide)⟩

/-- C19 (amended): when the scanner meets an index-reference chunk (`ix##` with ## an
in-range ordinal) or a `JUNK` chunk of declared size s (the input is not at its end, the
window is full and the chunk passes the end-of-region test), it leaves the loop for
`resync` with the reader moved past the header by exactly s bytes, with no rounding to
an even count; the streams and the cursor are untouched. -/
theorem skip_chunk_advance (fuel : Nat) (s : AVFormatContext) (d w : Win) (i sync b : Int)
    (pb1 : ByteIOContext)
    (he : s.pb.eof_reached = false) (hi : i < s.avi.movi_end)
    (hb : get_byte s.pb = (b, pb1)) (hw : d.shift b = w)
    (hsz : i + chunk_size w ≤ s.avi.movi_end) (hd0 : 0 ≤ w.d0)
    (hskip : skip_tag s w) :
    ∃ pb2, scan (fuel + 1) s d i sync = .ok (true, { s with pb := pb2 }) ∧
      pb2.pos = pb1.pos + chunk_size w ∧ pb2.buf = pb1.buf := by
  have h1 : ¬ (i + chunk_size w > s.avi.movi_end ∨ w.d0 < 0) := by omega
  have h2 : (w.d0 = 105 ∧ w.d1 = 120 ∧ stream_no w.d2 w.d3 < s.nb_streams) ∨
      (w.d0 = 74 ∧ w.d1 = 85 ∧ w.d2 = 78 ∧ w.d3 = 75) := hskip
  refine ⟨url_fskip pb1 (chunk_size w), ?_, ?_, ?_⟩
  · simp only [scan, url_feof, he, Bool.false_eq_true, if_false, ge_iff_le,
      if_neg (show ¬ s.avi.movi_end ≤ i by omega), hb, hw, if_neg h1, if_pos h2]
  · unfold url_fskip url_fseek
    split_ifs with h0
    · rw [h0, add_zero]
    · rfl
  · unfold url_fskip url_fseek
    split_ifs <;> rfl

theorem skip_chunk_advance_witness :
    (junk_ctx.pb.eof_reached = false ∧ (7 : Int) < junk_ctx.avi.movi_end ∧
      get_byte junk_ctx.pb = (0, { junk_ctx.pb with pos := 8 }) ∧
      chunk_size (junk_win.shift 0) = 3 ∧ skip_tag junk_ctx (junk_win.shift 0)) ∧
    ∃ pb2, scan (0 + 1) junk_ctx junk_win 7 0 = .ok (true, { junk_ctx with pb := pb2 }) ∧
      pb2.pos = ({ junk_ctx.pb with pos := 8 } : ByteIOContext).pos +
        chunk_size (junk_win.shift 0) ∧
      pb2.buf = ({ junk_ctx.pb with pos := 8 } : ByteIOContext).buf :=
  ⟨by decide, skip_chunk_advance 0 junk_ctx junk_win (junk_win.shift 0) 7 0 0
    { junk_ctx.pb with pos := 8 } (by decide) (by decide) (by decide) rfl (by decide)
    (by decide) (by decide)⟩

/-! ## Loading `idx1` -/

theorem get_le32_at (pb : ByteIOContext) (n : Nat) (more : List Nat)
    (h : at_bytes pb (le32 n ++ more)) (hn : n < 4294967296) :
    ∃ pb1, get_le32 pb = ((n : Int), pb1) ∧ at_bytes pb1 more := by
  have hs := le32_sum n hn
  have b0 : n % 256 < 256 := Nat.mod_lt _ (by decide)
  have b1 : n / 256 % 256 < 256 := Nat.mod_lt _ (by decide)
  have b2 : n / 65536 % 256 < 256 := Nat.mod_lt _ (by decide)
  have b3 : n / 16777216 % 256 < 256 := Nat.mod_lt _ (by decide)
  simp only [le32, List.cons_append, List.nil_append] at h
  obtain ⟨p1, g1, a1, -⟩ := get_byte_next pb _ _ h b0
  obtain ⟨p2, g2, a2, -⟩ := get_byte_next p1 _ _ a1 b1
  obtain ⟨p3, g3, a3, -⟩ := get_byte_next p2 _ _ a2 b2
  obtain ⟨p4, g4, a4, -⟩ := get_byte_next p3 _ _ a3 b3
  refine ⟨p4, ?_, a4⟩
  simp only [get_le32, get_le16, g1, g2, g3, g4]
  congr 1
  have : ((n % 256 + (n / 256 % 256) * 256 + (n / 65536 % 256) * 65536 +
      (n / 16777216 % 256) * 16777216 : Nat) : Int) = (n : Int) := by rw [hs]
  rw [← this]
  push_cast
  ring

theorem read_record (pb : ByteIOContext) (r : Idx1Rec) (more : List Nat)
    (h : at_bytes pb (r.encode ++ more)) (hr : r.fits) :
    ∃ p1 p2 p3 p4, get_le32 pb = ((r.tag : Int), p1) ∧ get_le32 p1 = ((r.flags : Int), p2) ∧
      get_le32 p2 = ((r.pos : Int), p3) ∧ get_le32 p3 = ((r.len : Int), p4) ∧
      at_bytes p4 more := by
  obtain ⟨h1, h2, h3, h4⟩ := hr
  simp only [Idx1Rec.encode, List.append_assoc] at h
  obtain ⟨p1, g1, a1⟩ := get_le32_at pb _ _ h h1
  obtain ⟨p2, g2, a2⟩ := get_le32_at p1 _ _ a1 h2
  obtain ⟨p3, g3, a3⟩ := get_le32_at p2 _ _ a2 h3
  obtain ⟨p4, g4, a4⟩ := get_le32_at p3 _ _ a3 h4
  exact ⟨p1, p2, p3, p4, g1, g2, g3, g4, a4⟩

/-- One record of the loop of `avi_read_idx1`, in terms of the record that lies at the
reader: a record naming no stream only moves the reader; any other record sets
`last_pos` to its resolved position and, unless that equals the previous `last_pos`,
adds an index entry at that position. -/
theorem idx1_record_at (h : Idx1State) (i : Int) (r : Idx1Rec) (more : List Nat)
    (hat : at_bytes h.s.pb (r.encode ++ more)) (hr : r.fits) :
    ∃ p4 base, at_bytes p4 more ∧
      base = (if i = 0 ∧ (r.pos : Int) > h.s.avi.movi_list then 0 else h.s.avi.movi_list) ∧
      (rec_stream r ≥ uwrap32 h.s.nb_streams →
        idx1_record h i = .ok { h with s := { h.s with
          avi := { h.s.avi with movi_list := base }, pb := p4 } }) ∧
      (¬ rec_stream r ≥ uwrap32 h.s.nb_streams → ∀ st ast,
        stream_at h.s (rec_stream r) = .ok st → priv_of st = .ok ast →
        ∃ st1 ast1 ni, idx1_record h i = .ok
          { s := { avi := { h.s.avi with movi_list := base, non_interleaved := ni },
                   pb := p4,
                   streams := h.s.streams.set (rec_stream r).toNat
                     (some { st1 with priv_data := some ast1 }) },
            last_pos := resolved base r } ∧
          ast1.sample_size = ast.sample_size ∧ ast.cum_len ≤ ast1.cum_len ∧
          (st1 = st ∨ st1 = av_add_index_entry st (resolved base r) ast.cum_len
            (wrap32 r.len) 0
            (if Int.land r.flags AVIIF_INDEX ≠ 0 then AVINDEX_KEYFRAME else 0))) := by
  obtain ⟨p1, p2, p3, p4, g1, g2, g3, g4, a4⟩ := read_record h.s.pb r more hat hr
  refine ⟨p4, _, a4, rfl, ?_, ?_⟩
  · intro hge
    have hge2 : uwrap32 (uwrap32 (((r.tag : Int) % 256 - 48) * 10) +
        ((r.tag : Int) / 256 % 256 - 48)) ≥
        uwrap32 (AVFormatContext.nb_streams { h.s with
          avi := { h.s.avi with movi_list :=
            (if i = 0 ∧ (r.pos : Int) > h.s.avi.movi_list then 0 else h.s.avi.movi_list) },
          pb := p4 }) := hge
    simp only [idx1_record, g1, g2, g3, g4, if_pos hge2]
  · intro hlt st ast hst hast
    have hlt2 : ¬ uwrap32 (uwrap32 (((r.tag : Int) % 256 - 48) * 10) +
        ((r.tag : Int) / 256 % 256 - 48)) ≥
        uwrap32 (AVFormatContext.nb_streams { h.s with
          avi := { h.s.avi with movi_list :=
            (if i = 0 ∧ (r.pos : Int) > h.s.avi.movi_list then 0 else h.s.avi.movi_list) },
          pb := p4 }) := hlt
    have hst2 : stream_at { h.s with
          avi := { h.s.avi with movi_list :=
            (if i = 0 ∧ (r.pos : Int) > h.s.avi.movi_list then 0 else h.s.avi.movi_list) },
          pb := p4 }
        (uwrap32 (uwrap32 (((r.tag : Int) % 256 - 48) * 10) +
          ((r.tag : Int) / 256 % 256 - 48))) = .ok st := hst
    simp only [idx1_record, g1, g2, g3, g4, if_neg hlt2, hst2, hast]
    refine ⟨_, _, _, rfl, rfl, ?_, ?_⟩
    · show ast.cum_len ≤ (if ast.sample_size ≠ 0 then
        ast.cum_len + (r.len : Int) / uwrap32 ast.sample_size else ast.cum_len + 1)
      split_ifs
      · have : 0 ≤ (r.len : Int) / uwrap32 ast.sample_size :=
          Int.ediv_nonneg (Int.natCast_nonneg _) (by unfold uwrap32; omega)
        omega
      · omega
    · by_cases hl : h.last_pos = uwrap32 ((r.pos : Int) +
        (if i = 0 ∧ (r.pos : Int) > h.s.avi.movi_list then 0 else h.s.avi.movi_list))
      · left; rw [if_pos hl]
      · right; rw [if_neg hl]; rfl

theorem add_entry_mem (st : AVStream) (pos ts size dist fl : Int) (e : AVIndexEntry)
    (h : e ∈ (av_add_index_entry st pos ts size dist fl).index_entries) :
    e ∈ st.index_entries ∨ e = ⟨pos, ts, wrap2 fl, wrap30 size⟩ := by
  simp only [av_add_index_entry] at h
  split at h
  · rcases List.mem_append.mp h with h | h
    · exact Or.inl h
    · exact Or.inr (List.mem_singleton.mp h)
  · split at h
    · exact Or.inl h
    · split at h
      · split at h
        · exact Or.inl h
        · rcases List.mem_append.mp h with h | h
          · exact Or.inl (List.mem_of_mem_take h)
          · rcases List.mem_cons.mp h with h | h
            · exact Or.inr h
            · exact Or.inl (List.mem_of_mem_drop h)
      · rcases List.mem_or_eq_of_mem_set h with h | h
        · exact Or.inl h
        · exact Or.inr h

theorem uwrap32_le (x : Int) (h : 0 ≤ x) : uwrap32 x ≤ x := by
  unfold uwrap32; omega

theorem uwrap32_nonneg (x : Int) : 0 ≤ uwrap32 x := by
  unfold uwrap32; omega

theorem streams_ok_at (s : AVFormatContext) (n : Int) (h : streams_ok s.streams)
    (h0 : 0 ≤ n) (h1 : n < s.nb_streams) :
    ∃ st ast, stream_at s n = .ok st ∧ priv_of st = .ok ast := by
  have hlt : n.toNat < s.streams.length := by
    unfold AVFormatContext.nb_streams at h1; omega
  obtain ⟨st, ast, hs, hp⟩ := h _ (List.getElem_mem hlt)
  refine ⟨st, ast, ?_, ?_⟩
  · apply stream_at_of_getD s n st h0 hlt
    rw [List.getD_eq_getElem _ _ hlt, hs]
  · unfold priv_of; rw [hp]

theorem streams_ok_set (l : List (Option AVStream)) (k : Nat) (st : AVStream)
    (ast : AVIStream) (h : streams_ok l) :
    streams_ok (l.set k (some { st with priv_data := some ast })) := by
  intro slot hs
  rcases List.mem_or_eq_of_mem_set hs with hs | hs
  · exact h slot hs
  · exact ⟨_, ast, hs, rfl⟩

theorem entries_from_refl (base : Int) (recs : List Idx1Rec) (l : List (Option AVStream)) :
    entries_from base recs l l :=
  ⟨rfl, fun _ st1 h => ⟨st1, h, fun _ he => Or.inl he⟩⟩

theorem entries_from_trans (base : Int) (r : Idx1Rec) (recs : List Idx1Rec)
    (l0 l1 l2 : List (Option AVStream))
    (h1 : entries_from base [r] l0 l1) (h2 : entries_from base recs l1 l2) :
    entries_from base (r :: recs) l0 l2 := by
  refine ⟨h2.1.trans h1.1, ?_⟩
  intro k st2 hk
  obtain ⟨st1, hk1, he1⟩ := h2.2 k st2 hk
  obtain ⟨st0, hk0, he0⟩ := h1.2 k st1 hk1
  refine ⟨st0, hk0, ?_⟩
  intro e he
  rcases he1 e he with he | ⟨r1, hr1, hx⟩
  · rcases he0 e he with he | ⟨r1, hr1, hx⟩
    · exact Or.inl he
    · rw [List.mem_singleton] at hr1
      subst hr1
      exact Or.inr ⟨r1, List.mem_cons_self _ _, hx⟩
  · exact Or.inr ⟨r1, List.mem_cons_of_mem _ hr1, hx⟩

/-- Effect of one record on the reader, the base offset and the index. -/
theorem idx1_record_step (h : Idx1State) (i : Int) (r : Idx1Rec) (more : List Nat)
    (hat : at_bytes h.s.pb (r.encode ++ more)) (hr : r.fits)
    (hok : streams_ok h.s.streams) :
    ∃ h1, idx1_record h i = .ok h1 ∧ at_bytes h1.s.pb more ∧
      h1.s.avi.movi_list =
        (if i = 0 ∧ (r.pos : Int) > h.s.avi.movi_list then 0 else h.s.avi.movi_list) ∧
      streams_ok h1.s.streams ∧
      entries_from h1.s.avi.movi_list [r] h.s.streams h1.s.streams := by
  obtain ⟨p4, base, a4, hbase, hA, hB⟩ := idx1_record_at h i r more hat hr
  by_cases hge : rec_stream r ≥ uwrap32 h.s.nb_streams
  · refine ⟨_, hA hge, a4, hbase, hok, entries_from_refl _ _ _⟩
  · have hn0 : 0 ≤ rec_stream r := uwrap32_nonneg _
    have hnb : (0 : Int) ≤ h.s.nb_streams := by
      unfold AVFormatContext.nb_streams; exact Int.natCast_nonneg _
    have hn1 : rec_stream r < h.s.nb_streams := by
      have := uwrap32_le _ hnb
      omega
    obtain ⟨st, ast, hst, hast⟩ := streams_ok_at h.s (rec_stream r) hok hn0 hn1
    obtain ⟨st1, ast1, ni, hrec, -, -, hst1⟩ := hB hge st ast hst hast
    refine ⟨_, hrec, a4, hbase, streams_ok_set _ _ _ _ hok, ?_, ?_⟩
    · show (h.s.streams.set _ _).length = _
      rw [List.length_set]
    · intro k st2 hk
      have hk' : (h.s.streams.set (rec_stream r).toNat
          (some { st1 with priv_data := some ast1 })).get? k = some (some st2) := hk
      rw [List.get?_eq_getElem?] at hk'
      obtain ⟨-, hlt, hget⟩ := stream_at_ok h.s _ st hst
      by_cases hkn : (rec_stream r).toNat = k
      · subst hkn
        rw [List.getElem?_set_self hlt] at hk'
        simp only [Option.some.injEq] at hk'
        subst hk'
        refine ⟨st, ?_, ?_⟩
        · rw [List.get?_eq_getElem?, List.getElem?_eq_getElem hlt,
            ← List.getD_eq_getElem _ none hlt, hget]
        · intro e he
          have he' : e ∈ st1.index_entries := he
          rcases hst1 with rfl | rfl
          · exact Or.inl he'
          · rcases add_entry_mem _ _ _ _ _ _ _ he' with he' | he'
            · exact Or.inl he'
            · refine Or.inr ⟨r, List.mem_singleton.mpr rfl, ?_, ?_⟩
              · omega
              · rw [he']
      · rw [List.getElem?_set_ne hkn] at hk'
        exact ⟨st2, by rw [List.get?_eq_getElem?]; exact hk', fun e he => Or.inl he⟩

theorem idx1_loop_step (more : List Nat) :
    ∀ (recs : List Idx1Rec) (h : Idx1State) (i : Int), 1 ≤ i →
      at_bytes h.s.pb (encode_recs recs ++ more) → (∀ r ∈ recs, r.fits) →
      streams_ok h.s.streams →
      ∃ h1, idx1_loop recs.length i h = .ok h1 ∧ at_bytes h1.s.pb more ∧
        h1.s.avi.movi_list = h.s.avi.movi_list ∧ streams_ok h1.s.streams ∧
        entries_from h.s.avi.movi_list recs h.s.streams h1.s.streams := by
  intro recs
  induction recs with
  | nil =>
    intro h i _ hat _ hok
    exact ⟨h, rfl, hat, rfl, hok, entries_from_refl _ _ _⟩
  | cons r recs ih =>
    intro h i hi hat hfit hok
    simp only [encode_recs, List.append_assoc] at hat
    obtain ⟨h1, hrec, a1, hb1, hok1, hent1⟩ :=
      idx1_record_step h i r _ hat (hfit r (List.mem_cons_self _ _)) hok
    rw [if_neg (by omega)] at hb1
    obtain ⟨h2, hloop, a2, hb2, hok2, hent2⟩ :=
      ih h1 (i + 1) (by omega) a1 (fun x hx => hfit x (List.mem_cons_of_mem _ hx)) hok1
    refine ⟨h2, ?_, a2, hb2.trans hb1, hok2, ?_⟩
    · simp only [List.length_cons, idx1_loop, hrec]
      exact hloop
    · rw [hb1] at hent1 hent2
      exact entries_from_trans _ r recs _ _ _ hent1 hent2

/-- C20 (amended): for every `idx1` load over records that lie at the reader (streams
all present), `avi_read_idx1` returns 0, the base offset it keeps is 0 if the raw
position of the first record exceeds the media-data start offset and that offset
otherwise, and every index entry it adds carries the resolved position of a record
naming that stream: the raw position in the first case, and the raw position plus the
media-data start offset reduced modulo 2^32 in the second. -/
theorem idx1_positions_resolved (s : AVFormatContext) (size : Int) (r0 : Idx1Rec)
    (recs : List Idx1Rec) (more : List Nat)
    (hat : at_bytes s.pb (encode_recs (r0 :: recs) ++ more))
    (hfit : ∀ r ∈ r0 :: recs, r.fits)
    (hsize : Int.tdiv size 16 = ((r0 :: recs).length : Int))
    (hok : streams_ok s.streams) :
    ∃ s1, avi_read_idx1 s size = .ok (0, s1) ∧
      s1.avi.movi_list = idx1_base s.avi.movi_list (r0 :: recs) ∧
      entries_from (idx1_base s.avi.movi_list (r0 :: recs)) (r0 :: recs) s.streams
        s1.streams ∧
      ((r0.pos : Int) > s.avi.movi_list → ∀ r ∈ r0 :: recs,
        resolved (idx1_base s.avi.movi_list (r0 :: recs)) r = r.pos) ∧
      (¬ (r0.pos : Int) > s.avi.movi_list → ∀ r ∈ r0 :: recs,
        resolved (idx1_base s.avi.movi_list (r0 :: recs)) r =
          ((r.pos : Int) + s.avi.movi_list) % 4294967296) := by
  have hnb : ¬ Int.tdiv size 16 ≤ 0 := by
    rw [hsize]; simp only [List.length_cons, Nat.cast_add, Nat.cast_one]; omega
  have hcnt : (Int.tdiv size 16).toNat = recs.length + 1 := by
    rw [hsize]; simp
  simp only [encode_recs, List.append_assoc] at hat
  obtain ⟨h1, hrec, a1, hb1, hok1, hent1⟩ :=
    idx1_record_step { s := s, last_pos := 4294967295 } 0 r0 _ hat
      (hfit r0 (List.mem_cons_self _ _)) hok
  obtain ⟨h2, hloop, a2, hb2, hok2, hent2⟩ :=
    idx1_loop_step more recs h1 (0 + 1) (by omega) a1
      (fun x hx => hfit x (List.mem_cons_of_mem _ hx)) hok1
  have hbase : h1.s.avi.movi_list = idx1_base s.avi.movi_list (r0 :: recs) := by
    rw [hb1]
    simp only [idx1_base, true_and]
  refine ⟨h2.s, ?_, ?_, ?_, ?_, ?_⟩
  · simp only [avi_read_idx1, if_neg hnb, hcnt, idx1_loop, hrec, hloop]
  · rw [hb2, hbase]
  · rw [hbase] at hent1 hent2
    exact entries_from_trans _ r0 recs _ _ _ hent1 hent2
  · intro hgt r hr
    have := (hfit r hr).2.2.1
    simp only [idx1_base, if_pos hgt, resolved, uwrap32]
    omega
  · intro hgt r _
    simp only [idx1_base, if_neg hgt, resolved, uwrap32]

theorem idx1_positions_resolved_witness :
    (at_bytes (idx_ctx 2048 recs_rel).pb (encode_recs recs_rel ++ []) ∧
      (∀ r ∈ recs_rel, r.fits) ∧ streams_ok (idx_ctx 2048 recs_rel).streams) ∧
    (avi_read_idx1 (idx_ctx 2048 recs_rel) 32).map (fun r => (r.1, positions r.2)) =
      .ok (0, [[2052, 7048], []]) ∧
    ∃ s1, avi_read_idx1 (idx_ctx 2048 recs_rel) 32 = .ok (0, s1) ∧
      s1.avi.movi_list = idx1_base (idx_ctx 2048 recs_rel).avi.movi_list recs_rel ∧
      entries_from (idx1_base (idx_ctx 2048 recs_rel).avi.movi_list recs_rel) recs_rel
        (idx_ctx 2048 recs_rel).streams s1.streams ∧
      (((⟨tag_of 0 100 99, 16, 4, 100⟩ : Idx1Rec).pos : Int) >
          (idx_ctx 2048 recs_rel).avi.movi_list → ∀ r ∈ recs_rel,
        resolved (idx1_base (idx_ctx 2048 recs_rel).avi.movi_list recs_rel) r = r.pos) ∧
      (¬ ((⟨tag_of 0 100 99, 16, 4, 100⟩ : Idx1Rec).pos : Int) >
          (idx_ctx 2048 recs_rel).avi.movi_list → ∀ r ∈ recs_rel,
        resolved (idx1_base (idx_ctx 2048 recs_rel).avi.movi_list recs_rel) r =
          ((r.pos : Int) + (idx_ctx 2048 recs_rel).avi.movi_list) % 4294967296) :=
  have hat : at_bytes (idx_ctx 2048 recs_rel).pb (encode_recs recs_rel ++ []) :=
    ⟨rfl, by decide, [], by decide⟩
  have hok : streams_ok (idx_ctx 2048 recs_rel).streams := by
    intro slot hs
    simp only [idx_ctx, List.mem_cons, List.mem_singleton, List.not_mem_nil, or_false] at hs
    rcases hs with rfl | rfl
    · exact ⟨_, _, rfl, rfl⟩
    · exact ⟨_, _, rfl, rfl⟩
  ⟨⟨hat, by decide, hok⟩, by decide,
    idx1_positions_resolved (idx_ctx 2048 recs_rel) 32 ⟨tag_of 0 100 99, 16, 4, 100⟩
      [⟨tag_of 0 100 99, 16, 5000, 100⟩] [] hat (by decide) (by decide) hok⟩

/-- C20 as stated fails: with the media-data start offset 2048 and raw positions 4 and
`0xFFFFFFFF` the positions are relative, and the second record is resolved to 2047, not
to 4294967295 + 2048: the sum is kept in 32 bits. -/
theorem idx1_position_wraps :
    (avi_read_idx1 (idx_ctx 2048 recs_wrap) 32).map (fun r => (r.1, positions r.2)) =
      .ok (0, [[2052, 2047], []]) ∧
    (2047 : Int) ≠ 4294967295 + 2048 := by
  decide

/-! ## Order of the index -/

theorem add_entry_overwrite_last (st : AVStream) (init : List AVIndexEntry)
    (last : AVIndexEntry) (pos size fl : Int)
    (h : st.index_entries = init ++ [last])
    (hinit : ∀ e ∈ init, e.timestamp < last.timestamp) :
    (av_add_index_entry st pos last.timestamp size 0 fl).index_entries =
      init ++ [⟨pos, last.timestamp, wrap2 fl, wrap30 size⟩] := by
  have hge : search_ge st.index_entries last.timestamp = init.length := by
    unfold search_ge
    rw [h, List.findIdx_append]
    have h1 : List.findIdx (fun e => decide (last.timestamp ≤ e.timestamp)) init =
        init.length := by
      apply List.findIdx_eq_length_of_false
      intro e he
      have := hinit e he
      simp only [decide_eq_false_iff_not]
      omega
    rw [h1, if_neg (lt_irrefl _)]
    simp [List.findIdx_cons]
  have hidx : av_index_search_timestamp st last.timestamp AVSEEK_FLAG_ANY = init.length := by
    simp only [av_index_search_timestamp, hge]
    have h1 : ¬ Int.land AVSEEK_FLAG_ANY AVSEEK_FLAG_BACKWARD ≠ 0 := by decide
    have h2 : ¬ Int.land AVSEEK_FLAG_ANY AVSEEK_FLAG_ANY = 0 := by decide
    simp only [h1, h2, decide_False, if_false, Bool.false_eq_true, h]
    simp
  have hneg : ¬ ((init.length : Int) < 0) := by omega
  simp only [av_add_index_entry, hidx, hneg, if_false, Int.toNat_ofNat, h]
  simp

theorem wrap30_lt (x : Int) : wrap30 x < 536870912 := by
  unfold wrap30; omega

/-- Adding an entry whose timestamp is not below any present one and whose position is
not below any present one keeps the index ordered by timestamp and by position. -/
theorem add_entry_sorted (st : AVStream) (pos ts size fl L : Int)
    (hts : ts_sorted st.index_entries) (hps : pos_sorted st.index_entries)
    (hall : ∀ e ∈ st.index_entries, e.timestamp ≤ ts ∧ e.pos ≤ L ∧ e.size < 536870912)
    (hL : L ≤ pos) :
    ts_sorted (av_add_index_entry st pos ts size 0 fl).index_entries ∧
    pos_sorted (av_add_index_entry st pos ts size 0 fl).index_entries ∧
    ∀ e ∈ (av_add_index_entry st pos ts size 0 fl).index_entries,
      e.timestamp ≤ ts ∧ e.pos ≤ pos ∧ e.size < 536870912 := by
  have hnew : ∀ e, e = (⟨pos, ts, wrap2 fl, wrap30 size⟩ : AVIndexEntry) →
      e.timestamp ≤ ts ∧ e.pos ≤ pos ∧ e.size < 536870912 := by
    rintro e rfl
    exact ⟨le_refl _, le_refl _, wrap30_lt _⟩
  rcases List.eq_nil_or_concat st.index_entries with hnil | ⟨init, last, hcon⟩
  · have := add_entry_append st pos ts size fl (by rw [hnil]; intro e he; cases he)
    rw [this, hnil]
    refine ⟨?_, ?_, ?_⟩
    · simp [ts_sorted]
    · simp [pos_sorted]
    · intro e he
      simp only [List.nil_append, List.mem_singleton] at he
      exact hnew e he
  · rw [List.concat_eq_append] at hcon
    have hts2 := hts
    have hps2 := hps
    rw [ts_sorted, hcon, List.pairwise_append] at hts2
    rw [pos_sorted, hcon, List.pairwise_append] at hps2
    have hlast := hall last (by rw [hcon]; simp)
    have hinit : ∀ e ∈ init, e.timestamp < last.timestamp :=
      fun e he => hts2.2.2 e he last (List.mem_singleton.mpr rfl)
    by_cases heq : last.timestamp = ts
    · subst heq
      rw [add_entry_overwrite_last st init last pos size fl hcon hinit]
      refine ⟨?_, ?_, ?_⟩
      · rw [ts_sorted, List.pairwise_append]
        refine ⟨hts2.1, by simp, ?_⟩
        intro a ha b hb
        rw [List.mem_singleton] at hb
        subst hb
        exact hinit a ha
      · rw [pos_sorted, List.pairwise_append]
        refine ⟨hps2.1, by simp, ?_⟩
        intro a ha b hb
        rw [List.mem_singleton] at hb
        subst hb
        have := (hall a (by rw [hcon]; simp [ha])).2.1
        show a.pos ≤ pos
        omega
      · intro e he
        rcases List.mem_append.mp he with he | he
        · have := hall e (by rw [hcon]; simp [he])
          exact ⟨this.1, by omega, this.2.2⟩
        · exact hnew e (List.mem_singleton.mp he)
    · have hlt : ∀ e ∈ st.index_entries, e.timestamp < ts := by
        intro e he
        rw [hcon] at he
        rcases List.mem_append.mp he with he | he
        · have := hinit e he; omega
        · rw [List.mem_singleton] at he
          subst he
          omega
      rw [add_entry_append st pos ts size fl hlt]
      refine ⟨?_, ?_, ?_⟩
      · rw [ts_sorted, List.pairwise_append]
        refine ⟨hts, by simp, ?_⟩
        intro a ha b hb
        rw [List.mem_singleton] at hb
        subst hb
        exact hlt a ha
      · rw [pos_sorted, List.pairwise_append]
        refine ⟨hps, by simp, ?_⟩
        intro a ha b hb
        rw [List.mem_singleton] at hb
        subst hb
        have := (hall a ha).2.1
        show a.pos ≤ pos
        omega
      · intro e he
        rcases List.mem_append.mp he with he | he
        · have := hall e he
          exact ⟨this.1, by omega, this.2.2⟩
        · exact hnew e (List.mem_singleton.mp he)

theorem idx_inv_mono (L L1 : Int) (l : List (Option AVStream)) (hL : L ≤ L1)
    (h : idx_inv L l) : idx_inv L1 l := by
  intro slot hs
  obtain ⟨st, ast, h1, h2, h3, h4, h5, h6, h7⟩ := h slot hs
  refine ⟨st, ast, h1, h2, h3, h4, h5, h6, ?_⟩
  intro e he
  have := h7 e he
  exact ⟨this.1, by omega, this.2.2⟩

theorem idx_inv_streams_ok (L : Int) (l : List (Option AVStream)) (h : idx_inv L l) :
    streams_ok l := by
  intro slot hs
  obtain ⟨st, ast, h1, h2, -⟩ := h slot hs
  exact ⟨st, ast, h1, h2⟩

/-- One record keeps the index of every stream ordered when its resolved position is
not below the positions already present. -/
theorem idx1_record_sorted (h : Idx1State) (i : Int) (r : Idx1Rec) (more : List Nat)
    (L : Int) (hat : at_bytes h.s.pb (r.encode ++ more)) (hr : r.fits)
    (hinv : idx_inv L h.s.streams)
    (hL : L ≤ resolved (if i = 0 ∧ (r.pos : Int) > h.s.avi.movi_list then 0
      else h.s.avi.movi_list) r) :
    ∃ h1, idx1_record h i = .ok h1 ∧ at_bytes h1.s.pb more ∧
      h1.s.avi.movi_list =
        (if i = 0 ∧ (r.pos : Int) > h.s.avi.movi_list then 0 else h.s.avi.movi_list) ∧
      idx_inv (resolved (if i = 0 ∧ (r.pos : Int) > h.s.avi.movi_list then 0
        else h.s.avi.movi_list) r) h1.s.streams := by
  obtain ⟨p4, base, a4, hbase, hA, hB⟩ := idx1_record_at h i r more hat hr
  rw [← hbase] at hL ⊢
  by_cases hge : rec_stream r ≥ uwrap32 h.s.nb_streams
  · exact ⟨_, hA hge, a4, rfl, idx_inv_mono _ _ _ hL hinv⟩
  · have hn0 : 0 ≤ rec_stream r := uwrap32_nonneg _
    have hnb : (0 : Int) ≤ h.s.nb_streams := by
      unfold AVFormatContext.nb_streams; exact Int.natCast_nonneg _
    have hn1 : rec_stream r < h.s.nb_streams := by
      have := uwrap32_le _ hnb
      omega
    obtain ⟨st, ast, hst, hast⟩ := streams_ok_at h.s (rec_stream r)
      (idx_inv_streams_ok _ _ hinv) hn0 hn1
    obtain ⟨st1, ast1, ni, hrec, hss, hcum, hst1⟩ := hB hge st ast hst hast
    obtain ⟨-, hlt, hget⟩ := stream_at_ok h.s _ st hst
    have hmem : some st ∈ h.s.streams := by
      rw [← hget, List.getD_eq_getElem _ _ hlt]
      exact List.getElem_mem hlt
    obtain ⟨stx, astx, h1, h2, h3, h4, h5, h6, h7⟩ := hinv _ hmem
    cases h1
    have hpa : ast = astx := by
      unfold priv_of at hast
      rw [h2] at hast
      cases hast
      rfl
    subst hpa
    refine ⟨_, hrec, a4, rfl, ?_⟩
    intro slot hs
    have hs' : slot ∈ h.s.streams.set (rec_stream r).toNat
        (some { st1 with priv_data := some ast1 }) := hs
    rcases List.mem_or_eq_of_mem_set hs' with hs' | hs'
    · exact idx_inv_mono _ _ _ hL hinv slot hs'
    · refine ⟨_, ast1, hs', rfl, by rw [hss]; exact h3, by rw [hss]; exact h4, ?_⟩
      rcases hst1 with rfl | rfl
      · refine ⟨h5, h6, ?_⟩
        intro e he
        have := h7 e he
        exact ⟨by omega, by omega, this.2.2⟩
      · obtain ⟨g1, g2, g3⟩ := add_entry_sorted st (resolved base r) ast.cum_len
          (wrap32 r.len) (if Int.land r.flags AVIIF_INDEX ≠ 0 then AVINDEX_KEYFRAME else 0)
          L h5 h6 h7 hL
        refine ⟨g1, g2, ?_⟩
        intro e he
        have := g3 e he
        exact ⟨by omega, this.2.1, this.2.2⟩

theorem idx1_loop_sorted (more : List Nat) :
    ∀ (recs : List Idx1Rec) (h : Idx1State) (i L : Int), 1 ≤ i →
      at_bytes h.s.pb (encode_recs recs ++ more) → (∀ r ∈ recs, r.fits) →
      idx_inv L h.s.streams →
      List.Chain (· ≤ ·) L (recs.map (resolved h.s.avi.movi_list)) →
      ∃ h1 L1, idx1_loop recs.length i h = .ok h1 ∧ idx_inv L1 h1.s.streams := by
  intro recs
  induction recs with
  | nil =>
    intro h i L _ _ _ hinv _
    exact ⟨h, L, rfl, hinv⟩
  | cons r recs ih =>
    intro h i L hi hat hfit hinv hch
    simp only [encode_recs, List.append_assoc] at hat
    simp only [List.map_cons, List.chain_cons] at hch
    have hne : ¬ (i = 0 ∧ (r.pos : Int) > h.s.avi.movi_list) := by omega
    obtain ⟨h1, hrec, a1, hb1, hinv1⟩ :=
      idx1_record_sorted h i r _ L hat (hfit r (List.mem_cons_self _ _)) hinv
        (by rw [if_neg hne]; exact hch.1)
    rw [if_neg hne] at hb1 hinv1
    obtain ⟨h2, L2, hloop, hinv2⟩ :=
      ih h1 (i + 1) _ (by omega) a1 (fun x hx => hfit x (List.mem_cons_of_mem _ hx)) hinv1
        (by rw [hb1]; exact hch.2)
    refine ⟨h2, L2, ?_, hinv2⟩
    simp only [List.length_cons, idx1_loop, hrec]
    exact hloop

theorem split_loop_sorted (ss B P S T : Int) (hss : 0 < ss) (hB : ss ≤ B)
    (hS : S < 536870912) :
    ∀ (fuel : Nat) (st : AVStream) (j : Int), B ≤ j →
      (∀ e ∈ st.index_entries, e.timestamp < T + Int.tdiv j ss ∧ e.pos < P + j) →
      pos_sorted st.index_entries →
      (S - j).toNat + 1 ≤ fuel →
      ∃ st1, split_loop fuel st ss B P S T j = .ok st1 ∧ pos_sorted st1.index_entries := by
  intro fuel
  induction fuel with
  | zero => intro st j _ _ _ hf; omega
  | succ fuel ih =>
    intro st j hj hall hps hf
    by_cases hlt : j < S
    · have hw : wrap32 (j + B) = j + B := wrap32_of_range _ (by omega) (by omega)
      have hmin : wrap32 (FFMIN B (S - j)) = FFMIN B (S - j) := by
        apply wrap32_of_range <;> unfold FFMIN <;> split_ifs <;> omega
      have happ := add_entry_append st (P + j) (T + Int.tdiv j ss) (FFMIN B (S - j))
        AVINDEX_KEYFRAME (fun e he => (hall e he).1)
      have hdiv : Int.tdiv j ss + 1 ≤ Int.tdiv (j + B) ss := by
        rw [Int.tdiv_eq_ediv (by omega) hss.le, Int.tdiv_eq_ediv (by omega) hss.le]
        have h1 : (j + ss) / ss = j / ss + 1 := by
          have := Int.add_mul_ediv_right j 1 (show ss ≠ 0 by omega)
          simpa using this
        have h2 := Int.ediv_le_ediv hss (show j + ss ≤ j + B by omega)
        omega
      simp only [split_loop, if_pos hlt, hw, hmin]
      apply ih
      · omega
      · intro e he
        rw [happ] at he
        rcases List.mem_append.mp he with he | he
        · have := hall e he
          exact ⟨by omega, by omega⟩
        · simp only [List.mem_singleton] at he
          subst he
          exact ⟨by simp only; omega, by simp only; omega⟩
      · rw [happ, pos_sorted, List.pairwise_append]
        refine ⟨hps, by simp, ?_⟩
        intro a ha b hb
        rw [List.mem_singleton] at hb
        subst hb
        have := (hall a ha).2
        show a.pos ≤ P + j
        omega
      · omega
    · exact ⟨st, by simp only [split_loop, if_neg hlt], hps⟩

/-- The split pass on one stream returns and leaves its index in position order. -/
theorem clean_index_stream_sorted (fuel : Nat) (st : AVStream) (ast : AVIStream)
    (hp : st.priv_data = some ast) (h0 : 0 ≤ ast.sample_size)
    (h1 : ast.sample_size ≤ INT_MAX) (hps : pos_sorted st.index_entries)
    (hsz : ∀ e ∈ st.index_entries, e.size < 536870912) (hf : 536870924 ≤ fuel) :
    ∃ st1, clean_index_stream fuel st = .ok st1 ∧ pos_sorted st1.index_entries := by
  have hpriv : priv_of st = .ok ast := by unfold priv_of; rw [hp]
  by_cases hnb : st.nb_index_entries ≠ 1 ∨ ast.sample_size = 0
  · exact ⟨st, by simp only [clean_index_stream, hpriv, if_pos hnb], hps⟩
  · have hlen : st.index_entries.length = 1 := by
      unfold AVStream.nb_index_entries at hnb
      have : ¬ ((st.index_entries.length : Int) ≠ 1) := fun h => hnb (Or.inl h)
      omega
    obtain ⟨e0, he⟩ := List.length_eq_one.mp hlen
    have hs : 0 < ast.sample_size := by
      have : ¬ ast.sample_size = 0 := fun h => hnb (Or.inr h)
      omega
    have hS := hsz e0 (by rw [he]; exact List.mem_singleton.mpr rfl)
    have hd := double_max_spec 10 fuel ast.sample_size hs h1
      (by norm_num; omega) (by omega)
    have hB : doubled ast.sample_size 10 = doubled_threshold ast.sample_size := rfl
    rw [hB] at hd
    obtain ⟨hd1, hd2, hd3, hd4⟩ := hd
    have hent : entry_at st 0 = .ok e0 := by
      unfold entry_at AVStream.nb_index_entries; rw [he]; rfl
    obtain ⟨f, rfl⟩ : ∃ f, fuel = f + 1 := ⟨fuel - 1, by omega⟩
    simp only [clean_index_stream, hpriv, if_neg hnb, hd1, hent]
    by_cases hpos : 0 < e0.size
    · have hw : wrap32 (0 + doubled_threshold ast.sample_size) =
          doubled_threshold ast.sample_size := by
        rw [zero_add]
        exact wrap32_of_range _ (by omega) (by unfold INT_MAX at hd4; omega)
      have hmin : wrap32 (FFMIN (doubled_threshold ast.sample_size) (e0.size - 0)) =
          FFMIN (doubled_threshold ast.sample_size) (e0.size - 0) := by
        apply wrap32_of_range <;> unfold FFMIN <;> split_ifs <;> omega
      have hov := add_entry_overwrite st e0 (e0.pos + 0)
        (FFMIN (doubled_threshold ast.sample_size) (e0.size - 0)) AVINDEX_KEYFRAME he
      have ht0 : e0.timestamp + Int.tdiv 0 ast.sample_size = e0.timestamp := by simp
      simp only [split_loop, if_pos hpos, hw, hmin, ht0]
      apply split_loop_sorted ast.sample_size _ e0.pos e0.size e0.timestamp hs hd3 hS
      · exact le_refl _
      · intro e hmem
        rw [hov] at hmem
        simp only [List.mem_singleton] at hmem
        subst hmem
        have h1 : 1 ≤ Int.tdiv (doubled_threshold ast.sample_size) ast.sample_size := by
          rw [Int.tdiv_eq_ediv (by omega) hs.le]
          have h2 := Int.ediv_le_ediv hs hd3
          rw [Int.ediv_self (by omega)] at h2
          exact h2
        exact ⟨by simp only; omega, by simp only; omega⟩
      · rw [hov]
        simp [pos_sorted]
      · omega
    · exact ⟨st, by simp only [split_loop, if_neg hpos], hps⟩

theorem clean_index_slots_sorted (fuel : Nat) (L : Int) (hf : 536870924 ≤ fuel) :
    ∀ l : List (Option AVStream), idx_inv L l →
      ∃ l1, clean_index_slots fuel l = .ok l1 ∧ all_pos_sorted l1 := by
  intro l
  induction l with
  | nil =>
    intro _
    exact ⟨[], rfl, fun slot hs => by cases hs⟩
  | cons x xs ih =>
    intro hinv
    obtain ⟨st, ast, rfl, h2, h3, h4, -, h6, h7⟩ := hinv x (List.mem_cons_self _ _)
    obtain ⟨st1, hst1, hsorted⟩ := clean_index_stream_sorted fuel st ast h2 h3 h4 h6
      (fun e he => (h7 e he).2.2) hf
    obtain ⟨l1, hl1, hall⟩ := ih (fun slot hs => hinv slot (List.mem_cons_of_mem _ hs))
    refine ⟨some st1 :: l1, by simp only [clean_index_slots, hst1, hl1], ?_⟩
    intro slot hs st2 hst2
    rcases List.mem_cons.mp hs with hs | hs
    · subst hs
      cases hst2
      exact hsorted
    · exact hall slot hs st2 hst2

/-- C11 (amended): when an `idx1` chunk whose records lie at the reader is loaded into
streams that have no index yet (private data present, sample size not negative), and
the resolved positions of its records do not decrease in file order, `avi_read_idx1`
returns 0 and leaves the index entries of every stream in non-decreasing byte-position
order; the split pass `clean_index`, run next, returns and leaves them in
non-decreasing byte-position order too. -/
theorem index_stays_position_ordered (s : AVFormatContext) (size : Int) (r0 : Idx1Rec)
    (recs : List Idx1Rec) (more : List Nat) (fuel : Nat)
    (hat : at_bytes s.pb (encode_recs (r0 :: recs) ++ more))
    (hfit : ∀ r ∈ r0 :: recs, r.fits)
    (hsize : Int.tdiv size 16 = ((r0 :: recs).length : Int))
    (hun : unindexed s.streams)
    (hmono : List.Pairwise (· ≤ ·)
      ((r0 :: recs).map (resolved (idx1_base s.avi.movi_list (r0 :: recs)))))
    (hfuel : 536870924 ≤ fuel) :
    ∃ s1, avi_read_idx1 s size = .ok (0, s1) ∧ all_pos_sorted s1.streams ∧
      ∃ s2, clean_index fuel s1 = .ok s2 ∧ all_pos_sorted s2.streams := by
  have hnb : ¬ Int.tdiv size 16 ≤ 0 := by
    rw [hsize]; simp only [List.length_cons, Nat.cast_add, Nat.cast_one]; omega
  have hcnt : (Int.tdiv size 16).toNat = recs.length + 1 := by
    rw [hsize]; simp
  simp only [encode_recs, List.append_assoc] at hat
  have hbase : (if (0 : Int) = 0 ∧ (r0.pos : Int) > s.avi.movi_list then 0
      else s.avi.movi_list) = idx1_base s.avi.movi_list (r0 :: recs) := by
    simp only [idx1_base, true_and]
  have hch : List.Chain (· ≤ ·) (resolved (idx1_base s.avi.movi_list (r0 :: recs)) r0)
      (recs.map (resolved (idx1_base s.avi.movi_list (r0 :: recs)))) :=
    List.Pairwise.chain' hmono
  have hinv0 : idx_inv (resolved (idx1_base s.avi.movi_list (r0 :: recs)) r0) s.streams := by
    intro slot hs
    obtain ⟨st, ast, h1, h2, h3, h4, h5⟩ := hun slot hs
    refine ⟨st, ast, h1, h2, h3, h4, ?_, ?_, ?_⟩
    · rw [h5]; simp [ts_sorted]
    · rw [h5]; simp [pos_sorted]
    · intro e he; rw [h5] at he; cases he
  obtain ⟨h1, hrec, a1, hb1, hinv1⟩ :=
    idx1_record_sorted { s := s, last_pos := 4294967295 } 0 r0 _
      (resolved (idx1_base s.avi.movi_list (r0 :: recs)) r0) hat
      (hfit r0 (List.mem_cons_self _ _)) hinv0 (by rw [hbase])
  have hb2 : h1.s.avi.movi_list = idx1_base s.avi.movi_list (r0 :: recs) := by
    rw [hb1]; exact hbase
  have hinv2 : idx_inv (resolved (idx1_base s.avi.movi_list (r0 :: recs)) r0)
      h1.s.streams := by
    have := hinv1
    rw [hbase] at this
    exact this
  obtain ⟨h2, L2, hloop, hinv3⟩ :=
    idx1_loop_sorted more recs h1 (0 + 1) _ (by omega) a1
      (fun x hx => hfit x (List.mem_cons_of_mem _ hx)) hinv2
      (by rw [hb2]; exact hch)
  have hsorted : all_pos_sorted h2.s.streams := by
    intro slot hs st hst
    obtain ⟨st1, ast, g1, -, -, -, -, g6, -⟩ := hinv3 slot hs
    rw [hst] at g1
    cases g1
    exact g6
  obtain ⟨l1, hl1, hall⟩ := clean_index_slots_sorted fuel L2 hfuel h2.s.streams hinv3
  refine ⟨h2.s, ?_, hsorted, { h2.s with streams := l1 }, ?_, hall⟩
  · simp only [avi_read_idx1, if_neg hnb, hcnt, idx1_loop, hrec, hloop]
  · simp only [clean_index, hl1]

theorem unindexed_idx_ctx2 : unindexed (idx_ctx2 2048 recs_up).streams := by
  intro slot hs
  simp only [idx_ctx2, List.mem_cons, List.mem_singleton, List.not_mem_nil, or_false] at hs
  rcases hs with rfl | rfl
  · exact ⟨_, _, rfl, rfl, by decide, by decide, rfl⟩
  · exact ⟨_, _, rfl, rfl, by decide, by decide, rfl⟩

theorem at_bytes_idx_ctx2 :
    at_bytes (idx_ctx2 2048 recs_up).pb (encode_recs recs_up ++ []) :=
  ⟨rfl, by decide, [], by decide⟩

theorem index_stays_position_ordered_witness :
    (at_bytes (idx_ctx2 2048 recs_up).pb (encode_recs recs_up ++ []) ∧
      (∀ r ∈ recs_up, r.fits) ∧ unindexed (idx_ctx2 2048 recs_up).streams ∧
      List.Pairwise (· ≤ ·)
        (recs_up.map (resolved (idx1_base (idx_ctx2 2048 recs_up).avi.movi_list recs_up)))) ∧
    ((avi_read_idx1 (idx_ctx2 2048 recs_up) 48).map (fun r => (r.1, positions r.2)) =
      .ok (0, [[2052], [7060, 7168]])) ∧
    (((avi_read_idx1 (idx_ctx2 2048 recs_up) 48).bind
        (fun r => clean_index 32 r.2)).map positions =
      .ok [[2052, 3076, 4100, 5124, 6148], [7060, 7168]]) ∧
    ∃ s1, avi_read_idx1 (idx_ctx2 2048 recs_up) 48 = .ok (0, s1) ∧
      all_pos_sorted s1.streams ∧
      ∃ s2, clean_index 536870924 s1 = .ok s2 ∧ all_pos_sorted s2.streams :=
  ⟨⟨at_bytes_idx_ctx2, by decide, unindexed_idx_ctx2, by decide⟩, by decide, by decide,
    index_stays_position_ordered (idx_ctx2 2048 recs_up) 48 ⟨tag_of 0 119 98, 16, 4, 5000⟩
      [⟨tag_of 1 100 99, 16, 5012, 100⟩, ⟨tag_of 1 100 99, 16, 5120, 100⟩] [] 536870924
      at_bytes_idx_ctx2 (by decide) (by decide) unindexed_idx_ctx2 (by decide)
      (by decide)⟩

/-- C11 as stated fails.  (a) An `idx1` chunk whose two records for stream 0 carry the
raw positions 3000 and 2500 is loaded as it is: the index of stream 0 holds the positions
3000, 2500.  (b) The split pass does not keep the order for a sample size that is
negative as a C `int`: with `0xFFC00040` the block size wraps to 65536, the timestamps
of the blocks go down, and the one entry at position 1000 becomes two entries at the
positions 4195304 and 4129768, in this order. -/
theorem index_order_broken :
    ((avi_read_idx1 (idx_ctx 8 recs_down) 32).map (fun r => (r.1, positions r.2)) =
      .ok (0, [[3000, 2500], []])) ∧
    ¬ List.Pairwise (· ≤ ·) [(3000 : Int), 2500] ∧
    pos_sorted stream_m.index_entries ∧
    ((clean_index_stream 80 stream_m).map (fun st => st.index_entries.map (·.pos)) =
      .ok [4195304, 4129768]) ∧
    ¬ List.Pairwise (· ≤ ·) [(4195304 : Int), 4129768] := by
  decide!

/-! ## Header fields and scanner faults -/

/-- C24 (defect): for an audio `strf` chunk of declared size 17 the bound `size - 18` is
computed in unsigned arithmetic and wraps to `0xFFFFFFFF`, so the extra-data length 4
read after the fixed fields is not clamped: 4 bytes that lie beyond the chunk are stored
as extra data and `18 + 4 <= 17` does not hold; the skip that follows moves the reader
4294967291 bytes ahead.  With the declared sizes 18 and 22 the length is clamped to
0 and to 4. -/
theorem extradata_not_clamped :
    audio_extra 17 strf_17_body = (some [1, 2, 3, 4], 4, 4294967314) ∧
    ¬ ((18 : Int) + 4 ≤ 17) ∧
    audio_extra 18 strf_17_body = (some [], 0, 18) ∧
    audio_extra 22 strf_17_body = (some [1, 2, 3, 4], 4, 22) := by
  decide!

/-- C25 (defect): a size field `FF FF FF FF` is read as the C `int` -1 and passes the
test `i + size > movi_end`, so the chunk is accepted with `remaining = -1`; a size field
`FF FF FF 7F` is accepted with `remaining = 2147483647` and
`packet_size = -2147483641`, the sum `size + 8` wrapped. -/
theorem negative_size_is_accepted :
    open_result file_neg = .ok 0 ∧
    scan_from (opened file_neg) = .ok (true, 0, 296, false) ∧
    (scan 64 (opened file_neg) Win.init 288 288).map
      (fun r => remaining_and_packet_size r.2 0) = .ok (some (-1, 7)) ∧
    open_result file_big = .ok 0 ∧
    (scan 64 (opened file_big) Win.init 288 288).map
      (fun r => remaining_and_packet_size r.2 1) = .ok (some (2147483647, -2147483641)) ∧
    ¬ ((0 : Int) ≤ -1) ∧ (2147483647 : Int) + 8 ≠ -2147483641 := by
  decide!

/-- C26 (defect): after six video chunks and two stray bytes the palette-change chunk of
`file_pal` reaches the palette reader.  With first entry 254 and count 2 the slots 254
and 255 are written.  With first entry 255 and count 2 the second slot written is 256,
outside the table of 256 entries: the seventh call faults. -/
theorem palette_write_out_of_table :
    open_result (file_pal 254 2) = .ok 0 ∧
    palette_at (after_reads true 6 (opened (file_pal 254 2)) blank_packet) 254 =
      some (1, [0, 0]) ∧
    palette_at (after_reads true 7 (opened (file_pal 254 2)) blank_packet) 254 =
      some (1, [660510, 2634300]) ∧
    open_result (file_pal 255 2) = .ok 0 ∧
    returns (read_packets true 7 (opened (file_pal 255 2)) blank_packet) =
      [.ok 2, .ok 2, .ok 2, .ok 2, .ok 2, .ok 2, .error .outOfBounds] := by
  decide!

/-- C27 (defect): the test before the stream array is indexed in the `strf` branch is
`stream_index >= nb_streams` only.  When a `strf` chunk comes before any `strh` chunk,
or right after a leading `pads` stream header, the cursor is -1, the test lets it
through and `streams[-1]` is read: `avi_read_header` faults. -/
theorem strf_indexes_below_zero :
    avi_read_header mem_ok 64 (fresh file_strf_first) = .error .outOfBounds ∧
    avi_read_header mem_ok 64 (fresh file_pads_strf) = .error .outOfBounds ∧
    stream_at { fresh [] with streams := [some plain_stream] } (-1) =
      .error .outOfBounds := by
  decide!

/-- C28 (defect): a header that declares no stream and carries `AVIF_MUSTUSEINDEX` is
opened with success and the non-interleaved flag set; the selection loop of the first
`avi_read_packet` call then runs over no stream, `best_st` stays null and is
dereferenced. -/
theorem selection_without_streams :
    open_result file_zero = .ok 0 ∧
    (opened file_zero).avi.non_interleaved = 32 ∧
    (opened file_zero).streams = [] ∧
    selection_pass (opened file_zero) = .error .nullPtr ∧
    returns (read_packets true 1 (opened file_zero) blank_packet) = [.error .nullPtr] := by
  decide!

/-! ## The doubling loop of `clean_index` -/

theorem double_max_zero : ∀ fuel : Nat, double_max fuel 0 = .error .fuel := by
  intro fuel
  induction fuel with
  | zero => rfl
  | succ fuel ih =>
    have h : wrap32 ((0 : Int) + 0) = 0 := by decide
    simp only [double_max, h]
    rw [if_pos (by decide)]
    exact ih

theorem double_max_neg_pow : ∀ (fuel k : Nat), k ≤ 31 →
    double_max fuel (-(2 : Int) ^ k) = .error .fuel := by
  intro fuel
  induction fuel with
  | zero => intro k _; rfl
  | succ fuel ih =>
    intro k hk
    have hpos : (0 : Int) < 2 ^ k := by positivity
    have hlt : -(2 : Int) ^ k < 1024 := by omega
    simp only [double_max, if_pos hlt]
    by_cases h31 : k = 31
    · subst h31
      have h : wrap32 (-(2 : Int) ^ 31 + -(2 : Int) ^ 31) = 0 := by decide
      rw [h]
      exact double_max_zero fuel
    · have hle : (2 : Int) ^ (k + 1) ≤ 2 ^ 31 :=
        pow_le_pow_right₀ (by norm_num) (by omega)
      have h2 : -(2 : Int) ^ k + -(2 : Int) ^ k = -(2 : Int) ^ (k + 1) := by
        rw [pow_succ]; ring
      have h : wrap32 (-(2 : Int) ^ k + -(2 : Int) ^ k) = -(2 : Int) ^ (k + 1) := by
        rw [h2]
        have hp : (0 : Int) < 2 ^ (k + 1) := by positivity
        norm_num at hle
        exact wrap32_of_range _ (by omega) (by omega)
      rw [h]
      exact ih (k + 1) (by omega)

theorem summary_ready : (before_clean file_m).map
    (fun s => (s.avi.non_interleaved, index_summary s)) =
      .ok (32, [some (0, []), some (-1, [8])]) := by
  decide!

/-- C29 (defect): with the sample size -1 (`0xFFFFFFFF` in the `strh` chunk) the loop
`while (max < 1024) max += max` goes through -2, -4, ..., -2^31 and then stays at 0 for
ever: no amount of fuel lets `double_max` return, so `clean_index` does not return for a
stream with one index entry and this sample size.  The file `file_m` brings
`avi_read_header` to that call: the flag is set, stream 1 has the sample size -1 and one
index entry. -/
theorem doubling_never_ends :
    (∀ fuel : Nat, double_max fuel (-1) = .error .fuel) ∧
    (∀ fuel : Nat, clean_index_stream fuel stream_minus_one = .error .fuel) ∧
    ((before_clean file_m).map (fun s => (s.avi.non_interleaved, index_summary s)) =
      .ok (32, [some (0, []), some (-1, [8])])) ∧
    (∀ fuel : Nat, (before_clean file_m).bind (clean_index fuel) = .error .fuel) := by
  have h1 : ∀ fuel : Nat, double_max fuel (-1) = .error .fuel := by
    intro fuel
    have := double_max_neg_pow fuel 0 (by omega)
    simpa using this
  refine ⟨h1, ?_, summary_ready, ?_⟩
  · intro fuel
    have hpriv : priv_of stream_minus_one =
        .ok { zero_ast with sample_size := -1, scale := 1, rate := 44100 } := rfl
    have hnb : ¬ (stream_minus_one.nb_index_entries ≠ 1 ∨ (-1 : Int) = 0) := by decide
    simp only [clean_index_stream, hpriv, if_neg hnb, h1]
  · intro fuel
    have hs := summary_ready
    rcases hb : before_clean file_m with e | s
    · rw [hb] at hs; cases hs
    · rw [hb] at hs
      simp only [Except.map, Except.ok.injEq, Prod.mk.injEq] at hs
      obtain ⟨-, hsum⟩ := hs
      simp only [index_summary] at hsum
      rcases hst : s.streams with _ | ⟨x, _ | ⟨y, _ | ⟨z, rest⟩⟩⟩
      · rw [hst] at hsum; cases hsum
      · rw [hst] at hsum; simp at hsum
      · rw [hst] at hsum
        simp only [List.map_cons, List.map_nil, List.cons.injEq, and_true] at hsum
        obtain ⟨hx, hy⟩ := hsum
        rcases x with _ | v
        · cases hx
        rcases y with _ | a
        · cases hy
        simp only [Option.some_bind] at hx hy
        rcases hvp : v.priv_data with _ | av
        · rw [hvp] at hx; cases hx
        rcases hap : a.priv_data with _ | aa
        · rw [hap] at hy; cases hy
        rw [hvp] at hx
        rw [hap] at hy
        simp only [Option.map_some', Option.some.injEq, Prod.mk.injEq, List.map_eq_nil_iff]
          at hx hy
        obtain ⟨e0, he0⟩ : ∃ e0, a.index_entries = [e0] := by
          have hlen : (a.index_entries.map (·.size)).length = 1 := by rw [hy.2]; rfl
          rw [List.length_map] at hlen
          exact List.length_eq_one.mp hlen
        have hv : clean_index_stream fuel v = .ok v := by
          have hpv : priv_of v = .ok av := by unfold priv_of; rw [hvp]
          have hnb : v.nb_index_entries ≠ 1 ∨ av.sample_size = 0 := Or.inr hx.1
          simp only [clean_index_stream, hpv, if_pos hnb]
        have ha : clean_index_stream fuel a = .error .fuel := by
          have hpa : priv_of a = .ok aa := by unfold priv_of; rw [hap]
          have hnb : ¬ (a.nb_index_entries ≠ 1 ∨ aa.sample_size = 0) := by
            unfold AVStream.nb_index_entries
            rw [he0, hy.1]
            simp
          simp only [clean_index_stream, hpa, if_neg hnb]
          rw [hy.1, h1]
        simp only [Except.bind, clean_index, hst, clean_index_slots, hv, ha]
      · rw [hst] at hsum; simp at hsum

/-! ## Probe and open agree on the magic -/

theorem probe_match_true (p : AVProbeData) :
    ∀ l : List (Nat × Int), probe_match p l = .ok true →
      ∀ kc ∈ l, ∃ b, p.buf.get? kc.1 = some b ∧ ((b % 256 : Nat) : Int) = kc.2 := by
  intro l
  induction l with
  | nil => intro _ kc hkc; cases hkc
  | cons x xs ih =>
    intro h kc hkc
    simp only [probe_match, probe_byte] at h
    rcases hg : p.buf.get? x.1 with _ | b
    · rw [hg] at h; cases h
    · rw [hg] at h
      simp only at h
      by_cases hb : ((b % 256 : Nat) : Int) = x.2
      · rw [if_pos hb] at h
        rcases List.mem_cons.mp hkc with rfl | hkc
        · exact ⟨b, hg, hb⟩
        · exact ih h kc hkc
      · rw [if_neg hb] at h
        cases h

/-- C30: for every probe buffer on which `avi_probe` returns the maximum score,
`get_riff` run by a reader that stands at the start of the same bytes returns 0 (the
`RIFF` and `AVI ` checks pass), leaves the reader after the 12 magic bytes, and sets
`riff_end` to the little-endian size held in bytes 4..7 plus 8. -/
theorem probe_and_open_agree (p : AVProbeData) (avi : AVIContext)
    (h : avi_probe p = .ok AVPROBE_SCORE_MAX) :
    ∃ b4 b5 b6 b7 : Nat, (p.buf.drop 4).take 4 = [b4, b5, b6, b7] ∧
      get_riff avi ⟨p.buf, 0, false⟩ =
        (0, { avi with riff_end := ((b4 % 256 + b5 % 256 * 256 + b6 % 256 * 65536 +
                b7 % 256 * 16777216 : Nat) : Int) + 8 },
          ⟨p.buf, 12, false⟩) := by
  have hm : probe_match p [(0, 82), (1, 73), (2, 70), (3, 70), (8, 65), (9, 86), (10, 73),
      (11, 32)] = .ok true := by
    unfold avi_probe at h
    split_ifs at h
    · exact absurd h (by decide)
    · split at h
      · cases h
      · assumption
      · exact absurd h (by decide)
  have hall := probe_match_true p _ hm
  obtain ⟨x11, g11, -⟩ := hall (11, 32) (by simp)
  have h12 : 12 ≤ p.buf.length := by
    rw [List.get?_eq_getElem?] at g11
    have := (List.getElem?_eq_some.mp g11).1
    omega
  obtain ⟨b0, b1, b2, b3, b4, b5, b6, b7, b8, b9, b10, b11, rest, hb⟩ :
      ∃ b0 b1 b2 b3 b4 b5 b6 b7 b8 b9 b10 b11 rest,
        p.buf = b0 :: b1 :: b2 :: b3 :: b4 :: b5 :: b6 :: b7 :: b8 :: b9 :: b10 ::
          b11 :: rest := by
    rcases hq : p.buf with _ | ⟨b0, _ | ⟨b1, _ | ⟨b2, _ | ⟨b3, _ | ⟨b4, _ | ⟨b5,
      _ | ⟨b6, _ | ⟨b7, _ | ⟨b8, _ | ⟨b9, _ | ⟨b10, _ | ⟨b11, rest⟩⟩⟩⟩⟩⟩⟩⟩⟩⟩⟩⟩
    all_goals first
      | exact ⟨_, _, _, _, _, _, _, _, _, _, _, _, _, rfl⟩
      | (rw [hq] at h12; simp at h12)
  have e0 : ((b0 % 256 : Nat) : Int) = 82 := by
    obtain ⟨x, g, hx⟩ := hall (0, 82) (by simp)
    rw [hb] at g; cases g; exact hx
  have e1 : ((b1 % 256 : Nat) : Int) = 73 := by
    obtain ⟨x, g, hx⟩ := hall (1, 73) (by simp)
    rw [hb] at g; cases g; exact hx
  have e2 : ((b2 % 256 : Nat) : Int) = 70 := by
    obtain ⟨x, g, hx⟩ := hall (2, 70) (by simp)
    rw [hb] at g; cases g; exact hx
  have e3 : ((b3 % 256 : Nat) : Int) = 70 := by
    obtain ⟨x, g, hx⟩ := hall (3, 70) (by simp)
    rw [hb] at g; cases g; exact hx
  have e8 : ((b8 % 256 : Nat) : Int) = 65 := by
    obtain ⟨x, g, hx⟩ := hall (8, 65) (by simp)
    rw [hb] at g; cases g; exact hx
  have e9 : ((b9 % 256 : Nat) : Int) = 86 := by
    obtain ⟨x, g, hx⟩ := hall (9, 86) (by simp)
    rw [hb] at g; cases g; exact hx
  have e10 : ((b10 % 256 : Nat) : Int) = 73 := by
    obtain ⟨x, g, hx⟩ := hall (10, 73) (by simp)
    rw [hb] at g; cases g; exact hx
  have e11 : ((b11 % 256 : Nat) : Int) = 32 := by
    obtain ⟨x, g, hx⟩ := hall (11, 32) (by simp)
    rw [hb] at g; cases g; exact hx
  refine ⟨b4, b5, b6, b7, by rw [hb]; rfl, ?_⟩
  have hat : at_bytes ⟨p.buf, 0, false⟩
      (b0 :: b1 :: b2 :: b3 :: b4 :: b5 :: b6 :: b7 :: b8 :: b9 :: b10 :: b11 :: []) :=
    ⟨rfl, le_refl _, rest, by rw [hb]; rfl⟩
  obtain ⟨g0, a0⟩ := get_byte_at _ _ _ hat
  obtain ⟨g1, a1⟩ := get_byte_at _ _ _ a0
  obtain ⟨g2, a2⟩ := get_byte_at _ _ _ a1
  obtain ⟨g3, a3⟩ := get_byte_at _ _ _ a2
  obtain ⟨g4, a4⟩ := get_byte_at _ _ _ a3
  obtain ⟨g5, a5⟩ := get_byte_at _ _ _ a4
  obtain ⟨g6, a6⟩ := get_byte_at _ _ _ a5
  obtain ⟨g7, a7⟩ := get_byte_at _ _ _ a6
  obtain ⟨g8, a8⟩ := get_byte_at _ _ _ a7
  obtain ⟨g9, a9⟩ := get_byte_at _ _ _ a8
  obtain ⟨g10, a10⟩ := get_byte_at _ _ _ a9
  obtain ⟨g11, -⟩ := get_byte_at _ _ _ a10
  simp only [get_riff, get_le32, get_le16, g0, g1, g2, g3, g4, g5, g6, g7, g8, g9, g10, g11,
    e0, e1, e2, e3, e8, e9, e10, e11, url_ftell]
  have t1 : ¬ ((82 : Int) + 73 * 256 + (70 + 70 * 256) * 65536 ≠ MKTAG 82 73 70 70) := by
    decide
  have t2 : ¬ ((65 : Int) + 86 * 256 + (73 + 32 * 256) * 65536 ≠ MKTAG 65 86 73 32 ∧
      (65 : Int) + 86 * 256 + (73 + 32 * 256) * 65536 ≠ MKTAG 65 86 73 88) := by
    decide
  rw [if_neg t1, if_neg t2]
  simp only [Prod.mk.injEq, true_and]
  refine ⟨?_, ?_⟩
  · congr 1
    push_cast
    ring
  · rfl

theorem probe_and_open_agree_witness :
    avi_probe probe_40 = .ok AVPROBE_SCORE_MAX ∧
    ∃ b4 b5 b6 b7 : Nat, (probe_40.buf.drop 4).take 4 = [b4, b5, b6, b7] ∧
      get_riff (fresh []).avi ⟨probe_40.buf, 0, false⟩ =
        (0, { (fresh []).avi with riff_end := ((b4 % 256 + b5 % 256 * 256 + b6 % 256 * 65536 +
                b7 % 256 * 16777216 : Nat) : Int) + 8 },
          ⟨probe_40.buf, 12, false⟩) :=
  ⟨by decide, probe_and_open_agree probe_40 (fresh []).avi (by decide)⟩

/-! ## Scale and rate of a stream -/

set_option maxRecDepth 8192

/-- C23: when a `strh` chunk is parsed for an in-range stream, `chunk_strh` returns and
the stream keeps the pair (scale, rate) declared by the chunk if both are nonzero,
otherwise (frame_period, 1000000) if the global frame period is nonzero, otherwise
(1, 25); so both are nonzero, and the time base of the stream is scale / rate. -/
theorem scale_rate_fallback (h : HdrState) (size : Int) (pb : ByteIOContext)
    (st : AVStream) (ast : AVIStream)
    (hin : wrap32 (h.stream_index + 1) < h.s.nb_streams)
    (hst : stream_at h.s (wrap32 (h.stream_index + 1)) = .ok st)
    (hast : priv_of st = .ok ast) :
    ∃ step st1 ast1, chunk_strh h size pb = .ok step ∧
      stream_at step.state.s (wrap32 (h.stream_index + 1)) = .ok st1 ∧
      priv_of st1 = .ok ast1 ∧
      ((declared_scale_rate pb).1 ≠ 0 ∧ (declared_scale_rate pb).2 ≠ 0 →
        (ast1.scale, ast1.rate) = declared_scale_rate pb) ∧
      (¬ ((declared_scale_rate pb).1 ≠ 0 ∧ (declared_scale_rate pb).2 ≠ 0) →
        h.frame_period ≠ 0 → (ast1.scale, ast1.rate) = (h.frame_period, 1000000)) ∧
      (¬ ((declared_scale_rate pb).1 ≠ 0 ∧ (declared_scale_rate pb).2 ≠ 0) →
        h.frame_period = 0 → (ast1.scale, ast1.rate) = (1, 25)) ∧
      ast1.scale ≠ 0 ∧ ast1.rate ≠ 0 ∧ st1.time_base = ⟨ast1.scale, ast1.rate⟩ := by
  have hnot : ¬ wrap32 (h.stream_index + 1) ≥ h.s.nb_streams := by omega
  have hsr : ∀ sc ra fp : Int,
      (sc ≠ 0 ∧ ra ≠ 0 → scale_rate sc ra fp = (sc, ra)) ∧
      (¬ (sc ≠ 0 ∧ ra ≠ 0) → fp ≠ 0 → scale_rate sc ra fp = (fp, 1000000)) ∧
      (¬ (sc ≠ 0 ∧ ra ≠ 0) → fp = 0 → scale_rate sc ra fp = (1, 25)) ∧
      (scale_rate sc ra fp).1 ≠ 0 ∧ (scale_rate sc ra fp).2 ≠ 0 := by
    intro sc ra fp
    unfold scale_rate
    by_cases h1 : sc ≠ 0 ∧ ra ≠ 0
    · rw [if_pos h1]
      exact ⟨fun _ => rfl, fun h2 => absurd h1 h2, fun h2 => absurd h1 h2, h1.1, h1.2⟩
    · rw [if_neg h1]
      by_cases h2 : fp ≠ 0
      · rw [if_pos h2]
        exact ⟨fun h3 => absurd h3 h1, fun _ _ => rfl, fun _ h3 => absurd h3 h2, h2,
          by norm_num⟩
      · rw [if_neg h2]
        exact ⟨fun h3 => absurd h3 h1, fun _ h3 => absurd h3 h2, fun _ _ => rfl,
          by norm_num, by norm_num⟩
  obtain ⟨r1, r2, r3, r4, r5⟩ := hsr (declared_scale_rate pb).1 (declared_scale_rate pb).2
    h.frame_period
  have key : ∀ (c : Except Err HdrStep) (step : HdrStep) (st1 : AVStream)
      (ast1 : AVIStream), c = .ok step →
      stream_at step.state.s (wrap32 (h.stream_index + 1)) = .ok st1 →
      priv_of st1 = .ok ast1 →
      (ast1.scale, ast1.rate) = scale_rate (declared_scale_rate pb).1
        (declared_scale_rate pb).2 h.frame_period →
      st1.time_base = ⟨ast1.scale, ast1.rate⟩ →
      ∃ step st1 ast1, c = .ok step ∧
        stream_at step.state.s (wrap32 (h.stream_index + 1)) = .ok st1 ∧
        priv_of st1 = .ok ast1 ∧
        ((declared_scale_rate pb).1 ≠ 0 ∧ (declared_scale_rate pb).2 ≠ 0 →
          (ast1.scale, ast1.rate) = declared_scale_rate pb) ∧
        (¬ ((declared_scale_rate pb).1 ≠ 0 ∧ (declared_scale_rate pb).2 ≠ 0) →
          h.frame_period ≠ 0 → (ast1.scale, ast1.rate) = (h.frame_period, 1000000)) ∧
        (¬ ((declared_scale_rate pb).1 ≠ 0 ∧ (declared_scale_rate pb).2 ≠ 0) →
          h.frame_period = 0 → (ast1.scale, ast1.rate) = (1, 25)) ∧
        ast1.scale ≠ 0 ∧ ast1.rate ≠ 0 ∧ st1.time_base = ⟨ast1.scale, ast1.rate⟩ := by
    intro c step st1 ast1 e1 e2 e3 e4 e5
    have e6 : ast1.scale = (scale_rate (declared_scale_rate pb).1
        (declared_scale_rate pb).2 h.frame_period).1 := by rw [← e4]
    have e7 : ast1.rate = (scale_rate (declared_scale_rate pb).1
        (declared_scale_rate pb).2 h.frame_period).2 := by rw [← e4]
    refine ⟨step, st1, ast1, e1, e2, e3, ?_, ?_, ?_, by rw [e6]; exact r4,
      by rw [e7]; exact r5, e5⟩
    · intro c; rw [e4, r1 c]
    · intro c d; rw [e4, r2 c d]
    · intro c d; rw [e4, r3 c d]
  have hp0 : ∀ (f : StrhFields) (ss : Int), ∃ ast1,
      priv_of (strh_stream st ast f h.frame_period ss) = .ok ast1 ∧
      (ast1.scale, ast1.rate) = scale_rate f.scale f.rate h.frame_period ∧
      (strh_stream st ast f h.frame_period ss).time_base = ⟨ast1.scale, ast1.rate⟩ :=
    fun f ss => ⟨_, rfl, rfl, rfl⟩
  have hd : declared_scale_rate pb = ((read_strh (get_le32 (get_le32 pb).2).2).1.scale,
      (read_strh (get_le32 (get_le32 pb).2).2).1.rate) := by
    simp only [declared_scale_rate]
  have hp : ∀ ss : Int, ∃ ast1,
      priv_of (strh_stream st ast (read_strh (get_le32 (get_le32 pb).2).2).1
        h.frame_period ss) = .ok ast1 ∧
      (ast1.scale, ast1.rate) = scale_rate (declared_scale_rate pb).1
        (declared_scale_rate pb).2 h.frame_period ∧
      (strh_stream st ast (read_strh (get_le32 (get_le32 pb).2).2).1
        h.frame_period ss).time_base = ⟨ast1.scale, ast1.rate⟩ := by
    intro ss
    rw [hd]
    exact hp0 _ ss
  simp only [chunk_strh, if_neg hnot, hst, hast]
  split_ifs
  · obtain ⟨ast1, p1, p2, p3⟩ := hp 0
    exact key _ _ _ ast1 rfl (stream_at_set_stream h.s _ st _ hst) p1 p2 p3
  · obtain ⟨ast1, p1, p2, p3⟩ := hp (read_strh (get_le32 (get_le32 pb).2).2).1.sample_size
    exact key _ _ _ ast1 rfl (stream_at_set_stream h.s _ st _ hst) p1 p2 p3
  · obtain ⟨ast1, p1, p2, p3⟩ := hp (read_strh (get_le32 (get_le32 pb).2).2).1.sample_size
    exact key _ _ _ ast1 rfl (stream_at_set_stream h.s _ st _ hst) p1 p2 p3
  · obtain ⟨ast1, p1, p2, p3⟩ := hp (read_strh (get_le32 (get_le32 pb).2).2).1.sample_size
    exact key _ _ _ ast1 rfl (stream_at_set_stream h.s _ st _ hst) p1 p2 p3
  · have hq0 : ∀ f : StrhFields, ∃ ast1,
        priv_of { strh_stream st ast f h.frame_period f.sample_size with
                  priv_data := some { ast with
                    scale := (scale_rate f.scale f.rate h.frame_period).1,
                    rate := (scale_rate f.scale f.rate h.frame_period).2,
                    cum_len := f.start, sample_size := f.sample_size } } = .ok ast1 ∧
        (ast1.scale, ast1.rate) = scale_rate f.scale f.rate h.frame_period ∧
        (strh_stream st ast f h.frame_period f.sample_size).time_base =
          ⟨ast1.scale, ast1.rate⟩ :=
      fun f => ⟨_, rfl, rfl, rfl⟩
    obtain ⟨ast1, p1, p2, p3⟩ := hq0 (read_strh (get_le32 (get_le32 pb).2).2).1
    refine key _ _ _ ast1 rfl (stream_at_set_stream h.s _ st _ hst) p1 ?_ p3
    rw [hd]
    exact p2

set_option maxRecDepth 512

theorem scale_rate_fallback_witness :
    (wrap32 (strh_state.stream_index + 1) < strh_state.s.nb_streams ∧
      declared_scale_rate strh_state.s.pb = (0, 0) ∧ strh_state.frame_period = 40000) ∧
    ∃ step st1 ast1, chunk_strh strh_state 56 strh_state.s.pb = .ok step ∧
      stream_at step.state.s (wrap32 (strh_state.stream_index + 1)) = .ok st1 ∧
      priv_of st1 = .ok ast1 ∧
      ((declared_scale_rate strh_state.s.pb).1 ≠ 0 ∧
          (declared_scale_rate strh_state.s.pb).2 ≠ 0 →
        (ast1.scale, ast1.rate) = declared_scale_rate strh_state.s.pb) ∧
      (¬ ((declared_scale_rate strh_state.s.pb).1 ≠ 0 ∧
          (declared_scale_rate strh_state.s.pb).2 ≠ 0) →
        strh_state.frame_period ≠ 0 →
        (ast1.scale, ast1.rate) = (strh_state.frame_period, 1000000)) ∧
      (¬ ((declared_scale_rate strh_state.s.pb).1 ≠ 0 ∧
          (declared_scale_rate strh_state.s.pb).2 ≠ 0) →
        strh_state.frame_period = 0 → (ast1.scale, ast1.rate) = (1, 25)) ∧
      ast1.scale ≠ 0 ∧ ast1.rate ≠ 0 ∧ st1.time_base = ⟨ast1.scale, ast1.rate⟩ :=
  ⟨by decide!, scale_rate_fallback strh_state 56 strh_state.s.pb plain_stream zero_ast
    (by decide!) (by decide!) (by decide!)⟩

/-! ## The run of entries left by the split pass -/

theorem dvd_doubled (ss : Int) : ∀ (k : Nat) (x : Int), ss ∣ x → ss ∣ doubled x k := by
  intro k
  induction k with
  | zero => intro x h; exact h
  | succ k ih =>
    intro x h
    simp only [doubled]
    split_ifs
    · exact ih _ (dvd_add h h)
    · exact h

theorem run_entries_succ (P T S B s : Int) (n : Nat) :
    run_entries P T S B s (n + 1) = run_entries P T S B s n ++
      [{ pos := P + n * B, timestamp := T + n * (B / s), flags := AVINDEX_KEYFRAME,
         size := min B (S - n * B) }] := by
  simp only [run_entries, List.range_succ, List.map_append, List.map_cons, List.map_nil]

theorem block_count_eq (S B : Int) (k : Nat) (hB : 0 < B) (h1 : ((k : Int) - 1) * B < S)
    (h2 : S ≤ k * B) : block_count S B = k := by
  unfold block_count
  have hq : (S + B - 1) / B = k := by
    apply le_antisymm
    · have : (S + B - 1) / B < (k : Int) + 1 := by
        rw [Int.ediv_lt_iff_lt_mul hB]
        nlinarith
      omega
    · rw [Int.le_ediv_iff_mul_le hB]
      nlinarith
  rw [hq]
  simp

theorem split_loop_exact (ss B P S T : Int) (hss : 0 < ss) (hB : ss ≤ B) (hd : ss ∣ B)
    (hS : S < 536870912) :
    ∀ (fuel : Nat) (st : AVStream) (k : Nat), 1 ≤ k →
      st.index_entries = run_entries P T S B ss k →
      ((k : Int) - 1) * B < S →
      (S - k * B).toNat + 1 ≤ fuel →
      ∃ st1, split_loop fuel st ss B P S T (k * B) = .ok st1 ∧
        st1.index_entries = run_entries P T S B ss (block_count S B) := by
  have hBpos : 0 < B := by omega
  obtain ⟨q, hq⟩ := hd
  have hqpos : 0 < q := by
    by_contra hc
    have : q ≤ 0 := by omega
    have : ss * q ≤ 0 := Int.mul_nonpos_of_nonneg_of_nonpos hss.le this
    omega
  have hdivq : B / ss = q := by
    rw [hq]; exact Int.mul_ediv_cancel_left q (by omega)
  have htd : ∀ k : Nat, Int.tdiv ((k : Int) * B) ss = k * q := by
    intro k
    have h0 : (0 : Int) ≤ (k : Int) * B := by positivity
    rw [Int.tdiv_eq_ediv h0 hss.le, hq]
    rw [show (k : Int) * (ss * q) = ss * (k * q) by ring]
    exact Int.mul_ediv_cancel_left _ (by omega)
  intro fuel
  induction fuel with
  | zero => intro st k _ _ _ hf; omega
  | succ fuel ih =>
    intro st k hk hent hprev hf
    by_cases hlt : (k : Int) * B < S
    · have hkB : B ≤ (k : Int) * B := by
        have : (1 : Int) ≤ k := by exact_mod_cast hk
        nlinarith
      have hw : wrap32 ((k : Int) * B + B) = ((k + 1 : Nat) : Int) * B := by
        rw [wrap32_of_range _ (by omega) (by omega)]
        push_cast; ring
      have hmin : wrap32 (FFMIN B (S - k * B)) = FFMIN B (S - k * B) := by
        apply wrap32_of_range <;> unfold FFMIN <;> split_ifs <;> omega
      have hmin30 : wrap30 (FFMIN B (S - k * B)) = min B (S - k * B) := by
        rw [wrap30_of_range _ (by unfold FFMIN; split_ifs <;> omega)
          (by unfold FFMIN; split_ifs <;> omega)]
        unfold FFMIN
        split_ifs with hc
        · rw [min_eq_right (by omega)]
        · rw [min_eq_left (by omega)]
      have hall : ∀ e ∈ st.index_entries, e.timestamp < T + Int.tdiv ((k : Int) * B) ss := by
        intro e he
        rw [hent] at he
        simp only [run_entries, List.mem_map, List.mem_range] at he
        obtain ⟨j, hj, rfl⟩ := he
        rw [htd, hdivq]
        have : (j : Int) + 1 ≤ k := by exact_mod_cast hj
        show T + (j : Int) * q < T + k * q
        nlinarith
      have happ := add_entry_append st (P + k * B) (T + Int.tdiv ((k : Int) * B) ss)
        (FFMIN B (S - k * B)) AVINDEX_KEYFRAME hall
      simp only [split_loop, if_pos hlt, hw, hmin]
      apply ih _ (k + 1) (by omega)
      · rw [happ, hent, run_entries_succ, hmin30, htd, hdivq]
        rfl
      · push_cast
        rw [show ((k : Int) + 1 - 1) * B = k * B by ring]
        exact hlt
      · push_cast
        have : (S - ((k : Int) + 1) * B).toNat + 1 ≤ (S - k * B).toNat := by
          have : ((k : Int) + 1) * B = k * B + B := by ring
          omega
        omega
    · refine ⟨st, by simp only [split_loop, if_neg hlt], ?_⟩
      rw [hent, block_count_eq S B k hBpos hprev (by omega)]

/-- C22 (amended to a positive entry size): for a stream with one index entry (P, T, S),
S > 0, and fixed sample size s > 0, the split pass returns and leaves exactly
ceil(S / B) entries, B being s doubled until it is at least 1024: entry k (from 0) has
position P + k * B, timestamp T + k * (B / s), the keyframe flag, and size
min(B, S - k * B); every entry but the last has size B and ends where the next one
starts. -/
theorem split_pass_run (fuel : Nat) (st : AVStream) (ast : AVIStream) (e0 : AVIndexEntry)
    (hp : st.priv_data = some ast) (he : st.index_entries = [e0])
    (hs : 0 < ast.sample_size) (hs2 : ast.sample_size ≤ INT_MAX)
    (hS0 : 0 < e0.size) (hS : e0.size < 536870912) (hf : e0.size.toNat + 12 ≤ fuel) :
    ∃ st1, clean_index_stream fuel st = .ok st1 ∧
      st1.index_entries = run_entries e0.pos e0.timestamp e0.size
        (doubled_threshold ast.sample_size) ast.sample_size
        (block_count e0.size (doubled_threshold ast.sample_size)) ∧
      ∀ (k : Nat) (e : AVIndexEntry), st1.index_entries.get? k = some e →
        k + 1 < block_count e0.size (doubled_threshold ast.sample_size) →
        e.size = doubled_threshold ast.sample_size ∧
        e.pos + e.size = e0.pos + ((k : Int) + 1) * doubled_threshold ast.sample_size := by
  have hd := double_max_spec 10 fuel ast.sample_size hs hs2
    (by norm_num; omega) (by omega)
  have hB : doubled ast.sample_size 10 = doubled_threshold ast.sample_size := rfl
  have hdvd : ast.sample_size ∣ doubled_threshold ast.sample_size :=
    dvd_doubled ast.sample_size 10 ast.sample_size (dvd_refl _)
  rw [hB] at hd
  obtain ⟨hd1, hd2, hd3, hd4⟩ := hd
  have hpriv : priv_of st = .ok ast := by unfold priv_of; rw [hp]
  have hent : entry_at st 0 = .ok e0 := by
    unfold entry_at AVStream.nb_index_entries; rw [he]; rfl
  have hnb : ¬ (st.nb_index_entries ≠ 1 ∨ ast.sample_size = 0) := by
    unfold AVStream.nb_index_entries; rw [he]
    simp only [List.length_singleton, Nat.cast_one, ne_eq, not_true_eq_false, false_or]
    omega
  have hmain : ∃ st1, clean_index_stream fuel st = .ok st1 ∧
      st1.index_entries = run_entries e0.pos e0.timestamp e0.size
        (doubled_threshold ast.sample_size) ast.sample_size
        (block_count e0.size (doubled_threshold ast.sample_size)) := by
    obtain ⟨f, rfl⟩ : ∃ f, fuel = f + 1 := ⟨fuel - 1, by omega⟩
    simp only [clean_index_stream, hpriv, if_neg hnb, hd1, hent]
    have hw : wrap32 (0 + doubled_threshold ast.sample_size) =
        ((1 : Nat) : Int) * doubled_threshold ast.sample_size := by
      rw [zero_add, Nat.cast_one, one_mul]
      exact wrap32_of_range _ (by omega) (by unfold INT_MAX at hd4; omega)
    have hmin : wrap32 (FFMIN (doubled_threshold ast.sample_size) (e0.size - 0)) =
        FFMIN (doubled_threshold ast.sample_size) (e0.size - 0) := by
      apply wrap32_of_range <;> unfold FFMIN <;> split_ifs <;> omega
    have hmin30 : wrap30 (FFMIN (doubled_threshold ast.sample_size) (e0.size - 0)) =
        min (doubled_threshold ast.sample_size) e0.size := by
      rw [wrap30_of_range _ (by unfold FFMIN; split_ifs <;> omega)
        (by unfold FFMIN; split_ifs <;> omega)]
      unfold FFMIN
      split_ifs with hc
      · rw [min_eq_right (by omega)]; omega
      · rw [min_eq_left (by omega)]
    have hov := add_entry_overwrite st e0 (e0.pos + 0)
      (FFMIN (doubled_threshold ast.sample_size) (e0.size - 0)) AVINDEX_KEYFRAME he
    have ht0 : e0.timestamp + Int.tdiv 0 ast.sample_size = e0.timestamp := by simp
    simp only [split_loop, if_pos hS0, hw, hmin, ht0]
    apply split_loop_exact ast.sample_size _ e0.pos e0.size e0.timestamp hs hd3 hdvd hS
    · exact le_refl _
    · rw [hov, hmin30]
      have hk2 : wrap2 AVINDEX_KEYFRAME = AVINDEX_KEYFRAME := by decide
      simp [run_entries, List.range_succ, hk2]
    · simp only [Nat.cast_one, sub_self, zero_mul]
      exact hS0
    · simp only [Nat.cast_one, one_mul]
      omega
  obtain ⟨st1, h1, h2⟩ := hmain
  refine ⟨st1, h1, h2, ?_⟩
  intro k e hk hlast
  have hBpos : 0 < doubled_threshold ast.sample_size := by omega
  rw [h2] at hk
  simp only [run_entries, List.get?_eq_getElem?, List.getElem?_map, Option.map_eq_some']
    at hk
  obtain ⟨j, hj, rfl⟩ := hk
  have hjk : j = k := by
    have := List.getElem?_eq_some.mp hj
    obtain ⟨_, hx⟩ := this
    simpa using hx.symm
  subst hjk
  have hcount : ((j : Int) + 1) * doubled_threshold ast.sample_size < e0.size := by
    unfold block_count at hlast
    have h3 : ((j : Int) + 1) + 1 ≤ (e0.size + doubled_threshold ast.sample_size - 1) /
        doubled_threshold ast.sample_size := by
      have : (0 : Int) ≤ (e0.size + doubled_threshold ast.sample_size - 1) /
          doubled_threshold ast.sample_size :=
        Int.ediv_nonneg (by omega) hBpos.le
      omega
    rw [Int.le_ediv_iff_mul_le hBpos] at h3
    nlinarith
  have hsz : min (doubled_threshold ast.sample_size)
      (e0.size - (j : Int) * doubled_threshold ast.sample_size) =
      doubled_threshold ast.sample_size := by
    apply min_eq_left
    nlinarith
  refine ⟨hsz, ?_⟩
  show e0.pos + (j : Int) * doubled_threshold ast.sample_size + min _ _ = _
  rw [hsz]
  ring

theorem split_pass_run_witness :
    (clean_index_stream 5012 stream_d).map (fun st => st.index_entries) =
      .ok [⟨1000, 0, 1, 1024⟩, ⟨2024, 512, 1, 1024⟩, ⟨3048, 1024, 1, 1024⟩,
        ⟨4072, 1536, 1, 1024⟩, ⟨5096, 2048, 1, 904⟩] ∧
    block_count 5000 (doubled_threshold 2) = 5 ∧
    ∃ st1, clean_index_stream 5012 stream_d = .ok st1 ∧
      st1.index_entries = run_entries 1000 0 5000 (doubled_threshold 2) 2
        (block_count 5000 (doubled_threshold 2)) ∧
      ∀ (k : Nat) (e : AVIndexEntry), st1.index_entries.get? k = some e →
        k + 1 < block_count 5000 (doubled_threshold 2) →
        e.size = doubled_threshold 2 ∧
        e.pos + e.size = 1000 + ((k : Int) + 1) * doubled_threshold 2 :=
  ⟨by decide, by decide, split_pass_run 5012 stream_d
    { zero_ast with sample_size := 2, scale := 1, rate := 44100 } ⟨1000, 0, 1, 5000⟩
    rfl rfl (by decide) (by decide) (by decide) (by decide) (by decide)⟩

/-- C22 as stated fails for an entry of size 0: the loop that emits the run does not
run, and the pass leaves the one original entry, without the keyframe flag, where
ceil(0 / 1024) = 0 entries are claimed. -/
theorem split_pass_empty_entry :
    (clean_index_stream 16 stream_empty_entry).map (fun st => st.index_entries) =
      .ok [⟨1000, 0, 0, 0⟩] ∧
    block_count 0 (doubled_threshold 2) = 0 ∧
    run_entries 1000 0 0 (doubled_threshold 2) 2 (block_count 0 (doubled_threshold 2)) =
      [] := by
  decide

/-! ## Duplicate positions in `idx1` -/

/-- The entry handed to `av_add_index_entry` is in the index afterwards. -/
theorem add_entry_has (st : AVStream) (pos ts size fl : Int) :
    (⟨pos, ts, wrap2 fl, wrap30 size⟩ : AVIndexEntry) ∈
      (av_add_index_entry st pos ts size 0 fl).index_entries := by
  have h1 : ¬ Int.land AVSEEK_FLAG_ANY AVSEEK_FLAG_BACKWARD ≠ 0 := by decide
  have h2 : ¬ Int.land AVSEEK_FLAG_ANY AVSEEK_FLAG_ANY = 0 := by decide
  have hidx : av_index_search_timestamp st ts AVSEEK_FLAG_ANY =
      if search_ge st.index_entries ts = st.index_entries.length then -1
      else search_ge st.index_entries ts := by
    simp only [av_index_search_timestamp, h1, h2, decide_False, if_false,
      Bool.false_eq_true]
  by_cases hlen : search_ge st.index_entries ts = st.index_entries.length
  · rw [if_pos hlen] at hidx
    simp only [av_add_index_entry, hidx]
    rw [if_pos (by decide)]
    exact List.mem_append.mpr (Or.inr (List.mem_singleton.mpr rfl))
  · rw [if_neg hlen] at hidx
    have hb := search_ge_bounds st.index_entries ts
    have hnn : ¬ search_ge st.index_entries ts < 0 := by omega
    have hlt : (List.findIdx (fun e : AVIndexEntry => decide (ts ≤ e.timestamp))
        st.index_entries) < st.index_entries.length := by
      unfold search_ge at hlen hb
      omega
    have hp := @List.findIdx_getElem _ (fun e : AVIndexEntry => decide (ts ≤ e.timestamp))
      st.index_entries hlt
    have hget : st.index_entries.get? (search_ge st.index_entries ts).toNat =
        some (st.index_entries.get ⟨_, hlt⟩) := by
      unfold search_ge
      simp only [Int.toNat_ofNat, List.get?_eq_getElem?, List.getElem?_eq_getElem hlt,
        List.get_eq_getElem]
    simp only [av_add_index_entry, hidx, if_neg hnn, hget]
    simp only [List.get_eq_getElem]
    simp only [decide_eq_true_eq] at hp
    split_ifs with c1 c2
    · exact absurd (le_antisymm c2 hp) c1
    · exact List.mem_append.mpr (Or.inr (List.mem_cons_self _ _))
    · apply List.mem_set
      unfold search_ge
      simpa using hlt

/-- The state after one record that names a stream, in full. -/
theorem idx1_record_exact (h : Idx1State) (i : Int) (r : Idx1Rec) (more : List Nat)
    (st : AVStream) (ast : AVIStream)
    (hat : at_bytes h.s.pb (r.encode ++ more)) (hr : r.fits)
    (hin : ¬ rec_stream r ≥ uwrap32 h.s.nb_streams)
    (hst : stream_at h.s (rec_stream r) = .ok st) (hast : priv_of st = .ok ast) :
    ∃ h1 base cum, idx1_record h i = .ok h1 ∧
      base = (if i = 0 ∧ (r.pos : Int) > h.s.avi.movi_list then 0 else h.s.avi.movi_list) ∧
      h1.last_pos = resolved base r ∧
      h1.s.avi.movi_list = base ∧
      h1.s.avi.non_interleaved =
        (if h.last_pos = resolved base r then 1 else h.s.avi.non_interleaved) ∧
      h1.s.streams = h.s.streams.set (rec_stream r).toNat
        (some { (if h.last_pos = resolved base r then st
                 else av_add_index_entry st (resolved base r) ast.cum_len (wrap32 r.len) 0
                   (rec_flags r)) with
                priv_data := some { ast with cum_len := cum } }) := by
  obtain ⟨p1, p2, p3, p4, g1, g2, g3, g4, -⟩ := read_record h.s.pb r more hat hr
  have hlt2 : ¬ uwrap32 (uwrap32 (((r.tag : Int) % 256 - 48) * 10) +
      ((r.tag : Int) / 256 % 256 - 48)) ≥
      uwrap32 (AVFormatContext.nb_streams { h.s with
        avi := { h.s.avi with movi_list :=
          (if i = 0 ∧ (r.pos : Int) > h.s.avi.movi_list then 0 else h.s.avi.movi_list) },
        pb := p4 }) := hin
  have hst2 : stream_at { h.s with
        avi := { h.s.avi with movi_list :=
          (if i = 0 ∧ (r.pos : Int) > h.s.avi.movi_list then 0 else h.s.avi.movi_list) },
        pb := p4 }
      (uwrap32 (uwrap32 (((r.tag : Int) % 256 - 48) * 10) +
        ((r.tag : Int) / 256 % 256 - 48))) = .ok st := hst
  simp only [idx1_record, g1, g2, g3, g4, if_neg hlt2, hst2, hast]
  exact ⟨_, _, _, rfl, rfl, rfl, rfl, rfl, rfl⟩

theorem stream_at_set_same (s s1 : AVFormatContext) (n : Int) (st x : AVStream)
    (h : s1.streams = s.streams.set n.toNat (some x)) (hst : stream_at s n = .ok st) :
    stream_at s1 n = .ok x := by
  obtain ⟨h0, h1, -⟩ := stream_at_ok s n st hst
  unfold stream_at AVFormatContext.nb_streams
  rw [h, List.length_set, if_neg (by omega)]
  simp [List.getD_eq_getElem?_getD, List.getElem?_set_self h1]

theorem stream_at_set_other (s s1 : AVFormatContext) (n m : Int) (x : AVStream)
    (h : s1.streams = s.streams.set n.toNat (some x)) (hn : 0 ≤ n) (hm : m ≠ n) :
    stream_at s1 m = stream_at s m := by
  unfold stream_at AVFormatContext.nb_streams
  rw [h, List.length_set]
  by_cases hc : m < 0 ∨ (s.streams.length : Int) ≤ m
  · rw [if_pos hc, if_pos hc]
  · rw [if_neg hc, if_neg hc]
    have hne : n.toNat ≠ m.toNat := by omega
    simp only [List.getD_eq_getElem?_getD, List.getElem?_set_ne hne]

/-- C21 (amended): one record of an `idx1` chunk, lying at the reader, streams all
present.  A record that names no stream changes neither `last_pos`, the index nor the
flag.  A record that names a stream is compared with `last_pos`, the resolved position
of the last record before it that named a stream (`0xFFFFFFFF` before the first): if
they are equal the non-interleaved flag is set to 1 and no index changes; if they differ
the flag is left as it is, the record is handed to `av_add_index_entry` for its stream,
after which an entry at the resolved position is in that index, and no other index
changes.  In both cases `last_pos` becomes the resolved position of the record. -/
theorem duplicate_position_rule (h : Idx1State) (i : Int) (r : Idx1Rec) (more : List Nat)
    (hat : at_bytes h.s.pb (r.encode ++ more)) (hr : r.fits)
    (hok : streams_ok h.s.streams) :
    ∃ h1, idx1_record h i = .ok h1 ∧
      (rec_stream r ≥ uwrap32 h.s.nb_streams →
        h1.last_pos = h.last_pos ∧ h1.s.streams = h.s.streams ∧
        h1.s.avi.non_interleaved = h.s.avi.non_interleaved) ∧
      (¬ rec_stream r ≥ uwrap32 h.s.nb_streams →
        h1.last_pos = resolved h1.s.avi.movi_list r ∧
        (h.last_pos = resolved h1.s.avi.movi_list r →
          h1.s.avi.non_interleaved = 1 ∧ ∀ n, index_at h1.s n = index_at h.s n) ∧
        (h.last_pos ≠ resolved h1.s.avi.movi_list r →
          h1.s.avi.non_interleaved = h.s.avi.non_interleaved ∧
          (∃ st ast, stream_at h.s (rec_stream r) = .ok st ∧ priv_of st = .ok ast ∧
            index_at h1.s (rec_stream r) =
              (av_add_index_entry st (resolved h1.s.avi.movi_list r) ast.cum_len
                (wrap32 r.len) 0 (rec_flags r)).index_entries ∧
            (⟨resolved h1.s.avi.movi_list r, ast.cum_len, wrap2 (rec_flags r),
              wrap30 (wrap32 r.len)⟩ : AVIndexEntry) ∈ index_at h1.s (rec_stream r)) ∧
          ∀ n, n ≠ rec_stream r → index_at h1.s n = index_at h.s n)) := by
  by_cases hge : rec_stream r ≥ uwrap32 h.s.nb_streams
  · obtain ⟨p4, base, -, -, hA, -⟩ := idx1_record_at h i r more hat hr
    exact ⟨_, hA hge, fun _ => ⟨rfl, rfl, rfl⟩, fun hc => absurd hge hc⟩
  · have hn0 : 0 ≤ rec_stream r := uwrap32_nonneg _
    have hnb : (0 : Int) ≤ h.s.nb_streams := by
      unfold AVFormatContext.nb_streams; exact Int.natCast_nonneg _
    have hn1 : rec_stream r < h.s.nb_streams := by
      have := uwrap32_le _ hnb
      omega
    obtain ⟨st, ast, hst, hast⟩ := streams_ok_at h.s (rec_stream r) hok hn0 hn1
    obtain ⟨h1, base, cum, hrec, -, hlp, hml, hni, hstr⟩ :=
      idx1_record_exact h i r more st ast hat hr hge hst hast
    refine ⟨h1, hrec, fun hc => absurd hc hge, fun _ => ?_⟩
    rw [hml]
    refine ⟨hlp, ?_, ?_⟩
    · intro heq
      rw [if_pos heq] at hni hstr
      refine ⟨hni, ?_⟩
      intro n
      by_cases hn : n = rec_stream r
      · subst hn
        unfold index_at
        rw [stream_at_set_same h.s h1.s _ st _ hstr hst, hst]
      · unfold index_at
        rw [stream_at_set_other h.s h1.s _ n _ hstr hn0 hn]
    · intro hne
      rw [if_neg hne] at hni hstr
      have hidx : index_at h1.s (rec_stream r) =
          (av_add_index_entry st (resolved base r) ast.cum_len (wrap32 r.len) 0
            (rec_flags r)).index_entries := by
        unfold index_at
        rw [stream_at_set_same h.s h1.s _ st _ hstr hst]
      refine ⟨hni, ⟨st, ast, hst, hast, hidx, ?_⟩, ?_⟩
      · rw [hidx]
        exact add_entry_has st _ _ _ _
      · intro n hn
        unfold index_at
        rw [stream_at_set_other h.s h1.s _ n _ hstr hn0 hn]

theorem duplicate_position_rule_witness :
    (at_bytes same_state.s.pb
        ((⟨tag_of 1 119 98, 16, 5000, 100⟩ : Idx1Rec).encode ++ []) ∧
      streams_ok same_state.s.streams ∧ same_state.last_pos = 5000 ∧
      resolved same_state.s.avi.movi_list ⟨tag_of 1 119 98, 16, 5000, 100⟩ = 5000 ∧
      flag_and_positions same_state.s = (0, [[5000], []]) ∧
      (idx1_record same_state 1).map (fun h1 => flag_and_positions h1.s) =
        .ok (1, [[5000], []])) ∧
    ∃ h1, idx1_record same_state 1 = .ok h1 ∧
      (rec_stream ⟨tag_of 1 119 98, 16, 5000, 100⟩ ≥ uwrap32 same_state.s.nb_streams →
        h1.last_pos = same_state.last_pos ∧ h1.s.streams = same_state.s.streams ∧
        h1.s.avi.non_interleaved = same_state.s.avi.non_interleaved) ∧
      (¬ rec_stream ⟨tag_of 1 119 98, 16, 5000, 100⟩ ≥ uwrap32 same_state.s.nb_streams →
        h1.last_pos = resolved h1.s.avi.movi_list ⟨tag_of 1 119 98, 16, 5000, 100⟩ ∧
        (same_state.last_pos =
            resolved h1.s.avi.movi_list ⟨tag_of 1 119 98, 16, 5000, 100⟩ →
          h1.s.avi.non_interleaved = 1 ∧
          ∀ n, index_at h1.s n = index_at same_state.s n) ∧
        (same_state.last_pos ≠
            resolved h1.s.avi.movi_list ⟨tag_of 1 119 98, 16, 5000, 100⟩ →
          h1.s.avi.non_interleaved = same_state.s.avi.non_interleaved ∧
          (∃ st ast, stream_at same_state.s
              (rec_stream ⟨tag_of 1 119 98, 16, 5000, 100⟩) = .ok st ∧
            priv_of st = .ok ast ∧
            index_at h1.s (rec_stream ⟨tag_of 1 119 98, 16, 5000, 100⟩) =
              (av_add_index_entry st
                (resolved h1.s.avi.movi_list ⟨tag_of 1 119 98, 16, 5000, 100⟩)
                ast.cum_len (wrap32 (100 : Nat)) 0
                (rec_flags ⟨tag_of 1 119 98, 16, 5000, 100⟩)).index_entries ∧
            (⟨resolved h1.s.avi.movi_list ⟨tag_of 1 119 98, 16, 5000, 100⟩, ast.cum_len,
              wrap2 (rec_flags ⟨tag_of 1 119 98, 16, 5000, 100⟩),
              wrap30 (wrap32 (100 : Nat))⟩ : AVIndexEntry) ∈
                index_at h1.s (rec_stream ⟨tag_of 1 119 98, 16, 5000, 100⟩)) ∧
          ∀ n, n ≠ rec_stream ⟨tag_of 1 119 98, 16, 5000, 100⟩ →
            index_at h1.s n = index_at same_state.s n)) :=
  have hat : at_bytes same_state.s.pb
      ((⟨tag_of 1 119 98, 16, 5000, 100⟩ : Idx1Rec).encode ++ []) :=
    ⟨by decide, by decide, [], by decide⟩
  have hok : streams_ok same_state.s.streams := by
    intro slot hs
    have hstr : same_state.s.streams =
        [some { stream_with [] with
                  index_entries := [⟨5000, 0, 1, 100⟩],
                  priv_data := some { zero_ast with cum_len := 1 } },
         some (stream_with [])] := by decide
    rw [hstr] at hs
    simp only [List.mem_cons, List.mem_singleton, List.not_mem_nil, or_false] at hs
    rcases hs with rfl | rfl
    · exact ⟨_, _, rfl, rfl⟩
    · exact ⟨_, _, rfl, rfl⟩
  ⟨⟨hat, hok, by decide, by decide, by decide, by decide⟩,
    duplicate_position_rule same_state 1 ⟨tag_of 1 119 98, 16, 5000, 100⟩ [] hat
      (by decide) hok⟩

/-- C21 as stated fails, because `last_pos` is kept only for records that name a
stream.  (a) Records of stream 0 at 5000, of the absent stream 7 at 6000, of stream 1 at
5000: the third differs from its predecessor, yet the flag is set and it is not added.
(b) Records of the absent stream 7 at 5000 and of stream 0 at 5000: the positions are
identical, yet the flag is not set and the second record is added. -/
theorem duplicate_rule_skips_absent_streams :
    (avi_read_idx1 (idx_ctx 8 recs_gap) 48).map (fun r => (r.1, flag_and_positions r.2)) =
      .ok (0, 1, [[5000], []]) ∧
    (avi_read_idx1 (idx_ctx 8 recs_absent_first) 32).map
      (fun r => (r.1, flag_and_positions r.2)) = .ok (0, 0, [[5000], []]) := by
  decide

/-! ## Codec tag lookup -/

theorem toupper_eq_iff (a b : Int) : toupper a = toupper b ↔ same_letter a b := by
  unfold toupper same_letter
  split_ifs <;> constructor <;> intro h <;> omega

theorem toupper_idem (a : Int) : toupper (toupper a) = toupper a := by
  unfold toupper
  split_ifs <;> omega

theorem toupper_byte (a : Int) (h0 : 0 ≤ a) (h1 : a < 256) :
    0 ≤ toupper a ∧ toupper a < 256 := by
  unfold toupper
  split_ifs <;> omega

theorem tag_byte_range (t : Int) (k : Nat) : 0 ≤ tag_byte t k ∧ tag_byte t k < 256 := by
  unfold tag_byte
  omega

theorem tag_byte_compose (a b c d : Int) (a0 : 0 ≤ a) (a1 : a < 256) (b0 : 0 ≤ b)
    (b1 : b < 256) (c0 : 0 ≤ c) (c1 : c < 256) (d0 : 0 ≤ d) (d1 : d < 256) :
    tag_byte (a + b * 256 + c * 65536 + d * 16777216) 0 = a ∧
    tag_byte (a + b * 256 + c * 65536 + d * 16777216) 1 = b ∧
    tag_byte (a + b * 256 + c * 65536 + d * 16777216) 2 = c ∧
    tag_byte (a + b * 256 + c * 65536 + d * 16777216) 3 = d := by
  unfold tag_byte
  norm_num
  refine ⟨?_, ?_, ?_, ?_⟩ <;> omega

theorem tag_byte_upper (t : Int) :
    tag_byte (upper_tag t) 0 = toupper (tag_byte t 0) ∧
    tag_byte (upper_tag t) 1 = toupper (tag_byte t 1) ∧
    tag_byte (upper_tag t) 2 = toupper (tag_byte t 2) ∧
    tag_byte (upper_tag t) 3 = toupper (tag_byte t 3) := by
  obtain ⟨a0, a1⟩ := toupper_byte _ (tag_byte_range t 0).1 (tag_byte_range t 0).2
  obtain ⟨b0, b1⟩ := toupper_byte _ (tag_byte_range t 1).1 (tag_byte_range t 1).2
  obtain ⟨c0, c1⟩ := toupper_byte _ (tag_byte_range t 2).1 (tag_byte_range t 2).2
  obtain ⟨d0, d1⟩ := toupper_byte _ (tag_byte_range t 3).1 (tag_byte_range t 3).2
  exact tag_byte_compose _ _ _ _ a0 a1 b0 b1 c0 c1 d0 d1

theorem codec_get_id_upper (table : List CodecTag) (t : Int) :
    codec_get_id table (upper_tag t) = codec_get_id table t := by
  obtain ⟨h0, h1, h2, h3⟩ := tag_byte_upper t
  induction table with
  | nil => rfl
  | cons e tl ih =>
    simp only [codec_get_id, h0, h1, h2, h3, toupper_idem, ih]

theorem codec_get_id_cons (e : CodecTag) (tl : List CodecTag) (t : Int) :
    codec_get_id (e :: tl) t =
      if e.id = CODEC_ID_NONE then CODEC_ID_NONE
      else if tag_matches t e.tag then e.id else codec_get_id tl t := by
  rw [codec_get_id]
  by_cases h : e.id = CODEC_ID_NONE
  · rw [if_pos h, if_pos h]
  · rw [if_neg h, if_neg h]
    simp only [toupper_eq_iff]
    by_cases hm : tag_matches t e.tag
    · rw [if_pos hm]
      unfold tag_matches at hm
      rw [if_pos hm]
    · rw [if_neg hm]
      unfold tag_matches at hm
      rw [if_neg hm]

theorem first_match_id_cons (e : CodecTag) (tl : List CodecTag) (t : Int) :
    first_match_id (e :: tl) t =
      if tag_matches t e.tag then e.id else first_match_id tl t := by
  unfold first_match_id
  by_cases hm : tag_matches t e.tag
  · simp [List.find?, hm]
  · simp [List.find?, hm]

theorem codec_get_id_first (t : Int) (term : CodecTag) (rest : List CodecTag)
    (hterm : term.id = CODEC_ID_NONE) :
    ∀ entries : List CodecTag, (∀ e ∈ entries, e.id ≠ CODEC_ID_NONE) →
      codec_get_id (entries ++ term :: rest) t = first_match_id (entries ++ [term]) t := by
  intro entries
  induction entries with
  | nil =>
    intro _
    rw [List.nil_append, List.nil_append, codec_get_id_cons, if_pos hterm,
      first_match_id_cons, hterm]
    split
    · rfl
    · rfl
  | cons e tl ih =>
    intro hent
    have he : e.id ≠ CODEC_ID_NONE := hent e (List.mem_cons_self _ _)
    have htl := ih (fun x hx => hent x (List.mem_cons_of_mem _ hx))
    rw [List.cons_append, List.cons_append, codec_get_id_cons, if_neg he,
      first_match_id_cons, htl]

/-- C31: `codec_get_id` on a table whose entries before the first `CODEC_ID_NONE` entry
are `entries` and whose terminator is `term`, whatever lies after the terminator.  The
result for a tag equals the result for the tag with each byte upper-cased; it does not
depend on what follows the terminator; and it is the id of the first entry of the table
that matches the tag up to the case of letters, `CODEC_ID_NONE` when none matches. -/
theorem codec_get_id_case_insensitive (entries : List CodecTag) (term : CodecTag)
    (rest : List CodecTag) (t : Int)
    (hterm : term.id = CODEC_ID_NONE) (hent : ∀ e ∈ entries, e.id ≠ CODEC_ID_NONE) :
    codec_get_id (entries ++ term :: rest) t =
      codec_get_id (entries ++ term :: rest) (upper_tag t) ∧
    codec_get_id (entries ++ term :: rest) t = codec_get_id (entries ++ [term]) t ∧
    codec_get_id (entries ++ term :: rest) t = first_match_id (entries ++ [term]) t ∧
    ((∀ e ∈ entries ++ [term], ¬ tag_matches t e.tag) →
      codec_get_id (entries ++ term :: rest) t = CODEC_ID_NONE) := by
  have h1 := codec_get_id_first t term rest hterm entries hent
  have h2 := codec_get_id_first t term [] hterm entries hent
  refine ⟨(codec_get_id_upper _ t).symm, by rw [h1, h2], h1, ?_⟩
  intro hno
  rw [h1]
  unfold first_match_id
  have hf : (entries ++ [term]).find? (fun e => decide (tag_matches t e.tag)) = none := by
    rw [List.find?_eq_none]
    intro e he
    simpa using hno e he
  rw [hf]

theorem codec_get_id_case_insensitive_witness :
    ([⟨CODEC_ID_MSRLE, MKTAG 109 114 108 101⟩, ⟨CODEC_ID_MSRLE, MKTAG 1 0 0 0⟩] ++
        (⟨CODEC_ID_NONE, 0⟩ : CodecTag) :: [] = codec_bmp_tags ∧
      upper_tag (MKTAG 77 114 76 101) = MKTAG 77 82 76 69 ∧
      codec_get_id codec_bmp_tags (MKTAG 77 114 76 101) = CODEC_ID_MSRLE ∧
      codec_get_id codec_bmp_tags (MKTAG 77 82 76 69) = CODEC_ID_MSRLE ∧
      codec_get_id codec_bmp_tags (MKTAG 109 114 108 102) = CODEC_ID_NONE) ∧
    (codec_get_id ([⟨CODEC_ID_MSRLE, MKTAG 109 114 108 101⟩,
        ⟨CODEC_ID_MSRLE, MKTAG 1 0 0 0⟩] ++ (⟨CODEC_ID_NONE, 0⟩ : CodecTag) :: [])
        (MKTAG 77 114 76 101) =
      codec_get_id ([⟨CODEC_ID_MSRLE, MKTAG 109 114 108 101⟩,
        ⟨CODEC_ID_MSRLE, MKTAG 1 0 0 0⟩] ++ (⟨CODEC_ID_NONE, 0⟩ : CodecTag) :: [])
        (upper_tag (MKTAG 77 114 76 101)) ∧
    codec_get_id ([⟨CODEC_ID_MSRLE, MKTAG 109 114 108 101⟩,
        ⟨CODEC_ID_MSRLE, MKTAG 1 0 0 0⟩] ++ (⟨CODEC_ID_NONE, 0⟩ : CodecTag) :: [])
        (MKTAG 77 114 76 101) =
      codec_get_id ([⟨CODEC_ID_MSRLE, MKTAG 109 114 108 101⟩,
        ⟨CODEC_ID_MSRLE, MKTAG 1 0 0 0⟩] ++ [(⟨CODEC_ID_NONE, 0⟩ : CodecTag)])
        (MKTAG 77 114 76 101) ∧
    codec_get_id ([⟨CODEC_ID_MSRLE, MKTAG 109 114 108 101⟩,
        ⟨CODEC_ID_MSRLE, MKTAG 1 0 0 0⟩] ++ (⟨CODEC_ID_NONE, 0⟩ : CodecTag) :: [])
        (MKTAG 77 114 76 101) =
      first_match_id ([⟨CODEC_ID_MSRLE, MKTAG 109 114 108 101⟩,
        ⟨CODEC_ID_MSRLE, MKTAG 1 0 0 0⟩] ++ [(⟨CODEC_ID_NONE, 0⟩ : CodecTag)])
        (MKTAG 77 114 76 101) ∧
    ((∀ e ∈ [⟨CODEC_ID_MSRLE, MKTAG 109 114 108 101⟩,
        ⟨CODEC_ID_MSRLE, MKTAG 1 0 0 0⟩] ++ [(⟨CODEC_ID_NONE, 0⟩ : CodecTag)],
        ¬ tag_matches (MKTAG 77 114 76 101) e.tag) →
      codec_get_id ([⟨CODEC_ID_MSRLE, MKTAG 109 114 108 101⟩,
        ⟨CODEC_ID_MSRLE, MKTAG 1 0 0 0⟩] ++ (⟨CODEC_ID_NONE, 0⟩ : CodecTag) :: [])
        (MKTAG 77 114 76 101) = CODEC_ID_NONE)) :=
  ⟨by decide,
    codec_get_id_case_insensitive
      [⟨CODEC_ID_MSRLE, MKTAG 109 114 108 101⟩, ⟨CODEC_ID_MSRLE, MKTAG 1 0 0 0⟩]
      ⟨CODEC_ID_NONE, 0⟩ [] (MKTAG 77 114 76 101) rfl (by decide)⟩

/-! ## `avi_read_header`: the slots during the header walk -/

theorem av_new_stream_streams (s s1 : AVFormatContext) (ok : Bool)
    (h : av_new_stream s ok = some s1) :
    ∃ x, s1.streams = s.streams ++ [x] := by
  unfold av_new_stream at h
  split_ifs at h
  cases h
  exact ⟨_, rfl⟩

theorem set_last (l : List (Option AVStream)) (x y : Option AVStream) :
    (l ++ [x]).set l.length y = l ++ [y] := by
  induction l with
  | nil => rfl
  | cons a l ih => simp only [List.cons_append, List.length_cons, List.set_cons_succ, ih]

theorem alloc_streams_fresh (mem : Mem) (br : Int) :
    ∀ (cnt : Nat) (s : AVFormatContext), slots_fresh s.streams →
      (alloc_streams mem br cnt s).2 = true →
      slots_fresh (alloc_streams mem br cnt s).1.streams := by
  intro cnt
  induction cnt with
  | zero => intro s hs _; exact hs
  | succ cnt ih =>
    intro s hs h
    simp only [alloc_streams] at h ⊢
    rcases hn : av_new_stream s (mem.stream_ok s.nb_streams) with _ | s1
    · rw [hn] at h; cases h
    · rw [hn] at h
      simp only at h ⊢
      by_cases hp : (!mem.priv_ok s.nb_streams) = true
      · rw [if_pos hp] at h; cases h
      · rw [if_neg hp] at h ⊢
        apply ih _ _ h
        obtain ⟨x, hx⟩ := av_new_stream_streams _ _ _ hn
        intro slot hslot
        simp only [set_stream, hx, AVFormatContext.nb_streams, Int.toNat_ofNat,
          set_last] at hslot
        rcases List.mem_append.mp hslot with hm | hm
        · exact hs slot hm
        · exact ⟨_, zero_ast, List.mem_singleton.mp hm, rfl, rfl, by decide⟩

theorem slots_fresh_set (l : List (Option AVStream)) (k : Nat) (st : AVStream)
    (ast : AVIStream) (h : slots_fresh l) (hp : st.priv_data = some ast)
    (he : st.index_entries = []) (hs : ast.sample_size ≤ INT_MAX) :
    slots_fresh (l.set k (some st)) := by
  intro slot hslot
  rcases List.mem_or_eq_of_mem_set hslot with hm | hm
  · exact h slot hm
  · exact ⟨st, ast, hm, hp, he, hs⟩

theorem slots_fresh_at (s : AVFormatContext) (n : Int) (st : AVStream)
    (h : slots_fresh s.streams) (hst : stream_at s n = .ok st) :
    ∃ ast, st.priv_data = some ast ∧ st.index_entries = [] ∧ ast.sample_size ≤ INT_MAX := by
  obtain ⟨h0, h1, hg⟩ := stream_at_ok s n st hst
  obtain ⟨st1, ast, e1, e2, e3, e4⟩ := h _ (List.getElem_mem h1)
  rw [List.getD_eq_getElem _ _ h1, e1] at hg
  cases hg
  exact ⟨ast, e2, e3, e4⟩

theorem chunk_avih_fresh (mem : Mem) (h h1 : HdrState) (size : Int) (pb : ByteIOContext)
    (hc : chunk_avih mem h size pb = .next h1) (hi : slots_fresh h.s.streams) :
    slots_fresh h1.s.streams := by
  simp only [chunk_avih] at hc
  split_ifs at hc with hok
  cases hc
  exact alloc_streams_fresh mem _ _ _ hi hok

theorem wrap32_le_max (x : Int) : wrap32 x ≤ INT_MAX := by
  unfold wrap32 INT_MAX; omega

theorem read_strh_sample (pb : ByteIOContext) : (read_strh pb).1.sample_size ≤ INT_MAX := by
  simp only [read_strh]
  exact wrap32_le_max _

theorem slots_fresh_strh (l : List (Option AVStream)) (k : Nat) (st : AVStream)
    (ast : AVIStream) (f : StrhFields) (fp ss : Int) (h : slots_fresh l)
    (he : st.index_entries = []) (hs : ss ≤ INT_MAX) :
    slots_fresh (l.set k (some (strh_stream st ast f fp ss))) :=
  slots_fresh_set l k _ _ h rfl he hs

theorem chunk_strh_fresh (h h1 : HdrState) (size : Int) (pb : ByteIOContext)
    (hc : chunk_strh h size pb = .ok (.next h1)) (hi : slots_fresh h.s.streams) :
    slots_fresh h1.s.streams := by
  simp only [chunk_strh] at hc
  split at hc
  · cases hc; exact hi
  · split at hc
    · cases hc
    · rename_i st hst
      obtain ⟨ast0, hp0, he0, hs0⟩ := slots_fresh_at _ _ _ hi hst
      split at hc
      · cases hc
      · rename_i ast hast
        have hz : (0 : Int) ≤ INT_MAX := by decide
        have hw := read_strh_sample
        split_ifs at hc <;> cases hc
        · exact slots_fresh_strh _ _ _ _ _ _ 0 hi he0 hz
        · exact slots_fresh_strh _ _ _ _ _ _ _ hi he0 (hw _)
        · exact slots_fresh_strh _ _ _ _ _ _ _ hi he0 (hw _)
        · exact slots_fresh_strh _ _ _ _ _ _ _ hi he0 (hw _)

theorem chunk_strf_fresh (h h1 : HdrState) (size : Int) (pb : ByteIOContext)
    (hc : chunk_strf h size pb = .ok (.next h1)) (hi : slots_fresh h.s.streams) :
    slots_fresh h1.s.streams := by
  simp only [chunk_strf] at hc
  split at hc
  · cases hc; exact hi
  · split at hc
    · cases hc
    · rename_i st hst
      obtain ⟨ast0, hp0, he0, hs0⟩ := slots_fresh_at _ _ _ hi hst
      cases hc
      show slots_fresh (List.set _ _ _)
      split_ifs
      · exact slots_fresh_set _ _ _ _ hi (by simp only [strf_video]; exact hp0)
          (by simp only [strf_video]; exact he0) hs0
      · exact slots_fresh_set _ _ _ _ hi (by simp only [strf_audio]; exact hp0)
          (by simp only [strf_audio]; exact he0) hs0
      · exact slots_fresh_set _ _ _ _ hi hp0 he0 hs0

theorem header_chunk_fresh (mem : Mem) (h h1 : HdrState) (tag size : Int)
    (pb : ByteIOContext) (step : HdrStep) (hc : header_chunk mem h tag size pb = .ok step)
    (hs : step = .next h1 ∨ step = .end_of_header h1) (hi : slots_fresh h.s.streams) :
    slots_fresh h1.s.streams := by
  by_cases t1 : tag = MKTAG 76 73 83 84
  · by_cases t2 : (get_le32 pb).1 = MKTAG 109 111 118 105
    · simp only [header_chunk, if_pos t1, if_pos t2] at hc
      cases hc
      rcases hs with hs | hs <;> cases hs
      exact hi
    · simp only [header_chunk, if_pos t1, if_neg t2] at hc
      cases hc
      rcases hs with hs | hs <;> cases hs
      exact hi
  · by_cases t3 : tag = MKTAG 97 118 105 104
    · simp only [header_chunk, if_neg t1, if_pos t3] at hc
      cases hc
      rcases hs with hs | hs
      · exact chunk_avih_fresh mem h h1 size pb hs hi
      · simp only [chunk_avih] at hs
        split_ifs at hs
    · by_cases t4 : tag = MKTAG 115 116 114 104
      · simp only [header_chunk, if_neg t1, if_neg t3, if_pos t4] at hc
        rcases hs with hs | hs
        · subst hs
          exact chunk_strh_fresh h h1 size pb hc hi
        · subst hs
          simp only [chunk_strh] at hc
          repeat' split at hc
          all_goals cases hc
      · by_cases t5 : tag = MKTAG 115 116 114 102
        · simp only [header_chunk, if_neg t1, if_neg t3, if_neg t4, if_pos t5] at hc
          rcases hs with hs | hs
          · subst hs
            exact chunk_strf_fresh h h1 size pb hc hi
          · subst hs
            simp only [chunk_strf] at hc
            repeat' split at hc
            all_goals cases hc
        · simp only [header_chunk, if_neg t1, if_neg t3, if_neg t4, if_neg t5] at hc
          cases hc
          rcases hs with hs | hs <;> cases hs
          exact hi

theorem header_loop_fresh (mem : Mem) : ∀ (fuel : Nat) (h hs : HdrState),
    header_loop mem fuel h = .ok (true, hs) → slots_fresh h.s.streams →
    slots_fresh hs.s.streams := by
  intro fuel
  induction fuel with
  | zero => intro h hs hl; simp [header_loop] at hl
  | succ fuel ih =>
    intro h hs hl hi
    simp only [header_loop] at hl
    split_ifs at hl
    · cases hl
    split at hl
    · cases hl
    · rename_i h1 hc
      exact ih h1 hs hl (header_chunk_fresh mem h h1 _ _ _ _ hc (Or.inl rfl) hi)
    · cases hl
    · rename_i h1 hc
      cases hl
      exact header_chunk_fresh mem h hs _ _ _ _ hc (Or.inr rfl) hi

/-! ## The byte reader near the end of input -/

theorem get_byte_fields (pb : ByteIOContext) :
    (get_byte pb).2.buf = pb.buf ∧ 0 ≤ (get_byte pb).1 ∧
    ((0 ≤ pb.pos ∧ pb.pos < pb.buf.length ∧ (get_byte pb).2.pos = pb.pos + 1 ∧
        (get_byte pb).2.eof_reached = pb.eof_reached) ∨
      (¬ (0 ≤ pb.pos ∧ pb.pos < pb.buf.length) ∧ (get_byte pb).1 = 0 ∧
        (get_byte pb).2.pos = pb.pos ∧ (get_byte pb).2.eof_reached = true)) := by
  unfold get_byte
  by_cases h : 0 ≤ pb.pos ∧ pb.pos < pb.buf.length
  · rw [if_pos h]
    exact ⟨rfl, Int.natCast_nonneg _, Or.inl ⟨h.1, h.2, rfl, rfl⟩⟩
  · rw [if_neg h]
    exact ⟨rfl, le_refl _, Or.inr ⟨h, rfl, rfl, rfl⟩⟩

theorem get_le32_unfold (pb : ByteIOContext) :
    get_le32 pb =
      ((get_byte pb).1 + (get_byte (get_byte pb).2).1 * 256 +
        ((get_byte (get_byte (get_byte pb).2).2).1 +
          (get_byte (get_byte (get_byte (get_byte pb).2).2).2).1 * 256) * 65536,
       (get_byte (get_byte (get_byte (get_byte pb).2).2).2).2) := rfl

/-- A 32-bit read either takes four bytes, or meets the end of input: then the flag is
raised, the reader rests where no byte is left, and the value is 0 if no byte was left
at the start. -/
theorem get_le32_cases (pb : ByteIOContext) :
    (get_le32 pb).2.buf = pb.buf ∧ 0 ≤ (get_le32 pb).1 ∧
    ((0 ≤ pb.pos ∧ pb.pos + 4 ≤ pb.buf.length ∧ (get_le32 pb).2.pos = pb.pos + 4 ∧
        (get_le32 pb).2.eof_reached = pb.eof_reached) ∨
      ((get_le32 pb).2.eof_reached = true ∧
        ¬ (0 ≤ (get_le32 pb).2.pos ∧ (get_le32 pb).2.pos < pb.buf.length) ∧
        ((¬ (0 ≤ pb.pos ∧ pb.pos < pb.buf.length) ∧ (get_le32 pb).1 = 0 ∧
            (get_le32 pb).2.pos = pb.pos) ∨
          (0 ≤ pb.pos ∧ pb.pos < pb.buf.length ∧
            (get_le32 pb).2.pos = pb.buf.length)))) := by
  rw [get_le32_unfold]
  obtain ⟨b0, v0, c0⟩ := get_byte_fields pb
  obtain ⟨b1, v1, c1⟩ := get_byte_fields (get_byte pb).2
  obtain ⟨b2, v2, c2⟩ := get_byte_fields (get_byte (get_byte pb).2).2
  obtain ⟨b3, v3, c3⟩ := get_byte_fields (get_byte (get_byte (get_byte pb).2).2).2
  have l0 := congrArg List.length b0
  have l1 := congrArg List.length b1
  have l2 := congrArg List.length b2
  have l3 := congrArg List.length b3
  refine ⟨by rw [b3, b2, b1, b0], by omega, ?_⟩
  simp only
  rcases c0 with ⟨p0, q0, r0, e0⟩ | ⟨p0, w0, r0, e0⟩ <;>
  rcases c1 with ⟨p1, q1, r1, e1⟩ | ⟨p1, w1, r1, e1⟩ <;>
  rcases c2 with ⟨p2, q2, r2, e2⟩ | ⟨p2, w2, r2, e2⟩ <;>
  rcases c3 with ⟨p3, q3, r3, e3⟩ | ⟨p3, w3, r3, e3⟩ <;>
  first
  | (exfalso; omega)
  | exact Or.inl ⟨by omega, by omega, by omega, by rw [e3, e2, e1, e0]⟩
  | exact Or.inr ⟨e3, by omega, Or.inl ⟨by omega, by omega, by omega⟩⟩
  | exact Or.inr ⟨e3, by omega, Or.inr ⟨by omega, by omega, by omega⟩⟩

theorem reader_measure_eof (pb : ByteIOContext) (h : pb.eof_reached = true) :
    reader_measure pb = 0 := by
  unfold reader_measure; rw [if_pos h]

theorem reader_measure_in (pb : ByteIOContext) (h : pb.eof_reached = false)
    (h1 : 0 ≤ pb.pos ∧ pb.pos < pb.buf.length) :
    (reader_measure pb : Int) = pb.buf.length - pb.pos + 1 := by
  unfold reader_measure avail
  rw [if_neg (by rw [h]; decide), if_pos h1]
  push_cast
  omega

theorem reader_measure_out (pb : ByteIOContext) (h : pb.eof_reached = false)
    (h1 : ¬ (0 ≤ pb.pos ∧ pb.pos < pb.buf.length)) :
    reader_measure pb = 1 := by
  unfold reader_measure avail
  rw [if_neg (by rw [h]; decide), if_neg h1]
  rfl

theorem reader_measure_le (pb : ByteIOContext) : reader_measure pb ≤ pb.buf.length + 1 := by
  rcases he : pb.eof_reached with _ | _
  · by_cases h1 : 0 ≤ pb.pos ∧ pb.pos < pb.buf.length
    · have := reader_measure_in pb he h1
      omega
    · rw [reader_measure_out pb he h1]; omega
  · rw [reader_measure_eof pb he]; omega

/-- One iteration of the chunk loop of `avi_load_index` that goes on to the next chunk
brings the reader closer to the end of input. -/
theorem load_step (pb : ByteIOContext) (he : pb.eof_reached = false) :
    reader_measure (url_fskip (get_le32 (get_le32 pb).2).2
      (uwrap32 ((get_le32 (get_le32 pb).2).1 + (get_le32 (get_le32 pb).2).1 % 2))) <
      reader_measure pb := by
  obtain ⟨b0, v0, c0⟩ := get_le32_cases pb
  obtain ⟨b1, v1, c1⟩ := get_le32_cases (get_le32 pb).2
  have l0 := congrArg List.length b0
  have l1 := congrArg List.length b1
  rw [l0] at c1
  have hd0 : 0 ≤ uwrap32 ((get_le32 (get_le32 pb).2).1 + (get_le32 (get_le32 pb).2).1 % 2) :=
    uwrap32_nonneg _
  have hd1 : (get_le32 (get_le32 pb).2).1 = 0 →
      uwrap32 ((get_le32 (get_le32 pb).2).1 + (get_le32 (get_le32 pb).2).1 % 2) = 0 := by
    intro h; rw [h]; rfl
  generalize uwrap32 ((get_le32 (get_le32 pb).2).1 + (get_le32 (get_le32 pb).2).1 % 2) = d
    at hd0 hd1 ⊢
  have hpos : 0 < reader_measure pb := by
    unfold reader_measure; rw [if_neg (by rw [he]; decide)]; omega
  unfold url_fskip
  by_cases hz : d = 0
  · rw [if_pos hz]
    rcases c1 with ⟨p1, q1, r1, e1⟩ | ⟨e1, n1, _⟩
    · rcases c0 with ⟨p0, q0, r0, e0⟩ | ⟨e0, n0, _⟩
      · have hin : 0 ≤ pb.pos ∧ pb.pos < pb.buf.length := by omega
        have hm := reader_measure_in pb he hin
        have he1 : (get_le32 (get_le32 pb).2).2.eof_reached = false := by rw [e1, e0, he]
        by_cases h8 : 0 ≤ (get_le32 (get_le32 pb).2).2.pos ∧
            (get_le32 (get_le32 pb).2).2.pos < (get_le32 (get_le32 pb).2).2.buf.length
        · have := reader_measure_in _ he1 h8
          omega
        · rw [reader_measure_out _ he1 h8]
          omega
      · exfalso; omega
    · rw [reader_measure_eof _ e1]
      exact hpos
  · rw [if_neg hz]
    have hef : (url_fseek (get_le32 (get_le32 pb).2).2
        ((get_le32 (get_le32 pb).2).2.pos + d)).eof_reached = false := rfl
    have hbf : (url_fseek (get_le32 (get_le32 pb).2).2
        ((get_le32 (get_le32 pb).2).2.pos + d)).buf.length = pb.buf.length := by
      show (get_le32 (get_le32 pb).2).2.buf.length = _
      rw [l1, l0]
    have hps : (url_fseek (get_le32 (get_le32 pb).2).2
        ((get_le32 (get_le32 pb).2).2.pos + d)).pos =
        (get_le32 (get_le32 pb).2).2.pos + d := rfl
    generalize url_fseek (get_le32 (get_le32 pb).2).2
        ((get_le32 (get_le32 pb).2).2.pos + d) = q at hef hbf hps ⊢
    have hin : 0 ≤ pb.pos ∧ pb.pos < pb.buf.length := by
      rcases c0 with ⟨p0, q0, r0, e0⟩ | ⟨e0, n0, ⟨m0, w0, r0⟩ | ⟨m0, m1, r0⟩⟩
      · omega
      · exfalso
        rcases c1 with ⟨p1, q1, r1, e1⟩ | ⟨e1, n1, ⟨m1, w1, r1⟩ | ⟨m1, m2, r1⟩⟩
        · omega
        · exact hz (hd1 w1)
        · omega
      · exact ⟨m0, m1⟩
    have hm := reader_measure_in pb he hin
    by_cases hq : 0 ≤ q.pos ∧ q.pos < q.buf.length
    · have hmq := reader_measure_in q hef hq
      rcases c0 with ⟨p0, q0, r0, e0⟩ | ⟨e0, n0, ⟨m0, w0, r0⟩ | ⟨m0, m1, r0⟩⟩ <;>
      rcases c1 with ⟨p1, q1, r1, e1⟩ | ⟨e1, n1, ⟨m1, w1, r1⟩ | ⟨m1, m2, r1⟩⟩ <;>
      omega
    · rw [reader_measure_out q hef hq]
      rcases c0 with ⟨p0, q0, r0, e0⟩ | ⟨e0, n0, ⟨m0, w0, r0⟩ | ⟨m0, m1, r0⟩⟩ <;>
      rcases c1 with ⟨p1, q1, r1, e1⟩ | ⟨e1, n1, ⟨m1, w1, r1⟩ | ⟨m1, m2, r1⟩⟩ <;>
      omega

/-! ## `avi_read_header`: the index phase returns -/

theorem slots_ready_at (s : AVFormatContext) (n : Int) (h : slots_ready s.streams)
    (h0 : 0 ≤ n) (h1 : n < s.nb_streams) :
    ∃ st ast, stream_at s n = .ok st ∧ priv_of st = .ok ast ∧
      0 ≤ ast.sample_size ∧ ast.sample_size ≤ INT_MAX ∧
      ∀ e ∈ st.index_entries, e.size < 536870912 := by
  have hlt : n.toNat < s.streams.length := by
    unfold AVFormatContext.nb_streams at h1; omega
  obtain ⟨st, ast, hs, hp, a, b, c⟩ := h _ (List.getElem_mem hlt)
  refine ⟨st, ast, ?_, ?_, a, b, c⟩
  · apply stream_at_of_getD s n st h0 hlt
    rw [List.getD_eq_getElem _ _ hlt, hs]
  · unfold priv_of; rw [hp]

theorem slots_ready_set (l : List (Option AVStream)) (k : Nat) (st : AVStream)
    (ast : AVIStream) (h : slots_ready l) (h0 : 0 ≤ ast.sample_size)
    (h1 : ast.sample_size ≤ INT_MAX) (he : ∀ e ∈ st.index_entries, e.size < 536870912) :
    slots_ready (l.set k (some { st with priv_data := some ast })) := by
  intro slot hs
  rcases List.mem_or_eq_of_mem_set hs with hs | hs
  · exact h slot hs
  · exact ⟨_, ast, hs, rfl, h0, h1, he⟩

theorem slots_ready_set_priv (s : AVFormatContext) (n : Int) (st : AVStream)
    (ast : AVIStream) (h : slots_ready s.streams) (h0 : 0 ≤ ast.sample_size)
    (h1 : ast.sample_size ≤ INT_MAX) (he : ∀ e ∈ st.index_entries, e.size < 536870912) :
    slots_ready (set_priv s n st ast).streams :=
  slots_ready_set s.streams n.toNat st ast h h0 h1 he

theorem entries_fit_ite (p : Prop) [Decidable p] (st : AVStream) (pos ts size fl : Int)
    (hc : ∀ e ∈ st.index_entries, e.size < 536870912) :
    ∀ e ∈ (if p then st else av_add_index_entry st pos ts size 0 fl).index_entries,
      e.size < 536870912 := by
  by_cases hp : p
  · rw [if_pos hp]; exact hc
  · rw [if_neg hp]
    intro e he
    rcases add_entry_mem _ _ _ _ _ _ e he with hm | hm
    · exact hc e hm
    · rw [hm]; exact wrap30_lt _

theorem idx1_record_ready (h : Idx1State) (i : Int) (hr : slots_ready h.s.streams) :
    ∃ h1, idx1_record h i = .ok h1 ∧ slots_ready h1.s.streams := by
  have hnb : (0 : Int) ≤ h.s.nb_streams := by
    unfold AVFormatContext.nb_streams; exact Int.natCast_nonneg _
  have hle := uwrap32_le _ hnb
  have hn0 := uwrap32_nonneg
    (uwrap32 (((get_le32 h.s.pb).1 % 256 - 48) * 10) + ((get_le32 h.s.pb).1 / 256 % 256 - 48))
  by_cases hge : uwrap32 (uwrap32 (((get_le32 h.s.pb).1 % 256 - 48) * 10) +
      ((get_le32 h.s.pb).1 / 256 % 256 - 48)) ≥ uwrap32 h.s.nb_streams
  · have hge2 : uwrap32 (uwrap32 (((get_le32 h.s.pb).1 % 256 - 48) * 10) +
        ((get_le32 h.s.pb).1 / 256 % 256 - 48)) ≥
        uwrap32 (AVFormatContext.nb_streams { h.s with
          avi := { h.s.avi with movi_list :=
            (if i = 0 ∧ (get_le32 (get_le32 (get_le32 h.s.pb).2).2).1 > h.s.avi.movi_list
              then 0 else h.s.avi.movi_list) },
          pb := (get_le32 (get_le32 (get_le32 (get_le32 h.s.pb).2).2).2).2 }) := hge
    simp only [idx1_record, if_pos hge2]
    exact ⟨_, rfl, hr⟩
  · have hge2 : ¬ uwrap32 (uwrap32 (((get_le32 h.s.pb).1 % 256 - 48) * 10) +
        ((get_le32 h.s.pb).1 / 256 % 256 - 48)) ≥
        uwrap32 (AVFormatContext.nb_streams { h.s with
          avi := { h.s.avi with movi_list :=
            (if i = 0 ∧ (get_le32 (get_le32 (get_le32 h.s.pb).2).2).1 > h.s.avi.movi_list
              then 0 else h.s.avi.movi_list) },
          pb := (get_le32 (get_le32 (get_le32 (get_le32 h.s.pb).2).2).2).2 }) := hge
    obtain ⟨st, ast, hst, hast, a, b, c⟩ := slots_ready_at h.s _ hr hn0 (by omega)
    have hst2 : stream_at { h.s with
        avi := { h.s.avi with movi_list :=
          (if i = 0 ∧ (get_le32 (get_le32 (get_le32 h.s.pb).2).2).1 > h.s.avi.movi_list
            then 0 else h.s.avi.movi_list) },
        pb := (get_le32 (get_le32 (get_le32 (get_le32 h.s.pb).2).2).2).2 }
        (uwrap32 (uwrap32 (((get_le32 h.s.pb).1 % 256 - 48) * 10) +
          ((get_le32 h.s.pb).1 / 256 % 256 - 48))) = .ok st := hst
    simp only [idx1_record, if_neg hge2, hst2, hast]
    refine ⟨_, rfl, ?_⟩
    show slots_ready (set_priv _ _ _ _).streams
    refine slots_ready_set_priv _ _ _ _ ?_ ?_ ?_ ?_
    · exact hr
    · exact a
    · exact b
    · exact entries_fit_ite _ _ _ _ _ _ c

theorem idx1_loop_ready : ∀ (cnt : Nat) (i : Int) (h : Idx1State),
    slots_ready h.s.streams →
    ∃ h1, idx1_loop cnt i h = .ok h1 ∧ slots_ready h1.s.streams := by
  intro cnt
  induction cnt with
  | zero => intro i h hr; exact ⟨h, rfl, hr⟩
  | succ cnt ih =>
    intro i h hr
    obtain ⟨h1, e1, r1⟩ := idx1_record_ready h i hr
    simp only [idx1_loop, e1]
    exact ih (i + 1) h1 r1

theorem avi_read_idx1_ready (s : AVFormatContext) (size : Int) (hr : slots_ready s.streams) :
    ∃ r, avi_read_idx1 s size = .ok r ∧ slots_ready r.2.streams ∧ (r.1 < 0 → r.2 = s) := by
  simp only [avi_read_idx1]
  split_ifs with hn
  · exact ⟨_, rfl, hr, fun _ => rfl⟩
  · obtain ⟨h1, e1, r1⟩ := idx1_loop_ready (Int.tdiv size 16).toNat 0
      { s := s, last_pos := 4294967295 } hr
    rw [e1]
    exact ⟨_, rfl, r1, fun hc => absurd hc (show ¬ (0 : Int) < 0 by decide)⟩

theorem load_index_loop_succ (fuel : Nat) (s : AVFormatContext) :
    load_index_loop (fuel + 1) s =
      if url_feof s.pb then .ok s
      else
        let tag := get_le32 s.pb
        let size := get_le32 tag.2
        let s1 := { s with pb := size.2 }
        if tag.1 = MKTAG 105 100 120 49 then
          match avi_read_idx1 s1 (wrap32 size.1) with
          | .error e => .error e
          | .ok (r, s2) =>
            if r < 0 then
              load_index_loop fuel
                { s2 with pb := url_fskip s2.pb (uwrap32 (size.1 + size.1 % 2)) }
            else .ok s2
        else
          load_index_loop fuel { s1 with pb := url_fskip s1.pb (uwrap32 (size.1 + size.1 % 2)) } :=
  rfl

theorem load_index_loop_ready : ∀ (fuel : Nat) (s : AVFormatContext),
    slots_ready s.streams → reader_measure s.pb < fuel →
    ∃ s1, load_index_loop fuel s = .ok s1 ∧ slots_ready s1.streams := by
  intro fuel
  induction fuel with
  | zero => intro s _ hf; omega
  | succ fuel ih =>
    intro s hr hf
    rw [load_index_loop_succ]
    by_cases he : url_feof s.pb = true
    · rw [if_pos he]; exact ⟨s, rfl, hr⟩
    · rw [if_neg he]
      have he2 : s.pb.eof_reached = false := by
        unfold url_feof at he
        simpa using he
      have hstep := load_step s.pb he2
      dsimp only
      by_cases htag : (get_le32 s.pb).1 = MKTAG 105 100 120 49
      · rw [if_pos htag]
        obtain ⟨⟨rv, s2⟩, e1, r1, r2⟩ := avi_read_idx1_ready
          { s with pb := (get_le32 (get_le32 s.pb).2).2 }
          (wrap32 (get_le32 (get_le32 s.pb).2).1) hr
        rw [e1]
        dsimp only
        by_cases hneg : rv < 0
        · rw [if_pos hneg]
          apply ih
          · exact r1
          · have h2 : s2 = { s with pb := (get_le32 (get_le32 s.pb).2).2 } := r2 hneg
            rw [h2]
            show reader_measure (url_fskip (get_le32 (get_le32 s.pb).2).2 _) < fuel
            omega
        · rw [if_neg hneg]
          exact ⟨_, rfl, r1⟩
      · rw [if_neg htag]
        apply ih
        · exact hr
        · show reader_measure (url_fskip (get_le32 (get_le32 s.pb).2).2 _) < fuel
          omega

theorem avi_load_index_ready (fuel : Nat) (s : AVFormatContext)
    (hr : slots_ready s.streams) (hf : s.pb.buf.length + 1 < fuel) :
    ∃ s1, avi_load_index fuel s = .ok s1 ∧ slots_ready s1.streams := by
  have hm := reader_measure_le (url_fseek s.pb s.avi.movi_end)
  have hb : (url_fseek s.pb s.avi.movi_end).buf.length = s.pb.buf.length := rfl
  obtain ⟨s1, e1, r1⟩ := load_index_loop_ready fuel
    { s with pb := url_fseek s.pb s.avi.movi_end } hr
    (by show reader_measure (url_fseek s.pb s.avi.movi_end) < fuel; omega)
  simp only [avi_load_index, e1]
  exact ⟨_, rfl, r1⟩

theorem guess_ni_flag_ready (s : AVFormatContext) (hr : slots_ready s.streams) :
    ∃ g, guess_ni_flag s = .ok g := by
  obtain ⟨r, e1, -⟩ := guess_ni_loop_spec s.streams (0, INT64_MAX)
    (fun slot hs => by
      obtain ⟨st, _, e, _⟩ := hr slot hs
      exact ⟨st, e⟩)
  simp only [guess_ni_flag, e1]
  exact ⟨_, rfl⟩

theorem clean_index_stream_ready (fuel : Nat) (st : AVStream) (ast : AVIStream)
    (hp : st.priv_data = some ast) (h0 : 0 ≤ ast.sample_size)
    (hs2 : ast.sample_size ≤ INT_MAX)
    (hfit : ∀ e ∈ st.index_entries, e.size < 536870912) (hf : 536870924 ≤ fuel) :
    ∃ st1, clean_index_stream fuel st = .ok st1 := by
  have hpriv : priv_of st = .ok ast := by unfold priv_of; rw [hp]
  by_cases hnb : st.nb_index_entries ≠ 1 ∨ ast.sample_size = 0
  · simp only [clean_index_stream, hpriv, if_pos hnb]
    exact ⟨st, rfl⟩
  · have hlen : st.index_entries.length = 1 := by
      unfold AVStream.nb_index_entries at hnb
      by_contra hc
      apply hnb
      left
      intro h1
      apply hc
      exact_mod_cast h1
    obtain ⟨e0, he⟩ := List.length_eq_one.mp hlen
    have hs : 0 < ast.sample_size := by
      have : ast.sample_size ≠ 0 := fun h => hnb (Or.inr h)
      omega
    have hS : e0.size < 536870912 := hfit e0 (by rw [he]; exact List.mem_singleton.mpr rfl)
    have hd := double_max_spec 10 fuel ast.sample_size hs hs2
      (by norm_num; omega) (by omega)
    have hB : doubled ast.sample_size 10 = doubled_threshold ast.sample_size := rfl
    rw [hB] at hd
    obtain ⟨hd1, hd2, hd3, hd4⟩ := hd
    have hent : entry_at st 0 = .ok e0 := by
      unfold entry_at AVStream.nb_index_entries; rw [he]; rfl
    obtain ⟨f, rfl⟩ : ∃ f, fuel = f + 1 := ⟨fuel - 1, by omega⟩
    simp only [clean_index_stream, hpriv, if_neg hnb, hd1, hent]
    by_cases hpos : 0 < e0.size
    · have hw : wrap32 (0 + doubled_threshold ast.sample_size) =
          doubled_threshold ast.sample_size := by
        rw [zero_add]
        exact wrap32_of_range _ (by omega) (by unfold INT_MAX at hd4; omega)
      have hmin : wrap32 (FFMIN (doubled_threshold ast.sample_size) (e0.size - 0)) =
          FFMIN (doubled_threshold ast.sample_size) (e0.size - 0) := by
        apply wrap32_of_range <;> unfold FFMIN <;> split_ifs <;> omega
      have hmin30 : wrap30 (FFMIN (doubled_threshold ast.sample_size) (e0.size - 0)) =
          FFMIN (doubled_threshold ast.sample_size) (e0.size - 0) := by
        apply wrap30_of_range <;> unfold FFMIN <;> split_ifs <;> omega
      have hov := add_entry_overwrite st e0 (e0.pos + 0)
        (FFMIN (doubled_threshold ast.sample_size) (e0.size - 0)) AVINDEX_KEYFRAME he
      have ht0 : e0.timestamp + Int.tdiv 0 ast.sample_size = e0.timestamp := by simp
      simp only [split_loop, if_pos hpos, hw, hmin, ht0]
      obtain ⟨st1, hst1, -⟩ := split_loop_spec ast.sample_size
        (doubled_threshold ast.sample_size) e0.pos e0.size e0.timestamp hs hd3 hS f
        (av_add_index_entry st (e0.pos + 0) e0.timestamp
          (FFMIN (doubled_threshold ast.sample_size) (e0.size - 0)) 0 AVINDEX_KEYFRAME)
        (doubled_threshold ast.sample_size) (le_refl _)
        (by
          rw [hov, hmin30]
          simp only [List.map_cons, List.map_nil, List.sum_cons, List.sum_nil, add_zero]
          unfold FFMIN; split_ifs <;> omega)
        (by
          intro e hmem
          rw [hov, hmin30] at hmem
          simp only [List.mem_singleton] at hmem
          subst hmem
          have h1 : 1 ≤ Int.tdiv (doubled_threshold ast.sample_size) ast.sample_size := by
            rw [Int.tdiv_eq_ediv (by omega) hs.le]
            have h2 := Int.ediv_le_ediv hs hd3
            rw [Int.ediv_self (by omega)] at h2
            exact h2
          refine ⟨?_, by simp only; omega⟩
          show FFMIN _ _ ≤ _
          unfold FFMIN; split_ifs <;> omega)
        (by omega)
      exact ⟨st1, hst1⟩
    · exact ⟨st, by simp only [split_loop, if_neg hpos]⟩

theorem clean_index_slots_ready (fuel : Nat) (hf : 536870924 ≤ fuel) :
    ∀ l : List (Option AVStream), slots_ready l → ∃ l1, clean_index_slots fuel l = .ok l1 := by
  intro l
  induction l with
  | nil => intro _; exact ⟨[], rfl⟩
  | cons x xs ih =>
    intro hr
    obtain ⟨st, ast, rfl, hp, a, b, c⟩ := hr x (List.mem_cons_self _ _)
    obtain ⟨st1, e1⟩ := clean_index_stream_ready fuel st ast hp a b c hf
    obtain ⟨l1, e2⟩ := ih (fun slot hs => hr slot (List.mem_cons_of_mem _ hs))
    simp only [clean_index_slots, e1, e2]
    exact ⟨_, rfl⟩

theorem clean_index_ready (fuel : Nat) (s : AVFormatContext) (hf : 536870924 ≤ fuel)
    (hr : slots_ready s.streams) : ∃ s1, clean_index fuel s = .ok s1 := by
  obtain ⟨l1, e1⟩ := clean_index_slots_ready fuel hf s.streams hr
  simp only [clean_index, e1]
  exact ⟨_, rfl⟩

/-- The part of `avi_read_header` after the stream-count check returns success when
every slot holds a stream with private data and a sample size that is not negative. -/
theorem header_finish_ready (fuel : Nat) (s : AVFormatContext)
    (hf : 536870924 + s.pb.buf.length ≤ fuel) (hr : slots_ready s.streams) :
    ∃ r, header_finish fuel s = .ok r ∧ r.1 = 0 := by
  obtain ⟨s1, e1, r1⟩ := avi_load_index_ready fuel s hr (by omega)
  obtain ⟨g, e2⟩ := guess_ni_flag_ready s1 r1
  obtain ⟨s3, e3⟩ := clean_index_ready fuel
    { s1 with avi := { s1.avi with non_interleaved := Int.lor s1.avi.non_interleaved g } }
    (by omega) r1
  simp only [header_finish, e1, e2]
  split_ifs
  · rw [e3]; exact ⟨_, rfl, rfl⟩
  · exact ⟨_, rfl, rfl⟩

/-! ## `avi_read_header`: the header walk reads one input -/

theorem get_byte_buf (pb : ByteIOContext) : (get_byte pb).2.buf = pb.buf :=
  (get_byte_fields pb).1

theorem get_le16_buf (pb : ByteIOContext) : (get_le16 pb).2.buf = pb.buf := by
  simp only [get_le16, get_byte_buf]

theorem get_le32_buf (pb : ByteIOContext) : (get_le32 pb).2.buf = pb.buf :=
  (get_le32_cases pb).1

theorem url_fseek_buf (pb : ByteIOContext) (n : Int) : (url_fseek pb n).buf = pb.buf := rfl

theorem url_fskip_buf (pb : ByteIOContext) (n : Int) : (url_fskip pb n).buf = pb.buf := by
  unfold url_fskip; split_ifs <;> rfl

theorem url_fread_buf (pb : ByteIOContext) (n : Int) : (url_fread pb n).2.2.buf = pb.buf := by
  unfold url_fread; split_ifs <;> rfl

theorem alloc_streams_pb (mem : Mem) (br : Int) :
    ∀ (cnt : Nat) (s : AVFormatContext), (alloc_streams mem br cnt s).1.pb = s.pb := by
  intro cnt
  induction cnt with
  | zero => intro s; rfl
  | succ cnt ih =>
    intro s
    simp only [alloc_streams]
    rcases hn : av_new_stream s (mem.stream_ok s.nb_streams) with _ | s1
    · rfl
    · have hpb : s1.pb = s.pb := by
        unfold av_new_stream at hn
        split_ifs at hn
        cases hn
        rfl
      simp only
      split_ifs
      · exact hpb
      · rw [ih]; exact hpb

theorem read_avih_buf (pb : ByteIOContext) : (read_avih pb).2.buf = pb.buf := by
  simp only [read_avih, get_le32_buf, url_fskip_buf]

theorem read_strh_buf (pb : ByteIOContext) : (read_strh pb).2.buf = pb.buf := by
  simp only [read_strh, get_le32_buf, get_le16_buf]

theorem strf_video_buf (st : AVStream) (size : Int) (pb : ByteIOContext) :
    (strf_video st size pb).2.buf = pb.buf := by
  simp only [strf_video]
  split_ifs <;>
    simp only [get_byte_buf, url_fread_buf, get_le32_buf, get_le16_buf]

theorem strf_audio_buf (st : AVStream) (size : Int) (pb : ByteIOContext) :
    (strf_audio st size pb).2.buf = pb.buf := by
  simp only [strf_audio]
  split_ifs <;>
    simp only [url_fskip_buf, url_fread_buf, get_le32_buf, get_le16_buf]

theorem chunk_avih_buf (mem : Mem) (h h1 : HdrState) (size : Int) (pb : ByteIOContext)
    (hc : chunk_avih mem h size pb = .next h1) : h1.s.pb.buf = pb.buf := by
  simp only [chunk_avih] at hc
  split_ifs at hc with hok
  cases hc
  show (url_fskip _ _).buf = _
  rw [url_fskip_buf, alloc_streams_pb]
  exact read_avih_buf pb

theorem chunk_strh_buf (h h1 : HdrState) (size : Int) (pb : ByteIOContext)
    (hc : chunk_strh h size pb = .ok (.next h1)) : h1.s.pb.buf = pb.buf := by
  simp only [chunk_strh] at hc
  split at hc
  · cases hc
    show (url_fskip _ _).buf = _
    rw [url_fskip_buf, get_le32_buf, get_le32_buf]
  · split at hc
    · cases hc
    · split at hc
      · cases hc
      · split_ifs at hc <;> cases hc <;>
        · show (url_fskip _ _).buf = _
          rw [url_fskip_buf, read_strh_buf, get_le32_buf, get_le32_buf]

theorem chunk_strf_buf (h h1 : HdrState) (size : Int) (pb : ByteIOContext)
    (hc : chunk_strf h size pb = .ok (.next h1)) : h1.s.pb.buf = pb.buf := by
  simp only [chunk_strf] at hc
  split at hc
  · cases hc
    exact url_fskip_buf _ _
  · split at hc
    · cases hc
    · cases hc
      show (ite _ _ _ : AVStream × ByteIOContext).2.buf = _
      split_ifs
      · exact strf_video_buf _ _ _
      · exact strf_audio_buf _ _ _
      · exact url_fskip_buf _ _

theorem header_chunk_buf (mem : Mem) (h h1 : HdrState) (tag size : Int)
    (pb : ByteIOContext) (step : HdrStep) (hc : header_chunk mem h tag size pb = .ok step)
    (hs : step = .next h1 ∨ step = .end_of_header h1) : h1.s.pb.buf = pb.buf := by
  by_cases t1 : tag = MKTAG 76 73 83 84
  · by_cases t2 : (get_le32 pb).1 = MKTAG 109 111 118 105
    · simp only [header_chunk, if_pos t1, if_pos t2] at hc
      cases hc
      rcases hs with hs | hs <;> cases hs
      exact get_le32_buf pb
    · simp only [header_chunk, if_pos t1, if_neg t2] at hc
      cases hc
      rcases hs with hs | hs <;> cases hs
      exact get_le32_buf pb
  · by_cases t3 : tag = MKTAG 97 118 105 104
    · simp only [header_chunk, if_neg t1, if_pos t3] at hc
      cases hc
      rcases hs with hs | hs
      · exact chunk_avih_buf mem h h1 size pb hs
      · simp only [chunk_avih] at hs
        split_ifs at hs
    · by_cases t4 : tag = MKTAG 115 116 114 104
      · simp only [header_chunk, if_neg t1, if_neg t3, if_pos t4] at hc
        rcases hs with hs | hs
        · subst hs
          exact chunk_strh_buf h h1 size pb hc
        · subst hs
          simp only [chunk_strh] at hc
          repeat' split at hc
          all_goals cases hc
      · by_cases t5 : tag = MKTAG 115 116 114 102
        · simp only [header_chunk, if_neg t1, if_neg t3, if_neg t4, if_pos t5] at hc
          rcases hs with hs | hs
          · subst hs
            exact chunk_strf_buf h h1 size pb hc
          · subst hs
            simp only [chunk_strf] at hc
            repeat' split at hc
            all_goals cases hc
        · simp only [header_chunk, if_neg t1, if_neg t3, if_neg t4, if_neg t5] at hc
          cases hc
          rcases hs with hs | hs <;> cases hs
          exact url_fskip_buf _ _

theorem header_loop_buf (mem : Mem) : ∀ (fuel : Nat) (h hs : HdrState),
    header_loop mem fuel h = .ok (true, hs) → hs.s.pb.buf = h.s.pb.buf := by
  intro fuel
  induction fuel with
  | zero => intro h hs hl; simp [header_loop] at hl
  | succ fuel ih =>
    intro h hs hl
    simp only [header_loop] at hl
    split_ifs at hl
    · cases hl
    split at hl
    · cases hl
    · rename_i h1 hc
      rw [ih h1 hs hl, header_chunk_buf mem h h1 _ _ _ _ hc (Or.inl rfl),
        get_le32_buf, get_le32_buf]
    · cases hl
    · rename_i h1 hc
      cases hl
      rw [header_chunk_buf mem h hs _ _ _ _ hc (Or.inr rfl), get_le32_buf, get_le32_buf]

theorem header_start_buf (s : AVFormatContext) : (header_start s).s.pb.buf = s.pb.buf := by
  show (get_riff _ s.pb).2.2.buf = _
  simp only [get_riff]
  split_ifs <;> simp only [get_le32_buf]

/-! ## `avi_read_header`: open returns, and when it succeeds -/

theorem slots_ready_of_fresh (l : List (Option AVStream)) (h : slots_fresh l)
    (hn : ∀ slot ∈ l, sample_nonneg slot) : slots_ready l := by
  intro slot hs
  obtain ⟨st, ast, e1, e2, e3, e4⟩ := h slot hs
  have h0 := hn slot hs
  rw [e1] at h0
  simp only [sample_nonneg, e2] at h0
  refine ⟨st, ast, e1, e2, h0, e4, ?_⟩
  intro e he
  rw [e3] at he
  cases he

/-- C1 (amended): on a fresh context, when no `pads` header is met beyond the declared
streams and no stream is left with a negative sample size, `avi_read_header` returns
success iff the magic is valid, the chunk walk reaches the `movi` list (no end of input,
unknown stream type or allocation failure before it), and the number of `strh` chunks
seen before it, not counting `pads` streams, equals the stream count declared by `avih`.
Moreover the call returns, with 0 or -1, whenever the magic is invalid or the chunk walk
returns. -/
theorem open_succeeds_iff (mem : Mem) (fuel : Nat) (s : AVFormatContext)
    (hfuel : fuel ≤ 2147483647) (hbig : 536870924 + s.pb.buf.length ≤ fuel)
    (h0 : s.streams = [])
    (hnp : ∀ b hs, header_loop mem fuel (header_start s) = .ok (b, hs) →
      skipped_pads hs.trace = 0)
    (hss : ∀ hs, header_loop mem fuel (header_start s) = .ok (true, hs) →
      ∀ slot ∈ hs.s.streams, sample_nonneg slot) :
    ((∃ r, avi_read_header mem fuel s = .ok r ∧ r.1 = 0) ↔
      (get_riff { s.avi with stream_index_2 := -1 } s.pb).1 = 0 ∧
      ∃ hs, header_loop mem fuel (header_start s) = .ok (true, hs) ∧
        strh_count hs.trace = declared_count hs.trace) ∧
    (((get_riff { s.avi with stream_index_2 := -1 } s.pb).1 < 0 ∨
        ∃ x, header_loop mem fuel (header_start s) = .ok x) →
      ∃ r, avi_read_header mem fuel s = .ok r ∧ (r.1 = 0 ∨ r.1 = -1)) := by
  have hstart : hdr_inv (header_start s) := by
    refine ⟨?_, ?_, ?_, ?_⟩
    · show (-1 : Int) + 1 = strh_count [] + skipped_pads []
      rfl
    · show (s.streams.length : Int) = declared_count []
      rw [h0]; rfl
    · show (-1 : Int) ≤ -1
      exact le_refl _
    · show (-1 : Int) + 1 ≤ (([] : List HdrEvent).length : Int)
      exact le_refl _
  have hlen0 : ((header_start s).trace.length : Int) + fuel ≤ 2147483647 := by
    show ((([] : List HdrEvent).length : Nat) : Int) + fuel ≤ 2147483647
    simp only [List.length_nil, Nat.cast_zero, zero_add]
    exact_mod_cast hfuel
  have hfresh0 : slots_fresh (header_start s).s.streams := by
    show slots_fresh s.streams
    rw [h0]
    intro slot hs
    cases hs
  have hfin : ∀ hs, header_loop mem fuel (header_start s) = .ok (true, hs) →
      ∃ r, header_finish fuel hs.s = .ok r ∧ r.1 = 0 := by
    intro hs hl
    apply header_finish_ready
    · rw [header_loop_buf mem fuel _ hs hl, header_start_buf]
      exact hbig
    · exact slots_ready_of_fresh _ (header_loop_fresh mem fuel _ hs hl hfresh0) (hss hs hl)
  have hm1 : ¬ ((-1 : Int) = 0) := by decide
  by_cases hneg : (get_riff { s.avi with stream_index_2 := -1 } s.pb).1 < 0
  · have hret : avi_read_header mem fuel s = .ok (-1, (header_start s).s) := by
      unfold avi_read_header
      rw [if_pos hneg]
    refine ⟨⟨?_, ?_⟩, fun _ => ⟨_, hret, Or.inr rfl⟩⟩
    · rintro ⟨r, hr, hz⟩
      rw [hret] at hr
      cases hr
      exact absurd hz hm1
    · rintro ⟨h1, -⟩
      rw [h1] at hneg
      exact absurd hneg (by decide)
  · have hriff : (get_riff { s.avi with stream_index_2 := -1 } s.pb).1 = 0 := by
      simp only [get_riff] at hneg ⊢
      split_ifs at hneg ⊢ <;> first | rfl | exact absurd (show (-1 : Int) < 0 by decide) hneg
    rcases hl : header_loop mem fuel (header_start s) with e | ⟨b, hs⟩
    · have hret : avi_read_header mem fuel s = .error e := by
        unfold avi_read_header
        rw [if_neg hneg, hl]
      refine ⟨⟨?_, ?_⟩, ?_⟩
      · rintro ⟨r, hr, -⟩
        rw [hret] at hr
        cases hr
      · rintro ⟨-, hs2, hl2, -⟩
        cases hl2
      · rintro (h1 | ⟨x, hx⟩)
        · exact absurd h1 hneg
        · cases hx
    · rcases b with _ | _
      · have hret : avi_read_header mem fuel s = .ok (-1, free_streams hs.s) := by
          unfold avi_read_header
          rw [if_neg hneg, hl]
        refine ⟨⟨?_, ?_⟩, fun _ => ⟨_, hret, Or.inr rfl⟩⟩
        · rintro ⟨r, hr, hz⟩
          rw [hret] at hr
          cases hr
          exact absurd hz hm1
        · rintro ⟨-, hs2, hl2, -⟩
          cases hl2
      · have hinv := header_loop_inv mem fuel _ hs hl hstart hlen0
        have hz := hnp true hs hl
        obtain ⟨i1, i2, -, -⟩ := hinv
        rw [hz] at i1
        by_cases hne : hs.stream_index ≠ hs.s.nb_streams - 1
        · have hret : avi_read_header mem fuel s = .ok (-1, free_streams hs.s) := by
            unfold avi_read_header
            rw [if_neg hneg, hl]
            simp only [if_pos hne]
          refine ⟨⟨?_, ?_⟩, fun _ => ⟨_, hret, Or.inr rfl⟩⟩
          · rintro ⟨r, hr, hz⟩
            rw [hret] at hr
            cases hr
            exact absurd hz hm1
          · rintro ⟨-, hs2, hl2, hcnt⟩
            cases hl2
            exact absurd (by omega) hne
        · obtain ⟨r, hr, hr0⟩ := hfin hs hl
          have hret : avi_read_header mem fuel s = .ok r := by
            unfold avi_read_header
            rw [if_neg hneg, hl]
            simp only [if_neg hne]
            exact hr
          refine ⟨⟨fun _ => ⟨hriff, hs, rfl, ?_⟩, fun _ => ⟨r, hret, hr0⟩⟩,
            fun _ => ⟨r, hret, Or.inl hr0⟩⟩
          have : hs.stream_index = hs.s.nb_streams - 1 := by
            by_contra hc; exact hne hc
          omega

theorem walk_file_idx :
    (header_loop mem_ok 536872000 (header_start (fresh file_idx))).map
      (fun x => (skipped_pads x.2.trace,
        decide (∀ slot ∈ x.2.s.streams, sample_nonneg slot))) = .ok (0, true) := by
  decide!

theorem walk_file_b :
    (header_loop mem_ok 536872000 (header_start (fresh file_b))).map
      (fun x => (skipped_pads x.2.trace,
        decide (∀ slot ∈ x.2.s.streams, sample_nonneg slot))) = .ok (0, true) := by
  decide!

theorem walk_facts (bytes : List Nat)
    (hv : (header_loop mem_ok 536872000 (header_start (fresh bytes))).map
      (fun x => (skipped_pads x.2.trace,
        decide (∀ slot ∈ x.2.s.streams, sample_nonneg slot))) = .ok (0, true)) :
    (∀ b hs, header_loop mem_ok 536872000 (header_start (fresh bytes)) = .ok (b, hs) →
      skipped_pads hs.trace = 0) ∧
    (∀ hs, header_loop mem_ok 536872000 (header_start (fresh bytes)) = .ok (true, hs) →
      ∀ slot ∈ hs.s.streams, sample_nonneg slot) := by
  constructor
  · intro b hs hl
    rw [hl] at hv
    have h2 := Except.ok.inj hv
    exact (Prod.mk.inj h2).1
  · intro hs hl
    rw [hl] at hv
    have h2 := Except.ok.inj hv
    exact of_decide_eq_true (Prod.mk.inj h2).2

theorem open_succeeds_iff_witness :
    ((avi_read_header mem_ok 536872000 (fresh file_idx)).map
        (fun r => (r.1, index_summary r.2)) =
        .ok (0, [some (0, []), some (2, [1024, 1024, 1024, 1024, 904])]) ∧
      (avi_read_header mem_ok 536872000 (fresh file_b)).map (fun r => r.1) = .ok (-1) ∧
      (header_loop mem_ok 536872000 (header_start (fresh file_b))).map
        (fun x => (x.1, x.2.trace)) =
        .ok (true, [.avih 3, .strh (MKTAG 118 105 100 115), .strf,
          .strh (MKTAG 97 117 100 115), .strf, .movi])) ∧
    (((∃ r, avi_read_header mem_ok 536872000 (fresh file_idx) = .ok r ∧ r.1 = 0) ↔
        (get_riff { (fresh file_idx).avi with stream_index_2 := -1 }
          (fresh file_idx).pb).1 = 0 ∧
        ∃ hs, header_loop mem_ok 536872000 (header_start (fresh file_idx)) = .ok (true, hs) ∧
          strh_count hs.trace = declared_count hs.trace) ∧
      (((get_riff { (fresh file_idx).avi with stream_index_2 := -1 }
            (fresh file_idx).pb).1 < 0 ∨
          ∃ x, header_loop mem_ok 536872000 (header_start (fresh file_idx)) = .ok x) →
        ∃ r, avi_read_header mem_ok 536872000 (fresh file_idx) = .ok r ∧
          (r.1 = 0 ∨ r.1 = -1))) ∧
    (((∃ r, avi_read_header mem_ok 536872000 (fresh file_b) = .ok r ∧ r.1 = 0) ↔
        (get_riff { (fresh file_b).avi with stream_index_2 := -1 } (fresh file_b).pb).1 = 0 ∧
        ∃ hs, header_loop mem_ok 536872000 (header_start (fresh file_b)) = .ok (true, hs) ∧
          strh_count hs.trace = declared_count hs.trace) ∧
      (((get_riff { (fresh file_b).avi with stream_index_2 := -1 } (fresh file_b).pb).1 < 0 ∨
          ∃ x, header_loop mem_ok 536872000 (header_start (fresh file_b)) = .ok x) →
        ∃ r, avi_read_header mem_ok 536872000 (fresh file_b) = .ok r ∧
          (r.1 = 0 ∨ r.1 = -1))) :=
  ⟨by decide!,
    open_succeeds_iff mem_ok 536872000 (fresh file_idx) (by decide) (by decide!) rfl
      (walk_facts file_idx walk_file_idx).1 (walk_facts file_idx walk_file_idx).2,
    open_succeeds_iff mem_ok 536872000 (fresh file_b) (by decide) (by decide!) rfl
      (walk_facts file_b walk_file_b).1 (walk_facts file_b walk_file_b).2⟩

end AviDec
